import Mathlib

/-!
# ftp-engine delivery pipeline

A shallow embedding of the delivery worker (`worker/kafka/kafka.go`), of the
artifact type (`process/process.go`) and of the ravenpack transform
(`process/ravenpack/ravenpack.go`), with the properties of the delivery loop
stated over the trace of side effects of one loop iteration.

External collaborators (the bus reader and writer, the sink, the JSON and XML
encoders, the clock, the hash function) are fields of an environment record;
every stateful one is a transition on an abstract world state.
-/

set_option linter.dupNamespace false
set_option maxRecDepth 8192

namespace FtpEngine

deriving instance DecidableEq for Except

/-- A byte slice. -/
abbrev Bytes := List UInt8

/-! ## Strings -/

/-- The function `strings.ToLower` on ASCII letters; other runes are kept. -/
def ToLower (s : String) : String := String.mk (s.data.map Char.toLower)

/-- Every rune of the string is below `utf8.RuneSelf`. On such strings `ToLower`,
`ToUpper` and `EqualFold` of this development are `strings.ToLower`,
`strings.ToUpper` and `strings.EqualFold`, which map and fold the runes outside
ASCII as well. -/
def isASCII (s : String) : Bool := s.data.all fun c => decide (c.toNat < 128)

/-- The bytes of a Go string (UTF-8). -/
def stringBytes (s : String) : Bytes := s.data.flatMap String.utf8EncodeChar

/-! ## Time -/

/-- A `time.Time` instant without monotonic reading: seconds since the Unix
epoch, nanoseconds within the second, and the offset of the time's location at
this instant, in seconds east of UTC. -/
structure Time where
  sec : Int := 0
  nsec : Nat := 0
  offset : Int := 0
deriving DecidableEq, Repr

/-- The method `Time.Before`: `t` is strictly earlier than `u`. -/
def Time.Before (t u : Time) : Bool :=
  decide (t.sec < u.sec) || (decide (t.sec = u.sec) && decide (t.nsec < u.nsec))

/-- The method `Time.Unix`. -/
def Time.Unix (t : Time) : Int := t.sec

/-- The constant `unixToInternal`: the seconds from January 1 of year 1 to the
Unix epoch. -/
def unixToInternal : Int := (1969 * 365 + 1969 / 4 - 1969 / 100 + 1969 / 400) * 86400

/-- The constant `internalToAbsolute`: the seconds from the absolute zero year
-292277022399 to January 1 of year 1. -/
def internalToAbsolute : Int := 9223371966579724800

/-- The constant `absoluteZeroYear`. -/
def absoluteZeroYear : Int := -292277022399

/-- The zero value `time.Time{}`: January 1 of year 1, 00:00:00 UTC. -/
def zeroTime : Time := { sec := -unixToInternal, nsec := 0, offset := 0 }

/-- The method `Time.IsZero`: the instant is January 1 of year 1, 00:00:00 UTC. -/
def Time.IsZero (t : Time) : Bool := decide (t.sec + unixToInternal = 0) && decide (t.nsec = 0)

/-- The method `Time.abs`: the seconds since the absolute zero year in the time's
location, as a `uint64`. -/
def Time.abs (t : Time) : Nat :=
  ((t.sec + t.offset + (unixToInternal + internalToAbsolute)) % 2 ^ 64).toNat

/-- The year of `absDate`: the days since the absolute zero year are cut into
cycles of 400, 100, 4 and 1 years. -/
def absYear (abs : Nat) : Int :=
  let d := abs / 86400
  let n400 := d / 146097
  let d1 := d - 146097 * n400
  let n100 := d1 / 36524 - (d1 / 36524) / 4
  let d2 := d1 - 36524 * n100
  let n4 := d2 / 1461
  let d3 := d2 - 1461 * n4
  let n1 := d3 / 365 - (d3 / 365) / 4
  ((400 * n400 + 100 * n100 + 4 * n4 + n1 : Nat) : Int) + absoluteZeroYear

/-- The method `Time.Year`. -/
def Time.Year (t : Time) : Int := absYear t.abs

/-- The method `Time.UTC`: the same instant in the location UTC. -/
def Time.UTC (t : Time) : Time := { t with offset := 0 }

/-- The layout `time.RFC3339Nano`. -/
def RFC3339Nano : String := "2006-01-02T15:04:05.999999999Z07:00"

/-- The method `Time.MarshalJSON` of `models.Time`, given `time.Time.Format`: `null`
as a layout for the zero time, an error for a year outside of 0 to 9999, and the
time in the quoted layout `RFC3339Nano` otherwise. -/
def Time.MarshalJSON (format : Time → String → String) (t : Time) : Except String Bytes :=
  if t.IsZero then .ok (stringBytes (format t "null"))
  else if t.Year < 0 ∨ t.Year ≥ 10000 then
    .error "Time.MarshalJSON: year outside of range [0,9999]"
  else .ok (stringBytes (format t ("\"" ++ RFC3339Nano ++ "\"")))

/-- The method `Time.UnmarshalJSON` of `models.Time`, given `time.Parse`: the zero
time for `null` and for the empty string, and the parsed time otherwise. The result
is the time stored and the error returned. -/
def Time.UnmarshalJSON (parse : String → Bytes → Time × Option String) (data : Bytes) :
    Time × Option String :=
  if data = stringBytes "null" ∨ data = stringBytes "\"\"" then (zeroTime, none)
  else parse ("\"" ++ RFC3339Nano ++ "\"") data

/-! ## Content model (`content-models/models`) -/

/-- The type `models.EventType`, a string. -/
abbrev EventType := String

def Created : EventType := "Created"
def Updated : EventType := "Updated"
def Removed : EventType := "Removed"

/-- The type `models.Category`. -/
structure Category where
  ID : Int := 0
  Vocab : Int := 0
  Name : String := ""
  Description : String := ""
  Primary : Bool := false
  Price : String := ""
  Volume : Int := 0
  Sectors : List (String × Int) := []
deriving DecidableEq, Repr

/-- The vocabularies `models.VocabChannel`, `VocabTicker` and `VocabFutures`. -/
def VocabChannel : Int := 1
def VocabTicker : Int := 2
def VocabFutures : Int := 11

/-- A value held in an `interface{}`. No function here looks into it; a composite
value is kept as its JSON text. -/
inductive Intf where
  | null
  | bool (b : Bool)
  | int (n : Int)
  | str (s : String)
  | composite (json : String)
deriving DecidableEq, Repr

/-- The type `models.SICSector`. -/
structure SICSector where
  IndustryCode : Int := 0
  Industry : String := ""
  IndustryGroup : Int := 0
  MajorGroup : Int := 0
  Division : String := ""
deriving DecidableEq, Repr

/-- The type `models.NAICSSector`. -/
structure NAICSSector where
  NationalIndustryCode : Int := 0
  NationalIndustry : String := ""
  IndustryCode : Int := 0
  Industry : String := ""
  IndustryGroupCode : Int := 0
  IndustryGroup : String := ""
  SubSectorCode : Int := 0
  SubSector : String := ""
  SectorCode : Int := 0
  Sector : String := ""
deriving DecidableEq, Repr

/-- The type `models.MorningstarSector`. -/
structure MorningstarSector where
  IndustryCode : Int := 0
  Industry : String := ""
  IndustryGroupCode : Int := 0
  IndustryGroup : String := ""
  SectorCode : Int := 0
  Sector : String := ""
  SuperSectorCode : Int := 0
  SuperSector : String := ""
deriving DecidableEq, Repr

/-- The type `models.SectorMeta`. -/
structure SectorMeta where
  SIC : List SICSector := []
  NAICS : List NAICSSector := []
  Morningstar : List MorningstarSector := []
deriving DecidableEq, Repr

/-- The type `models.PartnerMeta`. -/
structure PartnerMeta where
  ID : String := ""
  RevisionID : String := ""
  Updated : Time := zeroTime
  Published : Time := zeroTime
  Resource : String := ""
  Copyright : String := ""
  Contact : String := ""
  Taxonomies : List String := []
deriving DecidableEq, Repr

/-- The type `models.PartnerTaxonomy`. -/
structure PartnerTaxonomy where
  Symbol : String := ""
  Name : String := ""
  Exchange : String := ""
  ISIN : String := ""
  CIK : String := ""
  CUSIP : String := ""
  Order : String := ""
deriving DecidableEq, Repr

/-- The type `models.PartnerTaxonomyMeta`. -/
structure PartnerTaxonomyMeta where
  Taxonomies : List PartnerTaxonomy := []
deriving DecidableEq, Repr

/-- The type `models.SECMeta`. -/
structure SECMeta where
  AccessionNumber : String := ""
deriving DecidableEq, Repr

/-- The type `models.Meta`: four known fields, each a pointer that may be nil, and
the map `Ext` of every other key, as an association list. -/
structure Meta where
  SectorV2 : Option SectorMeta := none
  Partner : Option PartnerMeta := none
  PartnerTaxonomy : Option PartnerTaxonomyMeta := none
  SEC : Option SECMeta := none
  Ext : List (String × Intf) := []
deriving DecidableEq, Repr

/-- The type `models.AssetType`, a string. -/
abbrev AssetType := String

def ImageAsset : AssetType := "image"
def VideoAsset : AssetType := "video"

/-- The anonymous type of `ImageAttributes.Resolution`. -/
structure Resolution where
  Height : Int := 0
  Width : Int := 0
  DPI : Int := 0
deriving DecidableEq, Repr

/-- The type `models.ImageAttributes`. -/
structure ImageAttributes where
  Resolution : Resolution := {}
  AltTitle : String := ""
deriving DecidableEq, Repr

/-- The type `models.AssetAttributes`. -/
structure AssetAttributes where
  FID : String := ""
  Filename : String := ""
  Filepath : String := ""
  Filesize : Int := 0
  ImageAttributes : Option ImageAttributes := none
deriving DecidableEq, Repr

/-- The type `models.Asset`. -/
structure Asset where
  Type_ : AssetType := ""
  Title : String := ""
  MIME : String := ""
  Primary : Bool := false
  Copyright : String := ""
  URL : String := ""
  Attributes : Option AssetAttributes := none
deriving DecidableEq, Repr

/-- The type `models.Quote`. -/
structure Quote where
  Price : String := ""
  Volume : Int := 0
deriving DecidableEq, Repr

/-- The type `models.Content`, the processed node structure. -/
structure Content where
  ID : String := ""
  EventID : String := ""
  NodeID : Int := 0
  UserID : Int := 0
  VersionID : Int := 0
  Type_ : String := ""
  Published : Bool := false
  CreatedAt : Time := {}
  UpdatedAt : Time := {}
  Title : String := ""
  Body : String := ""
  Author : String := ""
  Assets : List Asset := []
  PartnerURL : String := ""
  TeaserText : String := ""
  Tags : List Category := []
  Tickers : List Category := []
  Futures : List Category := []
  Channels : List Category := []
  Quotes : List (String × Quote) := []
  IsBzPost : Bool := false
  IsBzProPost : Bool := false
  DoNotDistribute : Bool := false
  Sentiment : Int := 0
  Meta : Meta := {}
deriving DecidableEq, Repr

/-- The type `models.Event`, a realtime content event. -/
structure Event where
  ID : Int := 0
  NodeID : Int := 0
  Time : Time := {}
  Content : Content := {}
  Event : EventType := ""
deriving DecidableEq, Repr

/-! ## Envelope (`bzkaf`) -/

/-- The type `bzkaf.MessageType`, a string. -/
abbrev MessageType := String

def ContentModelsEventMsgType : MessageType := "content_models_event"
def FTPDelivery : MessageType := "ftp_delivery"

/-- The type `bzkaf.Envelope`. -/
structure Envelope where
  Trace : List (String × String) := []
  ID : String := ""
  MessageType : MessageType := ""
  Message : Bytes := []
deriving DecidableEq, Repr

/-- The constructor `bzkaf.NewEnvelope`, given the identifier drawn from `xid.New`. -/
def NewEnvelope (id : String) (msgType : MessageType) (msg : Bytes) : Envelope :=
  { ID := id, MessageType := msgType, Message := msg, Trace := [] }

/-! ## Artifact (`process`) -/

/-- A `bytes.Buffer`: the written bytes and the read offset. -/
structure Buffer where
  buf : Bytes := []
  off : Nat := 0
deriving DecidableEq, Repr

/-- The method `Buffer.Bytes`: the unread portion. -/
def Buffer.Bytes (b : Buffer) : FtpEngine.Bytes := b.buf.drop b.off

/-- The method `Buffer.Len`: the number of unread bytes. -/
def Buffer.Len (b : Buffer) : Nat := b.buf.length - b.off

/-- The constructor `bytes.NewBufferString`. -/
def NewBufferString (s : String) : Buffer := { buf := stringBytes s, off := 0 }

/-- The method `Buffer.Write`: append to the buffer. -/
def Buffer.Write (b : Buffer) (p : FtpEngine.Bytes) : Buffer := { b with buf := b.buf ++ p }

/-- The type `process.Output`. -/
structure Output where
  Filename : String := ""
  Checksum : String := ""
  Data : Buffer := {}
  Size : Nat := 0
deriving DecidableEq, Repr

/-- The type `process.ContentType`, a string. -/
abbrev ContentType := String

def Story : ContentType := "story"
def PressRelease : ContentType := "press-release"

/-- The map `process.ContentTypeMappings`, as an association list. -/
def ContentTypeMappings : List (String × ContentType) :=
  [ ("abnewswire", PressRelease),
    ("accesswire_pr", PressRelease),
    ("acnnewswire_story", PressRelease),
    ("businesswire_story", PressRelease),
    ("bz_pr_thomson_reuters", PressRelease),
    ("comtex_story", PressRelease),
    ("globenewswire_story", PressRelease),
    ("marketwire_story", PressRelease),
    ("newswire_pressreleases", PressRelease),
    ("newswire_story", PressRelease),
    ("pr_story", PressRelease),
    ("prweb_story", PressRelease),
    ("story", Story),
    ("webwire_story", PressRelease),
    ("wired_release", PressRelease) ]

/-! ## Configuration (`config`) -/

/-- The type `config.ProcessorConfig`. -/
structure ProcessorConfig where
  Type_ : String := ""
  AcceptedEvents : List EventType := []
  IgnoreUpdatedBefore : Option Time := none
deriving DecidableEq, Repr

/-- The type `config.FTPConfig`. -/
structure FTPConfig where
  Host : String := ""
  Username : String := ""
  Password : String := ""
  Path : String := ""
  ConnTimeout : Int := 0
  KeepAliveInterval : Int := 0
  SendRetires : Int := 0
deriving DecidableEq, Repr

/-- The type `config.KafkaConfig`. -/
structure KafkaConfig where
  Brokers : List String := []
  Topic : String := ""
  GroupID : String := ""
  Username : String := ""
  Password : String := ""
  TLSKeyPath : String := ""
  TLSCertPath : String := ""
  TLSCAPath : String := ""
deriving DecidableEq, Repr

/-- The fields of `config.Config` read by the worker. -/
structure Config where
  Processor : ProcessorConfig := {}
  Kafka : KafkaConfig := {}
  FTP : FTPConfig := {}
deriving DecidableEq, Repr

/-- Split on a separator, as `strings.Split` with a one-character separator. -/
def splitOnChar (sep : Char) : List Char → List (List Char)
  | [] => [[]]
  | c :: cs =>
    if c = sep then [] :: splitOnChar sep cs
    else
      match splitOnChar sep cs with
      | [] => [[c]]
      | w :: ws => (c :: w) :: ws

/-- The function `strings.Split(s, sep)` for a one-character separator. -/
def Split (s : String) (sep : Char) : List String :=
  (splitOnChar sep s.data).map String.mk

/-- The loop of `LoadConfig` that determines the accepted events from the value of
`PROCESSOR_EVENTS`. -/
def loadAcceptedEvents : List String → List EventType → Except String (List EventType)
  | [], processorEvents => .ok processorEvents
  | v :: rest, processorEvents =>
    if ToLower v = ToLower Created then loadAcceptedEvents rest (processorEvents ++ [Created])
    else if ToLower v = ToLower Updated then loadAcceptedEvents rest (processorEvents ++ [Updated])
    else if ToLower v = ToLower Removed then loadAcceptedEvents rest (processorEvents ++ [Removed])
    else .error ("invalid processor event type " ++ String.singleton (Char.ofNat 39) ++ v ++
      String.singleton (Char.ofNat 39))

/-- The accepted events `LoadConfig` stores for a value of `PROCESSOR_EVENTS`. -/
def LoadConfigAcceptedEvents (processorEventsEnv : String) : Except String (List EventType) :=
  loadAcceptedEvents (Split processorEventsEnv ',') []

/-! ## Delivery worker (`worker`, `worker/kafka`) -/

/-- The type `kafka.Message`: the bus message handle. -/
structure Message where
  Topic : String := ""
  Partition : Int := 0
  Offset : Int := 0
  Value : Bytes := []
deriving DecidableEq, Repr

/-- The type `worker.FTPDeliveryRecord`. -/
structure FTPDeliveryRecord where
  NodeID : Int := 0
  EventID : Int := 0
  EventType : EventType := ""
  ConsumerGroupID : String := ""
  FTPHost : String := ""
  FTPUsername : String := ""
  FTPPath : String := ""
  Filename : String := ""
  SHA256Checksum : String := ""
  Timestamp : Time := {}
  SizeBytes : Nat := 0
deriving DecidableEq, Repr

/-- The collectors of `instr.Collector`. -/
inductive Metric where
  | ContentAcknowledged
  | ContentReceiveErrors
  | ContentRejected
  | ContentAccepted
  | ContentProcessingLatency
  | ContentSent
  | ContentSendErrors
deriving DecidableEq, Repr

/-- A side effect of the worker, with the result the collaborator returned. -/
inductive Effect where
  | inc (m : Metric) (labels : List (String × String))
  | observe (m : Metric) (labels : List (String × String)) (start stop : Time)
  | convert (e : Event) (r : Except String Output)
  | send (o : Output) (err : Option String)
  | audit (record : FTPDeliveryRecord)
  | write (value : Bytes) (err : Option String)
  | commit (msg : Message) (err : Option String)
  | fatal (text : String)
  | disconnect (err : Option String)
deriving DecidableEq

/-- The collaborators of the worker. The bus reader (`FetchMessage`,
`CommitMessages`, `Disconnect`), the bus writer (`WriteMessages`), the processor
(`Convert`), the sender (`Send`) and the identifier source of `xid.New` act on the
world state; the clock reads it; the JSON codecs are functions. The processor and
the sender leave the event and the filename, checksum and size of the artifact
as they are. -/
structure Deps (σ : Type) where
  FetchMessage : σ → Except String Message × σ
  CommitMessages : Message → σ → Option String × σ
  WriteMessages : Bytes → σ → Option String × σ
  Convert : Event → σ → Except String Output × σ
  Send : Output → σ → Option String × σ
  NewID : σ → String × σ
  Now : σ → Time
  UnmarshalEnvelope : Bytes → Except String Envelope
  UnmarshalEvent : Bytes → Except String Event
  MarshalRecord : FTPDeliveryRecord → Except String Bytes
  MarshalEnvelope : Envelope → Except String Bytes
  Done : σ → Bool
  Disconnect : σ → Option String × σ

/-- The error `io.EOF`. -/
def EOF : String := "EOF"

/-- The labels every collector of the worker is given. -/
def kafkaLabels (cfg : Config) : List (String × String) :=
  [("kafka_group_id", cfg.Kafka.GroupID), ("kafka_topic", cfg.Kafka.Topic)]

/-- The labels of a `ContentRejected` increment. -/
def rejectedLabels (cfg : Config) (reason : String) : List (String × String) :=
  kafkaLabels cfg ++ [("reason", reason)]

section Worker

variable {σ : Type}

/-- The method `Worker.commitMessages`: commit the handle (a commit error is only
logged) and count it acknowledged. -/
def commitMessages (d : Deps σ) (cfg : Config) (msg : Message) (s : σ) : List Effect × σ :=
  let r := d.CommitMessages msg s
  ([.commit msg r.1, .inc .ContentAcknowledged (kafkaLabels cfg)], r.2)

/-- The method `Worker.recordFTPDelivery`: build the delivery record, marshal it,
wrap it in a new envelope, marshal that and write it to the audit topic. -/
def recordFTPDelivery (d : Deps σ) (cfg : Config) (o : Output) (event : Event) (s : σ) :
    Option String × List Effect × σ :=
  let record : FTPDeliveryRecord :=
    { NodeID := event.NodeID
      EventID := event.ID
      EventType := event.Event
      ConsumerGroupID := cfg.Kafka.GroupID
      FTPHost := cfg.FTP.Host
      FTPPath := cfg.FTP.Path
      Filename := o.Filename
      SHA256Checksum := o.Checksum
      Timestamp := (d.Now s).UTC
      SizeBytes := o.Size }
  match d.MarshalRecord record with
  | .error err => (some err, [.audit record], s)
  | .ok recordJSON =>
    let i := d.NewID s
    let envelope := NewEnvelope i.1 FTPDelivery recordJSON
    match d.MarshalEnvelope envelope with
    | .error err => (some err, [.audit record], i.2)
    | .ok envelopeJSON =>
      let w := d.WriteMessages envelopeJSON i.2
      match w.1 with
      | some err => (some err, [.audit record, .write envelopeJSON (some err)], w.2)
      | none => (none, [.audit record, .write envelopeJSON none], w.2)

/-- The method `Worker.processAndSend`: convert, send, then record the delivery; an
error of the record is only logged. -/
def processAndSend (d : Deps σ) (cfg : Config) (event : Event) (s : σ) :
    Option String × List Effect × σ :=
  let c := d.Convert event s
  match c.1 with
  | .error err => (some err, [.convert event (.error err)], c.2)
  | .ok output =>
    let r := d.Send output c.2
    match r.1 with
    | some err => (some err, [.convert event (.ok output), .send output (some err)], r.2)
    | none =>
      let a := recordFTPDelivery d cfg output event r.2
      (none, [.convert event (.ok output), .send output none] ++ a.2.1, a.2.2)

/-- The loop of `Work` over `cfg.Processor.AcceptedEvents`, from the index the list
starts at, with the current value of `match`. The result is `none` when the loop
left through `continue work` after a `processAndSend` error, and the final value
of `match` otherwise. -/
def acceptedEventsLoop (d : Deps σ) (cfg : Config) (event : Event) :
    List EventType → Bool → σ → Option Bool × List Effect × σ
  | [], m, s => (some m, [], s)
  | a :: rest, m, s =>
    if event.Event = a then
      let p := processAndSend d cfg event s
      match p.1 with
      | some _ => (none, p.2.1 ++ [.inc .ContentSendErrors (kafkaLabels cfg)], p.2.2)
      | none =>
        let l := acceptedEventsLoop d cfg event rest true p.2.2
        (l.1, p.2.1 ++ l.2.1, l.2.2)
    else acceptedEventsLoop d cfg event rest m s

/-- The condition of the ignore filter of `Work`:
`IgnoreUpdatedBefore != nil && IgnoreUpdatedBefore.Before(event.Content.UpdatedAt.Time)`. -/
def ignoreFilter (cfg : Config) (event : Event) : Bool :=
  match cfg.Processor.IgnoreUpdatedBefore with
  | none => false
  | some ignoreBefore => ignoreBefore.Before event.Content.UpdatedAt

/-- The part of the body of `Work` that follows the decoding of the event: the
filters, the accepted-events loop and the commit. -/
def processEvent (d : Deps σ) (cfg : Config) (workStart : Time) (msg : Message)
    (event : Event) (s : σ) : List Effect × σ :=
  if ignoreFilter cfg event then
    let c := commitMessages d cfg msg s
    (.inc .ContentRejected (rejectedLabels cfg "updated_before_ignore_value") :: c.1, c.2)
  else
    match ContentTypeMappings.lookup (ToLower event.Content.Type_) with
    | none =>
      let c := commitMessages d cfg msg s
      (.inc .ContentRejected (rejectedLabels cfg "unwanted_content_type") :: c.1, c.2)
    | some _ =>
      let l := acceptedEventsLoop d cfg event cfg.Processor.AcceptedEvents false s
      match l.1 with
      | none => (l.2.1, l.2.2)
      | some m =>
        let counted : Effect :=
          if m then .inc .ContentSent (kafkaLabels cfg)
          else .inc .ContentRejected (rejectedLabels cfg "unwanted_event_type")
        let c := commitMessages d cfg msg l.2.2
        (l.2.1 ++ [counted] ++ c.1 ++
          [.observe .ContentProcessingLatency (kafkaLabels cfg) workStart (d.Now c.2)], c.2)

/-- The part of the body of `Work` that follows a successful fetch: count the
message accepted, decode the envelope, check its type, decode the event and
process it. -/
def processMessage (d : Deps σ) (cfg : Config) (msg : Message) (s : σ) : List Effect × σ :=
  let workStart := d.Now s
  let accepted : Effect := .inc .ContentAccepted (kafkaLabels cfg)
  match d.UnmarshalEnvelope msg.Value with
  | .error _ => ([accepted, .inc .ContentReceiveErrors (kafkaLabels cfg)], s)
  | .ok envelope =>
    if envelope.MessageType ≠ ContentModelsEventMsgType then
      let c := commitMessages d cfg msg s
      (accepted :: .inc .ContentRejected (rejectedLabels cfg "invalid_evenlope_message_type")
        :: c.1, c.2)
    else
      match d.UnmarshalEvent envelope.Message with
      | .error _ => ([accepted, .inc .ContentReceiveErrors (kafkaLabels cfg)], s)
      | .ok event =>
        let r := processEvent d cfg workStart msg event s
        (accepted :: r.1, r.2)

/-- How one pass through the loop of `Work` ends. -/
inductive Step where
  | next
  | fatal
  | done
deriving DecidableEq, Repr

/-- One pass through the loop of `Work`: leave when the context is done, otherwise
fetch a message and process it. End of file from the reader is fatal; any other
fetch error is counted. -/
def iteration (d : Deps σ) (cfg : Config) (s : σ) : Step × List Effect × σ :=
  if d.Done s then
    let r := d.Disconnect s
    (.done, [.disconnect r.1], r.2)
  else
    let f := d.FetchMessage s
    match f.1 with
    | .error err =>
      if err = EOF then (.fatal, [.fatal "Kafka Reader Closed"], f.2)
      else (.next, [.inc .ContentReceiveErrors (kafkaLabels cfg)], f.2)
    | .ok msg =>
      let r := processMessage d cfg msg f.2
      (.next, r.1, r.2)

/-- The method `Worker.Work`, for at most `fuel` passes through its loop: the
traces of the passes, in order, and the final world. -/
def Work (d : Deps σ) (cfg : Config) : Nat → σ → List (List Effect) × σ
  | 0, s => ([], s)
  | fuel + 1, s =>
    let r := iteration d cfg s
    match r.1 with
    | .next =>
      let w := Work d cfg fuel r.2.2
      (r.2.1 :: w.1, w.2)
    | _ => ([r.2.1], r.2.2)

end Worker

/-! ## Artifact checksum (`process`) -/

/-- The table of `encoding/hex`. -/
def hextable : List Char := "0123456789abcdef".data

/-- The function `hex.EncodeToString`: two digits of `hextable` for every byte, the
high four bits first. -/
def EncodeToString (src : Bytes) : String :=
  String.mk (src.flatMap fun v =>
    [hextable.getD (v.toNat / 16) '0', hextable.getD (v.toNat % 16) '0'])

/-- The method `Output.CalculateChecksumSize`, for the hash function `sum256` that
`sha256.New`, `Write` and `Sum(nil)` compute together; writing to the hash never
fails. -/
def Output.CalculateChecksumSize (sum256 : Bytes → Bytes) (o : Output) : Output :=
  { o with Checksum := EncodeToString (sum256 o.Data.Bytes), Size := o.Data.Len }

/-! ## Body rewrite (`process`) -/

/-- The class `\S` of the regular expression: every rune but tab, newline, form
feed, carriage return and space. -/
def isNonSpace (c : Char) : Bool :=
  !(c = '\t' || c = '\n' || c = Char.ofNat 12 || c = '\r' || c = ' ')

/-- The literal that opens a match of `bodyTickerPath`: a double quote and `/stock/`. -/
def stockOpening : List Char := '"' :: "/stock/".data

/-- Remove a literal from the front of the input. -/
def dropLiteral : List Char → List Char → Option (List Char)
  | [], cs => some cs
  | _ :: _, [] => none
  | p :: ps, c :: cs => if p = c then dropLiteral ps cs else none

/-- The greedy `\S*` followed by the closing double quote: the runes `\S*` takes and
the input after the quote. The longest run is tried first. -/
def matchTail : List Char → Option (List Char × List Char)
  | [] => none
  | c :: cs =>
    if isNonSpace c then
      match matchTail cs with
      | some (g, rest) => some (c :: g, rest)
      | none => if c = '"' then some ([], cs) else none
    else none

/-- A match of `bodyTickerPath` at the front of the input: the first submatch and
the input after the match. -/
def matchAt (cs : List Char) : Option (List Char × List Char) :=
  match dropLiteral stockOpening cs with
  | none => none
  | some rest =>
    match matchTail rest with
    | none => none
    | some (g, after) => some ("/stock/".data ++ g, after)

/-- The replacement of all leftmost non-overlapping matches, scanning the input
from the left; the fuel bounds the number of runes scanned. -/
def rewriteRunes (url : List Char) : Nat → List Char → List Char
  | 0, cs => cs
  | _ + 1, [] => []
  | fuel + 1, c :: cs =>
    match matchAt (c :: cs) with
    | some (g, after) => '"' :: (url ++ g ++ '"' :: rewriteRunes url fuel after)
    | none => c :: rewriteRunes url fuel cs

/-- The function `process.RewriteBodyTickerPaths`, for a URL without `$`: every
match of `"(/stock/\S*)"` is replaced by the quoted URL followed by the first
submatch. -/
def RewriteBodyTickerPaths (url body : String) : String :=
  String.mk (rewriteRunes url.data body.data.length body.data)

/-! ## Ravenpack transform (`process/ravenpack`) -/

/-- The fields of `reference.Instrument` the transform and the reference cache read. -/
structure Instrument where
  ISIN : String := ""
  Exchange : String := ""
  Symbol : String := ""
  CurrencyID : String := ""
deriving DecidableEq, Repr

/-- The type `ravenpack.ItemCategory`. -/
structure ItemCategory where
  Text : String := ""
  Domain : String := ""
deriving DecidableEq, Repr

/-- The type `ravenpack.ItemType`. -/
structure ItemType where
  Text : String := ""
  Bz : String := ""
  Pro : String := ""
  FirstRun : String := ""
deriving DecidableEq, Repr

/-- The type `ravenpack.ItemTicker`. -/
structure ItemTicker where
  Text : String := ""
  Primary : String := ""
  ISIN : String := ""
  Exchange : String := ""
  Sentiment : String := ""
deriving DecidableEq, Repr

/-- The type `ravenpack.ItemGUID`. -/
structure ItemGUID where
  Text : String := ""
  IsPermaLink : String := ""
deriving DecidableEq, Repr

/-- The type `ravenpack.Item`. -/
structure Item where
  Text : String := ""
  Title : String := ""
  Link : String := ""
  Description : String := ""
  PubDate : String := ""
  Creator : String := ""
  GUID : ItemGUID := {}
  Categories : List ItemCategory := []
  ID : String := ""
  RevisionID : String := ""
  RevisionDate : String := ""
  Type_ : ItemType := {}
  Tickers : List ItemTicker := []
deriving DecidableEq, Repr

/-- The type `ravenpack.Channel`. -/
structure Channel where
  Text : String := ""
  Title : String := ""
  Link : String := ""
  Description : String := ""
  Language : String := ""
  Item : Item := {}
deriving DecidableEq, Repr

/-- The type `ravenpack.XML`. -/
structure XML where
  Text : String := ""
  Version : String := ""
  Base : String := ""
  Dc : String := ""
  Bz : String := ""
  Channel : Channel := {}
deriving DecidableEq, Repr

def timeFormat : String := "Mon, 02 Jan 06 15:04:05 -700"
def xmlHeader : String := "<?xml version=\"1.0\" encoding=\"utf-8\" ?>"

/-- The collaborators of the ravenpack processor: the two lookups of the reference
cache client (the row, or none on a miss or an error), `time.Time.Format`,
`xml.MarshalIndent` with an empty line start and an indent of one space, and the
SHA-256 hash function. -/
structure ConvertDeps where
  GetSymbolExchange : String → String → Option Instrument
  GetSymbolCurrency : String → String → Option Instrument
  Format : Time → String → String
  MarshalIndent : XML → Except String Bytes
  Sum256 : Bytes → Bytes

/-- The function `strconv.Itoa`. -/
def Itoa (n : Int) : String := toString n

/-- The function `strings.EqualFold` on ASCII letters. -/
def EqualFold (s t : String) : Bool := decide (ToLower s = ToLower t)

/-- The method `Processor.getTickers`. -/
def getTickers (p : ConvertDeps) (e : Event) : List ItemTicker :=
  e.Content.Tickers.map fun ticker =>
    let symbolSplit := Split ticker.Name ':'
    let tickerData : Option Instrument :=
      if symbolSplit.length > 1 then
        p.GetSymbolExchange (symbolSplit.getD 1 "") (symbolSplit.getD 0 "")
      else
        p.GetSymbolCurrency (symbolSplit.getD 0 "") "USD"
    { Text := ticker.Name
      Sentiment := "0"
      ISIN := match tickerData with
        | some row => row.ISIN
        | none => ""
      Exchange := match tickerData with
        | some row => row.Exchange
        | none => ""
      Primary := if ticker.Primary then "1" else "0" }

/-- The function `getCategories`: one category per channel, then two per ticker. -/
def getCategories (e : Event) : List ItemCategory :=
  e.Content.Channels.map (fun channel =>
    { Domain := "https://www.benzinga.com/taxonomy/term/" ++ Itoa channel.ID
      Text := channel.Name }) ++
  e.Content.Tickers.flatMap (fun ticker =>
    [ { Domain := "stock-symbol", Text := ticker.Name },
      { Domain := "https://www.benzinga.com/stock/" ++ ToLower ticker.Name
        Text := ticker.Name } ])

/-- The function `newFilename`; writing to the string builder never fails. -/
def newFilename (e : Event) : Except String String :=
  .ok ("benzinga_" ++ Itoa e.Content.NodeID ++ ("_" ++ Itoa e.Content.UpdatedAt.Unix) ++ "_rss2.xml")

/-- The document `Convert` passes to `xml.MarshalIndent`. -/
def buildXML (p : ConvertDeps) (e : Event) : XML :=
  let nodeID := Itoa e.Content.NodeID
  let timestamp := p.Format e.Content.CreatedAt timeFormat
  let author := if e.Content.Author = "" then "Benzinga" else e.Content.Author
  let contentType : ContentType :=
    match ContentTypeMappings.lookup e.Content.Type_ with
    | some t => t
    | none => ""
  let base :=
    if contentType = PressRelease then
      "https://www.benzinga.com/export/feed/ravenpack_pr1/" ++ nodeID ++ ".xml"
    else if contentType = Story then
      "https://www.benzinga.com/export/feed/ravenpack_realtime1/" ++ nodeID ++ ".xml"
    else ""
  let categories : List ItemCategory :=
    if contentType = PressRelease then
      [{ Domain := "https://www.benzinga.com/press-releases", Text := "Press Releases" }]
    else getCategories e
  { Version := "2.0"
    Base := base
    Dc := "http://purl.org/dc/elements/1.1/"
    Bz := "http://www.benzinga.com/feed-ns-bz/1.0/"
    Channel :=
      { Title := "Benzinga"
        Language := "en"
        Item :=
          { Title := e.Content.Title
            Link := "https://www.benzinga.com/node/" ++ nodeID
            Description := RewriteBodyTickerPaths "https://benzinga.com" e.Content.Body
            PubDate := timestamp
            Creator := author
            GUID := { IsPermaLink := "false", Text := nodeID ++ " at " ++ "http://benzinga.com" }
            ID := nodeID
            RevisionID := Itoa e.Content.VersionID
            RevisionDate := timestamp
            Type_ :=
              { Text := contentType
                FirstRun :=
                  if EqualFold e.Content.Type_ "story" && decide (e.Content.PartnerURL = "")
                  then "1" else "0"
                Bz := if e.Content.IsBzPost then "1" else "0"
                Pro := if e.Content.IsBzProPost then "1" else "0" }
            Tickers := getTickers p e
            Categories := categories ++ [{ Domain := "publisher", Text := "Benzinga" }] } } }

/-- The method `Processor.Convert` of the ravenpack processor. -/
def Convert (p : ConvertDeps) (e : Event) : Except String Output :=
  match p.MarshalIndent (buildXML p e) with
  | .error err => .error err
  | .ok rXMLBytes =>
    match newFilename e with
    | .error err => .error err
    | .ok filename =>
      let data := (NewBufferString (xmlHeader ++ "\n")).Write rXMLBytes
      .ok (Output.CalculateChecksumSize p.Sum256 { Filename := filename, Data := data })

/-! ## Classes of effects -/

/-- A commit of a message handle. -/
def Effect.isCommit : Effect → Bool
  | .commit _ _ => true
  | _ => false

/-- A transform or a sink send that returned an error. -/
def Effect.isFailure : Effect → Bool
  | .convert _ (.error _) => true
  | .send _ (some _) => true
  | _ => false

/-- A step of the delivery of an artifact: transform, sink send, audit record, bus write. -/
def Effect.isDelivery : Effect → Bool
  | .convert _ _ => true
  | .send _ _ => true
  | .audit _ => true
  | .write _ _ => true
  | _ => false

/-- A write to the audit topic. -/
def Effect.isWrite : Effect → Bool
  | .write _ _ => true
  | _ => false

/-- The reasons the three filters of `Work` record. -/
def filterReasons : List String :=
  ["updated_before_ignore_value", "unwanted_content_type", "unwanted_event_type"]

/-! ## Positions in a trace -/

/-- The property `Q` holds at every position of the trace: for every way to write
the trace as what precedes an effect, the effect, and what follows it. -/
def Splits (t : List Effect) (Q : List Effect → Effect → List Effect → Prop) : Prop :=
  ∀ pre e post, t = pre ++ e :: post → Q pre e post

/-- The artifact an audit record reports: filename, checksum and size. -/
def Reports (record : FTPDeliveryRecord) (o : Output) : Prop :=
  record.Filename = o.Filename ∧ record.SHA256Checksum = o.Checksum ∧ record.SizeBytes = o.Size

/-- The order of the delivery at one position of a trace: an audit record directly
follows the successful send of the artifact it reports, a successful send is
directly followed by the audit record of its artifact, and no delivery step
follows a commit. -/
def Ordered (pre : List Effect) (e : Effect) (post : List Effect) : Prop :=
  (∀ record, e = Effect.audit record →
    ∃ pre0 o, pre = pre0 ++ [Effect.send o none] ∧ Reports record o) ∧
  (∀ o, e = Effect.send o none →
    ∃ record post0, post = Effect.audit record :: post0 ∧ Reports record o) ∧
  (e.isCommit = true → ∀ x ∈ post, x.isDelivery = false)

/-- The place of the audit publish at one position of a trace. A write to the
audit topic stands directly after the record of a delivery, which stands directly
after the successful send of the artifact it reports, which stands directly after
the transform that returned that artifact; and what is written is the marshalled
envelope of the marshalled record. The record of a delivery is directly followed
by its write to the audit topic, unless the marshalling of the record or of the
envelope failed. -/
def Published {σ : Type} (d : Deps σ) (pre : List Effect) (e : Effect) (post : List Effect) :
    Prop :=
  (∀ value err, e = Effect.write value err →
    ∃ pre0 event o record recordJSON id,
      pre = pre0 ++ [Effect.convert event (.ok o), Effect.send o none, Effect.audit record] ∧
      Reports record o ∧ d.MarshalRecord record = .ok recordJSON ∧
      d.MarshalEnvelope (NewEnvelope id FTPDelivery recordJSON) = .ok value) ∧
  (∀ record, e = Effect.audit record →
    (∃ err, d.MarshalRecord record = .error err) ∨
    (∃ recordJSON id err, d.MarshalRecord record = .ok recordJSON ∧
      d.MarshalEnvelope (NewEnvelope id FTPDelivery recordJSON) = .error err) ∨
    ∃ value err post0, post = Effect.write value err :: post0)

/-! ## Concrete runs -/

/-- A small environment for concrete runs, on a world that counts the fetched
messages. The reader yields the message at the next offset and is never done, the
decoders return the given envelope and event, the processor returns the given
result, and the sender and the audit writer return the given errors. -/
def sampleDeps (envelope : Envelope) (event : Event) (converted : Except String Output)
    (sendErr writeErr : Option String) : Deps Nat where
  FetchMessage := fun s => (.ok { Topic := "content", Offset := s }, s + 1)
  CommitMessages := fun _ s => (none, s)
  WriteMessages := fun _ s => (writeErr, s)
  Convert := fun _ s => (converted, s)
  Send := fun _ s => (sendErr, s)
  NewID := fun s => ("id", s)
  Now := fun s => { sec := s }
  UnmarshalEnvelope := fun _ => .ok envelope
  UnmarshalEvent := fun _ => .ok event
  MarshalRecord := fun _ => .ok [1]
  MarshalEnvelope := fun _ => .ok [2]
  Done := fun _ => false
  Disconnect := fun s => (none, s)

/-- A configuration that accepts created events. -/
def sampleConfig : Config :=
  { Processor := { Type_ := "ravenpack", AcceptedEvents := [Created] }
    Kafka := { Topic := "content", GroupID := "g" }
    FTP := { Host := "h", Path := "p" } }

/-- An envelope of a content event. -/
def sampleEnvelope : Envelope :=
  { ID := "e1", MessageType := ContentModelsEventMsgType, Message := [7] }

/-- A created story. -/
def sampleEvent : Event :=
  { ID := 5, NodeID := 9, Content := { NodeID := 9, Type_ := "story" }, Event := Created }

/-- An artifact. -/
def sampleOutput : Output :=
  { Filename := "benzinga_9_0_rss2.xml", Checksum := "c0", Data := { buf := [60, 62] }, Size := 2 }

/-- The first message the sample reader yields. -/
def sampleMessage : Message := { Topic := "content", Offset := 0 }

/-- The sample environment in which the transform, the send and the audit succeed. -/
def deliveringDeps : Deps Nat :=
  sampleDeps sampleEnvelope sampleEvent (.ok sampleOutput) none none

/-- The audit record of the sample delivery. -/
def sampleRecord : FTPDeliveryRecord :=
  { NodeID := 9, EventID := 5, EventType := Created, ConsumerGroupID := "g", FTPHost := "h",
    FTPPath := "p", Filename := "benzinga_9_0_rss2.xml", SHA256Checksum := "c0",
    Timestamp := { sec := 1 }, SizeBytes := 2 }

/-- The effects of the sample delivery, in order. -/
def deliveredTrace : List Effect :=
  [ .inc .ContentAccepted (kafkaLabels sampleConfig),
    .convert sampleEvent (.ok sampleOutput),
    .send sampleOutput none,
    .audit sampleRecord,
    .write [2] none,
    .inc .ContentSent (kafkaLabels sampleConfig),
    .commit sampleMessage none,
    .inc .ContentAcknowledged (kafkaLabels sampleConfig),
    .observe .ContentProcessingLatency (kafkaLabels sampleConfig) { sec := 1 } { sec := 1 } ]

/-- The effects of the sample delivery that precede the audit record. -/
def deliveredBeforeAudit : List Effect :=
  [ .inc .ContentAccepted (kafkaLabels sampleConfig),
    .convert sampleEvent (.ok sampleOutput),
    .send sampleOutput none ]

/-- The sample environment in which the sink send fails. -/
def sendFailingDeps : Deps Nat :=
  sampleDeps sampleEnvelope sampleEvent (.ok sampleOutput) (some "broken pipe") none

/-- The effects of the sample pass in which the sink send fails. -/
def sendFailedTrace : List Effect :=
  [ .inc .ContentAccepted (kafkaLabels sampleConfig),
    .convert sampleEvent (.ok sampleOutput),
    .send sampleOutput (some "broken pipe"),
    .inc .ContentSendErrors (kafkaLabels sampleConfig) ]

/-- The sample environment in which the write to the audit topic fails. -/
def auditFailingDeps : Deps Nat :=
  sampleDeps sampleEnvelope sampleEvent (.ok sampleOutput) none (some "write failed")

/-- The effects of the sample pass in which the write to the audit topic fails. -/
def auditFailedTrace : List Effect :=
  [ .inc .ContentAccepted (kafkaLabels sampleConfig),
    .convert sampleEvent (.ok sampleOutput),
    .send sampleOutput none,
    .audit sampleRecord,
    .write [2] (some "write failed"),
    .inc .ContentSent (kafkaLabels sampleConfig),
    .commit sampleMessage none,
    .inc .ContentAcknowledged (kafkaLabels sampleConfig),
    .observe .ContentProcessingLatency (kafkaLabels sampleConfig) { sec := 1 } { sec := 1 } ]

/-- The sample environment in which the sink send fails for the first message the
reader yields and succeeds for the later ones. -/
def sendFailsOnceDeps : Deps Nat :=
  { deliveringDeps with Send := fun _ s => (if s = 1 then some "broken pipe" else none, s) }

/-- The effects of the sample delivery that follow the write to the audit topic. -/
def deliveredAfterWrite : List Effect :=
  [ .inc .ContentSent (kafkaLabels sampleConfig),
    .commit sampleMessage none,
    .inc .ContentAcknowledged (kafkaLabels sampleConfig),
    .observe .ContentProcessingLatency (kafkaLabels sampleConfig) { sec := 1 } { sec := 1 } ]

/-- The message at offset `n` of the sample reader. -/
def sampleMessageAt (n : Int) : Message := { Topic := "content", Offset := n }

/-- The effects of a pass of the sample worker that delivers the message at offset
`n`, which the sample clock reads at `n + 1`. -/
def deliveredTraceAt (n : Int) : List Effect :=
  [ .inc .ContentAccepted (kafkaLabels sampleConfig),
    .convert sampleEvent (.ok sampleOutput),
    .send sampleOutput none,
    .audit { sampleRecord with Timestamp := { sec := n + 1 } },
    .write [2] none,
    .inc .ContentSent (kafkaLabels sampleConfig),
    .commit (sampleMessageAt n) none,
    .inc .ContentAcknowledged (kafkaLabels sampleConfig),
    .observe .ContentProcessingLatency (kafkaLabels sampleConfig) { sec := n + 1 }
      { sec := n + 1 } ]

/-- A created event of a content type that is not mapped. -/
def blogEvent : Event :=
  { ID := 6, NodeID := 10, Content := { NodeID := 10, Type_ := "Blog" }, Event := Created }

/-- A removed story. -/
def removedEvent : Event :=
  { ID := 7, NodeID := 9, Content := { NodeID := 9, Type_ := "Story" }, Event := Removed }

/-- The instant 2020-01-01T00:00:00Z. -/
def cutoff2020 : Time := { sec := 1577836800 }

/-- The sample configuration with `IGNORE_UPDATED_BEFORE` set to 2020-01-01T00:00:00Z. -/
def cutoffConfig : Config :=
  { sampleConfig with
    Processor := { sampleConfig.Processor with IgnoreUpdatedBefore := some cutoff2020 } }

/-- A created story last updated at 2019-12-31T23:59:59Z. -/
def olderEvent : Event :=
  { ID := 5, NodeID := 9, Event := Created
    Content := { NodeID := 9, Type_ := "story", UpdatedAt := { sec := 1577836799 } } }

/-- A created story last updated at 2020-01-01T00:00:01Z. -/
def newerEvent : Event :=
  { ID := 5, NodeID := 9, Event := Created
    Content := { NodeID := 9, Type_ := "story", UpdatedAt := { sec := 1577836801 } } }

/-- The sample configuration with the accepted events loaded from
`PROCESSOR_EVENTS=Created,Created`. -/
def duplicateConfig : Config :=
  { sampleConfig with
    Processor := { sampleConfig.Processor with AcceptedEvents := [Created, Created] } }

/-- An envelope of a delivery record. -/
def deliveryEnvelope : Envelope :=
  { ID := "e2", MessageType := FTPDelivery, Message := [7] }

/-- A small processor environment for concrete runs: an empty reference cache, a
constant time format, a fixed document and a four-byte stand-in for the hash
whose first byte is the length of the input. -/
def sampleConvertDeps : ConvertDeps where
  GetSymbolExchange := fun _ _ => none
  GetSymbolCurrency := fun _ _ => none
  Format := fun _ _ => "Thu, 01 Jan 70 00:00:00 -700"
  MarshalIndent := fun _ => .ok (stringBytes "<rss></rss>")
  Sum256 := fun b => [UInt8.ofNat b.length, 171, 0, 255]

/-- The artifact the sample processor returns for the sample event. -/
def sampleArtifact : Output :=
  { Filename := "benzinga_9_0_rss2.xml"
    Checksum := "33ab00ff"
    Data := { buf := stringBytes "<?xml version=\"1.0\" encoding=\"utf-8\" ?>\n<rss></rss>" }
    Size := 51 }

/-! ## Envelope codec (`jsoniter.Marshal`, `json.Unmarshal`) -/

/-- The set `htmlSafeSet` of the encoder: the ASCII bytes written as they are, which
are all but the control bytes, the double quote, `&`, `<`, `>` and the backslash. -/
def htmlSafe (b : UInt8) : Bool :=
  decide (32 ≤ b.toNat) && decide (b.toNat < 128) && !(b = 34 || b = 38 || b = 60 || b = 62 || b = 92)

/-- The hex digit of a value below sixteen, in lowercase. -/
def hexDigit (n : Nat) : UInt8 := (stringBytes "0123456789abcdef").getD n 48

/-- The bytes the encoder writes for one rune of a string, as
`WriteStringWithHTMLEscaped` does: a safe ASCII byte as it is, the short escapes
for backslash, double quote, newline, carriage return and tab, `\u00` and two hex
digits for every other ASCII byte, the `\u` escape for the separators U+2028 and U+2029,
and the UTF-8 bytes of every other rune. -/
def escapeRune (c : Char) : Bytes :=
  if c.toNat < 128 then
    if htmlSafe (UInt8.ofNat c.toNat) then [UInt8.ofNat c.toNat]
    else if c = '\\' then [92, 92]
    else if c = '"' then [92, 34]
    else if c = '\n' then [92, 110]
    else if c = '\r' then [92, 114]
    else if c = '\t' then [92, 116]
    else [92, 117, 48, 48, hexDigit (c.toNat / 16), hexDigit (c.toNat % 16)]
  else if c.toNat = 8232 then [92, 117, 50, 48, 50, 56]
  else if c.toNat = 8233 then [92, 117, 50, 48, 50, 57]
  else String.utf8EncodeChar c

/-- A string as the encoder writes it: between double quotes, rune by rune. -/
def quoteString (s : String) : Bytes := 34 :: (s.data.flatMap escapeRune ++ [34])

/-- The entries of a map of strings as the encoder writes them, in the order the
map is iterated. -/
def encodeEntries : List (String × String) → Bytes
  | [] => []
  | [(k, v)] => quoteString k ++ 58 :: quoteString v
  | (k, v) :: rest => quoteString k ++ 58 :: (quoteString v ++ 44 :: encodeEntries rest)

/-- The method `Envelope.Marshal`, which is `jsoniter.Marshal` on the envelope: the
fields in the order of the type, `trace` and `message_type` left out when empty,
and the message written as it is. -/
def Envelope.Marshal (e : Envelope) : Except String Bytes :=
  .ok (123 ::
    ((if e.Trace = [] then []
      else stringBytes "\"trace\":" ++ 123 :: (encodeEntries e.Trace ++ [125, 44])) ++
     stringBytes "\"id\":" ++ quoteString e.ID ++
     (if e.MessageType = "" then []
      else stringBytes ",\"message_type\":" ++ quoteString e.MessageType) ++
     stringBytes ",\"message\":" ++ e.Message ++ [125]))

/-- The white space of JSON: space, tab, newline, carriage return. -/
def isSpaceByte (b : UInt8) : Bool := b = 32 || b = 9 || b = 10 || b = 13

/-- Skip white space. -/
def skipWS : Bytes → Bytes
  | [] => []
  | b :: rest => if isSpaceByte b then skipWS rest else b :: rest

/-- Remove a literal from the front of the input. -/
def dropBytes : Bytes → Bytes → Option Bytes
  | [], input => some input
  | _ :: _, [] => none
  | p :: ps, b :: rest => if p = b then dropBytes ps rest else none

/-- The value of a hex digit, in either case. -/
def hexValue (b : UInt8) : Option Nat :=
  if 48 ≤ b.toNat ∧ b.toNat ≤ 57 then some (b.toNat - 48)
  else if 97 ≤ b.toNat ∧ b.toNat ≤ 102 then some (b.toNat - 87)
  else if 65 ≤ b.toNat ∧ b.toNat ≤ 70 then some (b.toNat - 55)
  else none

/-- The value of four hex digits. -/
def hex4 (a b c d : UInt8) : Option Nat :=
  match hexValue a, hexValue b, hexValue c, hexValue d with
  | some x, some y, some z, some w => some (((x * 16 + y) * 16 + z) * 16 + w)
  | _, _, _, _ => none

/-- The UTF-8 bytes of the replacement rune U+FFFD. -/
def replacementRune : Bytes := [239, 191, 189]

/-- What is written for a high surrogate that no low surrogate followed. -/
def flushSurrogate : Option Nat → Bytes
  | none => []
  | some _ => replacementRune

/-- The bytes written before the rest of the string. -/
def emit (bs : Bytes) (r : Option (Bytes × Bytes)) : Option (Bytes × Bytes) :=
  match r with
  | none => none
  | some (decoded, rest) => some (bs ++ decoded, rest)

/-- The byte of a short escape. -/
def shortEscape (b : UInt8) : Option UInt8 :=
  if b = 34 then some 34 else if b = 92 then some 92 else if b = 47 then some 47
  else if b = 98 then some 8 else if b = 102 then some 12 else if b = 110 then some 10
  else if b = 114 then some 13 else if b = 116 then some 9 else none

/-- The bytes for the rune of a `\u` escape, given the high surrogate that
precedes it, if any, and the high surrogate now waiting for its pair. -/
def unicodeEscape (pending : Option Nat) (n : Nat) : Bytes × Option Nat :=
  match pending with
  | some hi =>
    if 56320 ≤ n ∧ n < 57344 then
      (String.utf8EncodeChar (Char.ofNat ((hi - 55296) * 1024 + (n - 56320) + 65536)), none)
    else if 55296 ≤ n ∧ n < 56320 then (replacementRune, some n)
    else (replacementRune ++ String.utf8EncodeChar (Char.ofNat n), none)
  | none =>
    if 55296 ≤ n ∧ n < 56320 then ([], some n)
    else if 56320 ≤ n ∧ n < 57344 then (replacementRune, none)
    else (String.utf8EncodeChar (Char.ofNat n), none)

/-- The decoding of a JSON string from after its opening quote, as the scanner and
`unquote` of `encoding/json` do together: the bytes of the string and the input
after the closing quote, or nothing when the string is not well formed. A byte
outside ASCII is copied as it is (the library also replaces bytes that are not
UTF-8 by U+FFFD). The first argument is a high surrogate escape read just before. -/
def unquoteFrom : Option Nat → Bytes → Option (Bytes × Bytes)
  | _, [] => none
  | pending, b :: rest =>
    if b = 34 then some (flushSurrogate pending, rest)
    else if b = 92 then
      match rest with
      | [] => none
      | e :: rest1 =>
        if e = 117 then
          match rest1 with
          | h1 :: h2 :: h3 :: h4 :: rest2 =>
            match hex4 h1 h2 h3 h4 with
            | none => none
            | some n =>
              emit (unicodeEscape pending n).1 (unquoteFrom (unicodeEscape pending n).2 rest2)
          | _ => none
        else
          match shortEscape e with
          | none => none
          | some x => emit (flushSurrogate pending ++ [x]) (unquoteFrom none rest1)
    else if b.toNat < 32 then none
    else emit (flushSurrogate pending ++ [b]) (unquoteFrom none rest)

/-- A decimal digit. -/
def isDigitByte (b : UInt8) : Bool := decide (48 ≤ b.toNat) && decide (b.toNat ≤ 57)

/-- Skip decimal digits. -/
def dropDigits : Bytes → Bytes
  | [] => []
  | b :: rest => if isDigitByte b then dropDigits rest else b :: rest

/-- The integer part of a number: a zero, or a digit from one to nine and more digits. -/
def scanInt : Bytes → Option Bytes
  | [] => none
  | b :: rest => if b = 48 then some rest else if isDigitByte b then some (dropDigits rest) else none

/-- The fraction of a number, if there is one: a point and at least one digit. -/
def scanFrac : Bytes → Option Bytes
  | [] => some []
  | b :: rest =>
    if b = 46 then
      match rest with
      | [] => none
      | d :: rest1 => if isDigitByte d then some (dropDigits rest1) else none
    else some (b :: rest)

/-- The sign of an exponent, if there is one. -/
def dropSign : Bytes → Bytes
  | [] => []
  | b :: rest => if b = 43 ∨ b = 45 then rest else b :: rest

/-- The exponent of a number, if there is one: `e` or `E`, a sign if any, and at
least one digit. -/
def scanExp : Bytes → Option Bytes
  | [] => some []
  | b :: rest =>
    if b = 101 ∨ b = 69 then
      match dropSign rest with
      | [] => none
      | d :: rest1 => if isDigitByte d then some (dropDigits rest1) else none
    else some (b :: rest)

/-- A JSON number: the input after it. -/
def scanNumber (input : Bytes) : Option Bytes :=
  match (match input with
    | [] => none
    | b :: rest => if b = 45 then scanInt rest else scanInt (b :: rest)) with
  | none => none
  | some r1 =>
    match scanFrac r1 with
    | none => none
    | some r2 => scanExp r2

mutual

/-- One JSON value at the front of the input, which starts at its first byte: the
input after the value, or nothing when no well-formed value starts the input. The
fuel bounds the depth of the search. -/
def scanValue : Nat → Bytes → Option Bytes
  | 0, _ => none
  | _ + 1, [] => none
  | fuel + 1, b :: rest =>
    if b = 123 then
      match skipWS rest with
      | [] => none
      | c :: rest1 => if c = 125 then some rest1 else scanMembers fuel (c :: rest1)
    else if b = 91 then
      match skipWS rest with
      | [] => none
      | c :: rest1 => if c = 93 then some rest1 else scanElements fuel (c :: rest1)
    else if b = 34 then
      match unquoteFrom none rest with
      | none => none
      | some (_, rest1) => some rest1
    else if b = 116 then dropBytes [114, 117, 101] rest
    else if b = 102 then dropBytes [97, 108, 115, 101] rest
    else if b = 110 then dropBytes [117, 108, 108] rest
    else scanNumber (b :: rest)

/-- The elements of an array from the first byte of an element to the closing bracket. -/
def scanElements : Nat → Bytes → Option Bytes
  | 0, _ => none
  | fuel + 1, input =>
    match scanValue fuel input with
    | none => none
    | some rest =>
      match skipWS rest with
      | [] => none
      | c :: rest1 =>
        if c = 44 then scanElements fuel (skipWS rest1)
        else if c = 93 then some rest1
        else none

/-- The members of an object from the opening quote of a key to the closing brace. -/
def scanMembers : Nat → Bytes → Option Bytes
  | 0, _ => none
  | _ + 1, [] => none
  | fuel + 1, q :: rest =>
    if q = 34 then
      match unquoteFrom none rest with
      | none => none
      | some (_, rest1) =>
        match skipWS rest1 with
        | [] => none
        | c :: rest2 =>
          if c = 58 then
            match scanValue fuel (skipWS rest2) with
            | none => none
            | some rest3 =>
              match skipWS rest3 with
              | [] => none
              | d :: rest4 =>
                if d = 44 then scanMembers fuel (skipWS rest4)
                else if d = 125 then some rest4
                else none
          else none
    else none

end

/-- The envelope as `json.Unmarshal` fills it: every Go string is its bytes. -/
structure WireEnvelope where
  Trace : List (Bytes × Bytes) := []
  ID : Bytes := []
  MessageType : Bytes := []
  Message : Bytes := []
deriving DecidableEq, Repr

/-- The fields of the envelope a key can name. -/
inductive Field where
  | trace
  | id
  | messageType
  | message
  | unknown
deriving DecidableEq, Repr

/-- An ASCII capital as its small letter; every other byte as it is. -/
def lowerByte (b : UInt8) : UInt8 :=
  if 65 ≤ b.toNat ∧ b.toNat ≤ 90 then UInt8.ofNat (b.toNat + 32) else b

/-- The folding of a key for the match with a field name: an ASCII capital becomes
its small letter, the long s (bytes 197, 191) becomes `s` and the Kelvin sign
(bytes 226, 132, 170) becomes `k`. -/
def keyFold : Bytes → Bytes
  | [] => []
  | [b] => [lowerByte b]
  | [b, c] => if b = 197 ∧ c = 191 then [115] else lowerByte b :: keyFold [c]
  | b :: c :: d :: rest =>
    if b = 226 ∧ c = 132 ∧ d = 170 then 107 :: keyFold rest
    else if b = 197 ∧ c = 191 then 115 :: keyFold (d :: rest)
    else lowerByte b :: keyFold (c :: d :: rest)

/-- The field a key names: the one whose tag the key equals, ignoring case. -/
def fieldOf (key : Bytes) : Field :=
  if keyFold key = stringBytes "trace" then .trace
  else if keyFold key = stringBytes "id" then .id
  else if keyFold key = stringBytes "message_type" then .messageType
  else if keyFold key = stringBytes "message" then .message
  else .unknown

/-- The value of a string field: a JSON string, or `null`, which leaves the field
as it is. Every other value is an error. -/
def decodeStringValue (input : Bytes) : Option (Option Bytes × Bytes) :=
  match input with
  | [] => none
  | b :: rest =>
    if b = 34 then
      match unquoteFrom none rest with
      | none => none
      | some (v, rest1) => some (some v, rest1)
    else
      match dropBytes [110, 117, 108, 108] (b :: rest) with
      | none => none
      | some rest1 => some (none, rest1)

/-- The members of the `trace` object from the opening quote of a key to the
closing brace: the entries read, in order. -/
def decodeEntries : Nat → Bytes → Option (List (Bytes × Bytes) × Bytes)
  | 0, _ => none
  | _ + 1, [] => none
  | fuel + 1, q :: rest =>
    if q = 34 then
      match unquoteFrom none rest with
      | none => none
      | some (key, rest1) =>
        match skipWS rest1 with
        | [] => none
        | c :: rest2 =>
          if c = 58 then
            match decodeStringValue (skipWS rest2) with
            | none => none
            | some (v, rest3) =>
              match skipWS rest3 with
              | [] => none
              | d :: rest4 =>
                if d = 44 then
                  match decodeEntries fuel (skipWS rest4) with
                  | none => none
                  | some (more, rest5) => some ((key, v.getD []) :: more, rest5)
                else if d = 125 then some ([(key, v.getD [])], rest4)
                else none
          else none
    else none

/-- The value of the field a key names, stored into the envelope: a string for `id`
and `message_type`, an object of strings for `trace`, the bytes of any value for
`message`, and any value, which is skipped, for a key that names no field. -/
def decodeField (fuel : Nat) (f : Field) (input : Bytes) (acc : WireEnvelope) :
    Option (WireEnvelope × Bytes) :=
  match f with
  | .id =>
    match decodeStringValue input with
    | none => none
    | some (v, rest) => some ({ acc with ID := v.getD acc.ID }, rest)
  | .messageType =>
    match decodeStringValue input with
    | none => none
    | some (v, rest) => some ({ acc with MessageType := v.getD acc.MessageType }, rest)
  | .message =>
    match scanValue fuel input with
    | none => none
    | some rest => some ({ acc with Message := input.take (input.length - rest.length) }, rest)
  | .trace =>
    match input with
    | [] => none
    | b :: rest =>
      if b = 123 then
        match skipWS rest with
        | [] => none
        | c :: rest1 =>
          if c = 125 then some (acc, rest1)
          else
            match decodeEntries fuel (c :: rest1) with
            | none => none
            | some (entries, rest2) => some ({ acc with Trace := acc.Trace ++ entries }, rest2)
      else
        match dropBytes [110, 117, 108, 108] (b :: rest) with
        | none => none
        | some rest1 => some ({ acc with Trace := [] }, rest1)
  | .unknown =>
    match scanValue fuel input with
    | none => none
    | some rest => some (acc, rest)

/-- The members of the envelope object from the opening quote of a key to the
closing brace. -/
def decodeMembers : Nat → Bytes → WireEnvelope → Option (WireEnvelope × Bytes)
  | 0, _, _ => none
  | _ + 1, [], _ => none
  | fuel + 1, q :: rest, acc =>
    if q = 34 then
      match unquoteFrom none rest with
      | none => none
      | some (key, rest1) =>
        match skipWS rest1 with
        | [] => none
        | c :: rest2 =>
          if c = 58 then
            match decodeField fuel (fieldOf key) (skipWS rest2) acc with
            | none => none
            | some (acc1, rest3) =>
              match skipWS rest3 with
              | [] => none
              | d :: rest4 =>
                if d = 44 then decodeMembers fuel (skipWS rest4) acc1
                else if d = 125 then some (acc1, rest4)
                else none
          else none
    else none

/-- The one JSON value of the document, decoded into a zero envelope: an object
fills the fields its keys name, `null` leaves the envelope as it is, and every
other value is an error. -/
def decodeDocument (fuel : Nat) (input : Bytes) : Option (WireEnvelope × Bytes) :=
  match input with
  | [] => none
  | b :: rest =>
    if b = 123 then
      match skipWS rest with
      | [] => none
      | c :: rest1 => if c = 125 then some ({}, rest1) else decodeMembers fuel (c :: rest1) {}
    else
      match dropBytes [110, 117, 108, 108] (b :: rest) with
      | none => none
      | some rest1 => some ({}, rest1)

/-- The function `json.Unmarshal` into a zero envelope: the document is one JSON
value with white space around it at most. -/
def jsonUnmarshalEnvelope (data : Bytes) : Except String WireEnvelope :=
  match decodeDocument (2 * data.length + 2) (skipWS data) with
  | none => .error "json: cannot unmarshal the document into an envelope"
  | some (envelope, rest) =>
    if skipWS rest = [] then .ok envelope
    else .error "json: invalid character after top-level value"

/-- The message is one JSON value, with no white space before or after it. -/
def IsJSONValue (m : Bytes) : Prop := scanValue (2 * m.length + 2) m = some []

instance (m : Bytes) : Decidable (IsJSONValue m) := by
  unfold IsJSONValue
  infer_instance

/-! ## Body rewrite, as the specification words it -/

/-- A match `m` of the pattern `"(/stock/\S*)"` with first submatch `g`: a double
quote, `/stock/`, runes that are not white space, and a double quote. -/
def IsAnchor (m g : List Char) : Prop :=
  ∃ r, (∀ c ∈ r, isNonSpace c = true) ∧ g = "/stock/".data ++ r ∧ m = '"' :: (g ++ ['"'])

/-- The rewrite of a body as the specification words it: reading from the left,
where no match of the pattern starts the rune is kept, and where matches start the
longest one is replaced by the quoted URL followed by its first submatch and the
reading goes on after it. -/
inductive Rewrites (url : List Char) : List Char → List Char → Prop where
  | done : Rewrites url [] []
  | keep (c : Char) (cs out : List Char)
      (none_here : ∀ m g rest, IsAnchor m g → c :: cs ≠ m ++ rest)
      (tail : Rewrites url cs out) : Rewrites url (c :: cs) (c :: out)
  | replace (m g rest out : List Char) (anchor : IsAnchor m g)
      (longest : ∀ m1 g1 rest1, IsAnchor m1 g1 → m ++ rest = m1 ++ rest1 → m1.length ≤ m.length)
      (tail : Rewrites url rest out) :
      Rewrites url (m ++ rest) ('"' :: (url ++ g ++ '"' :: out))

/-! ## Reference cache (`rstore`) -/

/-- The function `strings.ToUpper` on ASCII letters; other runes are kept. -/
def ToUpper (s : String) : String := String.mk (s.data.map Char.toUpper)

/-- The function `strings.Join`. -/
def Join (parts : List String) (sep : String) : String := sep.intercalate parts

def ftpEnginePrefix : String := "ftp-engine"

/-- The function `symbolExchangeKey`. -/
def symbolExchangeKey (symbol exchange : String) : String :=
  ToUpper (Join [ftpEnginePrefix, "symbol-exchange", symbol, exchange] ":")

/-- The function `symbolCurrencyKey`. -/
def symbolCurrencyKey (symbol currency : String) : String :=
  ToUpper (Join [ftpEnginePrefix, "symbol-currency", symbol, currency] ":")

/-- The collaborators of the reference cache client, on the state of the store: the
commands `GET` and `SET` (without expiry) of the Redis client, and the msgpack
codec for instrument rows. -/
structure Client (σ : Type) where
  Get : String → σ → Except String Bytes
  Set : String → Bytes → σ → Option String × σ
  Marshal : Instrument → Except String Bytes
  Unmarshal : Bytes → Except String Instrument

section Rstore

variable {σ : Type}

/-- The method `Client.GetSymbolExchange`: the row stored under the key, or the
error of the read or of the decoding. -/
def Client.GetSymbolExchange (c : Client σ) (symbol exchange : String) (s : σ) :
    Except String Instrument :=
  match c.Get (symbolExchangeKey symbol exchange) s with
  | .error err => .error err
  | .ok res => c.Unmarshal res

/-- The method `Client.GetSymbolCurrency`. -/
def Client.GetSymbolCurrency (c : Client σ) (symbol currency : String) (s : σ) :
    Except String Instrument :=
  match c.Get (symbolCurrencyKey symbol currency) s with
  | .error err => .error err
  | .ok res => c.Unmarshal res

/-- The method `Client.PutSymbolCurrency`: the error, if any, and the store after. -/
def Client.PutSymbolCurrency (c : Client σ) (inst : Instrument) (s : σ) : Option String × σ :=
  match c.Marshal inst with
  | .error err => (some err, s)
  | .ok val => c.Set (symbolCurrencyKey inst.Symbol inst.CurrencyID) val s

/-- The method `Client.PutSymbolExchange`. -/
def Client.PutSymbolExchange (c : Client σ) (inst : Instrument) (s : σ) : Option String × σ :=
  match c.Marshal inst with
  | .error err => (some err, s)
  | .ok val => c.Set (symbolExchangeKey inst.Symbol inst.Exchange) val s

/-- The collaborators of the ravenpack processor whose reference cache client reads
the store in state `s`: a lookup yields the row, or none when the client returns
an error. -/
def rClientDeps (c : Client σ) (s : σ) (format : Time → String → String)
    (marshalIndent : XML → Except String Bytes) (sum256 : Bytes → Bytes) : ConvertDeps where
  GetSymbolExchange := fun symbol exchange => (c.GetSymbolExchange symbol exchange s).toOption
  GetSymbolCurrency := fun symbol currency => (c.GetSymbolCurrency symbol currency s).toOption
  Format := format
  MarshalIndent := marshalIndent
  Sum256 := sum256

end Rstore

/-! ## Concrete runs of the transform and of the reference cache -/

/-- The lookup `getTickers` makes for a ticker name. -/
def tickerLookup (p : ConvertDeps) (name : String) : Option Instrument :=
  if (Split name ':').length > 1 then
    p.GetSymbolExchange ((Split name ':').getD 1 "") ((Split name ':').getD 0 "")
  else
    p.GetSymbolCurrency ((Split name ':').getD 0 "") "USD"

/-- The `bz:ticker` element for a content ticker and the row its lookup returned. -/
def tickerElement (ticker : Category) (row : Option Instrument) : ItemTicker :=
  { Text := ticker.Name
    Primary := if ticker.Primary then "1" else "0"
    ISIN := match row with
      | some r => r.ISIN
      | none => ""
    Exchange := match row with
      | some r => r.Exchange
      | none => ""
    Sentiment := "0" }

/-- The cached row of the ticker `F`. -/
def fordRow : Instrument :=
  { ISIN := "US3453708600", Exchange := "NYSE", Symbol := "F", CurrencyID := "USD" }

/-- A processor environment whose reference cache holds the row of `F` under the
symbol-currency key of `F` and `USD`, and whose XML encoder writes the ISIN and
the exchange of every ticker element. -/
def fordDeps : ConvertDeps where
  GetSymbolExchange := fun _ _ => none
  GetSymbolCurrency := fun symbol currency =>
    if symbol = "F" ∧ currency = "USD" then some fordRow else none
  Format := fun _ _ => "Thu, 01 Jan 70 00:00:00 -700"
  MarshalIndent := fun x =>
    .ok (stringBytes (String.join (x.Channel.Item.Tickers.map fun t => t.ISIN ++ t.Exchange)))
  Sum256 := fun b => [UInt8.ofNat b.length, 171, 0, 255]

/-- The environment `fordDeps` with one more row in the reference cache, under the
symbol-exchange key of `GLOG` and `NYSE`. -/
def fordAndMoreDeps : ConvertDeps :=
  { fordDeps with
    GetSymbolExchange := fun symbol exchange =>
      if symbol = "GLOG" ∧ exchange = "NYSE" then some { ISIN := "BMG375851091" } else none }

/-- A stand-in for the XML encoder in concrete runs: the `bz:type` element, the
categories and the ticker elements of the document on one line, without escaping. -/
def sampleMarshalIndent (x : XML) : Except String Bytes :=
  .ok (stringBytes
    ("<bz:type bz=\"" ++ x.Channel.Item.Type_.Bz ++ "\" pro=\"" ++ x.Channel.Item.Type_.Pro ++
      "\" firstrun=\"" ++ x.Channel.Item.Type_.FirstRun ++ "\">" ++ x.Channel.Item.Type_.Text ++
      "</bz:type>" ++
      String.join (x.Channel.Item.Categories.map fun c =>
        "<category domain=\"" ++ c.Domain ++ "\">" ++ c.Text ++ "</category>") ++
      String.join (x.Channel.Item.Tickers.map fun t =>
        "<bz:ticker primary=\"" ++ t.Primary ++ "\" isin=\"" ++ t.ISIN ++ "\" exchange=\"" ++
          t.Exchange ++ "\" sentiment=\"" ++ t.Sentiment ++ "\">" ++ t.Text ++ "</bz:ticker>")))

/-- The environment `fordDeps` with the stand-in encoder `sampleMarshalIndent`. -/
def renderingDeps : ConvertDeps := { fordDeps with MarshalIndent := sampleMarshalIndent }

/-- A created story with the primary ticker `F`. -/
def fordEvent : Event :=
  { ID := 5, NodeID := 9, Event := Created
    Content := { NodeID := 9, Type_ := "story", Tickers := [{ ID := 14502, Vocab := 2, Name := "F", Primary := true }] } }

/-- The artifact of `olderEvent` in the sample processor environment. -/
def olderArtifact : Output :=
  { sampleArtifact with Filename := "benzinga_9_1577836799_rss2.xml" }

/-- A created press release with a channel and a ticker. -/
def pressEvent : Event :=
  { ID := 5, NodeID := 9, Event := Created
    Content :=
      { NodeID := 9, Type_ := "globenewswire_story"
        Channels := [{ ID := 57, Vocab := 1, Name := "News" }]
        Tickers := [{ ID := 14502, Vocab := 2, Name := "F", Primary := true }] } }

/-- A created story with a channel and two tickers. -/
def newsEvent : Event :=
  { ID := 5, NodeID := 9, Event := Created
    Content :=
      { NodeID := 9, Type_ := "story"
        Channels := [{ ID := 57, Vocab := 1, Name := "News" }]
        Tickers := [{ ID := 14502, Vocab := 2, Name := "F", Primary := true },
                    { ID := 42010, Vocab := 2, Name := "NYSE:GLOG" }] } }

/-- A processor environment whose reference cache holds a row under the
symbol-exchange key of `BRK:A` and `NYSE`, a row under that of `A` and `NYSE:BRK`,
a row under the symbol-currency key of `NYSE:BRK:A` and `USD`, and nothing under
the symbol-exchange key of `BRK` and `NYSE`. -/
def colonDeps : ConvertDeps :=
  { sampleConvertDeps with
    GetSymbolExchange := fun symbol exchange =>
      if symbol = "BRK:A" ∧ exchange = "NYSE" then some { ISIN := "US0846701086", Exchange := "NYSE" }
      else if symbol = "A" ∧ exchange = "NYSE:BRK" then some { ISIN := "US0846701086", Exchange := "NYSE" }
      else none
    GetSymbolCurrency := fun symbol currency =>
      if symbol = "NYSE:BRK:A" ∧ currency = "USD" then some { ISIN := "US0846701086", Exchange := "NYSE" }
      else none }

/-- A created story with the ticker `NYSE:BRK:A`. -/
def colonEvent : Event :=
  { ID := 5, NodeID := 9, Event := Created
    Content := { NodeID := 9, Type_ := "story", Tickers := [{ ID := 1, Vocab := 2, Name := "NYSE:BRK:A" }] } }

/-- A small reference cache for concrete runs: the store is the list of the keys
written with their values, latest first, a key that was never written reads as
the error of a missing key, and the codec knows the row of `F` only. -/
def sampleClient : Client (List (String × Bytes)) where
  Get := fun key s =>
    match s.lookup key with
    | some val => .ok val
    | none => .error "redis: nil"
  Set := fun key val s => (none, (key, val) :: s)
  Marshal := fun inst => .ok (stringBytes (inst.Symbol ++ inst.ISIN))
  Unmarshal := fun b =>
    if b = stringBytes "FUS3453708600" then .ok fordRow else .error "msgpack: invalid code"

/-- The key of the reference cache that `getTickers` reads for a ticker name: the
symbol-exchange key of the second and the first segment of a name with a colon,
the symbol-currency key of the name and `USD` otherwise. -/
def tickerKey (name : String) : String :=
  if (Split name ':').length > 1 then
    symbolExchangeKey ((Split name ':').getD 1 "") ((Split name ':').getD 0 "")
  else
    symbolCurrencyKey ((Split name ':').getD 0 "") "USD"

/-- A reference cache for concrete runs on a world that holds the stored rows and
whether the store can be reached: a read or a write of a store that cannot be
reached returns the error of the connection. -/
def flakyClient : Client (List (String × Bytes) × Bool) where
  Get := fun key s =>
    if s.2 then sampleClient.Get key s.1 else .error "dial tcp: connection refused"
  Set := fun key val s =>
    if s.2 then (none, ((key, val) :: s.1, s.2)) else (some "dial tcp: connection refused", s)
  Marshal := sampleClient.Marshal
  Unmarshal := sampleClient.Unmarshal

/-- A store that holds the row of `F` under its symbol-currency key. -/
def fordStore : List (String × Bytes) :=
  [("FTP-ENGINE:SYMBOL-CURRENCY:F:USD", stringBytes "FUS3453708600")]

/-- The ravenpack processor for concrete runs whose reference cache client is
`flakyClient` in the given world, with the stand-in encoder. -/
def flakyProcessor (s : List (String × Bytes) × Bool) : ConvertDeps :=
  rClientDeps flakyClient s (fun _ _ => "Thu, 01 Jan 70 00:00:00 -700") sampleMarshalIndent
    (fun b => [UInt8.ofNat b.length, 171, 0, 255])

/-- A created event whose content type is spelled `Story`. -/
def capitalStoryEvent : Event :=
  { ID := 8, NodeID := 11, Content := { NodeID := 11, Type_ := "Story" }, Event := Created }

/-- A created event whose content type is spelled `PR_Story`. -/
def capitalPressEvent : Event :=
  { ID := 8, NodeID := 12, Content := { NodeID := 12, Type_ := "PR_Story" }, Event := Created }

/-- A body with two quoted stock paths and no white space between them. -/
def twoAnchorsBody : String := "see \"/stock/AAPL\",\"/stock/MSFT\""

/-! ## Concrete envelopes for the codec -/

/-- An envelope with a trace, a message type and a JSON object as message. -/
def wireEnvelope : Envelope :=
  { Trace := [("uber-trace-id", "5f2c:1a:0:1"), ("span", "é<b>")],
    ID := "bk3q\"7\n",
    MessageType := "content_models_event",
    Message := stringBytes "\x7b\"id\":7,\"tags\":[\"a\\u00e9\",-2.5e3,null,true]\x7d" }

/-- An envelope built without a message. -/
def emptyMessageEnvelope : Envelope := { ID := "a", MessageType := "ftp_delivery" }

/-- An envelope whose message has a space before the value. -/
def spacedMessageEnvelope : Envelope := { ID := "a", Message := [32, 49] }

/-! ## Node and content conversion (`models/content.go`) -/

/-- A write `m[key] = value` to a Go map, kept as an association list: the value of
an existing key is replaced, a new key is added. -/
def mapSet {κ ν : Type} [DecidableEq κ] : List (κ × ν) → κ → ν → List (κ × ν)
  | [], key, value => [(key, value)]
  | (k, v) :: rest, key, value =>
    if k = key then (k, value) :: rest else (k, v) :: mapSet rest key value

/-- The type `models.NodeQuote`. -/
structure NodeQuote where
  ID : String := ""
  Price : String := ""
  Volume : String := ""
deriving DecidableEq, Repr

/-- The anonymous type of `FieldImage.Data`. -/
structure FieldImageData where
  Alt : String := ""
  Title : String := ""
deriving DecidableEq, Repr

/-- The type `models.FieldImage`. -/
structure FieldImage where
  UploadIdentifier : String := ""
  Fid : String := ""
  Data : FieldImageData := {}
  List : String := ""
  UID : String := ""
  Filename : String := ""
  Filepath : String := ""
  Filemime : String := ""
  Filesize : Int := 0
  Status : Intf := .null
  Timestamp : Intf := .null
  Alt : String := ""
  Title : String := ""
deriving DecidableEq, Repr

/-- The type `models.Node`, the basic content node. The two timestamps are
`float64` values of Go, whose type `F` and whose conversions from and to a time
are kept outside. -/
structure Node (F : Type) where
  ID : String := ""
  EventID : String := ""
  NodeID : Int := 0
  UserID : Int := 0
  VersionID : Int := 0
  Type_ : String := ""
  Status : Int := 0
  CreatedAt : F
  UpdatedAt : F
  Title : String := ""
  Body : String := ""
  Author : String := ""
  PartnerURL : String := ""
  Path : String := ""
  Taxonomy : List Category := []
  PrimaryTickers : List Int := []
  Price : List NodeQuote := []
  Image : List FieldImage := []
  Assets : List Asset := []
  IsBzPost : Int := 0
  IsBzProPost : Int := 0
  DoNotDistribute : Int := 0
  Sentiment : Int := 0
  Meta : Meta := {}

/-- The method `FieldImage.AsAsset`. -/
def FieldImage.AsAsset (f : FieldImage) : Asset :=
  { Type_ := ImageAsset
    Title := f.Title
    MIME := f.Filemime
    Attributes := some
      { FID := f.Fid
        Filepath := f.Filepath
        Filename := f.Filename
        Filesize := f.Filesize
        ImageAttributes := some { AltTitle := f.Alt } } }

/-- The decimal digits of `strconv.Atoi` from the left, with the value read so
far; nothing when a byte is no digit. -/
def atoiDigits : List Char → Nat → Option Nat
  | [], acc => some acc
  | c :: rest, acc =>
    if '0' ≤ c ∧ c ≤ '9' then atoiDigits rest (acc * 10 + (c.toNat - 48)) else none

/-- The function `strconv.Atoi` on a 64-bit platform: the value, and whether there
was an error. A syntax error gives 0; a value out of range gives the nearest `int`. -/
def Atoi (s : String) : Int × Bool :=
  let neg := s.data.head? = some '-'
  let digits := if s.data.head? = some '-' ∨ s.data.head? = some '+' then s.data.drop 1 else s.data
  if digits = [] then (0, true)
  else
    match atoiDigits digits 0 with
    | none => (0, true)
    | some v =>
      if ¬ neg ∧ v ≥ 2 ^ 63 then (2 ^ 63 - 1, true)
      else if neg ∧ v > 2 ^ 63 then (-(2 ^ 63), true)
      else if neg then (-(v : Int), false)
      else ((v : Int), false)

/-- The loop of `AsContent` over `n.PrimaryTickers`: the map `tickerPrimaryMap`. -/
def primaryTickerMap : List Int → List (Int × Bool) → List (Int × Bool)
  | [], m => m
  | primary :: rest, m => primaryTickerMap rest (mapSet m primary true)

/-- One step of the loop of `AsContent` over `n.Taxonomy`, on the content and the
map `tickerMap`: a ticker gets its primary flag from `tickerPrimaryMap` and its
name goes to `tickerMap`; every category goes to the list of its vocabulary. -/
def taxonomyStep (tickerPrimaryMap : List (Int × Bool))
    (acc : Content × List (Int × String)) (category : Category) :
    Content × List (Int × String) :=
  if category.Vocab = VocabTicker then
    ({ acc.1 with
        Tickers := acc.1.Tickers ++
          [{ category with Primary := (tickerPrimaryMap.lookup category.ID).isSome }] },
      mapSet acc.2 category.ID category.Name)
  else if category.Vocab = VocabChannel then
    ({ acc.1 with Channels := acc.1.Channels ++ [category] }, acc.2)
  else if category.Vocab = VocabFutures then
    ({ acc.1 with Futures := acc.1.Futures ++ [category] }, acc.2)
  else
    ({ acc.1 with Tags := acc.1.Tags ++ [category] }, acc.2)

/-- One step of the loop of `AsContent` over `n.Price`: the quote of a ticker that
`tickerMap` names is stored under the name. -/
def quoteStep (tickerMap : List (Int × String)) (content : Content) (quote : NodeQuote) :
    Content :=
  let tid := (Atoi quote.ID).1
  let vol := (Atoi quote.Volume).1
  let symbol := (tickerMap.lookup tid).getD ""
  if symbol = "" then content
  else { content with Quotes := mapSet content.Quotes symbol { Price := quote.Price, Volume := vol } }

/-- The method `Node.AsContent`, given `TimeFromFloat`. -/
def Node.AsContent {F : Type} (timeFromFloat : F → Time) (n : Node F) : Content :=
  let content : Content :=
    { ID := n.ID
      EventID := n.EventID
      NodeID := n.NodeID
      UserID := n.UserID
      VersionID := n.VersionID
      Type_ := n.Type_
      Published := decide (n.Status = 1)
      CreatedAt := timeFromFloat n.CreatedAt
      UpdatedAt := timeFromFloat n.UpdatedAt
      Title := n.Title
      Body := n.Body
      Author := n.Author
      PartnerURL := n.PartnerURL
      IsBzPost := decide (n.IsBzPost = 1)
      IsBzProPost := decide (n.IsBzProPost = 1)
      DoNotDistribute := decide (n.DoNotDistribute = 1)
      Sentiment := n.Sentiment
      Meta := n.Meta }
  let content1 : Content :=
    match n.Image with
    | [] => content
    | image :: _ =>
      { content with Assets := content.Assets ++ [{ image.AsAsset with Primary := true }] }
  let content2 : Content :=
    if n.Assets.length > 1 then { content1 with Assets := content1.Assets ++ n.Assets }
    else content1
  let tickerPrimaryMap := primaryTickerMap n.PrimaryTickers []
  let r := n.Taxonomy.foldl (taxonomyStep tickerPrimaryMap) (content2, [])
  n.Price.foldl (quoteStep r.2) r.1

/-- The function `boolToInt` of `AsNode`. -/
def boolToInt (b : Bool) : Int := if b then 1 else 0

/-- The loop of `AsNode` over `c.Tickers`: the identifiers of the primary tickers. -/
def primaryTickers : List Category → List Int
  | [] => []
  | ticker :: rest =>
    if ticker.Primary then ticker.ID :: primaryTickers rest else primaryTickers rest

/-- The method `Content.AsNode`, given `Time.Float`. -/
def Content.AsNode {F : Type} (float : Time → F) (c : Content) : Node F :=
  { ID := c.ID
    EventID := c.EventID
    NodeID := c.NodeID
    UserID := c.UserID
    VersionID := c.VersionID
    Type_ := c.Type_
    Status := boolToInt c.Published
    CreatedAt := float c.CreatedAt
    UpdatedAt := float c.UpdatedAt
    Title := c.Title
    Body := c.Body
    Author := c.Author
    Assets := c.Assets
    PartnerURL := c.PartnerURL
    Taxonomy := (([] ++ c.Tags) ++ c.Tickers ++ c.Channels) ++ c.Futures
    PrimaryTickers := primaryTickers c.Tickers
    IsBzPost := boolToInt c.IsBzPost
    IsBzProPost := boolToInt c.IsBzProPost
    DoNotDistribute := boolToInt c.DoNotDistribute
    Sentiment := c.Sentiment
    Meta := c.Meta }

/-! ## Meta (`models/contentmeta.go`) -/

/-- A value of the merged map of a `Meta`: a value of `Ext`, or the pointer held in
one of the known fields. -/
inductive MetaValue where
  | ext (value : Intf)
  | sectorV2 (p : SectorMeta)
  | partner (p : PartnerMeta)
  | partnerTaxonomy (p : PartnerTaxonomyMeta)
  | sec (p : SECMeta)
deriving DecidableEq, Repr

/-- A call that returns a value, or does not return: it panics, or the process
ends after `log.Fatal`, with the text given. -/
inductive Outcome (α : Type) where
  | done (value : α)
  | panic (text : String)
deriving DecidableEq, Repr

/-- The loop of `init` over the fields of `Meta`, from the field with the given
index: every field but `Ext` is indexed under its name. -/
def metaFieldsInit : List String → Nat → List (String × Nat) → List (String × Nat)
  | [], _, fields => fields
  | name :: rest, i, fields =>
    if name = "Ext" then metaFieldsInit rest (i + 1) fields
    else metaFieldsInit rest (i + 1) (mapSet fields name i)

/-- The map `metaFields`, as `init` fills it from the fields of `Meta`. -/
def metaFields : List (String × Nat) :=
  metaFieldsInit ["SectorV2", "Partner", "PartnerTaxonomy", "SEC", "Ext"] 0 []

/-- The field of a `Meta` with the given index, as `reflect.ValueOf(m).Field(index)`
followed by `Interface`: nothing for a nil pointer. -/
def Meta.Field (m : Meta) (index : Nat) : Option MetaValue :=
  match index with
  | 0 => m.SectorV2.map .sectorV2
  | 1 => m.Partner.map .partner
  | 2 => m.PartnerTaxonomy.map .partnerTaxonomy
  | 3 => m.SEC.map .sec
  | _ => none

/-- The first loop of `mergeMeta`, over `m.Ext`: a key that names a known field is
a panic. -/
def mergeExt : List (String × Intf) → List (String × MetaValue) →
    Outcome (List (String × MetaValue))
  | [], all => .done all
  | (key, value) :: rest, all =>
    if (metaFields.lookup key).isSome then .panic "programming error; meta key conflict"
    else mergeExt rest (mapSet all key (.ext value))

/-- The second loop of `mergeMeta`, over `metaFields`: a field that is not nil is
stored under its name. -/
def mergeFields (m : Meta) : List (String × Nat) → List (String × MetaValue) →
    List (String × MetaValue)
  | [], all => all
  | (key, index) :: rest, all =>
    match m.Field index with
    | none => mergeFields m rest all
    | some field => mergeFields m rest (mapSet all key field)

/-- The method `Meta.mergeMeta`: all of the meta in a single map. -/
def Meta.mergeMeta (m : Meta) : Outcome (List (String × MetaValue)) :=
  match mergeExt m.Ext [] with
  | .panic text => .panic text
  | .done all => .done (mergeFields m metaFields all)

/-- The functions of `msgp` the methods of `Meta` call, with the writer as a state. -/
structure Msgp (ω : Type) where
  WriteMapHeader : Nat → ω → Option String × ω
  WriteString : String → ω → Option String × ω
  WriteIntf : MetaValue → ω → Option String × ω
  Require : Bytes → Nat → Bytes
  AppendMapHeader : Bytes → Nat → Bytes
  AppendString : Bytes → String → Bytes
  AppendIntf : Bytes → MetaValue → Bytes × Option String
  GuessSize : MetaValue → Nat
  MapHeaderSize : Nat
  StringPrefixSize : Nat

/-- The loop of `EncodeMsg` over the merged map. -/
def encodeEntriesMsg {ω : Type} (p : Msgp ω) : List (String × MetaValue) → ω → Option String × ω
  | [], w => (none, w)
  | (key, value) :: rest, w =>
    match p.WriteString key w with
    | (some err, w1) => (some err, w1)
    | (none, w1) =>
      match p.WriteIntf value w1 with
      | (some err, w2) => (some err, w2)
      | (none, w2) => encodeEntriesMsg p rest w2

/-- The method `Meta.EncodeMsg`. -/
def Meta.EncodeMsg {ω : Type} (p : Msgp ω) (m : Meta) (w : ω) : Outcome (Option String × ω) :=
  match m.mergeMeta with
  | .panic text => .panic text
  | .done all =>
    match p.WriteMapHeader (all.length % 2 ^ 32) w with
    | (some err, w1) => .done (some err, w1)
    | (none, w1) => .done (encodeEntriesMsg p all w1)

/-- The loop of `Msgsize` over the merged map. -/
def sizeEntries {ω : Type} (p : Msgp ω) : List (String × MetaValue) → Nat → Nat
  | [], s => s
  | (key, value) :: rest, s =>
    sizeEntries p rest (s + (p.StringPrefixSize + (stringBytes key).length + p.GuessSize value))

/-- The method `Meta.Msgsize`. -/
def Meta.Msgsize {ω : Type} (p : Msgp ω) (m : Meta) : Outcome Nat :=
  match m.mergeMeta with
  | .panic text => .panic text
  | .done all => .done (sizeEntries p all (0 + p.MapHeaderSize))

/-- The loop of `MarshalMsg` over the merged map. -/
def appendEntries {ω : Type} (p : Msgp ω) : List (String × MetaValue) → Bytes →
    Bytes × Option String
  | [], o => (o, none)
  | (key, value) :: rest, o =>
    match p.AppendIntf (p.AppendString o key) value with
    | (o1, some err) => (o1, some err)
    | (o1, none) => appendEntries p rest o1

/-- The method `Meta.MarshalMsg`. -/
def Meta.MarshalMsg {ω : Type} (p : Msgp ω) (m : Meta) (b : Bytes) :
    Outcome (Bytes × Option String) :=
  match m.Msgsize p with
  | .panic text => .panic text
  | .done size =>
    match m.mergeMeta with
    | .panic text => .panic text
    | .done all =>
      .done (appendEntries p all (p.AppendMapHeader (p.Require b size) (all.length % 2 ^ 32)))

/-- The method `Meta.GetBSON`. -/
def Meta.GetBSON (m : Meta) : Outcome (List (String × MetaValue) × Option String) :=
  match m.mergeMeta with
  | .panic text => .panic text
  | .done all => .done (all, none)

/-- The method `Meta.MarshalJSON`, given `json.Marshal` on the merged map. -/
def Meta.MarshalJSON (jsonMarshal : List (String × MetaValue) → Except String Bytes)
    (m : Meta) : Outcome (Except String Bytes) :=
  match m.mergeMeta with
  | .panic text => .panic text
  | .done all => .done (jsonMarshal all)

/-! ## Concrete contents and nodes -/

/-- The content of `TestAsNode`: one primary ticker, one channel and one asset. -/
def testContent : Content :=
  { Title := "Title"
    Body := "Body"
    Author := "Author"
    Tickers := [{ ID := 14502, Vocab := 2, Name := "F",
                  Description := "Ford Motor Credit Company", Primary := true }]
    Channels := [{ ID := 57, Vocab := 1, Name := "News" }]
    PartnerURL := "test"
    IsBzPost := true
    Meta := { SectorV2 := some { SIC := [{ IndustryCode := 1234 }] },
              Ext := [("Test", .composite "\x7b\"TestField\":1\x7d")] }
    Assets := [{ Type_ := ImageAsset, Primary := true }] }

/-- A content with two tickers, one of them primary, tags, channels and futures. -/
def mixedContent : Content :=
  { Title := "Mixed"
    Tags := [{ ID := 3, Vocab := 3, Name := "Entity" }, { ID := 9, Vocab := 9, Name := "Article" }]
    Tickers := [{ ID := 14502, Vocab := 2, Name := "F", Primary := true },
                { ID := 10394, Vocab := 2, Name := "GM" }]
    Channels := [{ ID := 57, Vocab := 1, Name := "News" }]
    Futures := [{ ID := 77, Vocab := 11, Name := "Oil" }] }

/-- A stand-in for `Time.Float` on whole seconds. -/
def wholeSeconds (t : Time) : Int := t.sec

/-- A stand-in for `TimeFromFloat` on whole seconds. -/
def fromWholeSeconds (ts : Int) : Time := if ts = 0 then zeroTime else { sec := ts }

/-- A stand-in for `time.Time.Format`: the layout `null`, which has no element of
the reference time, is copied; for every other layout the Unix seconds are
written between quotes. -/
def plainFormat (t : Time) (layout : String) : String :=
  if layout = "null" then layout else "\"" ++ toString t.sec ++ "\""

/-- The instant 253402300800 seconds after the Unix epoch, in UTC. -/
def year10000 : Time := { sec := 253402300800 }

/-- The meta of `TestContentMeta` that must panic: `Ext` has the key `SectorV2`. -/
def conflictMeta : Meta :=
  { Ext := [("SectorV2", .composite "\x7b\"This\":\"ShouldPanic\"\x7d")] }

/-- The meta of `TestContentMeta` that round-trips: two known fields and one key
in `Ext`. -/
def roundTripMeta : Meta :=
  { SectorV2 := some { SIC := [{ IndustryCode := 1 }], NAICS := [{ IndustryCode := 1 }],
                       Morningstar := [{ IndustryCode := 1 }] }
    PartnerTaxonomy := some { Taxonomies := [{ Symbol := "TEST" }] }
    Ext := [("Test1", .composite "64")] }

/-- A stand-in for `msgp` that writes nothing and never fails. -/
def idleMsgp : Msgp Unit where
  WriteMapHeader := fun _ w => (none, w)
  WriteString := fun _ w => (none, w)
  WriteIntf := fun _ w => (none, w)
  Require := fun b _ => b
  AppendMapHeader := fun b _ => b
  AppendString := fun b _ => b
  AppendIntf := fun b _ => (b, none)
  GuessSize := fun _ => 0
  MapHeaderSize := 5
  StringPrefixSize := 5

/-! ## Sink session (`sender/ftp/ftp.go`) -/

/-- A connection of the library `jlaffaye/ftp`, the value behind a `*ftp.ServerConn`. -/
abbrev Conn := Nat

/-- The constant `testFilename`. -/
def testFilename : String := ".bztest"

/-- Whether the second list starts the first. -/
def startsWith : List Char → List Char → Bool
  | _, [] => true
  | [], _ :: _ => false
  | c :: rest, p :: more => decide (c = p) && startsWith rest more

/-- Whether the second list occurs in the first. -/
def containsChars : List Char → List Char → Bool
  | [], sub => startsWith [] sub
  | c :: rest, sub => startsWith (c :: rest) sub || containsChars rest sub

/-- The function `strings.Contains`. -/
def Contains (s substr : String) : Bool := containsChars s.data substr.data

/-- What the sink does, with the result the library returned: the session mutex, the
remote commands on a connection, the wait of the retrier and the exit of the
process. A store has the bytes the reader held and how many of them were taken. -/
inductive SinkEvent where
  | lock
  | unlock
  | dial (host : String) (r : Except String Conn)
  | login (c : Conn) (user password : String) (err : Option String)
  | changeDir (c : Conn) (path : String) (err : Option String)
  | stor (c : Conn) (name : String) (offered : Bytes) (taken : Nat) (err : Option String)
  | delete (c : Conn) (name : String) (err : Option String)
  | noop (c : Conn) (err : Option String)
  | quit (c : Conn) (err : Option String)
  | logout (c : Conn) (err : Option String)
  | sleep (d : Int) (err : Option String)
  | fatal (text : String)
deriving DecidableEq, Repr

/-- The library `jlaffaye/ftp` and the wait of the retrier, on the world state. A
store is given the unread bytes of its reader and says how many it took; a wait
returns the error of the context when the context is done first. -/
structure FTPDeps (σ : Type) where
  DialTimeout : String → σ → Except String Conn × σ
  Login : Conn → String → String → σ → Option String × σ
  ChangeDir : Conn → String → σ → Option String × σ
  Stor : Conn → String → Bytes → σ → (Option String × Nat) × σ
  Delete : Conn → String → σ → Option String × σ
  NoOp : Conn → σ → Option String × σ
  Quit : Conn → σ → Option String × σ
  Logout : Conn → σ → Option String × σ
  Sleep : Int → σ → Option String × σ

/-- The type `ftp.Sender`: the configuration, the connection and the backoff of
the retrier, if one is configured. -/
structure Sender where
  cfg : Config := {}
  conn : Conn := 0
  retry : Option (List Int) := none
deriving DecidableEq, Repr

/-- A `time.Duration`, an `int64`, after an arithmetic operation. -/
def wrapDuration (d : Int) : Int := (d + 2 ^ 63) % 2 ^ 64 - 2 ^ 63

/-- The function `retrier.ExponentialBackoff`: `n` waits, each twice the one before. -/
def ExponentialBackoff : Nat → Int → List Int
  | 0, _ => []
  | n + 1, initialAmount => initialAmount :: ExponentialBackoff n (wrapDuration (initialAmount * 2))

/-- The reader of a store after the connection took `taken` of its bytes: the
offset moves on, and a buffer read to its end is reset. -/
def Buffer.WriteTo (b : Buffer) (taken : Nat) : Buffer :=
  if taken ≥ b.Len then { buf := [], off := 0 } else { b with off := b.off + taken }

section Sink

variable {σ : Type}

/-- The method `Sender.connect`: dial, and keep the connection when there is one. -/
def Sender.connect (d : FTPDeps σ) (s : Sender) (w : σ) :
    Option String × Sender × List SinkEvent × σ :=
  let r := d.DialTimeout s.cfg.FTP.Host w
  match r.1 with
  | .error err => (some err, s, [.dial s.cfg.FTP.Host (.error err)], r.2)
  | .ok c => (none, { s with conn := c }, [.dial s.cfg.FTP.Host (.ok c)], r.2)

/-- The method `Sender.login`. -/
def Sender.login (d : FTPDeps σ) (s : Sender) (w : σ) : Option String × List SinkEvent × σ :=
  let r := d.Login s.conn s.cfg.FTP.Username s.cfg.FTP.Password w
  (r.1, [.login s.conn s.cfg.FTP.Username s.cfg.FTP.Password r.1], r.2)

/-- The method `Sender.disconnect`. -/
def Sender.disconnect (d : FTPDeps σ) (s : Sender) (w : σ) :
    Option String × List SinkEvent × σ :=
  let r := d.Quit s.conn w
  (r.1, [.quit s.conn r.1], r.2)

/-- The method `Sender.checkPath`: change into the configured directory, then write
and delete the test file; an error of the delete is only logged. -/
def Sender.checkPath (d : FTPDeps σ) (s : Sender) (w : σ) :
    Option String × List SinkEvent × σ :=
  let c := d.ChangeDir s.conn s.cfg.FTP.Path w
  match c.1 with
  | some err => (some err, [.changeDir s.conn s.cfg.FTP.Path (some err)], c.2)
  | none =>
    let t := d.Stor s.conn testFilename (NewBufferString "testing").Bytes c.2
    match t.1.1 with
    | some err =>
      (some err,
        [.changeDir s.conn s.cfg.FTP.Path none,
         .stor s.conn testFilename (NewBufferString "testing").Bytes t.1.2 (some err)], t.2)
    | none =>
      let r := d.Delete s.conn testFilename t.2
      (none,
        [.changeDir s.conn s.cfg.FTP.Path none,
         .stor s.conn testFilename (NewBufferString "testing").Bytes t.1.2 none,
         .delete s.conn testFilename r.1], r.2)

/-- The method `Sender.reconnect`: disconnect, whose error is only logged, then
connect and log in. -/
def Sender.reconnect (d : FTPDeps σ) (s : Sender) (w : σ) :
    Option String × Sender × List SinkEvent × σ :=
  let q := s.disconnect d w
  let c := s.connect d q.2.2
  match c.1 with
  | some err => (some err, c.2.1, q.2.1 ++ c.2.2.1, c.2.2.2)
  | none =>
    let l := c.2.1.login d c.2.2.2
    (l.1, c.2.1, q.2.1 ++ c.2.2.1 ++ l.2.1, l.2.2)

/-- The function `NewFTPSender`: configure the retrier, connect, log in and check
the path; the connection is quit when the login or the check fails. The start of
the keep-alive task is left to the caller of this function. -/
def NewFTPSender (d : FTPDeps σ) (cfg : Config) (w : σ) :
    Except String Sender × List SinkEvent × σ :=
  let s : Sender :=
    { cfg := cfg
      retry := if cfg.FTP.SendRetires > 0
        then some (ExponentialBackoff cfg.FTP.SendRetires.toNat 500000000) else none }
  let c := s.connect d w
  match c.1 with
  | some err => (.error err, c.2.2.1, c.2.2.2)
  | none =>
    let l := c.2.1.login d c.2.2.2
    match l.1 with
    | some err =>
      let q := d.Quit c.2.1.conn l.2.2
      (.error err, c.2.2.1 ++ l.2.1 ++ [.quit c.2.1.conn q.1], q.2)
    | none =>
      let p := c.2.1.checkPath d l.2.2
      match p.1 with
      | some err =>
        let q := d.Quit c.2.1.conn p.2.2
        (.error err, c.2.2.1 ++ l.2.1 ++ p.2.1 ++ [.quit c.2.1.conn q.1], q.2)
      | none => (.ok c.2.1, c.2.2.1 ++ l.2.1 ++ p.2.1, p.2.2)

/-- The state of one `Send`: the sender, the reader of the artifact and the world. -/
structure SendState (σ : Type) where
  sender : Sender
  data : Buffer
  world : σ

/-- One store attempt of `Send`: store the artifact from its reader; after an error
whose text contains `broken pipe` reconnect, and end the process when that fails.
The result is the error of the store. -/
def Sender.attempt (d : FTPDeps σ) (filename : String) (st : SendState σ) :
    Outcome (Option String) × List SinkEvent × SendState σ :=
  let r := d.Stor st.sender.conn filename st.data.Bytes st.world
  let ev := SinkEvent.stor st.sender.conn filename st.data.Bytes r.1.2 r.1.1
  let st1 : SendState σ := { st with data := st.data.WriteTo r.1.2, world := r.2 }
  match r.1.1 with
  | none => (.done none, [ev], st1)
  | some storErr =>
    if Contains storErr "broken pipe" then
      let rc := st1.sender.reconnect d st1.world
      let st2 : SendState σ := { st1 with sender := rc.2.1, world := rc.2.2.2 }
      match rc.1 with
      | some _ =>
        (.panic "FTP reconnect error", [ev] ++ rc.2.2.1 ++ [.fatal "FTP reconnect error"], st2)
      | none => (.done (some storErr), [ev] ++ rc.2.2.1, st2)
    else (.done (some storErr), [ev], st1)

/-- The method `Retrier.RunCtx` with the default classifier, on the waits that are
left: run the work; return its result when it is nil or no wait is left; otherwise
wait, return the error of the context when it is done, and run again. -/
def RunCtx (d : FTPDeps σ) (work : SendState σ → Outcome (Option String) × List SinkEvent × SendState σ) :
    List Int → SendState σ → Outcome (Option String) × List SinkEvent × SendState σ
  | backoff, st =>
    let r := work st
    match r.1 with
    | .panic text => (.panic text, r.2.1, r.2.2)
    | .done none => (.done none, r.2.1, r.2.2)
    | .done (some ret) =>
      match backoff with
      | [] => (.done (some ret), r.2.1, r.2.2)
      | wait :: rest =>
        let sl := d.Sleep wait r.2.2.world
        match sl.1 with
        | some err =>
          (.done (some err), r.2.1 ++ [.sleep wait (some err)], { r.2.2 with world := sl.2 })
        | none =>
          let more := RunCtx d work rest { r.2.2 with world := sl.2 }
          (more.1, r.2.1 ++ [.sleep wait none] ++ more.2.1, more.2.2)

/-- The method `Sender.Send`: under the mutex, store the artifact through the
retrier when one is configured, and once otherwise. -/
def Sender.Send (d : FTPDeps σ) (s : Sender) (data : Output) (w : σ) :
    Outcome (Option String) × List SinkEvent × SendState σ :=
  let st : SendState σ := { sender := s, data := data.Data, world := w }
  let r :=
    match s.retry with
    | some backoff => RunCtx d (Sender.attempt d data.Filename) backoff st
    | none => Sender.attempt d data.Filename st
  match r.1 with
  | .panic text => (.panic text, [.lock] ++ r.2.1, r.2.2)
  | .done err => (.done err, [.lock] ++ r.2.1 ++ [.unlock], r.2.2)

/-- The method `Sender.Status`: a no-op command under the mutex. -/
def Sender.Status (d : FTPDeps σ) (s : Sender) (w : σ) : Option String × List SinkEvent × σ :=
  let r := d.NoOp s.conn w
  (r.1, [.lock, .noop s.conn r.1, .unlock], r.2)

/-- One turn of the loop of `Sender.startKeepAlive`, after a tick: a no-op command
under the mutex, whose error is only logged. -/
def Sender.keepAlive (d : FTPDeps σ) (s : Sender) (w : σ) : List SinkEvent × σ :=
  let r := d.NoOp s.conn w
  ([.lock, .noop s.conn r.1, .unlock], r.2)

/-- The method `Sender.Close`: log out, whose error is only logged, and disconnect. -/
def Sender.Close (d : FTPDeps σ) (s : Sender) (w : σ) : Option String × List SinkEvent × σ :=
  let l := d.Logout s.conn w
  let q := s.disconnect d l.2
  (q.1, [.logout s.conn l.1] ++ q.2.1, q.2.2)

end Sink

/-- The states of the session lifecycle, with the state inside `check_path` after
the change of directory. -/
inductive SessionState where
  | Disconnected
  | Connected
  | Authenticated
  | InDirectory
  | Ready
deriving DecidableEq, Repr

/-- The session state after one event: a dial that succeeds gives a connected
session; a login that succeeds on it an authenticated one; the change into the
configured directory and the store of the test file make it ready; a quit
disconnects it. Every other event leaves the state as it is. -/
def sessionStep (cfg : Config) (state : SessionState) (event : SinkEvent) : SessionState :=
  match event with
  | .dial _ (.ok _) => .Connected
  | .login _ _ _ none => if state = .Connected then .Authenticated else state
  | .changeDir _ path none =>
    if state = .Authenticated ∧ path = cfg.FTP.Path then .InDirectory else state
  | .stor _ name _ _ none =>
    if state = .InDirectory ∧ name = testFilename then .Ready else state
  | .quit _ _ => .Disconnected
  | _ => state

/-- The session state after a history of events, from a disconnected session. -/
def sessionAfter (cfg : Config) (history : List SinkEvent) : SessionState :=
  history.foldl (sessionStep cfg) .Disconnected

/-- The stores of an artifact in a history, each with the state of the session it
was attempted from. -/
def storeStates (cfg : Config) : SessionState → List SinkEvent → List SessionState
  | _, [] => []
  | state, event :: rest =>
    match event with
    | .stor _ name _ _ _ =>
      if name = testFilename then storeStates cfg (sessionStep cfg state event) rest
      else state :: storeStates cfg (sessionStep cfg state event) rest
    | _ => storeStates cfg (sessionStep cfg state event) rest

/-- The bytes each store of a history was given, in order. -/
def offeredBytes : List SinkEvent → List Bytes
  | [] => []
  | .stor _ _ offered _ _ :: rest => offered :: offeredBytes rest
  | _ :: rest => offeredBytes rest

/-- The errors of the stores of a history, in order. -/
def storErrors : List SinkEvent → List (Option String)
  | [] => []
  | .stor _ _ _ _ err :: rest => err :: storErrors rest
  | _ :: rest => storErrors rest

/-- The number of disconnects in a history: one for every reconnect. -/
def reconnects : List SinkEvent → Nat
  | [] => 0
  | .quit _ _ :: rest => reconnects rest + 1
  | _ :: rest => reconnects rest

/-- The errors of the waits of a history that the context ended, in order. -/
def cancelledWaits : List SinkEvent → List String
  | [] => []
  | .sleep _ (some err) :: rest => err :: cancelledWaits rest
  | _ :: rest => cancelledWaits rest

/-- Whether a store failed with an error whose text contains `broken pipe`. -/
def brokenPipe (err : Option String) : Bool :=
  match err with
  | some text => Contains text "broken pipe"
  | none => false

/-- Whether the disconnects of a history are where the reconnects of `Send` put
them: one right after every store that failed with `broken pipe`, and none
anywhere else. -/
def reconnectPlaced : List SinkEvent → Bool
  | [] => true
  | .stor _ _ _ _ err :: rest =>
    if brokenPipe err then
      match rest with
      | .quit _ _ :: more => reconnectPlaced more
      | _ => false
    else reconnectPlaced rest
  | .quit _ _ :: _ => false
  | _ :: rest => reconnectPlaced rest

/-- The five ways one store attempt can go, with the events of each. -/
inductive AttemptShape : Outcome (Option String) → List SinkEvent → Prop where
  | stored (c : Conn) (name : String) (offered : Bytes) (taken : Nat) :
      AttemptShape (.done none) [.stor c name offered taken none]
  | failed (c : Conn) (name : String) (offered : Bytes) (taken : Nat) (text : String)
      (plain : brokenPipe (some text) = false) :
      AttemptShape (.done (some text)) [.stor c name offered taken (some text)]
  | reconnected (c : Conn) (name : String) (offered : Bytes) (taken : Nat) (text : String)
      (broken : brokenPipe (some text) = true) (quitErr : Option String) (host : String)
      (c1 : Conn) (user password : String) :
      AttemptShape (.done (some text))
        [.stor c name offered taken (some text), .quit c quitErr, .dial host (.ok c1),
         .login c1 user password none]
  | dialFailed (c : Conn) (name : String) (offered : Bytes) (taken : Nat) (text : String)
      (broken : brokenPipe (some text) = true) (quitErr : Option String) (host : String)
      (dialErr : String) :
      AttemptShape (.panic "FTP reconnect error")
        [.stor c name offered taken (some text), .quit c quitErr, .dial host (.error dialErr),
         .fatal "FTP reconnect error"]
  | loginFailed (c : Conn) (name : String) (offered : Bytes) (taken : Nat) (text : String)
      (broken : brokenPipe (some text) = true) (quitErr : Option String) (host : String)
      (c1 : Conn) (user password : String) (loginErr : String) :
      AttemptShape (.panic "FTP reconnect error")
        [.stor c name offered taken (some text), .quit c quitErr, .dial host (.ok c1),
         .login c1 user password (some loginErr), .fatal "FTP reconnect error"]

/-- One store attempt of `Send` on the connection `c`, as the specification words
it, with the connection it leaves: the store succeeds; or it fails with an error
without `broken pipe`; or it fails with `broken pipe` and the sink disconnects
`c`, connects to the configured host and logs in on the new connection with the
configured credentials; or the connect of that reconnect fails, or its login, and
the process ends. -/
inductive AttemptOn (cfg : Config) (name : String) (c : Conn) :
    Outcome (Option String) → List SinkEvent → Conn → Prop where
  | stored (offered : Bytes) (taken : Nat) :
      AttemptOn cfg name c (.done none) [.stor c name offered taken none] c
  | failed (offered : Bytes) (taken : Nat) (text : String)
      (plain : brokenPipe (some text) = false) :
      AttemptOn cfg name c (.done (some text)) [.stor c name offered taken (some text)] c
  | reconnected (offered : Bytes) (taken : Nat) (text : String)
      (broken : brokenPipe (some text) = true) (quitErr : Option String) (c1 : Conn) :
      AttemptOn cfg name c (.done (some text))
        [.stor c name offered taken (some text), .quit c quitErr, .dial cfg.FTP.Host (.ok c1),
         .login c1 cfg.FTP.Username cfg.FTP.Password none] c1
  | dialFailed (offered : Bytes) (taken : Nat) (text : String)
      (broken : brokenPipe (some text) = true) (quitErr : Option String) (dialErr : String) :
      AttemptOn cfg name c (.panic "FTP reconnect error")
        [.stor c name offered taken (some text), .quit c quitErr,
         .dial cfg.FTP.Host (.error dialErr), .fatal "FTP reconnect error"] c
  | loginFailed (offered : Bytes) (taken : Nat) (text : String)
      (broken : brokenPipe (some text) = true) (quitErr : Option String) (c1 : Conn)
      (loginErr : String) :
      AttemptOn cfg name c (.panic "FTP reconnect error")
        [.stor c name offered taken (some text), .quit c quitErr, .dial cfg.FTP.Host (.ok c1),
         .login c1 cfg.FTP.Username cfg.FTP.Password (some loginErr),
         .fatal "FTP reconnect error"] c1

/-- The store attempts of `Send` through the retrier, from the connection `c` and
with the waits that are left, as the specification words them: an attempt is the
last one when it succeeds, when its reconnect fails, or when no wait is left;
otherwise the retrier waits, and the context ends the wait with its error, or the
attempts go on from the connection the attempt left. -/
inductive Attempts (cfg : Config) (name : String) :
    Conn → List Int → Outcome (Option String) → List SinkEvent → Prop where
  | stored (c : Conn) (backoff : List Int) (tr : List SinkEvent) (c1 : Conn)
      (once : AttemptOn cfg name c (.done none) tr c1) :
      Attempts cfg name c backoff (.done none) tr
  | ended (c : Conn) (backoff : List Int) (text : String) (tr : List SinkEvent) (c1 : Conn)
      (once : AttemptOn cfg name c (.panic text) tr c1) :
      Attempts cfg name c backoff (.panic text) tr
  | exhausted (c : Conn) (text : String) (tr : List SinkEvent) (c1 : Conn)
      (once : AttemptOn cfg name c (.done (some text)) tr c1) :
      Attempts cfg name c [] (.done (some text)) tr
  | cancelled (c : Conn) (wait : Int) (rest : List Int) (text : String) (tr : List SinkEvent)
      (c1 : Conn) (err : String) (once : AttemptOn cfg name c (.done (some text)) tr c1) :
      Attempts cfg name c (wait :: rest) (.done (some err)) (tr ++ [.sleep wait (some err)])
  | retried (c : Conn) (wait : Int) (rest : List Int) (text : String) (tr : List SinkEvent)
      (c1 : Conn) (res : Outcome (Option String)) (more : List SinkEvent)
      (once : AttemptOn cfg name c (.done (some text)) tr c1)
      (next : Attempts cfg name c1 rest res more) :
      Attempts cfg name c (wait :: rest) res (tr ++ .sleep wait none :: more)

/-- A connect or a login that failed. -/
def reconnectFailed : SinkEvent → Bool
  | .dial _ (.error _) => true
  | .login _ _ _ (some _) => true
  | _ => false

/-! ## Concrete sink sessions -/

/-- A scripted endpoint: the results of the artifact stores and of the waits still
to come, and the number of connections made. -/
structure SinkScript where
  stores : List (Option String) := []
  waits : List (Option String) := []
  dials : Nat := 0
deriving DecidableEq, Repr

/-- The library over a scripted endpoint: every command succeeds but the artifact
stores and the waits, which follow the script; a store takes all the bytes of
its reader before it returns. -/
def scriptedFTP : FTPDeps SinkScript where
  DialTimeout := fun _ w => (.ok (w.dials + 1), { w with dials := w.dials + 1 })
  Login := fun _ _ _ w => (none, w)
  ChangeDir := fun _ _ w => (none, w)
  Stor := fun _ name offered w =>
    if name = testFilename then ((none, offered.length), w)
    else ((w.stores.head?.join, offered.length), { w with stores := w.stores.tail })
  Delete := fun _ _ w => (none, w)
  NoOp := fun _ w => (none, w)
  Quit := fun _ w => (none, w)
  Logout := fun _ w => (none, w)
  Sleep := fun _ w => (w.waits.head?.join, { w with waits := w.waits.tail })

/-- A configuration of the sink with two retries. -/
def sinkConfig : Config :=
  { FTP := { Host := "ftp.example.com:21", Username := "bz", Password := "secret",
             Path := "/incoming", SendRetires := 2 } }

/-- The sender `NewFTPSender` builds for `sinkConfig` on the first connection. -/
def sinkSender : Sender :=
  { cfg := sinkConfig, conn := 1, retry := some [500000000, 1000000000] }

/-- An artifact of six bytes. -/
def sinkArtifact : Output :=
  { Filename := "7_20060102T150405Z.xml", Data := NewBufferString "<rss/>", Size := 6 }

/-- An endpoint whose first artifact store fails with `broken pipe` and whose
second one succeeds. -/
def brokenPipeOnce : SinkScript := { stores := [some "write tcp: broken pipe", none] }

/-- An endpoint whose first artifact store times out, with a context that ends
the wait before the second attempt. -/
def cancelledWait : SinkScript :=
  { stores := [some "i/o timeout"], waits := [some "context canceled"] }

/-- A library over the scripted endpoint that refuses every new connection. -/
def refusingFTP : FTPDeps SinkScript :=
  { scriptedFTP with DialTimeout := fun _ w => (.error "dial tcp: connection refused", w) }

/-! # Properties -/

section WorkerLemmas

variable {σ : Type}

theorem recordFTPDelivery_trace (d : Deps σ) (cfg : Config) (o : Output) (event : Event) (s : σ) :
    ∃ record ws, (recordFTPDelivery d cfg o event s).2.1 = Effect.audit record :: ws ∧
      record.Filename = o.Filename ∧ record.SHA256Checksum = o.Checksum ∧
      record.SizeBytes = o.Size ∧ ∀ x ∈ ws, x.isWrite = true := by
  unfold recordFTPDelivery
  dsimp only
  split
  · exact ⟨_, [], rfl, rfl, rfl, rfl, by simp⟩
  · split
    · exact ⟨_, [], rfl, rfl, rfl, rfl, by simp⟩
    · split
      · exact ⟨_, _, rfl, rfl, rfl, rfl, by simp [Effect.isWrite]⟩
      · exact ⟨_, _, rfl, rfl, rfl, rfl, by simp [Effect.isWrite]⟩

/-- The three shapes of a `processAndSend` trace: the transform failed, the send
failed, or the artifact was sent and its audit record attempted. -/
theorem processAndSend_trace (d : Deps σ) (cfg : Config) (event : Event) (s : σ) :
    (∃ err, (processAndSend d cfg event s).1 = some err ∧
        (processAndSend d cfg event s).2.1 = [Effect.convert event (.error err)]) ∨
    (∃ o err, (processAndSend d cfg event s).1 = some err ∧
        (processAndSend d cfg event s).2.1 =
          [Effect.convert event (.ok o), Effect.send o (some err)]) ∨
    (∃ o record ws, (processAndSend d cfg event s).1 = none ∧
        (processAndSend d cfg event s).2.1 =
          Effect.convert event (.ok o) :: Effect.send o none :: Effect.audit record :: ws ∧
        record.Filename = o.Filename ∧ record.SHA256Checksum = o.Checksum ∧
        record.SizeBytes = o.Size ∧ ∀ x ∈ ws, x.isWrite = true) := by
  unfold processAndSend
  dsimp only
  split
  · exact Or.inl ⟨_, rfl, rfl⟩
  · rename_i output _
    split
    · exact Or.inr (Or.inl ⟨_, _, rfl, rfl⟩)
    · obtain ⟨record, ws, h, h1, h2, h3, h4⟩ :=
        recordFTPDelivery_trace d cfg output event (d.Send output (d.Convert event s).2).2
      refine Or.inr (Or.inr ⟨output, record, ws, rfl, ?_, h1, h2, h3, h4⟩)
      simp [h]

theorem acceptedEventsLoop_nil (d : Deps σ) (cfg : Config) (event : Event) (m : Bool) (s : σ) :
    acceptedEventsLoop d cfg event [] m s = (some m, [], s) := rfl

theorem acceptedEventsLoop_skip (d : Deps σ) (cfg : Config) (event : Event) (a : EventType)
    (rest : List EventType) (m : Bool) (s : σ) (h : event.Event ≠ a) :
    acceptedEventsLoop d cfg event (a :: rest) m s = acceptedEventsLoop d cfg event rest m s := by
  simp [acceptedEventsLoop, h]

theorem acceptedEventsLoop_fail (d : Deps σ) (cfg : Config) (event : Event) (a : EventType)
    (rest : List EventType) (m : Bool) (s : σ) (h : event.Event = a) (err : String)
    (hp : (processAndSend d cfg event s).1 = some err) :
    acceptedEventsLoop d cfg event (a :: rest) m s =
      (none, (processAndSend d cfg event s).2.1 ++ [Effect.inc .ContentSendErrors (kafkaLabels cfg)],
        (processAndSend d cfg event s).2.2) := by
  simp [acceptedEventsLoop, h, hp]

theorem acceptedEventsLoop_sent (d : Deps σ) (cfg : Config) (event : Event) (a : EventType)
    (rest : List EventType) (m : Bool) (s : σ) (h : event.Event = a)
    (hp : (processAndSend d cfg event s).1 = none) :
    acceptedEventsLoop d cfg event (a :: rest) m s =
      ((acceptedEventsLoop d cfg event rest true (processAndSend d cfg event s).2.2).1,
        (processAndSend d cfg event s).2.1 ++
          (acceptedEventsLoop d cfg event rest true (processAndSend d cfg event s).2.2).2.1,
        (acceptedEventsLoop d cfg event rest true (processAndSend d cfg event s).2.2).2.2) := by
  simp [acceptedEventsLoop, h, hp]

/-- An event kind that is not accepted leaves the loop without any effect. -/
theorem acceptedEventsLoop_not_mem (d : Deps σ) (cfg : Config) (event : Event) :
    ∀ (acc : List EventType) (m : Bool) (s : σ), event.Event ∉ acc →
      acceptedEventsLoop d cfg event acc m s = (some m, [], s) := by
  intro acc
  induction acc with
  | nil => intro m s _; rfl
  | cons a rest ih =>
    intro m s h
    have ha : event.Event ≠ a := fun e => h (by simp [e])
    have hr : event.Event ∉ rest := fun e => h (by simp [e])
    rw [acceptedEventsLoop_skip d cfg event a rest m s ha]
    exact ih m s hr

/-- The effects of the loop are delivery steps and the count of a send error. -/
theorem acceptedEventsLoop_effects (d : Deps σ) (cfg : Config) (event : Event) :
    ∀ (acc : List EventType) (m : Bool) (s : σ),
      ∀ x ∈ (acceptedEventsLoop d cfg event acc m s).2.1,
        x.isDelivery = true ∨ x = Effect.inc .ContentSendErrors (kafkaLabels cfg) := by
  intro acc
  induction acc with
  | nil => intro m s x hx; simp [acceptedEventsLoop_nil] at hx
  | cons a rest ih =>
    intro m s x hx
    by_cases ha : event.Event = a
    · have hw : ∀ ws : List Effect, (∀ y ∈ ws, y.isWrite = true) → ∀ y ∈ ws, y.isDelivery = true := by
        intro ws h y hy
        have := h y hy
        cases y <;> simp_all [Effect.isWrite, Effect.isDelivery]
      rcases processAndSend_trace d cfg event s with
        ⟨err, h1, h2⟩ | ⟨o, err, h1, h2⟩ | ⟨o, record, ws, h1, h2, -, -, -, h6⟩
      · rw [acceptedEventsLoop_fail d cfg event a rest m s ha err h1, h2] at hx
        simp at hx
        rcases hx with rfl | rfl <;> simp [Effect.isDelivery]
      · rw [acceptedEventsLoop_fail d cfg event a rest m s ha err h1, h2] at hx
        simp at hx
        rcases hx with rfl | rfl | rfl <;> simp [Effect.isDelivery]
      · rw [acceptedEventsLoop_sent d cfg event a rest m s ha h1, h2] at hx
        simp at hx
        rcases hx with rfl | rfl | rfl | hx | hx
        · simp [Effect.isDelivery]
        · simp [Effect.isDelivery]
        · simp [Effect.isDelivery]
        · exact Or.inl (hw ws h6 x hx)
        · exact ih _ _ x hx
    · rw [acceptedEventsLoop_skip d cfg event a rest m s ha] at hx
      exact ih m s x hx

/-- The loop never commits. -/
theorem acceptedEventsLoop_no_commit (d : Deps σ) (cfg : Config) (event : Event)
    (acc : List EventType) (m : Bool) (s : σ) :
    ∀ x ∈ (acceptedEventsLoop d cfg event acc m s).2.1, x.isCommit = false := by
  intro x hx
  rcases acceptedEventsLoop_effects d cfg event acc m s x hx with h | rfl
  · cases x <;> simp_all [Effect.isDelivery, Effect.isCommit]
  · rfl

theorem isWrite_isDelivery (ws : List Effect) (h : ∀ y ∈ ws, y.isWrite = true) :
    ∀ y ∈ ws, y.isDelivery = true ∧ y.isFailure = false := by
  intro y hy
  have := h y hy
  cases y <;> simp_all [Effect.isWrite, Effect.isDelivery, Effect.isFailure]

/-- Every effect of `processAndSend` is a delivery step. -/
theorem processAndSend_delivery (d : Deps σ) (cfg : Config) (event : Event) (s : σ) :
    ∀ x ∈ (processAndSend d cfg event s).2.1, x.isDelivery = true := by
  intro x hx
  rcases processAndSend_trace d cfg event s with
    ⟨err, -, h2⟩ | ⟨o, err, -, h2⟩ | ⟨o, record, ws, -, h2, -, -, -, h6⟩
  · rw [h2] at hx; simp at hx; subst hx; rfl
  · rw [h2] at hx; simp at hx
    rcases hx with rfl | rfl <;> rfl
  · rw [h2] at hx; simp at hx
    rcases hx with rfl | rfl | rfl | hx
    · rfl
    · rfl
    · rfl
    · exact (isWrite_isDelivery ws h6 x hx).1

/-- A `processAndSend` that reports success holds no failed transform or send, and
holds the successful send of the artifact it converted. -/
theorem processAndSend_ok (d : Deps σ) (cfg : Config) (event : Event) (s : σ)
    (h : (processAndSend d cfg event s).1 = none) :
    (∀ x ∈ (processAndSend d cfg event s).2.1, x.isFailure = false) ∧
    ∃ o, Effect.convert event (.ok o) ∈ (processAndSend d cfg event s).2.1 ∧
      Effect.send o none ∈ (processAndSend d cfg event s).2.1 := by
  rcases processAndSend_trace d cfg event s with
    ⟨err, h1, -⟩ | ⟨o, err, h1, -⟩ | ⟨o, record, ws, -, h2, -, -, -, h6⟩
  · rw [h] at h1; cases h1
  · rw [h] at h1; cases h1
  · rw [h2]
    refine ⟨?_, o, by simp, by simp⟩
    intro x hx
    simp at hx
    rcases hx with rfl | rfl | rfl | hx
    · rfl
    · rfl
    · rfl
    · exact (isWrite_isDelivery ws h6 x hx).2

/-- A `processAndSend` that reports an error holds a failed transform or send. -/
theorem processAndSend_error (d : Deps σ) (cfg : Config) (event : Event) (s : σ) (err : String)
    (h : (processAndSend d cfg event s).1 = some err) :
    ∃ x ∈ (processAndSend d cfg event s).2.1, x.isFailure = true := by
  rcases processAndSend_trace d cfg event s with
    ⟨e, -, h2⟩ | ⟨o, e, -, h2⟩ | ⟨o, record, ws, h1, -, -, -, -, -⟩
  · rw [h2]; exact ⟨Effect.convert event (.error e), by simp, rfl⟩
  · rw [h2]; exact ⟨Effect.send o (some e), by simp, rfl⟩
  · rw [h] at h1; cases h1

theorem count_sendErrors_delivery (cfg : Config) (t : List Effect)
    (h : ∀ x ∈ t, x.isDelivery = true) :
    t.count (Effect.inc .ContentSendErrors (kafkaLabels cfg)) = 0 := by
  rw [List.count_eq_zero]
  intro hm
  have := h _ hm
  simp [Effect.isDelivery] at this

/-- A loop that runs to its end: no transform or send failed, no send error was
counted, `match` is set exactly when the event kind is accepted, and then an
artifact was converted and sent. -/
theorem acceptedEventsLoop_completed (d : Deps σ) (cfg : Config) (event : Event) :
    ∀ (acc : List EventType) (m : Bool) (s : σ) (b : Bool),
      (acceptedEventsLoop d cfg event acc m s).1 = some b →
      (∀ x ∈ (acceptedEventsLoop d cfg event acc m s).2.1, x.isFailure = false) ∧
      (acceptedEventsLoop d cfg event acc m s).2.1.count
        (Effect.inc .ContentSendErrors (kafkaLabels cfg)) = 0 ∧
      b = (m || decide (event.Event ∈ acc)) ∧
      (event.Event ∈ acc → ∃ o,
        Effect.convert event (.ok o) ∈ (acceptedEventsLoop d cfg event acc m s).2.1 ∧
        Effect.send o none ∈ (acceptedEventsLoop d cfg event acc m s).2.1) := by
  intro acc
  induction acc with
  | nil =>
    intro m s b h
    simp [acceptedEventsLoop_nil] at h ⊢
    exact h.symm
  | cons a rest ih =>
    intro m s b h
    by_cases ha : event.Event = a
    · cases hp : (processAndSend d cfg event s).1 with
      | some err =>
        rw [acceptedEventsLoop_fail d cfg event a rest m s ha err hp] at h
        cases h
      | none =>
        rw [acceptedEventsLoop_sent d cfg event a rest m s ha hp] at h ⊢
        obtain ⟨i1, i2, i3, -⟩ := ih true _ b h
        obtain ⟨p1, o, p2, p3⟩ := processAndSend_ok d cfg event s hp
        refine ⟨?_, ?_, ?_, ?_⟩
        · intro x hx
          rcases List.mem_append.1 hx with hx | hx
          · exact p1 x hx
          · exact i1 x hx
        · rw [List.count_append, i2,
            count_sendErrors_delivery cfg _ (processAndSend_delivery d cfg event s)]
        · simp [i3, ha]
        · intro _
          exact ⟨o, List.mem_append.2 (Or.inl p2), List.mem_append.2 (Or.inl p3)⟩
    · rw [acceptedEventsLoop_skip d cfg event a rest m s ha] at h ⊢
      obtain ⟨i1, i2, i3, i4⟩ := ih m s b h
      refine ⟨i1, i2, ?_, ?_⟩
      · simp [i3, ha]
      · intro hm
        simp [ha] at hm
        exact i4 hm

/-- A loop left through `continue work`: a transform or a send failed, one send
error was counted, and it is the last effect. -/
theorem acceptedEventsLoop_aborted (d : Deps σ) (cfg : Config) (event : Event) :
    ∀ (acc : List EventType) (m : Bool) (s : σ),
      (acceptedEventsLoop d cfg event acc m s).1 = none →
      (∃ x ∈ (acceptedEventsLoop d cfg event acc m s).2.1, x.isFailure = true) ∧
      (acceptedEventsLoop d cfg event acc m s).2.1.count
        (Effect.inc .ContentSendErrors (kafkaLabels cfg)) = 1 := by
  intro acc
  induction acc with
  | nil =>
    intro m s h
    simp [acceptedEventsLoop_nil] at h
  | cons a rest ih =>
    intro m s h
    by_cases ha : event.Event = a
    · cases hp : (processAndSend d cfg event s).1 with
      | some err =>
        rw [acceptedEventsLoop_fail d cfg event a rest m s ha err hp]
        obtain ⟨x, hx, hf⟩ := processAndSend_error d cfg event s err hp
        refine ⟨⟨x, List.mem_append.2 (Or.inl hx), hf⟩, ?_⟩
        rw [List.count_append,
          count_sendErrors_delivery cfg _ (processAndSend_delivery d cfg event s)]
        simp
      | none =>
        rw [acceptedEventsLoop_sent d cfg event a rest m s ha hp] at h ⊢
        obtain ⟨⟨x, hx, hf⟩, i2⟩ := ih true _ h
        refine ⟨⟨x, List.mem_append.2 (Or.inr hx), hf⟩, ?_⟩
        rw [List.count_append, i2,
          count_sendErrors_delivery cfg _ (processAndSend_delivery d cfg event s)]
    · rw [acceptedEventsLoop_skip d cfg event a rest m s ha] at h ⊢
      exact ih m s h

/-! ### The paths through `processEvent` and `processMessage` -/

theorem processEvent_ignored (d : Deps σ) (cfg : Config) (workStart : Time) (msg : Message)
    (event : Event) (s : σ) (hi : ignoreFilter cfg event = true) :
    processEvent d cfg workStart msg event s =
      ([Effect.inc .ContentRejected (rejectedLabels cfg "updated_before_ignore_value"),
        Effect.commit msg (d.CommitMessages msg s).1,
        Effect.inc .ContentAcknowledged (kafkaLabels cfg)], (d.CommitMessages msg s).2) := by
  simp [processEvent, hi, commitMessages]

theorem processEvent_unwanted_type (d : Deps σ) (cfg : Config) (workStart : Time) (msg : Message)
    (event : Event) (s : σ) (hi : ignoreFilter cfg event = false)
    (hk : ContentTypeMappings.lookup (ToLower event.Content.Type_) = none) :
    processEvent d cfg workStart msg event s =
      ([Effect.inc .ContentRejected (rejectedLabels cfg "unwanted_content_type"),
        Effect.commit msg (d.CommitMessages msg s).1,
        Effect.inc .ContentAcknowledged (kafkaLabels cfg)], (d.CommitMessages msg s).2) := by
  simp [processEvent, hi, hk, commitMessages]

theorem processEvent_aborted (d : Deps σ) (cfg : Config) (workStart : Time) (msg : Message)
    (event : Event) (s : σ) (hi : ignoreFilter cfg event = false) (ct : ContentType)
    (hk : ContentTypeMappings.lookup (ToLower event.Content.Type_) = some ct)
    (hl : (acceptedEventsLoop d cfg event cfg.Processor.AcceptedEvents false s).1 = none) :
    processEvent d cfg workStart msg event s =
      ((acceptedEventsLoop d cfg event cfg.Processor.AcceptedEvents false s).2.1,
        (acceptedEventsLoop d cfg event cfg.Processor.AcceptedEvents false s).2.2) := by
  simp [processEvent, hi, hk, hl]

theorem processEvent_completed (d : Deps σ) (cfg : Config) (workStart : Time) (msg : Message)
    (event : Event) (s : σ) (hi : ignoreFilter cfg event = false) (ct : ContentType)
    (hk : ContentTypeMappings.lookup (ToLower event.Content.Type_) = some ct) (m : Bool)
    (hl : (acceptedEventsLoop d cfg event cfg.Processor.AcceptedEvents false s).1 = some m) :
    processEvent d cfg workStart msg event s =
      ((acceptedEventsLoop d cfg event cfg.Processor.AcceptedEvents false s).2.1 ++
        [if m then Effect.inc .ContentSent (kafkaLabels cfg)
          else Effect.inc .ContentRejected (rejectedLabels cfg "unwanted_event_type"),
         Effect.commit msg (d.CommitMessages msg
            (acceptedEventsLoop d cfg event cfg.Processor.AcceptedEvents false s).2.2).1,
         Effect.inc .ContentAcknowledged (kafkaLabels cfg),
         Effect.observe .ContentProcessingLatency (kafkaLabels cfg) workStart
            (d.Now (d.CommitMessages msg
              (acceptedEventsLoop d cfg event cfg.Processor.AcceptedEvents false s).2.2).2)],
        (d.CommitMessages msg
          (acceptedEventsLoop d cfg event cfg.Processor.AcceptedEvents false s).2.2).2) := by
  simp [processEvent, hi, hk, hl, commitMessages]

theorem processMessage_bad_envelope (d : Deps σ) (cfg : Config) (msg : Message) (s : σ)
    (err : String) (he : d.UnmarshalEnvelope msg.Value = .error err) :
    processMessage d cfg msg s =
      ([Effect.inc .ContentAccepted (kafkaLabels cfg),
        Effect.inc .ContentReceiveErrors (kafkaLabels cfg)], s) := by
  simp [processMessage, he]

theorem processMessage_wrong_type (d : Deps σ) (cfg : Config) (msg : Message) (s : σ)
    (envelope : Envelope) (he : d.UnmarshalEnvelope msg.Value = .ok envelope)
    (ht : envelope.MessageType ≠ ContentModelsEventMsgType) :
    processMessage d cfg msg s =
      ([Effect.inc .ContentAccepted (kafkaLabels cfg),
        Effect.inc .ContentRejected (rejectedLabels cfg "invalid_evenlope_message_type"),
        Effect.commit msg (d.CommitMessages msg s).1,
        Effect.inc .ContentAcknowledged (kafkaLabels cfg)], (d.CommitMessages msg s).2) := by
  simp [processMessage, he, ht, commitMessages]

theorem processMessage_bad_event (d : Deps σ) (cfg : Config) (msg : Message) (s : σ)
    (envelope : Envelope) (he : d.UnmarshalEnvelope msg.Value = .ok envelope)
    (ht : envelope.MessageType = ContentModelsEventMsgType) (err : String)
    (hv : d.UnmarshalEvent envelope.Message = .error err) :
    processMessage d cfg msg s =
      ([Effect.inc .ContentAccepted (kafkaLabels cfg),
        Effect.inc .ContentReceiveErrors (kafkaLabels cfg)], s) := by
  simp [processMessage, he, ht, hv]

theorem processMessage_event (d : Deps σ) (cfg : Config) (msg : Message) (s : σ)
    (envelope : Envelope) (he : d.UnmarshalEnvelope msg.Value = .ok envelope)
    (ht : envelope.MessageType = ContentModelsEventMsgType) (event : Event)
    (hv : d.UnmarshalEvent envelope.Message = .ok event) :
    processMessage d cfg msg s =
      (Effect.inc .ContentAccepted (kafkaLabels cfg) ::
        (processEvent d cfg (d.Now s) msg event s).1,
        (processEvent d cfg (d.Now s) msg event s).2) := by
  simp [processMessage, he, ht, hv]

/-! ### Order of the effects -/

theorem Splits_nil (Q : List Effect → Effect → List Effect → Prop) : Splits [] Q := by
  intro pre e post h
  simp at h

theorem Splits_cons (x : Effect) (t : List Effect)
    (Q : List Effect → Effect → List Effect → Prop) :
    Splits (x :: t) Q ↔ Q [] x t ∧ Splits t (fun pre e post => Q (x :: pre) e post) := by
  constructor
  · intro h
    exact ⟨h [] x t rfl, fun pre e post hp => h (x :: pre) e post (by simp [hp])⟩
  · rintro ⟨h0, h1⟩ pre e post hp
    cases pre with
    | nil =>
      simp at hp
      obtain ⟨rfl, rfl⟩ := hp
      exact h0
    | cons y pre0 =>
      simp at hp
      obtain ⟨rfl, rfl⟩ := hp
      exact h1 pre0 e post rfl

theorem Splits_append (a b : List Effect) (Q : List Effect → Effect → List Effect → Prop) :
    Splits (a ++ b) Q ↔
      Splits a (fun pre e post => Q pre e (post ++ b)) ∧
      Splits b (fun pre e post => Q (a ++ pre) e post) := by
  induction a generalizing Q with
  | nil =>
    simp only [List.nil_append]
    exact ⟨fun h => ⟨Splits_nil _, h⟩, fun h => h.2⟩
  | cons x a ih =>
    rw [List.cons_append, Splits_cons, Splits_cons, ih]
    simp only [List.cons_append, List.nil_append, and_assoc]

theorem Splits_of_forall (t : List Effect) (Q : List Effect → Effect → List Effect → Prop)
    (h : ∀ pre e post, e ∈ t → Q pre e post) : Splits t Q := by
  intro pre e post hp
  exact h pre e post (by simp [hp])

/-- An effect that is no audit record, no successful send and no commit is in order
wherever it stands. -/
theorem Ordered_of_other (pre : List Effect) (e : Effect) (post : List Effect)
    (h1 : ∀ record, e ≠ Effect.audit record) (h2 : ∀ o, e ≠ Effect.send o none)
    (h3 : e.isCommit = false) : Ordered pre e post :=
  ⟨fun record h => absurd h (h1 record), fun o h => absurd h (h2 o),
    fun h => by rw [h3] at h; cases h⟩

theorem Ordered_prepend (p pre : List Effect) (e : Effect) (post : List Effect)
    (h : Ordered pre e post) : Ordered (p ++ pre) e post := by
  refine ⟨?_, h.2.1, h.2.2⟩
  intro record he
  obtain ⟨pre0, o, hp, hr⟩ := h.1 record he
  exact ⟨p ++ pre0, o, by simp [hp], hr⟩

theorem Ordered_append (pre : List Effect) (e : Effect) (post q : List Effect)
    (h : Ordered pre e post) (hc : e.isCommit = false) : Ordered pre e (post ++ q) := by
  refine ⟨h.1, ?_, fun h => by rw [hc] at h; cases h⟩
  intro o he
  obtain ⟨record, post0, hp, hr⟩ := h.2.1 o he
  exact ⟨record, post0 ++ q, by simp [hp], hr⟩

theorem Ordered_of_write (pre : List Effect) (e : Effect) (post : List Effect)
    (h : e.isWrite = true) : Ordered pre e post := by
  cases e <;> simp [Effect.isWrite] at h
  exact Ordered_of_other _ _ _ (by simp) (by simp) rfl

/-- The trace of `processAndSend` is in order, whatever is appended to it. -/
theorem processAndSend_ordered (d : Deps σ) (cfg : Config) (event : Event) (s : σ)
    (q : List Effect) :
    Splits (processAndSend d cfg event s).2.1 (fun pre e post => Ordered pre e (post ++ q)) := by
  rcases processAndSend_trace d cfg event s with
    ⟨err, -, h2⟩ | ⟨o, err, -, h2⟩ | ⟨o, record, ws, -, h2, h3, h4, h5, h6⟩
  · rw [h2]
    simp only [Splits_cons]
    exact ⟨Ordered_of_other _ _ _ (by simp) (by simp) rfl, Splits_nil _⟩
  · rw [h2]
    simp only [Splits_cons]
    exact ⟨Ordered_of_other _ _ _ (by simp) (by simp) rfl,
      Ordered_of_other _ _ _ (by simp) (by simp) rfl, Splits_nil _⟩
  · rw [h2]
    simp only [Splits_cons]
    refine ⟨Ordered_of_other _ _ _ (by simp) (by simp) rfl, ?_, ?_, ?_⟩
    · refine ⟨by simp, ?_, by simp [Effect.isCommit]⟩
      intro o1 ho
      cases ho
      exact ⟨record, ws ++ q, by simp, h3, h4, h5⟩
    · refine ⟨?_, by simp, by simp [Effect.isCommit]⟩
      intro r1 hr
      cases hr
      exact ⟨[Effect.convert event (.ok o)], o, by simp, h3, h4, h5⟩
    · exact Splits_of_forall _ _ (fun pre e post he => Ordered_of_write _ _ _ (h6 e he))

/-- The trace of the accepted-events loop is in order. -/
theorem acceptedEventsLoop_ordered (d : Deps σ) (cfg : Config) (event : Event) :
    ∀ (acc : List EventType) (m : Bool) (s : σ),
      Splits (acceptedEventsLoop d cfg event acc m s).2.1 Ordered := by
  intro acc
  induction acc with
  | nil => intro m s; rw [acceptedEventsLoop_nil]; exact Splits_nil _
  | cons a rest ih =>
    intro m s
    by_cases ha : event.Event = a
    · cases hp : (processAndSend d cfg event s).1 with
      | some err =>
        rw [acceptedEventsLoop_fail d cfg event a rest m s ha err hp, Splits_append]
        refine ⟨processAndSend_ordered d cfg event s _, ?_⟩
        simp only [Splits_cons]
        exact ⟨Ordered_of_other _ _ _ (by simp) (by simp) rfl, Splits_nil _⟩
      | none =>
        rw [acceptedEventsLoop_sent d cfg event a rest m s ha hp, Splits_append]
        refine ⟨processAndSend_ordered d cfg event s _, ?_⟩
        intro pre e post h
        exact Ordered_prepend _ _ _ _ (ih true _ pre e post h)
    · rw [acceptedEventsLoop_skip d cfg event a rest m s ha]
      exact ih m s

theorem Ordered_commit (pre : List Effect) (msg : Message) (r : Option String)
    (post : List Effect) (h : ∀ x ∈ post, x.isDelivery = false) :
    Ordered pre (Effect.commit msg r) post :=
  ⟨fun _ h => (by cases h), fun _ h => (by cases h), fun _ => h⟩

theorem Ordered_inc (pre : List Effect) (m : Metric) (labels : List (String × String))
    (post : List Effect) : Ordered pre (Effect.inc m labels) post :=
  Ordered_of_other _ _ _ (by simp) (by simp) rfl

theorem Ordered_observe (pre : List Effect) (m : Metric) (labels : List (String × String))
    (a b : Time) (post : List Effect) : Ordered pre (Effect.observe m labels a b) post :=
  Ordered_of_other _ _ _ (by simp) (by simp) rfl

/-- The trace of `processEvent` is in order. -/
theorem processEvent_ordered (d : Deps σ) (cfg : Config) (workStart : Time) (msg : Message)
    (event : Event) (s : σ) : Splits (processEvent d cfg workStart msg event s).1 Ordered := by
  cases hi : ignoreFilter cfg event with
  | true =>
    rw [processEvent_ignored d cfg workStart msg event s hi]
    simp only [Splits_cons]
    exact ⟨Ordered_inc _ _ _ _, Ordered_commit _ _ _ _ (by simp [Effect.isDelivery]),
      Ordered_inc _ _ _ _, Splits_nil _⟩
  | false =>
    cases hk : ContentTypeMappings.lookup (ToLower event.Content.Type_) with
    | none =>
      rw [processEvent_unwanted_type d cfg workStart msg event s hi hk]
      simp only [Splits_cons]
      exact ⟨Ordered_inc _ _ _ _, Ordered_commit _ _ _ _ (by simp [Effect.isDelivery]),
        Ordered_inc _ _ _ _, Splits_nil _⟩
    | some ct =>
      cases hl : (acceptedEventsLoop d cfg event cfg.Processor.AcceptedEvents false s).1 with
      | none =>
        rw [processEvent_aborted d cfg workStart msg event s hi ct hk hl]
        exact acceptedEventsLoop_ordered d cfg event _ _ _
      | some m =>
        rw [processEvent_completed d cfg workStart msg event s hi ct hk m hl, Splits_append]
        constructor
        · intro pre e post h
          refine Ordered_append _ _ _ _ (acceptedEventsLoop_ordered d cfg event _ _ _ pre e post h)
            (acceptedEventsLoop_no_commit d cfg event cfg.Processor.AcceptedEvents false s e ?_)
          rw [h]; simp
        · simp only [Splits_cons]
          refine ⟨?_, Ordered_commit _ _ _ _ (by simp [Effect.isDelivery]),
            Ordered_inc _ _ _ _, Ordered_observe _ _ _ _ _ _, Splits_nil _⟩
          cases m <;> exact Ordered_inc _ _ _ _

/-- The trace of `processMessage` is in order. -/
theorem processMessage_ordered (d : Deps σ) (cfg : Config) (msg : Message) (s : σ) :
    Splits (processMessage d cfg msg s).1 Ordered := by
  cases he : d.UnmarshalEnvelope msg.Value with
  | error err =>
    rw [processMessage_bad_envelope d cfg msg s err he]
    simp only [Splits_cons]
    exact ⟨Ordered_inc _ _ _ _, Ordered_inc _ _ _ _, Splits_nil _⟩
  | ok envelope =>
    by_cases ht : envelope.MessageType = ContentModelsEventMsgType
    · cases hv : d.UnmarshalEvent envelope.Message with
      | error err =>
        rw [processMessage_bad_event d cfg msg s envelope he ht err hv]
        simp only [Splits_cons]
        exact ⟨Ordered_inc _ _ _ _, Ordered_inc _ _ _ _, Splits_nil _⟩
      | ok event =>
        rw [processMessage_event d cfg msg s envelope he ht event hv, Splits_cons]
        refine ⟨Ordered_inc _ _ _ _, ?_⟩
        intro pre e post h
        exact Ordered_prepend [_] _ _ _ (processEvent_ordered d cfg _ msg event s pre e post h)
    · rw [processMessage_wrong_type d cfg msg s envelope he ht]
      simp only [Splits_cons]
      exact ⟨Ordered_inc _ _ _ _, Ordered_inc _ _ _ _,
        Ordered_commit _ _ _ _ (by simp [Effect.isDelivery]), Ordered_inc _ _ _ _, Splits_nil _⟩

/-! ### Commits -/

/-- A commit in the trace of `processEvent` is a commit of the handle, after a
successful send or after a recorded filter rejection. -/
theorem processEvent_commit (d : Deps σ) (cfg : Config) (workStart : Time) (msg0 : Message)
    (event : Event) (s : σ) (msg : Message) (r : Option String)
    (hc : Effect.commit msg r ∈ (processEvent d cfg workStart msg0 event s).1) :
    msg = msg0 ∧
    ((∃ o, Effect.convert event (.ok o) ∈ (processEvent d cfg workStart msg0 event s).1 ∧
        Effect.send o none ∈ (processEvent d cfg workStart msg0 event s).1 ∧
        ∀ x ∈ (processEvent d cfg workStart msg0 event s).1, x.isFailure = false) ∨
     (∃ reason ∈ filterReasons, Effect.inc .ContentRejected (rejectedLabels cfg reason) ∈
        (processEvent d cfg workStart msg0 event s).1)) := by
  cases hi : ignoreFilter cfg event with
  | true =>
    rw [processEvent_ignored d cfg workStart msg0 event s hi] at hc ⊢
    simp at hc
    exact ⟨hc.1, Or.inr ⟨"updated_before_ignore_value", by simp [filterReasons], by simp⟩⟩
  | false =>
    cases hk : ContentTypeMappings.lookup (ToLower event.Content.Type_) with
    | none =>
      rw [processEvent_unwanted_type d cfg workStart msg0 event s hi hk] at hc ⊢
      simp at hc
      exact ⟨hc.1, Or.inr ⟨"unwanted_content_type", by simp [filterReasons], by simp⟩⟩
    | some ct =>
      cases hl : (acceptedEventsLoop d cfg event cfg.Processor.AcceptedEvents false s).1 with
      | none =>
        rw [processEvent_aborted d cfg workStart msg0 event s hi ct hk hl] at hc
        have := acceptedEventsLoop_no_commit d cfg event _ _ _ _ hc
        simp [Effect.isCommit] at this
      | some m =>
        rw [processEvent_completed d cfg workStart msg0 event s hi ct hk m hl] at hc ⊢
        obtain ⟨c1, -, c3, c4⟩ := acceptedEventsLoop_completed d cfg event _ _ _ m hl
        have hmsg : msg = msg0 := by
          rcases List.mem_append.1 hc with h | h
          · have := acceptedEventsLoop_no_commit d cfg event _ _ _ _ h
            simp [Effect.isCommit] at this
          · cases m <;> simp at h <;> exact h.1
        refine ⟨hmsg, ?_⟩
        cases m with
        | false =>
          exact Or.inr ⟨"unwanted_event_type", by simp [filterReasons], by simp⟩
        | true =>
          have hmem : event.Event ∈ cfg.Processor.AcceptedEvents := by simpa using c3.symm
          obtain ⟨o, h1, h2⟩ := c4 hmem
          refine Or.inl ⟨o, List.mem_append.2 (Or.inl h1), List.mem_append.2 (Or.inl h2), ?_⟩
          intro x hx
          rcases List.mem_append.1 hx with h | h
          · exact c1 x h
          · simp at h
            rcases h with rfl | rfl | rfl | rfl <;> rfl

/-- A commit in the trace of `processMessage` is a commit of the handle, after a
successful send, after a recorded filter rejection, or for an envelope of another
message type. -/
theorem processMessage_commit (d : Deps σ) (cfg : Config) (msg0 : Message) (s : σ)
    (msg : Message) (r : Option String)
    (hc : Effect.commit msg r ∈ (processMessage d cfg msg0 s).1) :
    msg = msg0 ∧
    ((∃ envelope event o, d.UnmarshalEnvelope msg.Value = .ok envelope ∧
        envelope.MessageType = ContentModelsEventMsgType ∧
        d.UnmarshalEvent envelope.Message = .ok event ∧
        Effect.convert event (.ok o) ∈ (processMessage d cfg msg0 s).1 ∧
        Effect.send o none ∈ (processMessage d cfg msg0 s).1 ∧
        ∀ x ∈ (processMessage d cfg msg0 s).1, x.isFailure = false) ∨
     (∃ reason ∈ filterReasons, Effect.inc .ContentRejected (rejectedLabels cfg reason) ∈
        (processMessage d cfg msg0 s).1) ∨
     (∃ envelope, d.UnmarshalEnvelope msg.Value = .ok envelope ∧
        envelope.MessageType ≠ ContentModelsEventMsgType)) := by
  cases he : d.UnmarshalEnvelope msg0.Value with
  | error err =>
    rw [processMessage_bad_envelope d cfg msg0 s err he] at hc
    simp at hc
  | ok envelope =>
    by_cases ht : envelope.MessageType = ContentModelsEventMsgType
    · cases hv : d.UnmarshalEvent envelope.Message with
      | error err =>
        rw [processMessage_bad_event d cfg msg0 s envelope he ht err hv] at hc
        simp at hc
      | ok event =>
        rw [processMessage_event d cfg msg0 s envelope he ht event hv] at hc ⊢
        simp only [List.mem_cons] at hc
        rcases hc with hc | hc
        · cases hc
        · obtain ⟨hm, h | ⟨reason, h1, h2⟩⟩ := processEvent_commit d cfg _ msg0 event s msg r hc
          · obtain ⟨o, h1, h2, h3⟩ := h
            subst hm
            refine ⟨rfl, Or.inl ⟨envelope, event, o, he, ht, hv, List.mem_cons_of_mem _ h1,
              List.mem_cons_of_mem _ h2, ?_⟩⟩
            intro x hx
            rcases List.mem_cons.1 hx with rfl | hx
            · rfl
            · exact h3 x hx
          · exact ⟨hm, Or.inr (Or.inl ⟨reason, h1, List.mem_cons_of_mem _ h2⟩)⟩
    · rw [processMessage_wrong_type d cfg msg0 s envelope he ht] at hc
      simp at hc
      obtain ⟨hm, -⟩ := hc
      subst hm
      exact ⟨rfl, Or.inr (Or.inr ⟨envelope, he, ht⟩)⟩

/-- The trace of a pass of `Work` either holds no commit or is the trace of
`processMessage` on the fetched handle. -/
theorem iteration_trace (d : Deps σ) (cfg : Config) (s : σ) :
    (∀ x ∈ (iteration d cfg s).2.1, x.isCommit = false ∧ x.isDelivery = false) ∨
    (∃ msg0, d.Done s = false ∧ (d.FetchMessage s).1 = .ok msg0 ∧
      (iteration d cfg s).2.1 = (processMessage d cfg msg0 (d.FetchMessage s).2).1) := by
  unfold iteration
  cases hd : d.Done s with
  | true => left; simp [Effect.isCommit, Effect.isDelivery]
  | false =>
    cases hf : (d.FetchMessage s).1 with
    | error err =>
      left
      by_cases h : err = EOF <;> simp [hf, h, Effect.isCommit, Effect.isDelivery]
    | ok msg0 =>
      right
      exact ⟨msg0, rfl, rfl, by simp [hf]⟩

/-- Every trace `Work` returns is the trace of one pass of its loop. -/
theorem Work_trace (d : Deps σ) (cfg : Config) :
    ∀ (fuel : Nat) (s : σ) (t : List Effect), t ∈ (Work d cfg fuel s).1 →
      ∃ s0, t = (iteration d cfg s0).2.1 := by
  intro fuel
  induction fuel with
  | zero => intro s t h; simp [Work] at h
  | succ n ih =>
    intro s t h
    unfold Work at h
    dsimp only at h
    cases hr : (iteration d cfg s).1 with
    | next =>
      simp only [hr, List.mem_cons] at h
      rcases h with h | h
      · exact ⟨s, h⟩
      · exact ih _ t h
    | fatal =>
      simp only [hr, List.mem_singleton] at h
      exact ⟨s, h⟩
    | done =>
      simp only [hr, List.mem_singleton] at h
      exact ⟨s, h⟩

/-- The trace of one pass of `Work` is in order. -/
theorem iteration_ordered (d : Deps σ) (cfg : Config) (s : σ) :
    Splits (iteration d cfg s).2.1 Ordered := by
  rcases iteration_trace d cfg s with h | ⟨msg0, -, -, h⟩
  · intro pre e post hp
    have he := h e (by rw [hp]; simp)
    refine ⟨?_, ?_, fun hc => by rw [he.1] at hc; cases hc⟩
    · rintro record rfl
      simp [Effect.isDelivery] at he
    · rintro o rfl
      simp [Effect.isDelivery] at he
  · rw [h]
    exact processMessage_ordered d cfg msg0 _

/-! ### Failures -/

theorem isFailure_isDelivery (x : Effect) (h : x.isFailure = true) : x.isDelivery = true := by
  cases x <;> simp_all [Effect.isFailure, Effect.isDelivery]

/-- A failed transform or send in the trace of `processEvent`: the trace is that of
the loop left through `continue work`. -/
theorem processEvent_failure (d : Deps σ) (cfg : Config) (workStart : Time) (msg : Message)
    (event : Event) (s : σ)
    (h : ∃ x ∈ (processEvent d cfg workStart msg event s).1, x.isFailure = true) :
    (∀ x ∈ (processEvent d cfg workStart msg event s).1, x.isCommit = false) ∧
    (processEvent d cfg workStart msg event s).1.count
      (Effect.inc .ContentSendErrors (kafkaLabels cfg)) = 1 := by
  obtain ⟨x, hx, hf⟩ := h
  cases hi : ignoreFilter cfg event with
  | true =>
    rw [processEvent_ignored d cfg workStart msg event s hi] at hx
    simp at hx
    rcases hx with rfl | rfl | rfl <;> simp [Effect.isFailure] at hf
  | false =>
    cases hk : ContentTypeMappings.lookup (ToLower event.Content.Type_) with
    | none =>
      rw [processEvent_unwanted_type d cfg workStart msg event s hi hk] at hx
      simp at hx
      rcases hx with rfl | rfl | rfl <;> simp [Effect.isFailure] at hf
    | some ct =>
      cases hl : (acceptedEventsLoop d cfg event cfg.Processor.AcceptedEvents false s).1 with
      | none =>
        rw [processEvent_aborted d cfg workStart msg event s hi ct hk hl]
        exact ⟨acceptedEventsLoop_no_commit d cfg event _ _ _,
          (acceptedEventsLoop_aborted d cfg event _ _ _ hl).2⟩
      | some m =>
        rw [processEvent_completed d cfg workStart msg event s hi ct hk m hl] at hx
        obtain ⟨c1, -, -, -⟩ := acceptedEventsLoop_completed d cfg event _ _ _ m hl
        rcases List.mem_append.1 hx with hx | hx
        · rw [c1 x hx] at hf; cases hf
        · cases m <;> simp at hx <;> rcases hx with rfl | rfl | rfl | rfl <;>
            simp [Effect.isFailure] at hf

/-- A failed transform or send in the trace of `processMessage`: no commit, and one
send error counted. -/
theorem processMessage_failure (d : Deps σ) (cfg : Config) (msg : Message) (s : σ)
    (h : ∃ x ∈ (processMessage d cfg msg s).1, x.isFailure = true) :
    (∀ x ∈ (processMessage d cfg msg s).1, x.isCommit = false) ∧
    (processMessage d cfg msg s).1.count (Effect.inc .ContentSendErrors (kafkaLabels cfg)) = 1 := by
  obtain ⟨x, hx, hf⟩ := h
  cases he : d.UnmarshalEnvelope msg.Value with
  | error err =>
    rw [processMessage_bad_envelope d cfg msg s err he] at hx
    simp at hx
    rcases hx with rfl | rfl <;> simp [Effect.isFailure] at hf
  | ok envelope =>
    by_cases ht : envelope.MessageType = ContentModelsEventMsgType
    · cases hv : d.UnmarshalEvent envelope.Message with
      | error err =>
        rw [processMessage_bad_event d cfg msg s envelope he ht err hv] at hx
        simp at hx
        rcases hx with rfl | rfl <;> simp [Effect.isFailure] at hf
      | ok event =>
        rw [processMessage_event d cfg msg s envelope he ht event hv] at hx ⊢
        rcases List.mem_cons.1 hx with rfl | hx
        · simp [Effect.isFailure] at hf
        · obtain ⟨h1, h2⟩ := processEvent_failure d cfg (d.Now s) msg event s ⟨x, hx, hf⟩
          constructor
          · intro y hy
            rcases List.mem_cons.1 hy with rfl | hy
            · rfl
            · exact h1 y hy
          · rw [List.count_cons, h2]
            simp
    · rw [processMessage_wrong_type d cfg msg s envelope he ht] at hx
      simp at hx
      rcases hx with rfl | rfl | rfl | rfl <;> simp [Effect.isFailure] at hf

/-- The trace of a pass that fetched a handle whose envelope and event decode. -/
theorem iteration_event (d : Deps σ) (cfg : Config) (s : σ) (msg : Message)
    (envelope : Envelope) (event : Event)
    (hd : d.Done s = false) (hf : (d.FetchMessage s).1 = .ok msg)
    (he : d.UnmarshalEnvelope msg.Value = .ok envelope)
    (ht : envelope.MessageType = ContentModelsEventMsgType)
    (hv : d.UnmarshalEvent envelope.Message = .ok event) :
    (iteration d cfg s).2.1 =
      Effect.inc .ContentAccepted (kafkaLabels cfg) ::
        (processEvent d cfg (d.Now (d.FetchMessage s).2) msg event (d.FetchMessage s).2).1 := by
  unfold iteration
  simp [hd, hf, processMessage_event d cfg msg _ envelope he ht event hv]

theorem lookup_eq_none_iff_not_key (l : List (String × ContentType)) (k : String) :
    l.lookup k = none ↔ k ∉ l.map Prod.fst := by
  simp only [List.lookup_eq_none_iff, List.mem_map, not_exists, not_and]
  constructor
  · intro h p hp e
    have h1 := h p hp
    rw [e] at h1
    exact absurd h1 (by simp)
  · intro h p hp
    exact bne_iff_ne.2 (fun e => h p hp e.symm)

/-- A loop over a list that accepts the event kind runs to its end only if the
first `processAndSend` reports success. -/
theorem acceptedEventsLoop_first (d : Deps σ) (cfg : Config) (event : Event) :
    ∀ (acc : List EventType) (m : Bool) (s : σ) (b : Bool), event.Event ∈ acc →
      (acceptedEventsLoop d cfg event acc m s).1 = some b →
      (processAndSend d cfg event s).1 = none := by
  intro acc
  induction acc with
  | nil => intro m s b hm; simp at hm
  | cons a rest ih =>
    intro m s b hm h
    by_cases ha : event.Event = a
    · cases hp : (processAndSend d cfg event s).1 with
      | some err =>
        rw [acceptedEventsLoop_fail d cfg event a rest m s ha err hp] at h
        cases h
      | none => rfl
    · rw [acceptedEventsLoop_skip d cfg event a rest m s ha] at h
      have hr : event.Event ∈ rest := by
        rcases List.mem_cons.1 hm with e | e
        · exact absurd e ha
        · exact e
      exact ih m s b hr h

theorem rejectedLabels_ne (cfg : Config) (a b : String) (h : a ≠ b) :
    rejectedLabels cfg a ≠ rejectedLabels cfg b := by
  intro e
  simp [rejectedLabels, kafkaLabels] at e
  exact h e

/-! ### The audit publish -/

theorem Published_of_other (d : Deps σ) (pre : List Effect) (e : Effect) (post : List Effect)
    (h1 : ∀ value err, e ≠ Effect.write value err) (h2 : ∀ record, e ≠ Effect.audit record) :
    Published d pre e post :=
  ⟨fun value err h => absurd h (h1 value err), fun record h => absurd h (h2 record)⟩

theorem Published_prepend (d : Deps σ) (p pre : List Effect) (e : Effect) (post : List Effect)
    (h : Published d pre e post) : Published d (p ++ pre) e post := by
  refine ⟨?_, h.2⟩
  intro value err he
  obtain ⟨pre0, event, o, record, recordJSON, id, hp, hr⟩ := h.1 value err he
  exact ⟨p ++ pre0, event, o, record, recordJSON, id, by simp [hp], hr⟩

theorem Published_append (d : Deps σ) (pre : List Effect) (e : Effect) (post q : List Effect)
    (h : Published d pre e post) : Published d pre e (post ++ q) := by
  refine ⟨h.1, ?_⟩
  intro record he
  rcases h.2 record he with h1 | h1 | ⟨value, err, post0, hp⟩
  · exact Or.inl h1
  · exact Or.inr (Or.inl h1)
  · exact Or.inr (Or.inr ⟨value, err, post0 ++ q, by simp [hp]⟩)

/-- Two traces with the audit publish in place make one. -/
theorem Published_splits_append (d : Deps σ) (a b : List Effect)
    (ha : Splits a (Published d)) (hb : Splits b (Published d)) :
    Splits (a ++ b) (Published d) := by
  rw [Splits_append]
  exact ⟨fun pre e post h => Published_append d _ _ _ _ (ha pre e post h),
    fun pre e post h => Published_prepend d _ _ _ _ (hb pre e post h)⟩

theorem Published_splits_cons (d : Deps σ) (x : Effect) (b : List Effect)
    (h1 : ∀ value err, x ≠ Effect.write value err) (h2 : ∀ record, x ≠ Effect.audit record)
    (hb : Splits b (Published d)) : Splits (x :: b) (Published d) := by
  have : Splits ([x] ++ b) (Published d) := by
    apply Published_splits_append d [x] b _ hb
    rw [Splits_cons]
    exact ⟨Published_of_other d _ _ _ h1 h2, Splits_nil _⟩
  simpa using this

/-- The trace of `processAndSend` has the audit publish in place. -/
theorem processAndSend_published (d : Deps σ) (cfg : Config) (event : Event) (s : σ) :
    Splits (processAndSend d cfg event s).2.1 (Published d) := by
  unfold processAndSend
  dsimp only
  split
  · exact Published_splits_cons d _ _ (by simp) (by simp) (Splits_nil _)
  · rename_i output _
    split
    · exact Published_splits_cons d _ _ (by simp) (by simp)
        (Published_splits_cons d _ _ (by simp) (by simp) (Splits_nil _))
    · unfold recordFTPDelivery
      dsimp only
      split
      · rename_i err hm
        simp only [List.cons_append, List.nil_append, Splits_cons]
        refine ⟨Published_of_other d _ _ _ (by simp) (by simp),
          Published_of_other d _ _ _ (by simp) (by simp), ?_, Splits_nil _⟩
        refine ⟨by simp, ?_⟩
        intro record hr
        cases hr
        exact Or.inl ⟨err, hm⟩
      · rename_i recordJSON hm
        split
        · rename_i err hv
          simp only [List.cons_append, List.nil_append, Splits_cons]
          refine ⟨Published_of_other d _ _ _ (by simp) (by simp),
            Published_of_other d _ _ _ (by simp) (by simp), ?_, Splits_nil _⟩
          refine ⟨by simp, ?_⟩
          intro record hr
          cases hr
          exact Or.inr (Or.inl ⟨recordJSON, _, err, hm, hv⟩)
        · rename_i envelopeJSON hv
          split
          · simp only [List.cons_append, List.nil_append, Splits_cons]
            refine ⟨Published_of_other d _ _ _ (by simp) (by simp),
              Published_of_other d _ _ _ (by simp) (by simp), ?_, ?_, Splits_nil _⟩
            · refine ⟨by simp, ?_⟩
              intro record hr
              exact Or.inr (Or.inr ⟨_, _, _, rfl⟩)
            · refine ⟨?_, by simp⟩
              intro value err hw
              cases hw
              exact ⟨[], event, output, _, recordJSON, _, rfl, ⟨rfl, rfl, rfl⟩, hm, hv⟩
          · simp only [List.cons_append, List.nil_append, Splits_cons]
            refine ⟨Published_of_other d _ _ _ (by simp) (by simp),
              Published_of_other d _ _ _ (by simp) (by simp), ?_, ?_, Splits_nil _⟩
            · refine ⟨by simp, ?_⟩
              intro record hr
              exact Or.inr (Or.inr ⟨_, _, _, rfl⟩)
            · refine ⟨?_, by simp⟩
              intro value err hw
              cases hw
              exact ⟨[], event, output, _, recordJSON, _, rfl, ⟨rfl, rfl, rfl⟩, hm, hv⟩

/-- The trace of the accepted-events loop has the audit publish in place. -/
theorem acceptedEventsLoop_published (d : Deps σ) (cfg : Config) (event : Event) :
    ∀ (acc : List EventType) (m : Bool) (s : σ),
      Splits (acceptedEventsLoop d cfg event acc m s).2.1 (Published d) := by
  intro acc
  induction acc with
  | nil => intro m s; rw [acceptedEventsLoop_nil]; exact Splits_nil _
  | cons a rest ih =>
    intro m s
    by_cases ha : event.Event = a
    · cases hp : (processAndSend d cfg event s).1 with
      | some err =>
        rw [acceptedEventsLoop_fail d cfg event a rest m s ha err hp]
        exact Published_splits_append d _ _ (processAndSend_published d cfg event s)
          (Published_splits_cons d _ _ (by simp) (by simp) (Splits_nil _))
      | none =>
        rw [acceptedEventsLoop_sent d cfg event a rest m s ha hp]
        exact Published_splits_append d _ _ (processAndSend_published d cfg event s) (ih true _)
    · rw [acceptedEventsLoop_skip d cfg event a rest m s ha]
      exact ih m s

/-- The trace of `processEvent` has the audit publish in place. -/
theorem processEvent_published (d : Deps σ) (cfg : Config) (workStart : Time) (msg : Message)
    (event : Event) (s : σ) :
    Splits (processEvent d cfg workStart msg event s).1 (Published d) := by
  cases hi : ignoreFilter cfg event with
  | true =>
    rw [processEvent_ignored d cfg workStart msg event s hi]
    exact Splits_of_forall _ _ (fun pre e post he =>
      Published_of_other d _ _ _ (by rintro v err rfl; simp at he) (by rintro r rfl; simp at he))
  | false =>
    cases hk : ContentTypeMappings.lookup (ToLower event.Content.Type_) with
    | none =>
      rw [processEvent_unwanted_type d cfg workStart msg event s hi hk]
      exact Splits_of_forall _ _ (fun pre e post he =>
        Published_of_other d _ _ _ (by rintro v err rfl; simp at he) (by rintro r rfl; simp at he))
    | some ct =>
      cases hl : (acceptedEventsLoop d cfg event cfg.Processor.AcceptedEvents false s).1 with
      | none =>
        rw [processEvent_aborted d cfg workStart msg event s hi ct hk hl]
        exact acceptedEventsLoop_published d cfg event _ _ _
      | some m =>
        rw [processEvent_completed d cfg workStart msg event s hi ct hk m hl]
        refine Published_splits_append d _ _ (acceptedEventsLoop_published d cfg event _ _ _) ?_
        exact Splits_of_forall _ _ (fun pre e post he =>
          Published_of_other d _ _ _ (by rintro v err rfl; cases m <;> simp at he)
            (by rintro r rfl; cases m <;> simp at he))

/-- The trace of `processMessage` has the audit publish in place. -/
theorem processMessage_published (d : Deps σ) (cfg : Config) (msg : Message) (s : σ) :
    Splits (processMessage d cfg msg s).1 (Published d) := by
  cases he : d.UnmarshalEnvelope msg.Value with
  | error err =>
    rw [processMessage_bad_envelope d cfg msg s err he]
    exact Splits_of_forall _ _ (fun pre e post he =>
      Published_of_other d _ _ _ (by rintro v err rfl; simp at he) (by rintro r rfl; simp at he))
  | ok envelope =>
    by_cases ht : envelope.MessageType = ContentModelsEventMsgType
    · cases hv : d.UnmarshalEvent envelope.Message with
      | error err =>
        rw [processMessage_bad_event d cfg msg s envelope he ht err hv]
        exact Splits_of_forall _ _ (fun pre e post he =>
          Published_of_other d _ _ _ (by rintro v err rfl; simp at he)
            (by rintro r rfl; simp at he))
      | ok event =>
        rw [processMessage_event d cfg msg s envelope he ht event hv]
        exact Published_splits_cons d _ _ (by simp) (by simp)
          (processEvent_published d cfg _ msg event s)
    · rw [processMessage_wrong_type d cfg msg s envelope he ht]
      exact Splits_of_forall _ _ (fun pre e post he =>
        Published_of_other d _ _ _ (by rintro v err rfl; simp at he) (by rintro r rfl; simp at he))

/-- The trace of one pass of `Work` has the audit publish in place. -/
theorem iteration_published (d : Deps σ) (cfg : Config) (s : σ) :
    Splits (iteration d cfg s).2.1 (Published d) := by
  rcases iteration_trace d cfg s with h | ⟨msg0, -, -, h⟩
  · intro pre e post hp
    have he := h e (by rw [hp]; simp)
    refine Published_of_other d _ _ _ ?_ ?_
    · rintro v err rfl
      simp [Effect.isDelivery] at he
    · rintro r rfl
      simp [Effect.isDelivery] at he
  · rw [h]
    exact processMessage_published d cfg msg0 _

/-! ### The ways of a pass -/

/-- Every transform of the accepted-events loop is on the event of the loop. -/
theorem acceptedEventsLoop_convert (d : Deps σ) (cfg : Config) (event : Event) :
    ∀ (acc : List EventType) (m : Bool) (s : σ) (ev : Event) (c : Except String Output),
      Effect.convert ev c ∈ (acceptedEventsLoop d cfg event acc m s).2.1 → ev = event := by
  intro acc
  induction acc with
  | nil => intro m s ev c h; simp [acceptedEventsLoop_nil] at h
  | cons a rest ih =>
    intro m s ev c h
    by_cases ha : event.Event = a
    · rcases processAndSend_trace d cfg event s with
        ⟨err, h1, h2⟩ | ⟨o, err, h1, h2⟩ | ⟨o, record, ws, h1, h2, -, -, -, h6⟩
      · rw [acceptedEventsLoop_fail d cfg event a rest m s ha err h1, h2] at h
        simp at h
        exact h.1
      · rw [acceptedEventsLoop_fail d cfg event a rest m s ha err h1, h2] at h
        simp at h
        exact h.1
      · rw [acceptedEventsLoop_sent d cfg event a rest m s ha h1, h2] at h
        simp at h
        rcases h with h | h | h
        · exact h.1
        · have := h6 _ h
          simp [Effect.isWrite] at this
        · exact ih _ _ ev c h
    · rw [acceptedEventsLoop_skip d cfg event a rest m s ha] at h
      exact ih m s ev c h

/-- The trace of a loop left through `continue work` ends with the failed step and
the count of the send error, after steps that did not fail. -/
theorem acceptedEventsLoop_aborted_shape (d : Deps σ) (cfg : Config) (event : Event) :
    ∀ (acc : List EventType) (m : Bool) (s : σ),
      (acceptedEventsLoop d cfg event acc m s).1 = none →
      event.Event ∈ acc ∧
      ∃ body x, (acceptedEventsLoop d cfg event acc m s).2.1 =
          body ++ [x, Effect.inc .ContentSendErrors (kafkaLabels cfg)] ∧
        x.isFailure = true ∧ ∀ y ∈ body, y.isDelivery = true ∧ y.isFailure = false := by
  intro acc
  induction acc with
  | nil => intro m s h; simp [acceptedEventsLoop_nil] at h
  | cons a rest ih =>
    intro m s h
    by_cases ha : event.Event = a
    · refine ⟨by simp [ha], ?_⟩
      rcases processAndSend_trace d cfg event s with
        ⟨err, h1, h2⟩ | ⟨o, err, h1, h2⟩ | ⟨o, record, ws, h1, h2, -, -, -, h6⟩
      · rw [acceptedEventsLoop_fail d cfg event a rest m s ha err h1, h2]
        exact ⟨[], _, rfl, rfl, by simp⟩
      · rw [acceptedEventsLoop_fail d cfg event a rest m s ha err h1, h2]
        exact ⟨[Effect.convert event (.ok o)], _, rfl, rfl,
          by simp [Effect.isDelivery, Effect.isFailure]⟩
      · rw [acceptedEventsLoop_sent d cfg event a rest m s ha h1] at h ⊢
        obtain ⟨-, body, x, hb, hx, hy⟩ := ih true _ h
        dsimp only at hb ⊢
        rw [hb, h2]
        refine ⟨Effect.convert event (.ok o) :: Effect.send o none :: Effect.audit record ::
          (ws ++ body), x, by simp, hx, ?_⟩
        intro y hy1
        simp only [List.mem_cons, List.mem_append] at hy1
        rcases hy1 with rfl | rfl | rfl | hy1 | hy1
        · simp [Effect.isDelivery, Effect.isFailure]
        · simp [Effect.isDelivery, Effect.isFailure]
        · simp [Effect.isDelivery, Effect.isFailure]
        · exact isWrite_isDelivery ws h6 y hy1
        · exact hy y hy1
    · rw [acceptedEventsLoop_skip d cfg event a rest m s ha] at h ⊢
      obtain ⟨hm, hrest⟩ := ih m s h
      exact ⟨List.mem_cons_of_mem _ hm, hrest⟩

/-- The four ways `processEvent` goes: one of the three filters rejects the event
and the handle is committed without any delivery step; or the event passes them
and every accepted kind it matches is delivered and the handle committed; or it
passes them and a transform or a send fails, which ends the pass. -/
theorem processEvent_cases (d : Deps σ) (cfg : Config) (workStart : Time) (msg : Message)
    (event : Event) (s : σ) :
    (ignoreFilter cfg event = true ∧ ∃ r,
      (processEvent d cfg workStart msg event s).1 =
        [Effect.inc .ContentRejected (rejectedLabels cfg "updated_before_ignore_value"),
          Effect.commit msg r, Effect.inc .ContentAcknowledged (kafkaLabels cfg)]) ∨
    (ignoreFilter cfg event = false ∧
      ToLower event.Content.Type_ ∉ ContentTypeMappings.map Prod.fst ∧ ∃ r,
      (processEvent d cfg workStart msg event s).1 =
        [Effect.inc .ContentRejected (rejectedLabels cfg "unwanted_content_type"),
          Effect.commit msg r, Effect.inc .ContentAcknowledged (kafkaLabels cfg)]) ∨
    (ignoreFilter cfg event = false ∧
      ToLower event.Content.Type_ ∈ ContentTypeMappings.map Prod.fst ∧
      event.Event ∉ cfg.Processor.AcceptedEvents ∧ ∃ r a b,
      (processEvent d cfg workStart msg event s).1 =
        [Effect.inc .ContentRejected (rejectedLabels cfg "unwanted_event_type"),
          Effect.commit msg r, Effect.inc .ContentAcknowledged (kafkaLabels cfg),
          Effect.observe .ContentProcessingLatency (kafkaLabels cfg) a b]) ∨
    (ignoreFilter cfg event = false ∧
      ToLower event.Content.Type_ ∈ ContentTypeMappings.map Prod.fst ∧
      event.Event ∈ cfg.Processor.AcceptedEvents ∧ ∃ body o r a b,
      (processEvent d cfg workStart msg event s).1 =
        body ++ [Effect.inc .ContentSent (kafkaLabels cfg),
          Effect.commit msg r, Effect.inc .ContentAcknowledged (kafkaLabels cfg),
          Effect.observe .ContentProcessingLatency (kafkaLabels cfg) a b] ∧
      Effect.convert event (.ok o) ∈ body ∧ Effect.send o none ∈ body ∧
      ∀ y ∈ body, y.isDelivery = true ∧ y.isFailure = false) ∨
    (ignoreFilter cfg event = false ∧
      ToLower event.Content.Type_ ∈ ContentTypeMappings.map Prod.fst ∧
      event.Event ∈ cfg.Processor.AcceptedEvents ∧ ∃ body x,
      (processEvent d cfg workStart msg event s).1 =
        body ++ [x, Effect.inc .ContentSendErrors (kafkaLabels cfg)] ∧
      x.isFailure = true ∧ ∀ y ∈ body, y.isDelivery = true ∧ y.isFailure = false) := by
  cases hi : ignoreFilter cfg event with
  | true =>
    rw [processEvent_ignored d cfg workStart msg event s hi]
    exact Or.inl ⟨rfl, _, rfl⟩
  | false =>
    cases hk : ContentTypeMappings.lookup (ToLower event.Content.Type_) with
    | none =>
      rw [processEvent_unwanted_type d cfg workStart msg event s hi hk]
      exact Or.inr (Or.inl ⟨rfl, (lookup_eq_none_iff_not_key _ _).1 hk, _, rfl⟩)
    | some ct =>
      have hkey : ToLower event.Content.Type_ ∈ ContentTypeMappings.map Prod.fst := by
        by_contra hn
        rw [(lookup_eq_none_iff_not_key _ _).2 hn] at hk
        cases hk
      cases hl : (acceptedEventsLoop d cfg event cfg.Processor.AcceptedEvents false s).1 with
      | none =>
        rw [processEvent_aborted d cfg workStart msg event s hi ct hk hl]
        obtain ⟨hm, body, x, hb, hx, hy⟩ := acceptedEventsLoop_aborted_shape d cfg event _ _ _ hl
        exact Or.inr (Or.inr (Or.inr (Or.inr ⟨rfl, hkey, hm, body, x, hb, hx, hy⟩)))
      | some m =>
        rw [processEvent_completed d cfg workStart msg event s hi ct hk m hl]
        obtain ⟨c1, -, c3, c4⟩ := acceptedEventsLoop_completed d cfg event _ _ _ m hl
        by_cases hm : event.Event ∈ cfg.Processor.AcceptedEvents
        · have hb : m = true := by simpa [hm] using c3
          subst hb
          obtain ⟨o, h1, h2⟩ := c4 hm
          refine Or.inr (Or.inr (Or.inr (Or.inl ⟨rfl, hkey, hm, _, o, _, _, _, rfl, h1, h2, ?_⟩)))
          intro y hy
          refine ⟨?_, c1 y hy⟩
          rcases acceptedEventsLoop_effects d cfg event _ _ _ y hy with h | h
          · exact h
          · have hcount := (acceptedEventsLoop_completed d cfg event _ _ _ true hl).2.1
            rw [h] at hy
            have := List.count_pos_iff.2 hy
            omega
        · have hloop := acceptedEventsLoop_not_mem d cfg event cfg.Processor.AcceptedEvents
            false s hm
          have hb : m = false := by simpa [hm] using c3
          subst hb
          simp only [hloop, List.nil_append, Bool.false_eq_true, if_false]
          exact Or.inr (Or.inr (Or.inl ⟨trivial, hkey, hm, _, _, _, rfl⟩))

/-- Every transform of `processEvent` is on its event. -/
theorem processEvent_convert (d : Deps σ) (cfg : Config) (workStart : Time) (msg : Message)
    (event : Event) (s : σ) (ev : Event) (c : Except String Output)
    (h : Effect.convert ev c ∈ (processEvent d cfg workStart msg event s).1) : ev = event := by
  cases hi : ignoreFilter cfg event with
  | true =>
    rw [processEvent_ignored d cfg workStart msg event s hi] at h
    simp at h
  | false =>
    cases hk : ContentTypeMappings.lookup (ToLower event.Content.Type_) with
    | none =>
      rw [processEvent_unwanted_type d cfg workStart msg event s hi hk] at h
      simp at h
    | some ct =>
      cases hl : (acceptedEventsLoop d cfg event cfg.Processor.AcceptedEvents false s).1 with
      | none =>
        rw [processEvent_aborted d cfg workStart msg event s hi ct hk hl] at h
        exact acceptedEventsLoop_convert d cfg event _ _ _ ev c h
      | some m =>
        rw [processEvent_completed d cfg workStart msg event s hi ct hk m hl] at h
        rcases List.mem_append.1 h with h | h
        · exact acceptedEventsLoop_convert d cfg event _ _ _ ev c h
        · cases m <;> simp at h

/-- The ways one pass of `Work` goes: no handle is fetched; or the envelope or the
event of the fetched handle does not decode; or the envelope has another message
type and the handle is committed; or the event is processed. -/
theorem iteration_cases (d : Deps σ) (cfg : Config) (s : σ) :
    (∀ x ∈ (iteration d cfg s).2.1, x.isCommit = false ∧ x.isDelivery = false) ∨
    ∃ msg, d.Done s = false ∧ (d.FetchMessage s).1 = .ok msg ∧ (iteration d cfg s).1 = .next ∧
      ((∀ x ∈ (iteration d cfg s).2.1, x.isCommit = false ∧ x.isDelivery = false) ∨
       ∃ envelope, d.UnmarshalEnvelope msg.Value = .ok envelope ∧
        ((envelope.MessageType ≠ ContentModelsEventMsgType ∧ ∃ r,
            (iteration d cfg s).2.1 =
              [Effect.inc .ContentAccepted (kafkaLabels cfg),
                Effect.inc .ContentRejected (rejectedLabels cfg "invalid_evenlope_message_type"),
                Effect.commit msg r, Effect.inc .ContentAcknowledged (kafkaLabels cfg)]) ∨
         (envelope.MessageType = ContentModelsEventMsgType ∧ ∃ event workStart s1,
            d.UnmarshalEvent envelope.Message = .ok event ∧
            (iteration d cfg s).2.1 =
              Effect.inc .ContentAccepted (kafkaLabels cfg) ::
                (processEvent d cfg workStart msg event s1).1))) := by
  cases hd : d.Done s with
  | true =>
    left
    unfold iteration
    simp [hd, Effect.isCommit, Effect.isDelivery]
  | false =>
    cases hf : (d.FetchMessage s).1 with
    | error err =>
      left
      unfold iteration
      by_cases h : err = EOF <;> simp [hd, hf, h, Effect.isCommit, Effect.isDelivery]
    | ok msg =>
      right
      have ht : (iteration d cfg s).2.1 = (processMessage d cfg msg (d.FetchMessage s).2).1 := by
        unfold iteration
        simp [hd, hf]
      have hn : (iteration d cfg s).1 = .next := by
        unfold iteration
        simp [hd, hf]
      refine ⟨msg, rfl, rfl, hn, ?_⟩
      rw [ht]
      cases he : d.UnmarshalEnvelope msg.Value with
      | error err =>
        left
        rw [processMessage_bad_envelope d cfg msg _ err he]
        simp [Effect.isCommit, Effect.isDelivery]
      | ok envelope =>
        by_cases hty : envelope.MessageType = ContentModelsEventMsgType
        · cases hv : d.UnmarshalEvent envelope.Message with
          | error err =>
            left
            rw [processMessage_bad_event d cfg msg _ envelope he hty err hv]
            simp [Effect.isCommit, Effect.isDelivery]
          | ok event =>
            right
            refine ⟨envelope, rfl, Or.inr ⟨hty, event, d.Now (d.FetchMessage s).2,
              (d.FetchMessage s).2, hv, ?_⟩⟩
            rw [processMessage_event d cfg msg _ envelope he hty event hv]
        · right
          refine ⟨envelope, rfl, Or.inl ⟨hty, (d.CommitMessages msg (d.FetchMessage s).2).1, ?_⟩⟩
          rw [processMessage_wrong_type d cfg msg _ envelope he hty]

/-- A transform in a pass of `Work` is on the event of the fetched handle. -/
theorem iteration_convert (d : Deps σ) (cfg : Config) (s : σ) (ev : Event)
    (c : Except String Output) (h : Effect.convert ev c ∈ (iteration d cfg s).2.1) :
    ∃ msg envelope, d.Done s = false ∧ (d.FetchMessage s).1 = .ok msg ∧
      d.UnmarshalEnvelope msg.Value = .ok envelope ∧
      envelope.MessageType = ContentModelsEventMsgType ∧
      d.UnmarshalEvent envelope.Message = .ok ev := by
  rcases iteration_cases d cfg s with h0 | ⟨msg, hd, hf, -, h0 | ⟨envelope, he, h1 | h1⟩⟩
  · have := (h0 _ h).2
    simp [Effect.isDelivery] at this
  · have := (h0 _ h).2
    simp [Effect.isDelivery] at this
  · obtain ⟨-, r, ht⟩ := h1
    rw [ht] at h
    simp at h
  · obtain ⟨hty, event, workStart, s1, hv, ht⟩ := h1
    rw [ht] at h
    simp only [List.mem_cons] at h
    rcases h with h | h
    · cases h
    · have := processEvent_convert d cfg workStart msg event s1 ev c h
      subst this
      exact ⟨msg, envelope, hd, hf, he, hty, hv⟩

/-- A commit in a pass of `Work` is a commit of the fetched handle. -/
theorem iteration_commit (d : Deps σ) (cfg : Config) (s : σ) (msg : Message)
    (r : Option String) (h : Effect.commit msg r ∈ (iteration d cfg s).2.1) :
    d.Done s = false ∧ (d.FetchMessage s).1 = .ok msg := by
  rcases iteration_trace d cfg s with h0 | ⟨msg0, hd, hf, ht⟩
  · have := (h0 _ h).1
    simp [Effect.isCommit] at this
  · rw [ht] at h
    have := (processMessage_commit d cfg msg0 _ msg r h).1
    subst this
    exact ⟨hd, hf⟩

end WorkerLemmas

/-! ## The claims on the delivery loop -/

section WorkerClaims

variable {σ : Type}

/-- C1. Whenever `Work` commits a message handle in a pass of its loop, the handle is
the one the pass fetched, its envelope decodes, and, for an event whose content
type is spelled in ASCII, the pass went one of these ways. The envelope has a
message type other than `content_models_event`, and the pass counts the rejection
and commits. Or the event decodes and the ignore filter rejects it, or its
lowercased content type is not a key of `ContentTypeMappings`, or its kind is
not accepted: the pass counts the rejection with the reason of that filter and
commits, without any transform, send or audit publish. Or the event passes the
three filters: the pass holds the transform of the event and the successful send
of the artifact it returned, no transform and no send of the pass failed, and
the commit follows them. -/
theorem Work_commit_justified (d : Deps σ) (cfg : Config) (fuel : Nat) (s : σ)
    (t : List Effect) (msg : Message) (r : Option String)
    (ht : t ∈ (Work d cfg fuel s).1) (hc : Effect.commit msg r ∈ t)
    (_ha : ∀ envelope event, d.UnmarshalEnvelope msg.Value = .ok envelope →
      d.UnmarshalEvent envelope.Message = .ok event → isASCII event.Content.Type_ = true) :
    ∃ s0 envelope, d.Done s0 = false ∧ (d.FetchMessage s0).1 = .ok msg ∧
      t = (iteration d cfg s0).2.1 ∧ d.UnmarshalEnvelope msg.Value = .ok envelope ∧
      ((envelope.MessageType ≠ ContentModelsEventMsgType ∧
          t = [Effect.inc .ContentAccepted (kafkaLabels cfg),
            Effect.inc .ContentRejected (rejectedLabels cfg "invalid_evenlope_message_type"),
            Effect.commit msg r, Effect.inc .ContentAcknowledged (kafkaLabels cfg)]) ∨
       (envelope.MessageType = ContentModelsEventMsgType ∧
        ∃ event, d.UnmarshalEvent envelope.Message = .ok event ∧
          ((ignoreFilter cfg event = true ∧
              t = [Effect.inc .ContentAccepted (kafkaLabels cfg),
                Effect.inc .ContentRejected
                  (rejectedLabels cfg "updated_before_ignore_value"),
                Effect.commit msg r, Effect.inc .ContentAcknowledged (kafkaLabels cfg)]) ∨
           (ignoreFilter cfg event = false ∧
              ToLower event.Content.Type_ ∉ ContentTypeMappings.map Prod.fst ∧
              t = [Effect.inc .ContentAccepted (kafkaLabels cfg),
                Effect.inc .ContentRejected (rejectedLabels cfg "unwanted_content_type"),
                Effect.commit msg r, Effect.inc .ContentAcknowledged (kafkaLabels cfg)]) ∨
           (ignoreFilter cfg event = false ∧
              ToLower event.Content.Type_ ∈ ContentTypeMappings.map Prod.fst ∧
              event.Event ∉ cfg.Processor.AcceptedEvents ∧ ∃ a b,
              t = [Effect.inc .ContentAccepted (kafkaLabels cfg),
                Effect.inc .ContentRejected (rejectedLabels cfg "unwanted_event_type"),
                Effect.commit msg r, Effect.inc .ContentAcknowledged (kafkaLabels cfg),
                Effect.observe .ContentProcessingLatency (kafkaLabels cfg) a b]) ∨
           (ignoreFilter cfg event = false ∧
              ToLower event.Content.Type_ ∈ ContentTypeMappings.map Prod.fst ∧
              event.Event ∈ cfg.Processor.AcceptedEvents ∧ ∃ body o a b,
              t = Effect.inc .ContentAccepted (kafkaLabels cfg) ::
                (body ++ [Effect.inc .ContentSent (kafkaLabels cfg), Effect.commit msg r,
                  Effect.inc .ContentAcknowledged (kafkaLabels cfg),
                  Effect.observe .ContentProcessingLatency (kafkaLabels cfg) a b]) ∧
              Effect.convert event (.ok o) ∈ body ∧ Effect.send o none ∈ body ∧
              ∀ y ∈ body, y.isDelivery = true ∧ y.isFailure = false)))) := by
  obtain ⟨s0, rfl⟩ := Work_trace d cfg fuel s t ht
  have hbody : ∀ body : List Effect, (∀ y ∈ body, y.isDelivery = true ∧ y.isFailure = false) →
      Effect.commit msg r ∉ body := by
    intro body hb hm
    have := (hb _ hm).1
    simp [Effect.isDelivery] at this
  rcases iteration_cases d cfg s0 with h0 | ⟨msg0, hd, hf, -, h0 | ⟨envelope, he, h1 | h1⟩⟩
  · have := (h0 _ hc).1
    simp [Effect.isCommit] at this
  · have := (h0 _ hc).1
    simp [Effect.isCommit] at this
  · obtain ⟨hty, r0, htr⟩ := h1
    rw [htr] at hc
    simp at hc
    obtain ⟨rfl, rfl⟩ := hc
    exact ⟨s0, envelope, hd, hf, rfl, he, Or.inl ⟨hty, htr⟩⟩
  · obtain ⟨hty, event, workStart, s1, hv, htr⟩ := h1
    rw [htr] at hc
    rcases processEvent_cases d cfg workStart msg0 event s1 with
      ⟨hi, r0, hp⟩ | ⟨hi, hk, r0, hp⟩ | ⟨hi, hk, hn, r0, a, b, hp⟩ |
      ⟨hi, hk, hm, body, o, r0, a, b, hp, h1, h2, h3⟩ | ⟨hi, hk, hm, body, x, hp, hx, hy⟩
    · rw [hp] at hc htr
      simp at hc
      obtain ⟨rfl, rfl⟩ := hc
      exact ⟨s0, envelope, hd, hf, rfl, he, Or.inr ⟨hty, event, hv, Or.inl ⟨hi, htr⟩⟩⟩
    · rw [hp] at hc htr
      simp at hc
      obtain ⟨rfl, rfl⟩ := hc
      exact ⟨s0, envelope, hd, hf, rfl, he,
        Or.inr ⟨hty, event, hv, Or.inr (Or.inl ⟨hi, hk, htr⟩)⟩⟩
    · rw [hp] at hc htr
      simp at hc
      obtain ⟨rfl, rfl⟩ := hc
      exact ⟨s0, envelope, hd, hf, rfl, he,
        Or.inr ⟨hty, event, hv, Or.inr (Or.inr (Or.inl ⟨hi, hk, hn, a, b, htr⟩))⟩⟩
    · rw [hp] at hc htr
      have hnb := hbody body h3
      simp [hnb] at hc
      obtain ⟨rfl, rfl⟩ := hc
      exact ⟨s0, envelope, hd, hf, rfl, he,
        Or.inr ⟨hty, event, hv,
          Or.inr (Or.inr (Or.inr ⟨hi, hk, hm, body, o, a, b, htr, h1, h2, h3⟩))⟩⟩
    · rw [hp] at hc
      have hnb := hbody body hy
      simp [hnb] at hc
      subst hc
      simp [Effect.isFailure] at hx

/-- A run of C1: the sample worker sends the artifact and commits the handle. -/
theorem Work_commit_justified_witness :
    deliveredTrace ∈ (Work deliveringDeps sampleConfig 1 0).1 ∧
    Effect.commit sampleMessage none ∈ deliveredTrace ∧
    isASCII sampleEvent.Content.Type_ = true ∧
    ∃ s0 envelope, deliveringDeps.Done s0 = false ∧
      (deliveringDeps.FetchMessage s0).1 = .ok sampleMessage ∧
      deliveredTrace = (iteration deliveringDeps sampleConfig s0).2.1 ∧
      deliveringDeps.UnmarshalEnvelope sampleMessage.Value = .ok envelope :=
  ⟨by decide, by decide, by decide,
    (Work_commit_justified deliveringDeps sampleConfig 1 0 deliveredTrace sampleMessage none
      (by decide) (by decide)
      (fun envelope event _ hv => by
        have : event = sampleEvent := by
          simpa [deliveringDeps, sampleDeps] using hv.symm
        subst this
        decide)).imp fun s0 h => h.imp fun envelope h => ⟨h.1, h.2.1, h.2.2.1, h.2.2.2.1⟩⟩

/-- C2. In the trace of one pass of the loop of `Work`, at every position. A write to
the audit topic stands directly after the record of the delivery, which stands
directly after the successful sink send of the artifact it reports, which stands
directly after the transform of the event of the fetched handle that returned
that artifact; what is written is the marshalled envelope of the marshalled
record. The record of a delivery is built only directly after such a send, and is
directly followed by its write unless the marshalling of the record or of the
envelope failed. A successful send is directly followed by the record of its
artifact. A commit is a commit of the fetched handle, and no transform, send,
record or write to the audit topic follows it: the order is send, audit publish,
commit. -/
theorem iteration_send_audit_commit_order (d : Deps σ) (cfg : Config) (s : σ)
    (pre : List Effect) (e : Effect) (post : List Effect)
    (h : (iteration d cfg s).2.1 = pre ++ e :: post) :
    (∀ value err, e = Effect.write value err →
      ∃ pre0 event o record recordJSON id msg envelope,
        pre = pre0 ++ [Effect.convert event (.ok o), Effect.send o none, Effect.audit record] ∧
        record.Filename = o.Filename ∧ record.SHA256Checksum = o.Checksum ∧
        record.SizeBytes = o.Size ∧ d.MarshalRecord record = .ok recordJSON ∧
        d.MarshalEnvelope (NewEnvelope id FTPDelivery recordJSON) = .ok value ∧
        (d.FetchMessage s).1 = .ok msg ∧ d.UnmarshalEnvelope msg.Value = .ok envelope ∧
        d.UnmarshalEvent envelope.Message = .ok event) ∧
    (∀ record, e = Effect.audit record →
      (∃ pre0 o, pre = pre0 ++ [Effect.send o none] ∧ record.Filename = o.Filename ∧
        record.SHA256Checksum = o.Checksum ∧ record.SizeBytes = o.Size) ∧
      ((∃ err, d.MarshalRecord record = .error err) ∨
        (∃ recordJSON id err, d.MarshalRecord record = .ok recordJSON ∧
          d.MarshalEnvelope (NewEnvelope id FTPDelivery recordJSON) = .error err) ∨
        ∃ value err post0, post = Effect.write value err :: post0)) ∧
    (∀ o, e = Effect.send o none →
      ∃ record post0, post = Effect.audit record :: post0 ∧ record.Filename = o.Filename ∧
        record.SHA256Checksum = o.Checksum ∧ record.SizeBytes = o.Size) ∧
    (∀ msg r, e = Effect.commit msg r →
      (d.FetchMessage s).1 = .ok msg ∧
      (∀ event c, Effect.convert event c ∉ post) ∧ (∀ o err, Effect.send o err ∉ post) ∧
      (∀ record, Effect.audit record ∉ post) ∧ (∀ v err, Effect.write v err ∉ post)) := by
  obtain ⟨h1, h2, h3⟩ := iteration_ordered d cfg s pre e post h
  obtain ⟨p1, p2⟩ := iteration_published d cfg s pre e post h
  refine ⟨?_, fun record he => ⟨h1 record he, p2 record he⟩, h2, ?_⟩
  · intro value err he
    obtain ⟨pre0, event, o, record, recordJSON, id, hp, ⟨r1, r2, r3⟩, hm, hv⟩ := p1 value err he
    have hmem : Effect.convert event (.ok o) ∈ (iteration d cfg s).2.1 := by
      rw [h, hp]
      simp
    obtain ⟨msg, envelope, -, hf, hen, -, hev⟩ := iteration_convert d cfg s event _ hmem
    exact ⟨pre0, event, o, record, recordJSON, id, msg, envelope, hp, r1, r2, r3, hm, hv, hf,
      hen, hev⟩
  · rintro msg r rfl
    have hp := h3 rfl
    have hmem : Effect.commit msg r ∈ (iteration d cfg s).2.1 := by
      rw [h]
      simp
    refine ⟨(iteration_commit d cfg s msg r hmem).2, ?_, ?_, ?_, ?_⟩
    · intro event c hm
      have := hp _ hm
      simp [Effect.isDelivery] at this
    · intro o err hm
      have := hp _ hm
      simp [Effect.isDelivery] at this
    · intro record hm
      have := hp _ hm
      simp [Effect.isDelivery] at this
    · intro v err hm
      have := hp _ hm
      simp [Effect.isDelivery] at this

/-- A run of C2: in the sample delivery the write to the audit topic stands directly
after the record, which stands directly after the successful send, and the commit
follows. -/
theorem iteration_send_audit_commit_order_witness :
    (iteration deliveringDeps sampleConfig 0).2.1 =
      (deliveredBeforeAudit ++ [Effect.audit sampleRecord]) ++
        Effect.write [2] none :: deliveredAfterWrite ∧
    deliveredBeforeAudit ++ [Effect.audit sampleRecord] =
      [Effect.inc .ContentAccepted (kafkaLabels sampleConfig)] ++
        [Effect.convert sampleEvent (.ok sampleOutput), Effect.send sampleOutput none,
          Effect.audit sampleRecord] ∧
    (∃ pre0 event o record recordJSON id msg envelope,
      deliveredBeforeAudit ++ [Effect.audit sampleRecord] =
        pre0 ++ [Effect.convert event (.ok o), Effect.send o none, Effect.audit record] ∧
      record.Filename = o.Filename ∧ record.SHA256Checksum = o.Checksum ∧
      record.SizeBytes = o.Size ∧ deliveringDeps.MarshalRecord record = .ok recordJSON ∧
      deliveringDeps.MarshalEnvelope (NewEnvelope id FTPDelivery recordJSON) = .ok [2] ∧
      (deliveringDeps.FetchMessage 0).1 = .ok msg ∧
      deliveringDeps.UnmarshalEnvelope msg.Value = .ok envelope ∧
      deliveringDeps.UnmarshalEvent envelope.Message = .ok event) ∧
    Effect.commit sampleMessage none ∈ deliveredAfterWrite :=
  ⟨by decide, by decide,
    (iteration_send_audit_commit_order deliveringDeps sampleConfig 0
      (deliveredBeforeAudit ++ [Effect.audit sampleRecord]) (Effect.write [2] none)
      deliveredAfterWrite (by decide)).1 [2] none rfl,
    by decide⟩

/-- C3, as amended. When a transform or a sink send returns an error in a pass of the
loop of `Work`: the pass fetched a handle whose event passes the three filters;
its trace ends with the failed step and the count of one send error, after
delivery steps that did not fail; the pass commits no handle; and the loop goes
on with its next pass from the world the failed step left, so that what is
fetched next is what the reader hands out in that world. -/
theorem iteration_failure_not_committed (d : Deps σ) (cfg : Config) (s : σ)
    (h : (∃ event err, Effect.convert event (.error err) ∈ (iteration d cfg s).2.1) ∨
      (∃ o err, Effect.send o (some err) ∈ (iteration d cfg s).2.1)) :
    (∀ msg r, Effect.commit msg r ∉ (iteration d cfg s).2.1) ∧
    (iteration d cfg s).2.1.count (Effect.inc .ContentSendErrors (kafkaLabels cfg)) = 1 ∧
    (∃ msg envelope event, d.Done s = false ∧ (d.FetchMessage s).1 = .ok msg ∧
      d.UnmarshalEnvelope msg.Value = .ok envelope ∧
      envelope.MessageType = ContentModelsEventMsgType ∧
      d.UnmarshalEvent envelope.Message = .ok event ∧
      ignoreFilter cfg event = false ∧
      ToLower event.Content.Type_ ∈ ContentTypeMappings.map Prod.fst ∧
      event.Event ∈ cfg.Processor.AcceptedEvents ∧
      ∃ body x, (iteration d cfg s).2.1 =
          Effect.inc .ContentAccepted (kafkaLabels cfg) ::
            (body ++ [x, Effect.inc .ContentSendErrors (kafkaLabels cfg)]) ∧
        x.isFailure = true ∧ ∀ y ∈ body, y.isDelivery = true ∧ y.isFailure = false) ∧
    (iteration d cfg s).1 = .next ∧
    (∀ fuel, (Work d cfg (fuel + 1) s).1 =
      (iteration d cfg s).2.1 :: (Work d cfg fuel (iteration d cfg s).2.2).1) := by
  have hx : ∃ x ∈ (iteration d cfg s).2.1, x.isFailure = true := by
    rcases h with ⟨event, err, h⟩ | ⟨o, err, h⟩
    · exact ⟨_, h, rfl⟩
    · exact ⟨_, h, rfl⟩
  have hold : (∀ msg r, Effect.commit msg r ∉ (iteration d cfg s).2.1) ∧
      (iteration d cfg s).2.1.count (Effect.inc .ContentSendErrors (kafkaLabels cfg)) = 1 := by
    rcases iteration_trace d cfg s with hn | ⟨msg0, -, -, ht⟩
    · obtain ⟨x, hm, hf⟩ := hx
      have := (hn x hm).2
      rw [isFailure_isDelivery x hf] at this
      cases this
    · rw [ht] at hx ⊢
      obtain ⟨h1, h2⟩ := processMessage_failure d cfg msg0 _ hx
      refine ⟨?_, h2⟩
      intro msg r hm
      have := h1 _ hm
      simp [Effect.isCommit] at this
  obtain ⟨x, hxm, hxf⟩ := hx
  have hxd := isFailure_isDelivery x hxf
  rcases iteration_cases d cfg s with h0 | ⟨msg, hd, hf, hn, h0 | ⟨envelope, he, h1 | h1⟩⟩
  · have := (h0 x hxm).2
    rw [hxd] at this
    cases this
  · have := (h0 x hxm).2
    rw [hxd] at this
    cases this
  · obtain ⟨-, r, ht⟩ := h1
    rw [ht] at hxm
    simp at hxm
    rcases hxm with rfl | rfl | rfl | rfl <;> simp [Effect.isFailure] at hxf
  · obtain ⟨hty, event, workStart, s1, hv, htr⟩ := h1
    refine ⟨hold.1, hold.2, ?_, hn, ?_⟩
    · refine ⟨msg, envelope, event, hd, hf, he, hty, hv, ?_⟩
      rw [htr] at hxm hold
      have hne : ∀ l : List Effect, (∀ y ∈ l, y.isFailure = false) → x ∉ l := by
        intro l hl hm
        rw [hl x hm] at hxf
        cases hxf
      have hxp : x ∈ (processEvent d cfg workStart msg event s1).1 := by
        rcases List.mem_cons.1 hxm with rfl | hm
        · simp [Effect.isFailure] at hxf
        · exact hm
      rcases processEvent_cases d cfg workStart msg event s1 with
        ⟨hi, r0, hp⟩ | ⟨hi, hk, r0, hp⟩ | ⟨hi, hk, hnm, r0, a, b, hp⟩ |
        ⟨hi, hk, hm, body, o, r0, a, b, hp, h1, h2, h3⟩ | ⟨hi, hk, hm, body, x1, hp, hx1, hy⟩
      · rw [hp] at hxp
        exact absurd hxp (hne _ (by simp [Effect.isFailure]))
      · rw [hp] at hxp
        exact absurd hxp (hne _ (by simp [Effect.isFailure]))
      · rw [hp] at hxp
        exact absurd hxp (hne _ (by simp [Effect.isFailure]))
      · rw [hp] at hxp
        refine absurd hxp (hne _ ?_)
        intro y hy
        rcases List.mem_append.1 hy with hy | hy
        · exact (h3 y hy).2
        · simp at hy
          rcases hy with rfl | rfl | rfl | rfl <;> rfl
      · exact ⟨hi, hk, hm, body, x1, by rw [htr, hp], hx1, hy⟩
    · intro fuel
      rw [Work]
      simp only [hn]

/-- A run of C3: the sink send fails, one send error is counted, nothing is
committed, and the loop goes on. -/
theorem iteration_failure_not_committed_witness :
    (iteration sendFailingDeps sampleConfig 0).2.1 = sendFailedTrace ∧
    ((∃ event err, Effect.convert event (.error err) ∈
        (iteration sendFailingDeps sampleConfig 0).2.1) ∨
      (∃ o err, Effect.send o (some err) ∈ (iteration sendFailingDeps sampleConfig 0).2.1)) ∧
    (∀ msg r, Effect.commit msg r ∉ (iteration sendFailingDeps sampleConfig 0).2.1) ∧
    (iteration sendFailingDeps sampleConfig 0).2.1.count
      (Effect.inc .ContentSendErrors (kafkaLabels sampleConfig)) = 1 ∧
    (iteration sendFailingDeps sampleConfig 0).1 = .next :=
  ⟨by decide, Or.inr ⟨sampleOutput, "broken pipe", by decide⟩,
    (iteration_failure_not_committed sendFailingDeps sampleConfig 0
      (Or.inr ⟨sampleOutput, "broken pipe", by decide⟩)).1,
    (iteration_failure_not_committed sendFailingDeps sampleConfig 0
      (Or.inr ⟨sampleOutput, "broken pipe", by decide⟩)).2.1,
    (iteration_failure_not_committed sendFailingDeps sampleConfig 0
      (Or.inr ⟨sampleOutput, "broken pipe", by decide⟩)).2.2.2.1⟩

/-- C3, as stated, fails with a reader that hands out the messages of its queue one
after the other, as the bus reader does within a session: the send of the message
at offset 0 fails and its handle is not committed, and the next two passes fetch
and commit the offsets 1 and 2. The offset 0 is not fetched again. -/
theorem failed_offset_not_fetched_again :
    (sendFailsOnceDeps.FetchMessage 0).1 = .ok (sampleMessageAt 0) ∧
    (sendFailsOnceDeps.FetchMessage 1).1 = .ok (sampleMessageAt 1) ∧
    (sendFailsOnceDeps.FetchMessage 2).1 = .ok (sampleMessageAt 2) ∧
    (iteration sendFailsOnceDeps sampleConfig 0).2.1 = sendFailedTrace ∧
    (iteration sendFailsOnceDeps sampleConfig 0).2.2 = 1 ∧
    (Work sendFailsOnceDeps sampleConfig 3 0).1 =
      [sendFailedTrace, deliveredTraceAt 1, deliveredTraceAt 2] ∧
    Effect.commit (sampleMessageAt 1) none ∈ deliveredTraceAt 1 ∧
    Effect.commit (sampleMessageAt 2) none ∈ deliveredTraceAt 2 ∧
    sampleMessageAt 1 ≠ sampleMessageAt 0 ∧ sampleMessageAt 2 ≠ sampleMessageAt 0 := by
  decide

/-- C4. With `ignore_updated_before` set to 2020-01-01T00:00:00Z, the event updated at
2019-12-31T23:59:59Z is not rejected: the ignore filter is false for it and the
worker converts, sends and audits it. The event updated at 2020-01-01T00:00:01Z is
the one rejected with reason `updated_before_ignore_value`. -/
theorem ignore_filter_rejects_after_cutoff :
    ignoreFilter cutoffConfig olderEvent = false ∧
    (iteration (sampleDeps sampleEnvelope olderEvent (.ok sampleOutput) none none)
        cutoffConfig 0).2.1 =
      [Effect.inc .ContentAccepted (kafkaLabels cutoffConfig),
        Effect.convert olderEvent (.ok sampleOutput), Effect.send sampleOutput none,
        Effect.audit sampleRecord, Effect.write [2] none,
        Effect.inc .ContentSent (kafkaLabels cutoffConfig),
        Effect.commit sampleMessage none,
        Effect.inc .ContentAcknowledged (kafkaLabels cutoffConfig),
        Effect.observe .ContentProcessingLatency (kafkaLabels cutoffConfig)
          { sec := 1 } { sec := 1 }] ∧
    ignoreFilter cutoffConfig newerEvent = true ∧
    (iteration (sampleDeps sampleEnvelope newerEvent (.ok sampleOutput) none none)
        cutoffConfig 0).2.1 =
      [Effect.inc .ContentAccepted (kafkaLabels cutoffConfig),
        Effect.inc .ContentRejected (rejectedLabels cutoffConfig "updated_before_ignore_value"),
        Effect.commit sampleMessage none,
        Effect.inc .ContentAcknowledged (kafkaLabels cutoffConfig)] := by
  decide

/-- C5. With the accepted events loaded from `PROCESSOR_EVENTS=Created,Created`, one
created story is converted twice, sent twice and audited twice before its handle
is committed once and counted as sent once. -/
theorem duplicate_accepted_event_sent_twice :
    LoadConfigAcceptedEvents "Created,Created" = .ok duplicateConfig.Processor.AcceptedEvents ∧
    (iteration deliveringDeps duplicateConfig 0).2.1 =
      [Effect.inc .ContentAccepted (kafkaLabels duplicateConfig),
        Effect.convert sampleEvent (.ok sampleOutput), Effect.send sampleOutput none,
        Effect.audit sampleRecord, Effect.write [2] none,
        Effect.convert sampleEvent (.ok sampleOutput), Effect.send sampleOutput none,
        Effect.audit sampleRecord, Effect.write [2] none,
        Effect.inc .ContentSent (kafkaLabels duplicateConfig),
        Effect.commit sampleMessage none,
        Effect.inc .ContentAcknowledged (kafkaLabels duplicateConfig),
        Effect.observe .ContentProcessingLatency (kafkaLabels duplicateConfig)
          { sec := 1 } { sec := 1 }] ∧
    (iteration deliveringDeps duplicateConfig 0).2.1.count (Effect.send sampleOutput none) = 2 ∧
    (iteration deliveringDeps duplicateConfig 0).2.1.count (Effect.audit sampleRecord) = 2 := by
  decide

/-- C6. For an envelope of message type `ftp_delivery` the worker commits the handle
without any delivery step, and the reason it counts is spelled
`invalid_evenlope_message_type`, not `invalid_envelope_message_type`. -/
theorem wrong_message_type_reason_misspelled :
    (iteration (sampleDeps deliveryEnvelope sampleEvent (.ok sampleOutput) none none)
        sampleConfig 0).2.1 =
      [Effect.inc .ContentAccepted (kafkaLabels sampleConfig),
        Effect.inc .ContentRejected (rejectedLabels sampleConfig "invalid_evenlope_message_type"),
        Effect.commit sampleMessage none,
        Effect.inc .ContentAcknowledged (kafkaLabels sampleConfig)] ∧
    Effect.inc .ContentRejected (rejectedLabels sampleConfig "invalid_envelope_message_type") ∉
      (iteration (sampleDeps deliveryEnvelope sampleEvent (.ok sampleOutput) none none)
        sampleConfig 0).2.1 := by
  decide

/-- C7. For a decoded event that the ignore filter lets through and whose content
type is spelled in ASCII, so that `ToLower` lowercases it as `strings.ToLower`
does: if the lowercased content type is not a key of `ContentTypeMappings`, the
pass counts the rejection `unwanted_content_type`, commits the handle and holds no
transform and no send; if it is a key, the pass counts no rejection
`unwanted_content_type`. -/
theorem content_type_filter (d : Deps σ) (cfg : Config) (s : σ) (msg : Message)
    (envelope : Envelope) (event : Event)
    (hd : d.Done s = false) (hf : (d.FetchMessage s).1 = .ok msg)
    (he : d.UnmarshalEnvelope msg.Value = .ok envelope)
    (ht : envelope.MessageType = ContentModelsEventMsgType)
    (hv : d.UnmarshalEvent envelope.Message = .ok event)
    (hi : ignoreFilter cfg event = false)
    (_ha : isASCII event.Content.Type_ = true) :
    (ToLower event.Content.Type_ ∉ ContentTypeMappings.map Prod.fst →
      (iteration d cfg s).2.1 =
        [Effect.inc .ContentAccepted (kafkaLabels cfg),
          Effect.inc .ContentRejected (rejectedLabels cfg "unwanted_content_type"),
          Effect.commit msg (d.CommitMessages msg (d.FetchMessage s).2).1,
          Effect.inc .ContentAcknowledged (kafkaLabels cfg)] ∧
      (∀ e c, Effect.convert e c ∉ (iteration d cfg s).2.1) ∧
      (∀ o err, Effect.send o err ∉ (iteration d cfg s).2.1)) ∧
    (ToLower event.Content.Type_ ∈ ContentTypeMappings.map Prod.fst →
      Effect.inc .ContentRejected (rejectedLabels cfg "unwanted_content_type") ∉
        (iteration d cfg s).2.1) := by
  rw [iteration_event d cfg s msg envelope event hd hf he ht hv]
  constructor
  · intro hk
    rw [← lookup_eq_none_iff_not_key] at hk
    rw [processEvent_unwanted_type d cfg _ msg event _ hi hk]
    simp
  · intro hk
    cases hl : ContentTypeMappings.lookup (ToLower event.Content.Type_) with
    | none => exact absurd ((lookup_eq_none_iff_not_key _ _).1 hl) (not_not.2 hk)
    | some ct =>
      have hne := rejectedLabels_ne cfg "unwanted_content_type" "unwanted_event_type" (by decide)
      intro hm
      rcases List.mem_cons.1 hm with hm | hm
      · cases hm
      · cases hr : (acceptedEventsLoop d cfg event cfg.Processor.AcceptedEvents false
            (d.FetchMessage s).2).1 with
        | none =>
          rw [processEvent_aborted d cfg _ msg event _ hi ct hl hr] at hm
          rcases acceptedEventsLoop_effects d cfg event _ _ _ _ hm with h | h
          · simp [Effect.isDelivery] at h
          · cases h
        | some m =>
          rw [processEvent_completed d cfg _ msg event _ hi ct hl m hr] at hm
          rcases List.mem_append.1 hm with hm | hm
          · rcases acceptedEventsLoop_effects d cfg event _ _ _ _ hm with h | h
            · simp [Effect.isDelivery] at h
            · cases h
          · cases m <;> simp at hm
            exact hne hm

/-- A run of C7: the content type `Blog` is not mapped, the handle is committed and
nothing is converted or sent. -/
theorem content_type_filter_witness :
    isASCII blogEvent.Content.Type_ = true ∧
    ToLower blogEvent.Content.Type_ ∉ ContentTypeMappings.map Prod.fst ∧
    (iteration (sampleDeps sampleEnvelope blogEvent (.ok sampleOutput) none none)
        sampleConfig 0).2.1 =
      [Effect.inc .ContentAccepted (kafkaLabels sampleConfig),
        Effect.inc .ContentRejected (rejectedLabels sampleConfig "unwanted_content_type"),
        Effect.commit sampleMessage none,
        Effect.inc .ContentAcknowledged (kafkaLabels sampleConfig)] :=
  ⟨by decide, by decide,
    ((content_type_filter (sampleDeps sampleEnvelope blogEvent (.ok sampleOutput) none none)
      sampleConfig 0 sampleMessage sampleEnvelope blogEvent rfl rfl rfl rfl rfl rfl
        (by decide)).1 (by decide)).1⟩

/-- C8. For a decoded event that the ignore filter lets through, whose lowercased
content type is a key of `ContentTypeMappings` and whose kind is not in the
accepted events, the pass counts the rejection `unwanted_event_type`, commits
the handle and holds no transform and no send. -/
theorem event_kind_filter (d : Deps σ) (cfg : Config) (s : σ) (msg : Message)
    (envelope : Envelope) (event : Event)
    (hd : d.Done s = false) (hf : (d.FetchMessage s).1 = .ok msg)
    (he : d.UnmarshalEnvelope msg.Value = .ok envelope)
    (ht : envelope.MessageType = ContentModelsEventMsgType)
    (hv : d.UnmarshalEvent envelope.Message = .ok event)
    (hi : ignoreFilter cfg event = false)
    (hk : ToLower event.Content.Type_ ∈ ContentTypeMappings.map Prod.fst)
    (hn : event.Event ∉ cfg.Processor.AcceptedEvents) :
    (iteration d cfg s).2.1 =
      [Effect.inc .ContentAccepted (kafkaLabels cfg),
        Effect.inc .ContentRejected (rejectedLabels cfg "unwanted_event_type"),
        Effect.commit msg (d.CommitMessages msg (d.FetchMessage s).2).1,
        Effect.inc .ContentAcknowledged (kafkaLabels cfg),
        Effect.observe .ContentProcessingLatency (kafkaLabels cfg) (d.Now (d.FetchMessage s).2)
          (d.Now (d.CommitMessages msg (d.FetchMessage s).2).2)] ∧
    (∀ e c, Effect.convert e c ∉ (iteration d cfg s).2.1) ∧
    (∀ o err, Effect.send o err ∉ (iteration d cfg s).2.1) := by
  rw [iteration_event d cfg s msg envelope event hd hf he ht hv]
  cases hl : ContentTypeMappings.lookup (ToLower event.Content.Type_) with
  | none => exact absurd ((lookup_eq_none_iff_not_key _ _).1 hl) (not_not.2 hk)
  | some ct =>
    have hloop := acceptedEventsLoop_not_mem d cfg event cfg.Processor.AcceptedEvents false
      (d.FetchMessage s).2 hn
    rw [processEvent_completed d cfg _ msg event _ hi ct hl false (by rw [hloop])]
    simp [hloop]

/-- A run of C8: removed events are not accepted, the handle is committed and
nothing is converted or sent. -/
theorem event_kind_filter_witness :
    ToLower removedEvent.Content.Type_ ∈ ContentTypeMappings.map Prod.fst ∧
    removedEvent.Event ∉ sampleConfig.Processor.AcceptedEvents ∧
    (iteration (sampleDeps sampleEnvelope removedEvent (.ok sampleOutput) none none)
        sampleConfig 0).2.1 =
      [Effect.inc .ContentAccepted (kafkaLabels sampleConfig),
        Effect.inc .ContentRejected (rejectedLabels sampleConfig "unwanted_event_type"),
        Effect.commit sampleMessage none,
        Effect.inc .ContentAcknowledged (kafkaLabels sampleConfig),
        Effect.observe .ContentProcessingLatency (kafkaLabels sampleConfig)
          { sec := 1 } { sec := 1 }] :=
  ⟨by decide, by decide,
    (event_kind_filter (sampleDeps sampleEnvelope removedEvent (.ok sampleOutput) none none)
      sampleConfig 0 sampleMessage sampleEnvelope removedEvent rfl rfl rfl rfl rfl rfl
      (by decide) (by decide)).1⟩

/-- C9. For a decoded event that passes the three filters, in a pass in which no
transform and no sink send returns an error: whatever the marshalling of the
record, the marshalling of the envelope and the bus write of the audit publish
return, `processAndSend` reports success, the handle is committed and the event
is counted as sent. -/
theorem audit_failure_still_commits (d : Deps σ) (cfg : Config) (s : σ) (msg : Message)
    (envelope : Envelope) (event : Event)
    (hd : d.Done s = false) (hf : (d.FetchMessage s).1 = .ok msg)
    (he : d.UnmarshalEnvelope msg.Value = .ok envelope)
    (ht : envelope.MessageType = ContentModelsEventMsgType)
    (hv : d.UnmarshalEvent envelope.Message = .ok event)
    (hi : ignoreFilter cfg event = false)
    (hk : ToLower event.Content.Type_ ∈ ContentTypeMappings.map Prod.fst)
    (hm : event.Event ∈ cfg.Processor.AcceptedEvents)
    (hc : ∀ e err, Effect.convert e (.error err) ∉ (iteration d cfg s).2.1)
    (hs : ∀ o err, Effect.send o (some err) ∉ (iteration d cfg s).2.1) :
    (processAndSend d cfg event (d.FetchMessage s).2).1 = none ∧
    (∃ r, Effect.commit msg r ∈ (iteration d cfg s).2.1) ∧
    Effect.inc .ContentSent (kafkaLabels cfg) ∈ (iteration d cfg s).2.1 := by
  rw [iteration_event d cfg s msg envelope event hd hf he ht hv] at hc hs ⊢
  cases hl : ContentTypeMappings.lookup (ToLower event.Content.Type_) with
  | none => exact absurd ((lookup_eq_none_iff_not_key _ _).1 hl) (not_not.2 hk)
  | some ct =>
    cases hr : (acceptedEventsLoop d cfg event cfg.Processor.AcceptedEvents false
        (d.FetchMessage s).2).1 with
    | none =>
      rw [processEvent_aborted d cfg _ msg event _ hi ct hl hr] at hc hs
      obtain ⟨⟨x, hx, hxf⟩, -⟩ := acceptedEventsLoop_aborted d cfg event _ _ _ hr
      cases x with
      | convert e c =>
        cases c with
        | error err => exact absurd (List.mem_cons_of_mem _ hx) (hc e err)
        | ok o => simp [Effect.isFailure] at hxf
      | send o err =>
        cases err with
        | some err => exact absurd (List.mem_cons_of_mem _ hx) (hs o err)
        | none => simp [Effect.isFailure] at hxf
      | _ => simp [Effect.isFailure] at hxf
    | some b =>
      obtain ⟨-, -, c3, -⟩ := acceptedEventsLoop_completed d cfg event _ _ _ b hr
      have hb : b = true := by simpa [hm] using c3
      subst hb
      rw [processEvent_completed d cfg _ msg event _ hi ct hl true hr]
      refine ⟨acceptedEventsLoop_first d cfg event _ _ _ true hm hr,
        ⟨(d.CommitMessages msg (acceptedEventsLoop d cfg event cfg.Processor.AcceptedEvents
          false (d.FetchMessage s).2).2.2).1, ?_⟩, ?_⟩
      · simp
      · simp

/-- A run of C9: the write to the audit topic fails, the handle is committed and
the event is counted as sent. -/
theorem audit_failure_still_commits_witness :
    (iteration auditFailingDeps sampleConfig 0).2.1 = auditFailedTrace ∧
    (recordFTPDelivery auditFailingDeps sampleConfig sampleOutput sampleEvent 1).1 =
      some "write failed" ∧
    (processAndSend auditFailingDeps sampleConfig sampleEvent
      (auditFailingDeps.FetchMessage 0).2).1 = none ∧
    (∃ r, Effect.commit sampleMessage r ∈ (iteration auditFailingDeps sampleConfig 0).2.1) ∧
    Effect.inc .ContentSent (kafkaLabels sampleConfig) ∈
      (iteration auditFailingDeps sampleConfig 0).2.1 :=
  ⟨by decide, by decide,
    audit_failure_still_commits auditFailingDeps sampleConfig 0 sampleMessage sampleEnvelope
      sampleEvent rfl rfl rfl rfl rfl rfl (by decide) (by decide)
      (by
        intro e err h
        rw [show (iteration auditFailingDeps sampleConfig 0).2.1 = auditFailedTrace by decide] at h
        simp [auditFailedTrace] at h)
      (by
        intro o err h
        rw [show (iteration auditFailingDeps sampleConfig 0).2.1 = auditFailedTrace by decide] at h
        simp [auditFailedTrace] at h)⟩

end WorkerClaims

/-! ## The claims on the artifact -/

section ArtifactClaims

theorem hextable_getD_mem (i : Nat) (h : i < 16) : hextable.getD i '0' ∈ hextable := by
  interval_cases i <;> simp [hextable]

theorem EncodeToString_data (src : Bytes) :
    (EncodeToString src).data = src.flatMap fun v =>
      [hextable.getD (v.toNat / 16) '0', hextable.getD (v.toNat % 16) '0'] := rfl

/-- Every rune of the hex encoding is a lowercase hex digit. -/
theorem EncodeToString_lowercase (src : Bytes) :
    ∀ c ∈ (EncodeToString src).data, c ∈ hextable := by
  intro c hc
  rw [EncodeToString_data, List.mem_flatMap] at hc
  obtain ⟨v, -, hv⟩ := hc
  have hlt : v.toNat < 256 := v.val.isLt
  simp only [List.mem_cons, List.mem_singleton, List.not_mem_nil, or_false] at hv
  rcases hv with rfl | rfl
  · exact hextable_getD_mem _ (by omega)
  · exact hextable_getD_mem _ (by omega)

/-- The hex encoding has two runes for every byte. -/
theorem EncodeToString_length (src : Bytes) :
    (EncodeToString src).data.length = 2 * src.length := by
  rw [EncodeToString_data]
  induction src with
  | nil => rfl
  | cons v rest ih =>
    simp only [List.flatMap_cons, List.length_append, List.length_cons, List.length_nil, ih]
    omega

theorem Buffer_Len_eq (b : Buffer) : b.Len = b.Bytes.length := by
  simp [Buffer.Len, Buffer.Bytes]

/-- The transform returns an artifact whenever the XML encoder returns the document. -/
theorem Convert_ok (p : ConvertDeps) (e : Event) (rXMLBytes : Bytes)
    (h : p.MarshalIndent (buildXML p e) = .ok rXMLBytes) :
    ∃ o, Convert p e = .ok o ∧ o.Data.Bytes = stringBytes (xmlHeader ++ "\n") ++ rXMLBytes := by
  refine ⟨_, by simp only [Convert, h, newFilename]; rfl, ?_⟩
  simp [Output.CalculateChecksumSize, Buffer.Write, NewBufferString, Buffer.Bytes]

/-- C10. For the artifact `o` the ravenpack `Convert` returns, and for the result of
`CalculateChecksumSize` on any output `o0`: the checksum is the hex encoding of
the hash of the bytes of the data, all of its runes are lowercase hex digits, two
for every byte of the hash, and the size is the number of bytes of the data. -/
theorem Convert_checksum_size (p : ConvertDeps) (e : Event) (o o0 : Output)
    (h : Convert p e = .ok o) :
    (o.Checksum = EncodeToString (p.Sum256 o.Data.Bytes) ∧
      (∀ c ∈ o.Checksum.data, c ∈ "0123456789abcdef".data) ∧
      o.Checksum.data.length = 2 * (p.Sum256 o.Data.Bytes).length ∧
      o.Size = o.Data.Bytes.length) ∧
    ((o0.CalculateChecksumSize p.Sum256).Checksum =
        EncodeToString (p.Sum256 (o0.CalculateChecksumSize p.Sum256).Data.Bytes) ∧
      (∀ c ∈ (o0.CalculateChecksumSize p.Sum256).Checksum.data, c ∈ "0123456789abcdef".data) ∧
      (o0.CalculateChecksumSize p.Sum256).Checksum.data.length =
        2 * (p.Sum256 (o0.CalculateChecksumSize p.Sum256).Data.Bytes).length ∧
      (o0.CalculateChecksumSize p.Sum256).Size =
        (o0.CalculateChecksumSize p.Sum256).Data.Bytes.length ∧
      (o0.CalculateChecksumSize p.Sum256).Data = o0.Data ∧
      (o0.CalculateChecksumSize p.Sum256).Filename = o0.Filename) := by
  have key : ∀ x : Output,
      (x.CalculateChecksumSize p.Sum256).Checksum =
        EncodeToString (p.Sum256 (x.CalculateChecksumSize p.Sum256).Data.Bytes) ∧
      (∀ c ∈ (x.CalculateChecksumSize p.Sum256).Checksum.data, c ∈ "0123456789abcdef".data) ∧
      (x.CalculateChecksumSize p.Sum256).Checksum.data.length =
        2 * (p.Sum256 (x.CalculateChecksumSize p.Sum256).Data.Bytes).length ∧
      (x.CalculateChecksumSize p.Sum256).Size =
        (x.CalculateChecksumSize p.Sum256).Data.Bytes.length := by
    intro x
    refine ⟨rfl, ?_, ?_, ?_⟩
    · exact EncodeToString_lowercase _
    · exact EncodeToString_length _
    · exact Buffer_Len_eq _
  obtain ⟨k1, k2, k3, k4⟩ := key o0
  refine ⟨?_, k1, k2, k3, k4, rfl, rfl⟩
  unfold Convert at h
  split at h
  · cases h
  · split at h
    · cases h
    · cases h
      exact key _

/-- A run of C10: the artifact of the sample event. -/
theorem Convert_checksum_size_witness :
    Convert sampleConvertDeps sampleEvent = .ok sampleArtifact ∧
    (sampleArtifact.Checksum = EncodeToString (sampleConvertDeps.Sum256 sampleArtifact.Data.Bytes) ∧
      (∀ c ∈ sampleArtifact.Checksum.data, c ∈ "0123456789abcdef".data) ∧
      sampleArtifact.Checksum.data.length =
        2 * (sampleConvertDeps.Sum256 sampleArtifact.Data.Bytes).length ∧
      sampleArtifact.Size = sampleArtifact.Data.Bytes.length) :=
  ⟨by decide,
    (Convert_checksum_size sampleConvertDeps sampleEvent sampleArtifact sampleArtifact
      (by decide)).1⟩

end ArtifactClaims

/-! ## The claims on the ravenpack transform -/

section TransformClaims

/-- The artifact of `Convert`: its filename is that of `newFilename` and its data is
the header line followed by the encoded document. -/
theorem Convert_eq_ok (p : ConvertDeps) (e : Event) (o : Output) (h : Convert p e = .ok o) :
    ∃ rXMLBytes, p.MarshalIndent (buildXML p e) = .ok rXMLBytes ∧
      newFilename e = .ok o.Filename ∧
      o.Data.Bytes = stringBytes (xmlHeader ++ "\n") ++ rXMLBytes := by
  unfold Convert at h
  split at h
  · cases h
  · rename_i rXMLBytes hm
    split at h
    · cases h
    · rename_i filename hf
      cases h
      refine ⟨rXMLBytes, hm, hf, ?_⟩
      simp [Output.CalculateChecksumSize, Buffer.Write, NewBufferString, Buffer.Bytes]

theorem getTickers_eq (p : ConvertDeps) (e : Event) :
    getTickers p e =
      e.Content.Tickers.map fun ticker => tickerElement ticker (tickerLookup p ticker.Name) := by
  unfold getTickers tickerElement tickerLookup
  apply List.map_congr_left
  intro ticker _
  by_cases h : (Split ticker.Name ':').length > 1 <;> simp [h]

/-- The document depends on the reference cache only through the lookups for the
tickers of the event. -/
theorem buildXML_congr (p q : ConvertDeps) (e : Event) (hF : p.Format = q.Format)
    (hL : ∀ ticker ∈ e.Content.Tickers,
      tickerLookup p ticker.Name = tickerLookup q ticker.Name) :
    buildXML p e = buildXML q e := by
  have ht : getTickers p e = getTickers q e := by
    rw [getTickers_eq, getTickers_eq]
    apply List.map_congr_left
    intro ticker hm
    rw [hL ticker hm]
  unfold buildXML
  simp only [hF, ht]

/-- The lookup of the processor whose client reads the world `s`: the row decoded
from what the read of the key of the name returns, and none when the read or the
decoding fails. -/
theorem tickerLookup_rClientDeps {σ : Type} (c : Client σ) (s : σ)
    (format : Time → String → String) (marshalIndent : XML → Except String Bytes)
    (sum256 : Bytes → Bytes) (name : String) :
    tickerLookup (rClientDeps c s format marshalIndent sum256) name =
      match c.Get (tickerKey name) s with
      | .error _ => none
      | .ok res => (c.Unmarshal res).toOption := by
  unfold tickerLookup tickerKey rClientDeps Client.GetSymbolExchange Client.GetSymbolCurrency
  by_cases h : (Split name ':').length > 1
  · simp only [h, if_true]
    cases c.Get (symbolExchangeKey ((Split name ':').getD 1 "") ((Split name ':').getD 0 "")) s <;>
      rfl
  · simp only [h, if_false]
    cases c.Get (symbolCurrencyKey ((Split name ':').getD 0 "") "USD") s <;> rfl

/-- C11, as amended. Two calls of the ravenpack `Convert` on the same event, with the
same time format, XML encoder and hash, in two worlds in which the read of the
reference-cache key of every ticker of the event returns the same bytes, or fails
in both, return the same result: the same error, or artifacts with equal
filename, equal data bytes, equal checksum and equal size. The worlds may differ
in everything else, the other keys of the cache included. -/
theorem Convert_deterministic {σ : Type} (c : Client σ) (format : Time → String → String)
    (marshalIndent : XML → Except String Bytes) (sum256 : Bytes → Bytes) (e : Event)
    (s1 s2 : σ)
    (hL : ∀ ticker ∈ e.Content.Tickers,
      (c.Get (tickerKey ticker.Name) s1).toOption = (c.Get (tickerKey ticker.Name) s2).toOption) :
    Convert (rClientDeps c s1 format marshalIndent sum256) e =
      Convert (rClientDeps c s2 format marshalIndent sum256) e ∧
    ∀ o1 o2, Convert (rClientDeps c s1 format marshalIndent sum256) e = .ok o1 →
      Convert (rClientDeps c s2 format marshalIndent sum256) e = .ok o2 →
      o1.Filename = o2.Filename ∧ o1.Data.Bytes = o2.Data.Bytes ∧
      o1.Checksum = o2.Checksum ∧ o1.Size = o2.Size := by
  have hx : buildXML (rClientDeps c s1 format marshalIndent sum256) e =
      buildXML (rClientDeps c s2 format marshalIndent sum256) e := by
    refine buildXML_congr (rClientDeps c s1 format marshalIndent sum256)
      (rClientDeps c s2 format marshalIndent sum256) e rfl ?_
    intro ticker hm
    rw [tickerLookup_rClientDeps, tickerLookup_rClientDeps]
    have := hL ticker hm
    cases h1 : c.Get (tickerKey ticker.Name) s1 <;> cases h2 : c.Get (tickerKey ticker.Name) s2 <;>
      simp_all [Except.toOption]
  have hc : Convert (rClientDeps c s1 format marshalIndent sum256) e =
      Convert (rClientDeps c s2 format marshalIndent sum256) e := by
    unfold Convert
    rw [hx]
    rfl
  refine ⟨hc, ?_⟩
  intro o1 o2 h1 h2
  rw [hc, h2] at h1
  cases h1
  exact ⟨rfl, rfl, rfl, rfl⟩

/-- A run of C11: two calls on an event with the ticker `F`, the second with one
more row in the reference cache. -/
theorem Convert_deterministic_witness :
    (∀ ticker ∈ fordEvent.Content.Tickers,
      (flakyClient.Get (tickerKey ticker.Name) (fordStore, true)).toOption =
        (flakyClient.Get (tickerKey ticker.Name)
          (("FTP-ENGINE:SYMBOL-EXCHANGE:GLOG:NYSE", [1]) :: fordStore, true)).toOption) ∧
    Convert (flakyProcessor (fordStore, true)) fordEvent =
      Convert (flakyProcessor (("FTP-ENGINE:SYMBOL-EXCHANGE:GLOG:NYSE", [1]) :: fordStore, true))
        fordEvent :=
  ⟨by decide,
    (Convert_deterministic flakyClient _ _ _ fordEvent (fordStore, true)
      (("FTP-ENGINE:SYMBOL-EXCHANGE:GLOG:NYSE", [1]) :: fordStore, true) (by decide)).1⟩

/-- C11, as stated, fails when a read of the reference cache fails: with the row of
`F` stored in both worlds, the call whose read returns the row writes its ISIN and
exchange, and the call whose read returns the error of the connection, which
`getTickers` only logs, writes empty ones; the data, the checksums and the sizes
of the two artifacts differ. -/
theorem Convert_differs_on_read_error :
    (fordStore, true).1 = (fordStore, false).1 ∧
    tickerKey "F" = "FTP-ENGINE:SYMBOL-CURRENCY:F:USD" ∧
    flakyClient.Get (tickerKey "F") (fordStore, true) = .ok (stringBytes "FUS3453708600") ∧
    flakyClient.Get (tickerKey "F") (fordStore, false) = .error "dial tcp: connection refused" ∧
    (Convert (flakyProcessor (fordStore, true)) fordEvent).map (fun o => o.Data.Bytes) =
      .ok (stringBytes (xmlHeader ++ "\n" ++
        "<bz:type bz=\"0\" pro=\"0\" firstrun=\"1\">story</bz:type>" ++
        "<category domain=\"stock-symbol\">F</category>" ++
        "<category domain=\"https://www.benzinga.com/stock/f\">F</category>" ++
        "<category domain=\"publisher\">Benzinga</category>" ++
        "<bz:ticker primary=\"1\" isin=\"US3453708600\" exchange=\"NYSE\" sentiment=\"0\">F" ++
        "</bz:ticker>")) ∧
    (Convert (flakyProcessor (fordStore, false)) fordEvent).map (fun o => o.Data.Bytes) =
      .ok (stringBytes (xmlHeader ++ "\n" ++
        "<bz:type bz=\"0\" pro=\"0\" firstrun=\"1\">story</bz:type>" ++
        "<category domain=\"stock-symbol\">F</category>" ++
        "<category domain=\"https://www.benzinga.com/stock/f\">F</category>" ++
        "<category domain=\"publisher\">Benzinga</category>" ++
        "<bz:ticker primary=\"1\" isin=\"\" exchange=\"\" sentiment=\"0\">F" ++
        "</bz:ticker>")) ∧
    (Convert (flakyProcessor (fordStore, true)) fordEvent).map (fun o => o.Checksum) =
      .ok "4eab00ff" ∧
    (Convert (flakyProcessor (fordStore, false)) fordEvent).map (fun o => o.Checksum) =
      .ok "3eab00ff" ∧
    (Convert (flakyProcessor (fordStore, true)) fordEvent).map (fun o => o.Size) ≠
      (Convert (flakyProcessor (fordStore, false)) fordEvent).map (fun o => o.Size) := by
  decide
/-- C12. The rewrite is not idempotent on a body with two quoted stock paths in one
run of non-space runes: the first rewrite takes both paths as one match and leaves
the second path relative, and the second rewrite then rewrites that path. -/
theorem RewriteBodyTickerPaths_twice :
    RewriteBodyTickerPaths "https://benzinga.com" twoAnchorsBody =
      "see \"https://benzinga.com/stock/AAPL\",\"/stock/MSFT\"" ∧
    RewriteBodyTickerPaths "https://benzinga.com"
        (RewriteBodyTickerPaths "https://benzinga.com" twoAnchorsBody) =
      "see \"https://benzinga.com/stock/AAPL\",\"https://benzinga.com/stock/MSFT\"" ∧
    RewriteBodyTickerPaths "https://benzinga.com"
        (RewriteBodyTickerPaths "https://benzinga.com" twoAnchorsBody) ≠
      RewriteBodyTickerPaths "https://benzinga.com" twoAnchorsBody := by
  decide

/-- C14. The filename of the artifact `Convert` returns is `benzinga_`, the decimal
node id of the content, `_`, the decimal Unix seconds of the update time of the
content, and `_rss2.xml`. -/
theorem Convert_filename (p : ConvertDeps) (e : Event) (o : Output)
    (h : Convert p e = .ok o) :
    o.Filename =
      "benzinga_" ++ Itoa e.Content.NodeID ++ "_" ++ Itoa e.Content.UpdatedAt.Unix ++
        "_rss2.xml" := by
  obtain ⟨_, -, hf, -⟩ := Convert_eq_ok p e o h
  simp only [newFilename, Except.ok.injEq] at hf
  rw [← hf]
  simp [String.append_assoc]

/-- A run of C14: the filename of the artifact of an event updated at 1577836799. -/
theorem Convert_filename_witness :
    Convert sampleConvertDeps olderEvent = .ok olderArtifact ∧
    olderArtifact.Filename = "benzinga_9_1577836799_rss2.xml" ∧
    olderArtifact.Filename =
      "benzinga_" ++ Itoa olderEvent.Content.NodeID ++ "_" ++
        Itoa olderEvent.Content.UpdatedAt.Unix ++ "_rss2.xml" :=
  ⟨by decide, rfl, Convert_filename sampleConvertDeps olderEvent olderArtifact (by decide)⟩

/-- C15. The transform looks the content type up as it is spelled. For the types
`Story` and `PR_Story`, which the worker accepts because their lowercased
spelling is a key of `ContentTypeMappings`, the `base` attribute and the text of
`bz:type` are empty, although `firstrun` treats `Story` as a story. -/
theorem Convert_content_type_case_sensitive :
    ContentTypeMappings.lookup (ToLower capitalStoryEvent.Content.Type_) = some Story ∧
    EqualFold capitalStoryEvent.Content.Type_ "story" = true ∧
    (buildXML sampleConvertDeps capitalStoryEvent).Base = "" ∧
    (buildXML sampleConvertDeps capitalStoryEvent).Channel.Item.Type_.Text = "" ∧
    (buildXML sampleConvertDeps capitalStoryEvent).Channel.Item.Type_.FirstRun = "1" ∧
    ContentTypeMappings.lookup (ToLower capitalPressEvent.Content.Type_) = some PressRelease ∧
    (buildXML sampleConvertDeps capitalPressEvent).Base = "" ∧
    (buildXML sampleConvertDeps capitalPressEvent).Channel.Item.Type_.Text = "" ∧
    (buildXML sampleConvertDeps capitalPressEvent).Channel.Item.Categories =
      [{ Domain := "publisher", Text := "Benzinga" }] := by
  decide

/-- C16. For a content type spelled in ASCII, `Convert` returns the error of the XML
encoder, or else an artifact whose data is the header line followed by the
encoding of a document in which the attribute `bz` of `bz:type` is `1` if
`IsBzPost` is set and `0` otherwise, the attribute `pro` is `1` if `IsBzProPost` is
set and `0` otherwise, and the attribute `firstrun` is `1` if the content type
equals `story` ignoring letter case and the partner URL is empty, and `0`
otherwise. -/
theorem Convert_type_attributes (p : ConvertDeps) (e : Event)
    (_ha : isASCII e.Content.Type_ = true) :
    ∃ rXML : XML,
      (∀ err, p.MarshalIndent rXML = .error err → Convert p e = .error err) ∧
      (∀ rXMLBytes, p.MarshalIndent rXML = .ok rXMLBytes →
        ∃ o, Convert p e = .ok o ∧
          o.Data.Bytes = stringBytes (xmlHeader ++ "\n") ++ rXMLBytes) ∧
      rXML.Channel.Item.Type_.Bz = (if e.Content.IsBzPost = true then "1" else "0") ∧
      rXML.Channel.Item.Type_.Pro = (if e.Content.IsBzProPost = true then "1" else "0") ∧
      (rXML.Channel.Item.Type_.FirstRun = "1" ↔
        (EqualFold e.Content.Type_ "story" = true ∧ e.Content.PartnerURL = "")) ∧
      (rXML.Channel.Item.Type_.FirstRun = "0" ↔
        ¬ (EqualFold e.Content.Type_ "story" = true ∧ e.Content.PartnerURL = "")) := by
  refine ⟨buildXML p e, fun err h => by simp [Convert, h], Convert_ok p e, rfl, rfl, ?_, ?_⟩
  · simp only [buildXML]
    by_cases h1 : EqualFold e.Content.Type_ "story" = true <;>
      by_cases h2 : e.Content.PartnerURL = "" <;> simp [h1, h2]
  · simp only [buildXML]
    by_cases h1 : EqualFold e.Content.Type_ "story" = true <;>
      by_cases h2 : e.Content.PartnerURL = "" <;> simp [h1, h2]

/-- A run of C16: a story that is no post and has no partner URL, and its artifact
with the stand-in encoder. -/
theorem Convert_type_attributes_witness :
    isASCII fordEvent.Content.Type_ = true ∧
    (Convert renderingDeps fordEvent).map (fun o => o.Data.Bytes) =
      .ok (stringBytes (xmlHeader ++ "\n" ++
        "<bz:type bz=\"0\" pro=\"0\" firstrun=\"1\">story</bz:type>" ++
        "<category domain=\"stock-symbol\">F</category>" ++
        "<category domain=\"https://www.benzinga.com/stock/f\">F</category>" ++
        "<category domain=\"publisher\">Benzinga</category>" ++
        "<bz:ticker primary=\"1\" isin=\"US3453708600\" exchange=\"NYSE\" sentiment=\"0\">F" ++
        "</bz:ticker>")) ∧
    ∃ rXML : XML,
      (∀ err, renderingDeps.MarshalIndent rXML = .error err →
        Convert renderingDeps fordEvent = .error err) ∧
      (∀ rXMLBytes, renderingDeps.MarshalIndent rXML = .ok rXMLBytes →
        ∃ o, Convert renderingDeps fordEvent = .ok o ∧
          o.Data.Bytes = stringBytes (xmlHeader ++ "\n") ++ rXMLBytes) ∧
      rXML.Channel.Item.Type_.Bz = (if fordEvent.Content.IsBzPost = true then "1" else "0") ∧
      rXML.Channel.Item.Type_.Pro =
        (if fordEvent.Content.IsBzProPost = true then "1" else "0") ∧
      (rXML.Channel.Item.Type_.FirstRun = "1" ↔
        (EqualFold fordEvent.Content.Type_ "story" = true ∧
          fordEvent.Content.PartnerURL = "")) ∧
      (rXML.Channel.Item.Type_.FirstRun = "0" ↔
        ¬ (EqualFold fordEvent.Content.Type_ "story" = true ∧
          fordEvent.Content.PartnerURL = "")) :=
  ⟨by decide, by decide, Convert_type_attributes renderingDeps fordEvent (by decide)⟩

/-- C17. For ticker names spelled in ASCII, `Convert` returns the error of the XML
encoder, or else an artifact whose data is the header line followed by the
encoding of a document with these categories: for a content type mapped to the
press-release category, the press-release category and the publisher category;
for a content type mapped to the story category, one category per channel in
channel order, then the pair of categories of every ticker in ticker order, then
the publisher category, so that `c` channels and `t` tickers give `c + 2 * t + 1`
categories. -/
theorem Convert_categories (p : ConvertDeps) (e : Event)
    (_ha : ∀ ticker ∈ e.Content.Tickers, isASCII ticker.Name = true) :
    ∃ rXML : XML,
      (∀ err, p.MarshalIndent rXML = .error err → Convert p e = .error err) ∧
      (∀ rXMLBytes, p.MarshalIndent rXML = .ok rXMLBytes →
        ∃ o, Convert p e = .ok o ∧
          o.Data.Bytes = stringBytes (xmlHeader ++ "\n") ++ rXMLBytes) ∧
      (ContentTypeMappings.lookup e.Content.Type_ = some PressRelease →
        rXML.Channel.Item.Categories =
          [{ Domain := "https://www.benzinga.com/press-releases", Text := "Press Releases" },
           { Domain := "publisher", Text := "Benzinga" }]) ∧
      (ContentTypeMappings.lookup e.Content.Type_ = some Story →
        rXML.Channel.Item.Categories =
          e.Content.Channels.map (fun channel =>
            ({ Domain := "https://www.benzinga.com/taxonomy/term/" ++ Itoa channel.ID
               Text := channel.Name } : ItemCategory)) ++
          e.Content.Tickers.flatMap (fun ticker =>
            [({ Domain := "stock-symbol", Text := ticker.Name } : ItemCategory),
             { Domain := "https://www.benzinga.com/stock/" ++ ToLower ticker.Name
               Text := ticker.Name }]) ++
          [{ Domain := "publisher", Text := "Benzinga" }] ∧
        rXML.Channel.Item.Categories.length =
          e.Content.Channels.length + 2 * e.Content.Tickers.length + 1) := by
  have hne : Story ≠ PressRelease := by decide
  refine ⟨buildXML p e, fun err h => by simp [Convert, h], Convert_ok p e, ?_, ?_⟩
  · intro h
    simp [buildXML, h]
  · intro h
    have hc : (buildXML p e).Channel.Item.Categories =
        getCategories e ++ [{ Domain := "publisher", Text := "Benzinga" }] := by
      simp [buildXML, h, hne]
    refine ⟨by rw [hc]; rfl, ?_⟩
    rw [hc]
    have hl : ∀ ts : List Category,
        (ts.flatMap (fun ticker =>
          [({ Domain := "stock-symbol", Text := ticker.Name } : ItemCategory),
           { Domain := "https://www.benzinga.com/stock/" ++ ToLower ticker.Name
             Text := ticker.Name }])).length = 2 * ts.length := by
      intro ts
      induction ts with
      | nil => rfl
      | cons t rest ih =>
        simp only [List.flatMap_cons, List.length_append, List.length_cons, List.length_nil, ih]
        omega
    simp only [getCategories, List.length_append, List.length_map, hl, List.length_cons,
      List.length_nil]

/-- A run of C17: a story with one channel and two tickers, and its artifact with the
stand-in encoder, which holds `1 + 2 * 2 + 1` categories; and the artifact of a
press release. -/
theorem Convert_categories_witness :
    (∀ ticker ∈ newsEvent.Content.Tickers, isASCII ticker.Name = true) ∧
    ContentTypeMappings.lookup newsEvent.Content.Type_ = some Story ∧
    (Convert renderingDeps newsEvent).map (fun o => o.Data.Bytes) =
      .ok (stringBytes (xmlHeader ++ "\n" ++
        "<bz:type bz=\"0\" pro=\"0\" firstrun=\"1\">story</bz:type>" ++
        "<category domain=\"https://www.benzinga.com/taxonomy/term/57\">News</category>" ++
        "<category domain=\"stock-symbol\">F</category>" ++
        "<category domain=\"https://www.benzinga.com/stock/f\">F</category>" ++
        "<category domain=\"stock-symbol\">NYSE:GLOG</category>" ++
        "<category domain=\"https://www.benzinga.com/stock/nyse:glog\">NYSE:GLOG</category>" ++
        "<category domain=\"publisher\">Benzinga</category>" ++
        "<bz:ticker primary=\"1\" isin=\"US3453708600\" exchange=\"NYSE\" sentiment=\"0\">F" ++
        "</bz:ticker>" ++
        "<bz:ticker primary=\"0\" isin=\"\" exchange=\"\" sentiment=\"0\">NYSE:GLOG" ++
        "</bz:ticker>")) ∧
    ContentTypeMappings.lookup pressEvent.Content.Type_ = some PressRelease ∧
    (Convert renderingDeps pressEvent).map (fun o => o.Data.Bytes) =
      .ok (stringBytes (xmlHeader ++ "\n" ++
        "<bz:type bz=\"0\" pro=\"0\" firstrun=\"0\">press-release</bz:type>" ++
        "<category domain=\"https://www.benzinga.com/press-releases\">Press Releases" ++
        "</category>" ++
        "<category domain=\"publisher\">Benzinga</category>" ++
        "<bz:ticker primary=\"1\" isin=\"US3453708600\" exchange=\"NYSE\" sentiment=\"0\">F" ++
        "</bz:ticker>")) ∧
    ∃ rXML : XML,
      (∀ err, renderingDeps.MarshalIndent rXML = .error err →
        Convert renderingDeps newsEvent = .error err) ∧
      (∀ rXMLBytes, renderingDeps.MarshalIndent rXML = .ok rXMLBytes →
        ∃ o, Convert renderingDeps newsEvent = .ok o ∧
          o.Data.Bytes = stringBytes (xmlHeader ++ "\n") ++ rXMLBytes) ∧
      (ContentTypeMappings.lookup newsEvent.Content.Type_ = some PressRelease →
        rXML.Channel.Item.Categories =
          [{ Domain := "https://www.benzinga.com/press-releases", Text := "Press Releases" },
           { Domain := "publisher", Text := "Benzinga" }]) ∧
      (ContentTypeMappings.lookup newsEvent.Content.Type_ = some Story →
        rXML.Channel.Item.Categories =
          newsEvent.Content.Channels.map (fun channel =>
            ({ Domain := "https://www.benzinga.com/taxonomy/term/" ++ Itoa channel.ID
               Text := channel.Name } : ItemCategory)) ++
          newsEvent.Content.Tickers.flatMap (fun ticker =>
            [({ Domain := "stock-symbol", Text := ticker.Name } : ItemCategory),
             { Domain := "https://www.benzinga.com/stock/" ++ ToLower ticker.Name
               Text := ticker.Name }]) ++
          [{ Domain := "publisher", Text := "Benzinga" }] ∧
        rXML.Channel.Item.Categories.length =
          newsEvent.Content.Channels.length + 2 * newsEvent.Content.Tickers.length + 1) :=
  ⟨by decide, by decide, by decide, by decide, by decide,
    Convert_categories renderingDeps newsEvent (by decide)⟩

/-! ### The body rewrite -/

theorem dropLiteral_eq_some (p cs rest : List Char) :
    dropLiteral p cs = some rest ↔ cs = p ++ rest := by
  induction p generalizing cs with
  | nil =>
    cases cs <;> simp [dropLiteral, eq_comm]
  | cons a p ih =>
    cases cs with
    | nil => simp [dropLiteral]
    | cons c cs =>
      by_cases h : a = c
      · subst h
        simp [dropLiteral, ih]
      · simp only [dropLiteral, h, if_false, List.cons_append, List.cons.injEq]
        constructor
        · intro h1; cases h1
        · intro h1; exact absurd h1.1.symm h

theorem isNonSpace_quote : isNonSpace '"' = true := by decide

/-- Where `matchTail` finds nothing, the input does not start with non-space runes
followed by a double quote. -/
theorem matchTail_eq_none (cs : List Char) (h : matchTail cs = none) :
    ∀ r after, (∀ c ∈ r, isNonSpace c = true) → cs ≠ r ++ '"' :: after := by
  induction cs with
  | nil =>
    intro r after _ e
    cases r <;> cases e
  | cons c cs ih =>
    intro r after hr e
    unfold matchTail at h
    by_cases hc : isNonSpace c = true
    · rw [if_pos hc] at h
      cases hm : matchTail cs with
      | some ga => rw [hm] at h; cases h
      | none =>
        rw [hm] at h
        by_cases hq : c = '"'
        · simp [hq] at h
        · cases r with
          | nil =>
            simp only [List.nil_append, List.cons.injEq] at e
            exact hq e.1
          | cons a r =>
            simp only [List.cons_append, List.cons.injEq] at e
            exact ih hm r after (fun x hx => hr x (List.mem_cons_of_mem _ hx)) e.2
    · cases r with
      | nil =>
        simp only [List.nil_append, List.cons.injEq] at e
        rw [e.1] at hc
        exact hc isNonSpace_quote
      | cons a r =>
        simp only [List.cons_append, List.cons.injEq] at e
        rw [e.1] at hc
        exact hc (hr a (List.mem_cons_self _ _))

/-- What `matchTail` finds: the longest run of non-space runes that a double quote
follows, and the input after that quote. -/
theorem matchTail_eq_some (cs r after : List Char) (h : matchTail cs = some (r, after)) :
    cs = r ++ '"' :: after ∧ (∀ c ∈ r, isNonSpace c = true) ∧
    ∀ r1 after1, (∀ c ∈ r1, isNonSpace c = true) → cs = r1 ++ '"' :: after1 →
      r1.length ≤ r.length := by
  induction cs generalizing r after with
  | nil => simp [matchTail] at h
  | cons c cs ih =>
    unfold matchTail at h
    by_cases hc : isNonSpace c = true
    · rw [if_pos hc] at h
      cases hm : matchTail cs with
      | some ga =>
        obtain ⟨g, a⟩ := ga
        rw [hm] at h
        simp only [Option.some.injEq, Prod.mk.injEq] at h
        obtain ⟨rfl, rfl⟩ := h
        obtain ⟨i1, i2, i3⟩ := ih g a hm
        refine ⟨by rw [i1]; simp, ?_, ?_⟩
        · intro x hx
          rcases List.mem_cons.1 hx with rfl | hx
          · exact hc
          · exact i2 x hx
        · intro r1 after1 hr1 e
          cases r1 with
          | nil => simp
          | cons a1 r1 =>
            simp only [List.cons_append, List.cons.injEq] at e
            have := i3 r1 after1 (fun x hx => hr1 x (List.mem_cons_of_mem _ hx)) e.2
            simp only [List.length_cons]
            omega
      | none =>
        rw [hm] at h
        by_cases hq : c = '"'
        · simp only [hq, if_true, Option.some.injEq, Prod.mk.injEq] at h
          obtain ⟨rfl, rfl⟩ := h
          refine ⟨by rw [hq]; rfl, by simp, ?_⟩
          intro r1 after1 hr1 e
          cases r1 with
          | nil => simp
          | cons a1 r1 =>
            simp only [List.cons_append, List.cons.injEq] at e
            exact absurd e.2
              (matchTail_eq_none cs hm r1 after1 (fun x hx => hr1 x (List.mem_cons_of_mem _ hx)))
        · simp [hq] at h
    · rw [if_neg hc] at h
      cases h

theorem IsAnchor_iff (m g : List Char) :
    IsAnchor m g ↔ ∃ r, (∀ c ∈ r, isNonSpace c = true) ∧ g = "/stock/".data ++ r ∧
      m = stockOpening ++ r ++ ['"'] := by
  unfold IsAnchor stockOpening
  constructor
  · rintro ⟨r, h1, h2, h3⟩
    exact ⟨r, h1, h2, by rw [h3, h2]; simp⟩
  · rintro ⟨r, h1, h2, h3⟩
    exact ⟨r, h1, h2, by rw [h3, h2]; simp⟩

/-- Where `matchAt` finds nothing, no match of the pattern starts. -/
theorem matchAt_eq_none (cs : List Char) (h : matchAt cs = none) :
    ∀ m g rest, IsAnchor m g → cs ≠ m ++ rest := by
  intro m g rest ha e
  obtain ⟨r, hr, -, hm⟩ := (IsAnchor_iff m g).1 ha
  have hd : dropLiteral stockOpening cs = some (r ++ '"' :: rest) := by
    rw [dropLiteral_eq_some, e, hm]
    simp
  unfold matchAt at h
  simp only [hd] at h
  cases ht : matchTail (r ++ '"' :: rest) with
  | none => exact matchTail_eq_none _ ht r rest hr rfl
  | some ga =>
    obtain ⟨g1, a1⟩ := ga
    simp [ht] at h

/-- What `matchAt` finds: the longest match of the pattern that starts the input,
its first submatch, and the input after the match. -/
theorem matchAt_eq_some (cs g after : List Char) (h : matchAt cs = some (g, after)) :
    ∃ m, IsAnchor m g ∧ cs = m ++ after ∧
      ∀ m1 g1 rest1, IsAnchor m1 g1 → cs = m1 ++ rest1 → m1.length ≤ m.length := by
  unfold matchAt at h
  cases hd : dropLiteral stockOpening cs with
  | none => simp [hd] at h
  | some rest =>
    simp only [hd] at h
    cases ht : matchTail rest with
    | none => simp [ht] at h
    | some ga =>
      obtain ⟨r, a⟩ := ga
      simp only [ht, Option.some.injEq, Prod.mk.injEq] at h
      obtain ⟨rfl, rfl⟩ := h
      obtain ⟨t1, t2, t3⟩ := matchTail_eq_some rest r a ht
      have hcs := (dropLiteral_eq_some stockOpening cs rest).1 hd
      refine ⟨stockOpening ++ r ++ ['"'], (IsAnchor_iff _ _).2 ⟨r, t2, rfl, rfl⟩, ?_, ?_⟩
      · rw [hcs, t1]; simp
      · intro m1 g1 rest1 ha e
        obtain ⟨r1, hr1, -, hm1⟩ := (IsAnchor_iff m1 g1).1 ha
        have e2 : rest = r1 ++ '"' :: rest1 := by
          have : stockOpening ++ rest = stockOpening ++ (r1 ++ '"' :: rest1) := by
            rw [← hcs, e, hm1]; simp
          exact List.append_cancel_left this
        have := t3 r1 rest1 hr1 e2
        rw [hm1]
        simp only [List.length_append, List.length_cons, List.length_nil]
        omega

theorem matchAt_after_length (cs g after : List Char) (h : matchAt cs = some (g, after)) :
    after.length < cs.length := by
  obtain ⟨m, ha, e, -⟩ := matchAt_eq_some cs g after h
  obtain ⟨r, -, -, hm⟩ := ha
  rw [e, hm]
  simp only [List.length_append, List.length_cons]
  omega

/-- With fuel for every rune of the input, `rewriteRunes` is the rewrite the
specification words. -/
theorem rewriteRunes_spec (url : List Char) :
    ∀ (fuel : Nat) (cs : List Char), cs.length ≤ fuel →
      Rewrites url cs (rewriteRunes url fuel cs) := by
  intro fuel
  induction fuel with
  | zero =>
    intro cs h
    have : cs = [] := List.length_eq_zero.1 (Nat.le_zero.1 h)
    subst this
    exact Rewrites.done
  | succ n ih =>
    intro cs h
    cases cs with
    | nil => exact Rewrites.done
    | cons c cs =>
      cases hm : matchAt (c :: cs) with
      | none =>
        have e : rewriteRunes url (n + 1) (c :: cs) = c :: rewriteRunes url n cs := by
          simp [rewriteRunes, hm]
        rw [e]
        exact Rewrites.keep c cs _ (matchAt_eq_none _ hm)
          (ih cs (by simp only [List.length_cons] at h; omega))
      | some ga =>
        obtain ⟨g, after⟩ := ga
        have e : rewriteRunes url (n + 1) (c :: cs) =
            '"' :: (url ++ g ++ '"' :: rewriteRunes url n after) := by
          simp [rewriteRunes, hm]
        rw [e]
        obtain ⟨m, ha, hcs, hl⟩ := matchAt_eq_some _ g after hm
        have hlen := matchAt_after_length _ g after hm
        rw [hcs]
        refine Rewrites.replace m g after _ ha ?_ (ih after (by omega))
        intro m1 g1 rest1 ha1 e1
        exact hl m1 g1 rest1 ha1 (by rw [hcs, e1])

/-- An input without `"/stock/` is returned as it is. -/
theorem rewriteRunes_of_no_opening (url : List Char) :
    ∀ (fuel : Nat) (cs : List Char), ¬ stockOpening <:+: cs → rewriteRunes url fuel cs = cs := by
  intro fuel
  induction fuel with
  | zero => intro cs _; rfl
  | succ n ih =>
    intro cs h
    cases cs with
    | nil => rfl
    | cons c cs =>
      have hm : matchAt (c :: cs) = none := by
        unfold matchAt
        cases hd : dropLiteral stockOpening (c :: cs) with
        | none => rfl
        | some rest =>
          exfalso
          apply h
          rw [dropLiteral_eq_some] at hd
          exact ⟨[], rest, by rw [hd]; simp⟩
      have ht : ¬ stockOpening <:+: cs := by
        rintro ⟨a, b, e⟩
        exact h ⟨c :: a, b, by rw [← e]; simp⟩
      simp [rewriteRunes, hm, ih cs ht]

theorem Rewrites_cases (url x o : List Char) (h : Rewrites url x o) :
    (x = [] ∧ o = []) ∨
    (∃ c cs out, x = c :: cs ∧ o = c :: out ∧
      (∀ m g rest, IsAnchor m g → c :: cs ≠ m ++ rest) ∧ Rewrites url cs out) ∨
    (∃ m g rest out, x = m ++ rest ∧ o = '"' :: (url ++ g ++ '"' :: out) ∧ IsAnchor m g ∧
      (∀ m1 g1 rest1, IsAnchor m1 g1 → m ++ rest = m1 ++ rest1 → m1.length ≤ m.length) ∧
      Rewrites url rest out) := by
  cases h with
  | done => exact Or.inl ⟨rfl, rfl⟩
  | keep c cs out h1 h2 => exact Or.inr (Or.inl ⟨c, cs, out, rfl, rfl, h1, h2⟩)
  | replace m g rest out h1 h2 h3 => exact Or.inr (Or.inr ⟨m, g, rest, out, rfl, rfl, h1, h2, h3⟩)

theorem IsAnchor_ne_nil (m g : List Char) (h : IsAnchor m g) : m ≠ [] := by
  obtain ⟨r, -, -, hm⟩ := h
  rw [hm]
  simp

theorem IsAnchor_submatch (m g g1 : List Char) (h : IsAnchor m g) (h1 : IsAnchor m g1) :
    g = g1 := by
  obtain ⟨r, -, -, hm⟩ := h
  obtain ⟨r1, -, -, hm1⟩ := h1
  rw [hm] at hm1
  simp only [List.cons.injEq, true_and] at hm1
  exact List.append_cancel_right hm1

/-- The rewrite the specification words has one result. -/
theorem Rewrites_unique (url : List Char) :
    ∀ (x o1 : List Char), Rewrites url x o1 → ∀ o2, Rewrites url x o2 → o1 = o2 := by
  intro x o1 h1
  induction h1 with
  | done =>
    intro o2 h2
    rcases Rewrites_cases url _ o2 h2 with ⟨-, rfl⟩ | ⟨c, cs, out, e, -⟩ | ⟨m, g, rest, out, e, -, ha, -⟩
    · rfl
    · cases e
    · have := IsAnchor_ne_nil m g ha
      cases m with
      | nil => exact absurd rfl this
      | cons a m => cases e
  | keep c cs out hn _ ih =>
    intro o2 h2
    rcases Rewrites_cases url _ o2 h2 with ⟨e, -⟩ | ⟨c1, cs1, out1, e, rfl, -, ht⟩ |
      ⟨m, g, rest, out1, e, -, ha, -⟩
    · cases e
    · cases e
      rw [ih out1 ht]
    · exact absurd e (hn m g rest ha)
  | replace m g rest out ha hl _ ih =>
    intro o2 h2
    rcases Rewrites_cases url _ o2 h2 with ⟨e, -⟩ | ⟨c1, cs1, out1, e, -, hn, -⟩ |
      ⟨m1, g1, rest1, out1, e, rfl, ha1, hl1, ht⟩
    · have := IsAnchor_ne_nil m g ha
      cases m with
      | nil => exact absurd rfl this
      | cons a m => cases e
    · exact absurd e.symm (hn m g rest ha)
    · have hlen : m.length = m1.length :=
        Nat.le_antisymm (hl1 m g rest ha e.symm) (hl m1 g1 rest1 ha1 e)
      have hm : m = m1 := List.append_inj_left e hlen
      have hr : rest = rest1 := List.append_inj_right e hlen
      subst hm hr
      rw [IsAnchor_submatch m g g1 ha ha1, ih out1 ht]

/-- C13. For a URL prefix without `$`, which is all the replacement template of
`ReplaceAllString` takes as it is written, and so for the prefix
`https://benzinga.com` that `Convert` passes, `RewriteBodyTickerPaths` is the
rewrite the specification words: reading the body from the left, every leftmost
longest match of the pattern is replaced by the quoted URL followed by the first
submatch, and every rune outside the matches is kept; no other result fits that
wording. The body of the specification becomes the body with the absolute path,
and a body without `"/stock/` is returned as it is, whatever the prefix. -/
theorem RewriteBodyTickerPaths_spec (url body : String) :
    ('$' ∉ url.data →
      Rewrites url.data body.data (RewriteBodyTickerPaths url body).data ∧
      ∀ out, Rewrites url.data body.data out → out = (RewriteBodyTickerPaths url body).data) ∧
    RewriteBodyTickerPaths "https://benzinga.com" "<a href=\"/stock/AAPL\">AAPL</a>" =
      "<a href=\"https://benzinga.com/stock/AAPL\">AAPL</a>" ∧
    (¬ stockOpening <:+: body.data → RewriteBodyTickerPaths url body = body) := by
  refine ⟨fun _ => ⟨rewriteRunes_spec url.data _ body.data (Nat.le_refl _), ?_⟩, by decide, ?_⟩
  · intro out h
    exact Rewrites_unique url.data _ _ h _ (rewriteRunes_spec url.data _ body.data (Nat.le_refl _))
  intro h
  unfold RewriteBodyTickerPaths
  rw [rewriteRunes_of_no_opening url.data _ body.data h]

/-- A run of C13: the prefix that `Convert` passes holds no `$`, the body of the
specification is rewritten as worded, and a body without a quoted stock path is
returned as it is. -/
theorem RewriteBodyTickerPaths_spec_witness :
    '$' ∉ "https://benzinga.com".data ∧
    Rewrites "https://benzinga.com".data "<a href=\"/stock/AAPL\">AAPL</a>".data
      (RewriteBodyTickerPaths "https://benzinga.com" "<a href=\"/stock/AAPL\">AAPL</a>").data ∧
    ¬ stockOpening <:+: "<p>Ford</p>".data ∧
    RewriteBodyTickerPaths "https://benzinga.com" "<p>Ford</p>" = "<p>Ford</p>" :=
  ⟨by decide,
    ((RewriteBodyTickerPaths_spec "https://benzinga.com" "<a href=\"/stock/AAPL\">AAPL</a>").1
      (by decide)).1,
    by decide, (RewriteBodyTickerPaths_spec "https://benzinga.com" "<p>Ford</p>").2.2 (by decide)⟩

/-! ### The ticker elements -/

theorem splitOnChar_ne_nil (sep : Char) (cs : List Char) : splitOnChar sep cs ≠ [] := by
  induction cs with
  | nil => simp [splitOnChar]
  | cons c cs ih =>
    unfold splitOnChar
    by_cases h : c = sep
    · simp [h]
    · simp only [h, if_false]
      split <;> simp

theorem splitOnChar_of_not_mem (sep : Char) (cs : List Char) (h : sep ∉ cs) :
    splitOnChar sep cs = [cs] := by
  induction cs with
  | nil => rfl
  | cons c cs ih =>
    have hc : c ≠ sep := fun e => h (by simp [e])
    have ht : sep ∉ cs := fun e => h (List.mem_cons_of_mem _ e)
    unfold splitOnChar
    simp [hc, ih ht]

theorem splitOnChar_append (sep : Char) (a b : List Char) (h : sep ∉ a) :
    splitOnChar sep (a ++ sep :: b) = a :: splitOnChar sep b := by
  induction a with
  | nil => simp [splitOnChar]
  | cons c a ih =>
    have hc : c ≠ sep := fun e => h (by simp [e])
    have ht : sep ∉ a := fun e => h (List.mem_cons_of_mem _ e)
    rw [List.cons_append]
    simp only [splitOnChar, hc, if_false, ih ht]

/-- The lookup for a name without a colon: the name and `USD` in the symbol-currency keys. -/
theorem tickerLookup_plain (p : ConvertDeps) (name : String) (h : ':' ∉ name.data) :
    tickerLookup p name = p.GetSymbolCurrency name "USD" := by
  unfold tickerLookup Split
  rw [splitOnChar_of_not_mem ':' name.data h]
  simp

/-- The lookup for a name with a colon: the second and the first segment of the name
in the symbol-exchange keys. -/
theorem tickerLookup_exchange (p : ConvertDeps) (ex sym : String) (more : List Char)
    (h1 : ':' ∉ ex.data) (h2 : ':' ∉ sym.data) (name : String)
    (hn : name.data = ex.data ++ ':' :: sym.data ∨
      name.data = ex.data ++ ':' :: (sym.data ++ ':' :: more)) :
    tickerLookup p name = p.GetSymbolExchange sym ex := by
  unfold tickerLookup Split
  rcases hn with hn | hn
  · rw [hn, splitOnChar_append ':' _ _ h1, splitOnChar_of_not_mem ':' _ h2]
    simp
  · rw [hn, splitOnChar_append ':' _ _ h1, splitOnChar_append ':' _ _ h2]
    simp

/-- C18, as amended. Whatever the lookups return, `Convert` returns the error of the
XML encoder, or else an artifact whose data is the header line followed by the
encoding of a document with one `bz:ticker` per content ticker, in ticker order,
with the name as text, primary `1` if the primary flag is set and `0` otherwise,
sentiment `0`, and the ISIN and the exchange of the row the lookup returned, or
empty ones when it returned none. The lookup for a name without a colon is by the
name and `USD` in the symbol-currency keys; the lookup for a name with a colon is
by the second and the first of its segments between colons in the
symbol-exchange keys, which for `EX:SYM` is `SYM` and `EX`. -/
theorem Convert_tickers (p : ConvertDeps) (e : Event) :
    (∃ rXML : XML,
      (∀ err, p.MarshalIndent rXML = .error err → Convert p e = .error err) ∧
      (∀ rXMLBytes, p.MarshalIndent rXML = .ok rXMLBytes →
        ∃ o, Convert p e = .ok o ∧
          o.Data.Bytes = stringBytes (xmlHeader ++ "\n") ++ rXMLBytes) ∧
      rXML.Channel.Item.Tickers =
        e.Content.Tickers.map (fun ticker =>
          ({ Text := ticker.Name
             Primary := if ticker.Primary = true then "1" else "0"
             ISIN := ((tickerLookup p ticker.Name).map fun row => row.ISIN).getD ""
             Exchange := ((tickerLookup p ticker.Name).map fun row => row.Exchange).getD ""
             Sentiment := "0" } : ItemTicker))) ∧
    (∀ name : String, ':' ∉ name.data →
      tickerLookup p name = p.GetSymbolCurrency name "USD") ∧
    (∀ ex sym : String, ':' ∉ ex.data → ':' ∉ sym.data →
      tickerLookup p (ex ++ ":" ++ sym) = p.GetSymbolExchange sym ex) ∧
    (∀ ex sym more : String, ':' ∉ ex.data → ':' ∉ sym.data →
      tickerLookup p (ex ++ ":" ++ sym ++ ":" ++ more) = p.GetSymbolExchange sym ex) := by
  refine ⟨⟨buildXML p e, fun err h => by simp [Convert, h], Convert_ok p e, ?_⟩,
    tickerLookup_plain p, ?_, ?_⟩
  · have : (buildXML p e).Channel.Item.Tickers = getTickers p e := rfl
    rw [this, getTickers_eq]
    apply List.map_congr_left
    intro ticker _
    unfold tickerElement
    cases tickerLookup p ticker.Name <;> simp
  · intro ex sym h1 h2
    exact tickerLookup_exchange p ex sym [] h1 h2 _ (Or.inl (by simp [String.data_append]))
  · intro ex sym more h1 h2
    exact tickerLookup_exchange p ex sym more.data h1 h2 _
      (Or.inr (by simp [String.data_append]))

/-- A run of C18: the ticker `F` with the cached row of ISIN US3453708600 and
exchange NYSE, in the artifact written with the stand-in encoder. -/
theorem Convert_tickers_witness :
    ':' ∉ "F".data ∧
    renderingDeps.GetSymbolCurrency "F" "USD" = some fordRow ∧
    tickerLookup renderingDeps "F" = renderingDeps.GetSymbolCurrency "F" "USD" ∧
    (Convert renderingDeps fordEvent).map (fun o => o.Data.Bytes) =
      .ok (stringBytes (xmlHeader ++ "\n" ++
        "<bz:type bz=\"0\" pro=\"0\" firstrun=\"1\">story</bz:type>" ++
        "<category domain=\"stock-symbol\">F</category>" ++
        "<category domain=\"https://www.benzinga.com/stock/f\">F</category>" ++
        "<category domain=\"publisher\">Benzinga</category>" ++
        "<bz:ticker primary=\"1\" isin=\"US3453708600\" exchange=\"NYSE\" sentiment=\"0\">F" ++
        "</bz:ticker>")) ∧
    ':' ∉ "NYSE".data ∧ ':' ∉ "GLOG".data ∧
    tickerLookup fordAndMoreDeps ("NYSE" ++ ":" ++ "GLOG") =
      fordAndMoreDeps.GetSymbolExchange "GLOG" "NYSE" :=
  ⟨by decide, by decide, (Convert_tickers renderingDeps fordEvent).2.1 "F" (by decide),
    by decide, by decide, by decide,
    (Convert_tickers fordAndMoreDeps fordEvent).2.2.1 "NYSE" "GLOG" (by decide) (by decide)⟩

/-- C18, as stated, fails for the name `NYSE:BRK:A`: the lookup is by `BRK` and `NYSE`
in the symbol-exchange keys, where the cache holds nothing, so the ISIN and the
exchange are empty. It is not by `BRK:A` and `NYSE`, not by `A` and `NYSE:BRK`,
and not by the name and `USD` in the symbol-currency keys, where the cache holds
a row. -/
theorem tickers_third_segment_ignored :
    "NYSE:BRK:A" = "NYSE" ++ ":" ++ "BRK:A" ∧ "NYSE:BRK:A" = "NYSE:BRK" ++ ":" ++ "A" ∧
    colonDeps.GetSymbolExchange "BRK:A" "NYSE" =
      some { ISIN := "US0846701086", Exchange := "NYSE" } ∧
    colonDeps.GetSymbolExchange "A" "NYSE:BRK" =
      some { ISIN := "US0846701086", Exchange := "NYSE" } ∧
    colonDeps.GetSymbolCurrency "NYSE:BRK:A" "USD" =
      some { ISIN := "US0846701086", Exchange := "NYSE" } ∧
    colonDeps.GetSymbolExchange "BRK" "NYSE" = none ∧
    (buildXML colonDeps colonEvent).Channel.Item.Tickers =
      [{ Text := "NYSE:BRK:A", Primary := "0", ISIN := "", Exchange := "", Sentiment := "0" }] := by
  decide

end TransformClaims

/-! ## The claims on the reference cache -/

section RstoreClaims

variable {σ : Type}

theorem Char_toNat_ofNat_small (k : Nat) (h : k < 55296) : (Char.ofNat k).toNat = k := by
  have hv : k.isValidChar := Or.inl h
  simp only [Char.ofNat, hv, dite_true, Char.toNat, Char.ofNatAux]
  simp [UInt32.toNat]

theorem Char_eq_of_toNat_eq (c d : Char) (h : c.toNat = d.toNat) : c = d := by
  rw [← Char.ofNat_toNat c, ← Char.ofNat_toNat d, h]

/-- Two runes with the same lowercase form have the same uppercase form. -/
theorem Char_toUpper_eq_of_toLower_eq (c d : Char) (h : c.toLower = d.toLower) :
    c.toUpper = d.toUpper := by
  unfold Char.toLower at h
  unfold Char.toUpper
  dsimp only at h ⊢
  by_cases hc : c.toNat ≥ 65 ∧ c.toNat ≤ 90
  · by_cases hd : d.toNat ≥ 65 ∧ d.toNat ≤ 90
    · rw [if_pos hc, if_pos hd] at h
      have := congrArg Char.toNat h
      rw [Char_toNat_ofNat_small _ (by omega), Char_toNat_ofNat_small _ (by omega)] at this
      have e : c = d := Char_eq_of_toNat_eq c d (by omega)
      rw [e]
    · rw [if_pos hc, if_neg hd] at h
      have hn : d.toNat = c.toNat + 32 := by
        rw [← h, Char_toNat_ofNat_small _ (by omega)]
      rw [if_neg (by omega), if_pos (by omega), hn]
      simp
  · by_cases hd : d.toNat ≥ 65 ∧ d.toNat ≤ 90
    · rw [if_neg hc, if_pos hd] at h
      have hn : c.toNat = d.toNat + 32 := by
        rw [h, Char_toNat_ofNat_small _ (by omega)]
      rw [if_pos (by omega), if_neg (by omega), hn]
      simp
    · rw [if_neg hc, if_neg hd] at h
      rw [h]

theorem map_toUpper_eq_of_map_toLower_eq :
    ∀ (a b : List Char), a.map Char.toLower = b.map Char.toLower →
      a.map Char.toUpper = b.map Char.toUpper := by
  intro a
  induction a with
  | nil =>
    intro b h
    cases b with
    | nil => rfl
    | cons d b => simp at h
  | cons c a ih =>
    intro b h
    cases b with
    | nil => simp at h
    | cons d b =>
      simp only [List.map_cons, List.cons.injEq] at h ⊢
      exact ⟨Char_toUpper_eq_of_toLower_eq c d h.1, ih b h.2⟩

/-- Strings that are equal ignoring letter case have the same uppercase form. -/
theorem ToUpper_eq_of_EqualFold (a b : String) (h : EqualFold a b = true) :
    ToUpper a = ToUpper b := by
  unfold EqualFold ToLower at h
  unfold ToUpper
  have h1 : a.data.map Char.toLower = b.data.map Char.toLower := by
    have := of_decide_eq_true h
    exact congrArg String.data this
  rw [map_toUpper_eq_of_map_toLower_eq _ _ h1]

theorem ToUpper_append (a b : String) : ToUpper (a ++ b) = ToUpper a ++ ToUpper b := by
  unfold ToUpper
  apply String.ext
  simp [String.data_append]

theorem Join_four (a b c d sep : String) :
    Join [a, b, c, d] sep = a ++ sep ++ b ++ sep ++ c ++ sep ++ d := by
  simp [Join, String.intercalate, String.intercalate.go]

/-- The keys of two pairs that are equal ignoring letter case are the same. -/
theorem symbolCurrencyKey_congr (symbol currency symbol1 currency1 : String)
    (hs : EqualFold symbol symbol1 = true) (hc : EqualFold currency currency1 = true) :
    symbolCurrencyKey symbol currency = symbolCurrencyKey symbol1 currency1 := by
  unfold symbolCurrencyKey
  rw [Join_four, Join_four]
  simp only [ToUpper_append, ToUpper_eq_of_EqualFold _ _ hs, ToUpper_eq_of_EqualFold _ _ hc]

theorem symbolExchangeKey_congr (symbol exchange symbol1 exchange1 : String)
    (hs : EqualFold symbol symbol1 = true) (hx : EqualFold exchange exchange1 = true) :
    symbolExchangeKey symbol exchange = symbolExchangeKey symbol1 exchange1 := by
  unfold symbolExchangeKey
  rw [Join_four, Join_four]
  simp only [ToUpper_append, ToUpper_eq_of_EqualFold _ _ hs, ToUpper_eq_of_EqualFold _ _ hx]

/-- C20. On a store where a read of a key that was just written returns the written
value, and with a codec that decodes the encoding of the row to the row: after a
successful `PutSymbolCurrency` of the row, `GetSymbolCurrency` with a symbol and a
currency equal to those of the row ignoring letter case returns the row, and
after a successful `PutSymbolExchange` of the row, `GetSymbolExchange` with a
symbol and an exchange equal to those of the row ignoring letter case returns
the row. -/
theorem put_get_agree (c : Client σ) (row : Instrument) (s s1 : σ) (symbol other : String)
    (hstore : ∀ key val, c.Set key val s = (none, s1) → c.Get key s1 = .ok val)
    (hcodec : ∀ val, c.Marshal row = .ok val → c.Unmarshal val = .ok row)
    (hs : EqualFold symbol row.Symbol = true) :
    (EqualFold other row.CurrencyID = true → c.PutSymbolCurrency row s = (none, s1) →
      c.GetSymbolCurrency symbol other s1 = .ok row) ∧
    (EqualFold other row.Exchange = true → c.PutSymbolExchange row s = (none, s1) →
      c.GetSymbolExchange symbol other s1 = .ok row) := by
  constructor
  · intro ho hput
    unfold Client.PutSymbolCurrency at hput
    cases hm : c.Marshal row with
    | error err => simp [hm] at hput
    | ok val =>
      simp only [hm] at hput
      unfold Client.GetSymbolCurrency
      rw [symbolCurrencyKey_congr symbol other row.Symbol row.CurrencyID hs ho,
        hstore _ val hput]
      exact hcodec val hm
  · intro ho hput
    unfold Client.PutSymbolExchange at hput
    cases hm : c.Marshal row with
    | error err => simp [hm] at hput
    | ok val =>
      simp only [hm] at hput
      unfold Client.GetSymbolExchange
      rw [symbolExchangeKey_congr symbol other row.Symbol row.Exchange hs ho,
        hstore _ val hput]
      exact hcodec val hm

/-- A run of C20: the row of `F` is written under both keys and read back with the
symbol, the currency and the exchange in lowercase. -/
theorem put_get_agree_witness :
    EqualFold "f" fordRow.Symbol = true ∧
    (EqualFold "usd" fordRow.CurrencyID = true ∧
      sampleClient.PutSymbolCurrency fordRow [] =
        (none, [("FTP-ENGINE:SYMBOL-CURRENCY:F:USD", stringBytes "FUS3453708600")]) ∧
      sampleClient.GetSymbolCurrency "f" "usd"
        [("FTP-ENGINE:SYMBOL-CURRENCY:F:USD", stringBytes "FUS3453708600")] = .ok fordRow) ∧
    (EqualFold "nyse" fordRow.Exchange = true ∧
      sampleClient.PutSymbolExchange fordRow [] =
        (none, [("FTP-ENGINE:SYMBOL-EXCHANGE:F:NYSE", stringBytes "FUS3453708600")]) ∧
      sampleClient.GetSymbolExchange "f" "nyse"
        [("FTP-ENGINE:SYMBOL-EXCHANGE:F:NYSE", stringBytes "FUS3453708600")] = .ok fordRow) :=
  ⟨by decide,
    ⟨by decide, by decide,
      (put_get_agree sampleClient fordRow []
        [("FTP-ENGINE:SYMBOL-CURRENCY:F:USD", stringBytes "FUS3453708600")] "f" "usd"
        (by
          intro key val h
          simp only [sampleClient, Prod.mk.injEq, true_and, List.cons.injEq, and_true] at h
          obtain ⟨rfl, rfl⟩ := h
          decide)
        (by intro val h; cases h; decide) (by decide)).1 (by decide) (by decide)⟩,
    ⟨by decide, by decide,
      (put_get_agree sampleClient fordRow []
        [("FTP-ENGINE:SYMBOL-EXCHANGE:F:NYSE", stringBytes "FUS3453708600")] "f" "nyse"
        (by
          intro key val h
          simp only [sampleClient, Prod.mk.injEq, true_and, List.cons.injEq, and_true] at h
          obtain ⟨rfl, rfl⟩ := h
          decide)
        (by intro val h; cases h; decide) (by decide)).2 (by decide) (by decide)⟩⟩

end RstoreClaims

/-! ## The claims on the envelope codec -/

section CodecClaims



/-! ### Strings -/

theorem emit_emit (a b : Bytes) (r : Option (Bytes × Bytes)) :
    emit a (emit b r) = emit (a ++ b) r := by
  cases r with
  | none => rfl
  | some p => simp [emit]

theorem emit_nil (r : Option (Bytes × Bytes)) : emit [] r = r := by
  cases r with
  | none => rfl
  | some p => simp [emit]

/-- A byte of the string that is no quote, no backslash and no control byte is copied. -/
theorem unquoteFrom_plain (b : UInt8) (rest : Bytes) (h1 : b ≠ 34) (h2 : b ≠ 92)
    (h3 : ¬ b.toNat < 32) :
    unquoteFrom none (b :: rest) = emit [b] (unquoteFrom none rest) := by
  rw [unquoteFrom.eq_def]
  simp [h1, h2, h3, flushSurrogate]

theorem unquoteFrom_short (e x : UInt8) (rest : Bytes) (h1 : e ≠ 117)
    (h2 : shortEscape e = some x) :
    unquoteFrom none (92 :: e :: rest) = emit [x] (unquoteFrom none rest) := by
  rw [unquoteFrom.eq_def]
  simp [h1, h2, flushSurrogate]

theorem unquoteFrom_unicode (h1 h2 h3 h4 : UInt8) (n : Nat) (rest : Bytes)
    (hh : hex4 h1 h2 h3 h4 = some n) (hn : n < 55296 ∨ 57344 ≤ n) :
    unquoteFrom none (92 :: 117 :: h1 :: h2 :: h3 :: h4 :: rest) =
      emit (String.utf8EncodeChar (Char.ofNat n)) (unquoteFrom none rest) := by
  have e : unicodeEscape none n = (String.utf8EncodeChar (Char.ofNat n), none) := by
    unfold unicodeEscape
    have a1 : ¬ (55296 ≤ n ∧ n < 56320) := by omega
    have a2 : ¬ (56320 ≤ n ∧ n < 57344) := by omega
    simp [a1, a2]
  rw [unquoteFrom.eq_def]
  simp [hh, e]

theorem UInt8_toNat_ofNat (n : Nat) (h : n < 256) : (UInt8.ofNat n).toNat = n := by
  simp [UInt8.ofNat, UInt8.toNat, Fin.ofNat, Nat.mod_eq_of_lt h]

theorem utf8EncodeChar_ascii (c : Char) (h : c.toNat < 128) :
    String.utf8EncodeChar c = [UInt8.ofNat c.toNat] := by
  have hv : c.val ≤ 0x7f := by
    show c.val.toNat ≤ 127
    have : c.toNat = c.val.toNat := rfl
    omega
  simp [String.utf8EncodeChar, hv]
  rfl

theorem hexValue_hexDigit (n : Nat) (h : n < 16) : hexValue (hexDigit n) = some n := by
  interval_cases n <;> decide

theorem hex4_escape (n : Nat) (h : n < 128) :
    hex4 48 48 (hexDigit (n / 16)) (hexDigit (n % 16)) = some n := by
  have h1 := hexValue_hexDigit (n / 16) (by omega)
  have h2 := hexValue_hexDigit (n % 16) (by omega)
  have h0 : hexValue 48 = some 0 := by decide
  simp only [hex4, h0, h1, h2]
  congr 1
  omega

theorem UInt8_ofNat_ne (n k : Nat) (hn : n < 256) (hk : k < 256) (h : n ≠ k) :
    UInt8.ofNat n ≠ UInt8.ofNat k := by
  intro e
  have := congrArg UInt8.toNat e
  rw [UInt8_toNat_ofNat n hn, UInt8_toNat_ofNat k hk] at this
  exact h this

theorem Char_ofNat_toNat (c : Char) : Char.ofNat c.toNat = c := by
  exact Char.ofNat_toNat c

/-- Bytes outside ASCII are copied. -/
theorem unquoteFrom_high (bs rest : Bytes) (h : ∀ b ∈ bs, 128 ≤ b.toNat) :
    unquoteFrom none (bs ++ rest) = emit bs (unquoteFrom none rest) := by
  induction bs with
  | nil => simp [emit_nil]
  | cons b bs ih =>
    have hb : 128 ≤ b.toNat := h b (List.mem_cons_self _ _)
    have h1 : b ≠ 34 := by
      intro e
      rw [e] at hb
      exact absurd hb (by decide)
    have h2 : b ≠ 92 := by
      intro e
      rw [e] at hb
      exact absurd hb (by decide)
    rw [List.cons_append, unquoteFrom_plain b _ h1 h2 (by omega),
      ih (fun x hx => h x (List.mem_cons_of_mem _ hx)), emit_emit]
    rfl

theorem or_high (x m : UInt8) (hm : m.toNat.testBit 7 = true) : 128 ≤ (x ||| m).toNat := by
  have : (x ||| m).toNat = x.toNat ||| m.toNat := rfl
  rw [this]
  have hbit : (x.toNat ||| m.toNat).testBit 7 = true := by
    rw [Nat.testBit_or, hm, Bool.or_true]
  exact Nat.testBit_implies_ge hbit

theorem utf8EncodeChar_high (c : Char) (h : 128 ≤ c.toNat) :
    ∀ b ∈ String.utf8EncodeChar c, 128 ≤ b.toNat := by
  have hv : ¬ c.val ≤ 0x7f := by
    show ¬ c.val.toNat ≤ 127
    have : c.toNat = c.val.toNat := rfl
    omega
  intro b hb
  simp only [String.utf8EncodeChar, hv, if_false] at hb
  split_ifs at hb <;> simp only [List.mem_cons, List.mem_singleton, List.not_mem_nil, or_false] at hb <;>
    rcases hb with rfl | rfl | rfl | rfl <;> exact or_high _ _ (by decide)

/-- What the encoder writes for a rune, the decoder reads back as the rune's bytes. -/
theorem unquoteFrom_escapeRune (c : Char) (rest : Bytes) :
    unquoteFrom none (escapeRune c ++ rest) =
      emit (String.utf8EncodeChar c) (unquoteFrom none rest) := by
  unfold escapeRune
  by_cases hascii : c.toNat < 128
  · rw [if_pos hascii, utf8EncodeChar_ascii c hascii]
    by_cases hsafe : htmlSafe (UInt8.ofNat c.toNat) = true
    · rw [if_pos hsafe]
      have hn : (UInt8.ofNat c.toNat).toNat = c.toNat := UInt8_toNat_ofNat _ (by omega)
      simp only [htmlSafe, hn, Bool.and_eq_true, decide_eq_true_eq, Bool.not_eq_true',
        Bool.or_eq_false_iff, decide_eq_false_iff_not] at hsafe
      obtain ⟨⟨h32, _⟩, ⟨⟨⟨h34, _⟩, _⟩, _⟩, h92⟩ := hsafe
      exact unquoteFrom_plain _ _ h34 h92 (by omega)
    · rw [if_neg hsafe]
      by_cases h1 : c = '\\'
      · subst h1
        exact unquoteFrom_short 92 92 rest (by decide) (by decide)
      rw [if_neg h1]
      by_cases h2 : c = '"'
      · subst h2
        exact unquoteFrom_short 34 34 rest (by decide) (by decide)
      rw [if_neg h2]
      by_cases h3 : c = '\n'
      · subst h3
        exact unquoteFrom_short 110 10 rest (by decide) (by decide)
      rw [if_neg h3]
      by_cases h4 : c = '\r'
      · subst h4
        exact unquoteFrom_short 114 13 rest (by decide) (by decide)
      rw [if_neg h4]
      by_cases h5 : c = '\t'
      · subst h5
        exact unquoteFrom_short 116 9 rest (by decide) (by decide)
      rw [if_neg h5]
      have := unquoteFrom_unicode 48 48 (hexDigit (c.toNat / 16)) (hexDigit (c.toNat % 16))
        c.toNat rest (hex4_escape c.toNat hascii) (Or.inl (by omega))
      rw [Char_ofNat_toNat, utf8EncodeChar_ascii c hascii] at this
      exact this
  · rw [if_neg hascii]
    by_cases h1 : c.toNat = 8232
    · rw [if_pos h1]
      have := unquoteFrom_unicode 50 48 50 56 8232 rest (by decide) (Or.inl (by decide))
      rw [← h1, Char_ofNat_toNat] at this
      exact this
    rw [if_neg h1]
    by_cases h2 : c.toNat = 8233
    · rw [if_pos h2]
      have := unquoteFrom_unicode 50 48 50 57 8233 rest (by decide) (Or.inl (by decide))
      rw [← h2, Char_ofNat_toNat] at this
      exact this
    rw [if_neg h2]
    exact unquoteFrom_high _ rest (utf8EncodeChar_high c (by omega))

theorem unquoteFrom_quote (rest : Bytes) : unquoteFrom none (34 :: rest) = some ([], rest) := by
  rw [unquoteFrom.eq_def]
  simp [flushSurrogate]

/-- The decoder reads the runes the encoder wrote, up to the closing quote. -/
theorem unquoteFrom_runes (cs : List Char) (rest : Bytes) :
    unquoteFrom none (cs.flatMap escapeRune ++ 34 :: rest) =
      some (cs.flatMap String.utf8EncodeChar, rest) := by
  induction cs with
  | nil => simpa using unquoteFrom_quote rest
  | cons c cs ih =>
    rw [List.flatMap_cons, List.append_assoc, unquoteFrom_escapeRune, ih]
    simp [emit]

/-- A string the encoder wrote is read back as the bytes of the string. -/
theorem unquoteFrom_quoteString (s : String) (rest : Bytes) :
    ∃ body, quoteString s ++ rest = 34 :: body ∧
      unquoteFrom none body = some (stringBytes s, rest) := by
  refine ⟨s.data.flatMap escapeRune ++ 34 :: rest, ?_, unquoteFrom_runes s.data rest⟩
  simp [quoteString]

/-! ### Scanning before a closing brace -/

theorem skipWS_cons (b : UInt8) (rest : Bytes) (h : isSpaceByte b = false) :
    skipWS (b :: rest) = b :: rest := by
  simp [skipWS, h]

theorem skipWS_append (a t : Bytes) : skipWS (a ++ 125 :: t) = skipWS a ++ 125 :: t := by
  induction a with
  | nil => exact skipWS_cons 125 t (by decide)
  | cons b a ih =>
    by_cases h : isSpaceByte b = true
    · simp [skipWS, h, ih]
    · simp [skipWS, h]

theorem dropBytes_append (p a r t : Bytes) (h : dropBytes p a = some r) :
    dropBytes p (a ++ t) = some (r ++ t) := by
  induction p generalizing a with
  | nil =>
    simp only [dropBytes, Option.some.injEq] at h
    subst h
    simp [dropBytes]
  | cons x p ih =>
    cases a with
    | nil => simp [dropBytes] at h
    | cons b a =>
      by_cases hx : x = b
      · simp only [dropBytes, hx, if_true] at h
        simp only [List.cons_append, dropBytes, hx, if_true]
        exact ih a h
      · simp [dropBytes, hx] at h

theorem emit_eq_some (bs : Bytes) (r : Option (Bytes × Bytes)) (d rest : Bytes)
    (h : emit bs r = some (d, rest)) :
    ∃ d1, r = some (d1, rest) ∧ d = bs ++ d1 := by
  cases r with
  | none => simp [emit] at h
  | some p =>
    obtain ⟨d1, r1⟩ := p
    simp only [emit, Option.some.injEq, Prod.mk.injEq] at h
    exact ⟨d1, by rw [h.2], h.1.symm⟩

theorem unquoteFrom_append_aux (t : Bytes) (n : Nat) :
    ∀ (a : Bytes) (p : Option Nat) (d r : Bytes), a.length ≤ n →
      unquoteFrom p a = some (d, r) → unquoteFrom p (a ++ t) = some (d, r ++ t) := by
  induction n with
  | zero =>
    intro a p d r hn h
    have : a = [] := List.length_eq_zero.mp (by omega)
    subst this
    simp [unquoteFrom] at h
  | succ n ih =>
    intro a p d r hn h
    cases a with
    | nil => simp [unquoteFrom] at h
    | cons b rest =>
      rw [unquoteFrom.eq_def] at h
      rw [List.cons_append, unquoteFrom.eq_def]
      simp only at h ⊢
      simp only [List.length_cons] at hn
      by_cases h34 : b = 34
      · simp only [h34, if_true, Option.some.injEq, Prod.mk.injEq] at h ⊢
        exact ⟨h.1, by rw [h.2]⟩
      simp only [h34, if_false] at h ⊢
      by_cases h92 : b = 92
      · simp only [h92, if_true] at h ⊢
        cases rest with
        | nil => simp at h
        | cons e rest1 =>
          simp only [List.cons_append] at h ⊢
          simp only [List.length_cons] at hn
          by_cases hu : e = 117
          · simp only [hu, if_true] at h ⊢
            match rest1, h, hn with
            | h1 :: h2 :: h3 :: h4 :: rest2, h, hn =>
              simp only [List.cons_append] at h ⊢
              simp only [List.length_cons] at hn
              cases hh : hex4 h1 h2 h3 h4 with
              | none => simp [hh] at h
              | some v =>
                simp only [hh] at h ⊢
                obtain ⟨d1, hd1, hd⟩ := emit_eq_some _ _ _ _ h
                rw [ih rest2 _ d1 r (by omega) hd1, hd]
                rfl
            | [], h, _ => simp at h
            | [_], h, _ => simp at h
            | [_, _], h, _ => simp at h
            | [_, _, _], h, _ => simp at h
          · simp only [hu, if_false] at h ⊢
            cases hs : shortEscape e with
            | none => simp [hs] at h
            | some x =>
              simp only [hs] at h ⊢
              obtain ⟨d1, hd1, hd⟩ := emit_eq_some _ _ _ _ h
              rw [ih rest1 _ d1 r (by omega) hd1, hd]
              rfl
      simp only [h92, if_false] at h ⊢
      by_cases hc : b.toNat < 32
      · simp [hc] at h
      simp only [hc, if_false] at h ⊢
      obtain ⟨d1, hd1, hd⟩ := emit_eq_some _ _ _ _ h
      rw [ih rest _ d1 r (by omega) hd1, hd]
      rfl

theorem unquoteFrom_append (t a : Bytes) (p : Option Nat) (d r : Bytes)
    (h : unquoteFrom p a = some (d, r)) : unquoteFrom p (a ++ t) = some (d, r ++ t) :=
  unquoteFrom_append_aux t a.length a p d r (le_refl _) h

theorem dropDigits_append (a t : Bytes) :
    dropDigits (a ++ 125 :: t) = dropDigits a ++ 125 :: t := by
  induction a with
  | nil =>
    have h : isDigitByte 125 = false := by decide
    simp [dropDigits, h]
  | cons b a ih =>
    by_cases h : isDigitByte b = true
    · simp [dropDigits, h, ih]
    · simp [dropDigits, h]

theorem scanInt_append (a r t : Bytes) (h : scanInt a = some r) :
    scanInt (a ++ 125 :: t) = some (r ++ 125 :: t) := by
  cases a with
  | nil => simp [scanInt] at h
  | cons b a =>
    simp only [scanInt, List.cons_append] at h ⊢
    by_cases h0 : b = 48
    · simp only [h0, if_true, Option.some.injEq] at h ⊢
      rw [h]
    simp only [h0, if_false] at h ⊢
    by_cases hd : isDigitByte b = true
    · simp only [hd, if_true, Option.some.injEq] at h ⊢
      rw [← h, dropDigits_append]
    · simp [hd] at h

theorem scanFrac_append (a r t : Bytes) (h : scanFrac a = some r) :
    scanFrac (a ++ 125 :: t) = some (r ++ 125 :: t) := by
  cases a with
  | nil =>
    simp only [scanFrac, Option.some.injEq] at h
    subst h
    simp [scanFrac]
  | cons b a =>
    simp only [scanFrac, List.cons_append] at h ⊢
    by_cases h0 : b = 46
    · simp only [h0, if_true] at h ⊢
      cases a with
      | nil => simp at h
      | cons d a1 =>
        simp only [List.cons_append] at h ⊢
        by_cases hd : isDigitByte d = true
        · simp only [hd, if_true, Option.some.injEq] at h ⊢
          rw [← h, dropDigits_append]
        · simp [hd] at h
    · simp only [h0, if_false, Option.some.injEq] at h ⊢
      rw [← h]
      rfl

theorem dropSign_append (a : Bytes) (b : UInt8) (a1 t : Bytes) (h : dropSign a = b :: a1) :
    dropSign (a ++ 125 :: t) = b :: (a1 ++ 125 :: t) := by
  cases a with
  | nil => simp [dropSign] at h
  | cons x a =>
    simp only [dropSign, List.cons_append] at h ⊢
    by_cases hx : x = 43 ∨ x = 45
    · simp only [hx, if_true] at h ⊢
      rw [h]
      rfl
    · simp only [hx, if_false] at h ⊢
      simp only [List.cons.injEq] at h ⊢
      exact ⟨h.1, by rw [h.2]⟩

theorem scanExp_append (a r t : Bytes) (h : scanExp a = some r) :
    scanExp (a ++ 125 :: t) = some (r ++ 125 :: t) := by
  cases a with
  | nil =>
    simp only [scanExp, Option.some.injEq] at h
    subst h
    simp [scanExp]
  | cons b a =>
    simp only [scanExp, List.cons_append] at h ⊢
    by_cases h0 : b = 101 ∨ b = 69
    · simp only [h0, if_true] at h ⊢
      cases hs : dropSign a with
      | nil => simp [hs] at h
      | cons d a1 =>
        rw [dropSign_append a d a1 t hs]
        simp only [hs] at h ⊢
        by_cases hd : isDigitByte d = true
        · simp only [hd, if_true, Option.some.injEq] at h ⊢
          rw [← h, dropDigits_append]
        · simp [hd] at h
    · simp only [h0, if_false, Option.some.injEq] at h ⊢
      rw [← h]
      rfl

theorem scanNumber_append (a r t : Bytes) (h : scanNumber a = some r) :
    scanNumber (a ++ 125 :: t) = some (r ++ 125 :: t) := by
  unfold scanNumber at h ⊢
  cases a with
  | nil => simp at h
  | cons b a =>
    simp only [List.cons_append] at h ⊢
    have key : ∀ x, (if b = 45 then scanInt a else scanInt (b :: a)) = some x →
        (if b = 45 then scanInt (a ++ 125 :: t) else scanInt (b :: (a ++ 125 :: t))) =
          some (x ++ 125 :: t) := by
      intro x hx
      by_cases hb : b = 45
      · simp only [hb, if_true] at hx ⊢
        exact scanInt_append a x t hx
      · simp only [hb, if_false] at hx ⊢
        exact scanInt_append (b :: a) x t hx
    cases h1 : (if b = 45 then scanInt a else scanInt (b :: a)) with
    | none => simp [h1] at h
    | some r1 =>
      rw [key r1 h1]
      simp only [h1] at h ⊢
      cases h2 : scanFrac r1 with
      | none => simp [h2] at h
      | some r2 =>
        rw [scanFrac_append r1 r2 t h2]
        simp only [h2] at h ⊢
        exact scanExp_append r2 r t h

theorem scan_append (t : Bytes) : ∀ f : Nat,
    (∀ a r, scanValue f a = some r → scanValue f (a ++ 125 :: t) = some (r ++ 125 :: t)) ∧
    (∀ a r, scanElements f a = some r → scanElements f (a ++ 125 :: t) = some (r ++ 125 :: t)) ∧
    (∀ a r, scanMembers f a = some r → scanMembers f (a ++ 125 :: t) = some (r ++ 125 :: t)) := by
  intro f
  induction f with
  | zero =>
    refine ⟨?_, ?_, ?_⟩ <;> intro a r h
    · simp [scanValue] at h
    · simp [scanElements] at h
    · simp [scanMembers] at h
  | succ f ih =>
    obtain ⟨ihV, ihE, ihM⟩ := ih
    refine ⟨?_, ?_, ?_⟩
    · intro a r h
      cases a with
      | nil => simp [scanValue] at h
      | cons b rest =>
        simp only [scanValue, List.cons_append, List.append_eq] at h ⊢
        by_cases h1 : b = 123
        · simp only [h1, if_true] at h ⊢
          rw [skipWS_append]
          cases hs : skipWS rest with
          | nil => simp [hs] at h
          | cons c rest1 =>
            simp only [hs, List.cons_append] at h ⊢
            by_cases hc : c = 125
            · simp only [hc, if_true, Option.some.injEq] at h ⊢
              rw [h]
            · simp only [hc, if_false] at h ⊢
              exact ihM _ _ h
        simp only [h1, if_false] at h ⊢
        by_cases h2 : b = 91
        · simp only [h2, if_true] at h ⊢
          rw [skipWS_append]
          cases hs : skipWS rest with
          | nil => simp [hs] at h
          | cons c rest1 =>
            simp only [hs, List.cons_append] at h ⊢
            by_cases hc : c = 93
            · simp only [hc, if_true, Option.some.injEq] at h ⊢
              rw [h]
            · simp only [hc, if_false] at h ⊢
              exact ihE _ _ h
        simp only [h2, if_false] at h ⊢
        by_cases h3 : b = 34
        · simp only [h3, if_true] at h ⊢
          cases hu : unquoteFrom none rest with
          | none => simp [hu] at h
          | some p =>
            obtain ⟨d, r1⟩ := p
            rw [unquoteFrom_append _ _ _ _ _ hu]
            simp only [hu, Option.some.injEq] at h ⊢
            rw [h]
        simp only [h3, if_false] at h ⊢
        by_cases h4 : b = 116
        · simp only [h4, if_true] at h ⊢
          exact dropBytes_append _ _ _ _ h
        simp only [h4, if_false] at h ⊢
        by_cases h5 : b = 102
        · simp only [h5, if_true] at h ⊢
          exact dropBytes_append _ _ _ _ h
        simp only [h5, if_false] at h ⊢
        by_cases h6 : b = 110
        · simp only [h6, if_true] at h ⊢
          exact dropBytes_append _ _ _ _ h
        simp only [h6, if_false] at h ⊢
        exact scanNumber_append _ _ _ h
    · intro a r h
      simp only [scanElements] at h ⊢
      cases hv : scanValue f a with
      | none => simp [hv] at h
      | some rest =>
        rw [ihV _ _ hv]
        simp only [hv] at h ⊢
        rw [skipWS_append]
        cases hs : skipWS rest with
        | nil => simp [hs] at h
        | cons c rest1 =>
          simp only [hs, List.cons_append] at h ⊢
          by_cases hc : c = 44
          · simp only [hc, if_true] at h ⊢
            rw [skipWS_append]
            exact ihE _ _ h
          simp only [hc, if_false] at h ⊢
          by_cases hd : c = 93
          · simp only [hd, if_true, Option.some.injEq] at h ⊢
            rw [h]
          · simp [hd] at h
    · intro a r h
      cases a with
      | nil => simp [scanMembers] at h
      | cons q rest =>
        simp only [scanMembers, List.cons_append, List.append_eq] at h ⊢
        by_cases hq : q = 34
        · simp only [hq, if_true] at h ⊢
          cases hu : unquoteFrom none rest with
          | none => simp [hu] at h
          | some p =>
            obtain ⟨d, rest1⟩ := p
            rw [unquoteFrom_append _ _ _ _ _ hu]
            simp only [hu] at h ⊢
            rw [skipWS_append]
            cases hs : skipWS rest1 with
            | nil => simp [hs] at h
            | cons c rest2 =>
              simp only [hs, List.cons_append] at h ⊢
              by_cases hc : c = 58
              · simp only [hc, if_true] at h ⊢
                rw [skipWS_append]
                cases hv : scanValue f (skipWS rest2) with
                | none => simp [hv] at h
                | some rest3 =>
                  rw [ihV _ _ hv]
                  simp only [hv] at h ⊢
                  rw [skipWS_append]
                  cases hs3 : skipWS rest3 with
                  | nil => simp [hs3] at h
                  | cons d1 rest4 =>
                    simp only [hs3, List.cons_append] at h ⊢
                    by_cases hd : d1 = 44
                    · simp only [hd, if_true] at h ⊢
                      rw [skipWS_append]
                      exact ihM _ _ h
                    simp only [hd, if_false] at h ⊢
                    by_cases he : d1 = 125
                    · simp only [he, if_true, Option.some.injEq] at h ⊢
                      rw [h]
                    · simp [he] at h
              · simp [hc] at h
        · simp [hq] at h

theorem scan_succ : ∀ f : Nat,
    (∀ a r, scanValue f a = some r → scanValue (f + 1) a = some r) ∧
    (∀ a r, scanElements f a = some r → scanElements (f + 1) a = some r) ∧
    (∀ a r, scanMembers f a = some r → scanMembers (f + 1) a = some r) := by
  intro f
  induction f with
  | zero =>
    refine ⟨?_, ?_, ?_⟩ <;> intro a r h
    · simp [scanValue] at h
    · simp [scanElements] at h
    · simp [scanMembers] at h
  | succ f ih =>
    obtain ⟨ihV, ihE, ihM⟩ := ih
    refine ⟨?_, ?_, ?_⟩
    · intro a r h
      cases a with
      | nil => simp [scanValue] at h
      | cons b rest =>
        rw [scanValue] at h ⊢
        by_cases h1 : b = 123
        · simp only [h1, if_true] at h ⊢
          cases hs : skipWS rest with
          | nil => simp [hs] at h
          | cons c rest1 =>
            simp only [hs] at h ⊢
            by_cases hc : c = 125
            · simp only [hc, if_true] at h ⊢
              exact h
            · simp only [hc, if_false] at h ⊢
              exact ihM _ _ h
        simp only [h1, if_false] at h ⊢
        by_cases h2 : b = 91
        · simp only [h2, if_true] at h ⊢
          cases hs : skipWS rest with
          | nil => simp [hs] at h
          | cons c rest1 =>
            simp only [hs] at h ⊢
            by_cases hc : c = 93
            · simp only [hc, if_true] at h ⊢
              exact h
            · simp only [hc, if_false] at h ⊢
              exact ihE _ _ h
        simp only [h2, if_false] at h ⊢
        exact h
    · intro a r h
      rw [scanElements] at h ⊢
      cases hv : scanValue f a with
      | none => simp [hv] at h
      | some rest =>
        rw [ihV _ _ hv]
        simp only [hv] at h ⊢
        cases hs : skipWS rest with
        | nil => simp [hs] at h
        | cons c rest1 =>
          simp only [hs] at h ⊢
          by_cases hc : c = 44
          · simp only [hc, if_true] at h ⊢
            exact ihE _ _ h
          simp only [hc, if_false] at h ⊢
          exact h
    · intro a r h
      cases a with
      | nil => simp [scanMembers] at h
      | cons q rest =>
        rw [scanMembers] at h ⊢
        by_cases hq : q = 34
        · simp only [hq, if_true] at h ⊢
          cases hu : unquoteFrom none rest with
          | none => simp [hu] at h
          | some p =>
            obtain ⟨d, rest1⟩ := p
            simp only [hu] at h ⊢
            cases hs : skipWS rest1 with
            | nil => simp [hs] at h
            | cons c rest2 =>
              simp only [hs] at h ⊢
              by_cases hc : c = 58
              · simp only [hc, if_true] at h ⊢
                cases hv : scanValue f (skipWS rest2) with
                | none => simp [hv] at h
                | some rest3 =>
                  rw [ihV _ _ hv]
                  simp only [hv] at h ⊢
                  cases hs3 : skipWS rest3 with
                  | nil => simp [hs3] at h
                  | cons d1 rest4 =>
                    simp only [hs3] at h ⊢
                    by_cases hd : d1 = 44
                    · simp only [hd, if_true] at h ⊢
                      exact ihM _ _ h
                    simp only [hd, if_false] at h ⊢
                    exact h
              · simp [hc] at h
        · simp [hq] at h

/-- More fuel does not change a result of the scanner. -/
theorem scanValue_mono (f g : Nat) (hfg : f ≤ g) (a r : Bytes) (h : scanValue f a = some r) :
    scanValue g a = some r := by
  induction hfg with
  | refl => exact h
  | step _ ih => exact (scan_succ _).1 a r ih

/-- A value before a closing brace is scanned up to the brace. -/
theorem scanValue_append (f : Nat) (a r t : Bytes) (h : scanValue f a = some r) :
    scanValue f (a ++ 125 :: t) = some (r ++ 125 :: t) :=
  (scan_append t f).1 a r h

/-- A value does not start with white space. -/
theorem scanValue_head (f : Nat) (a r : Bytes) (h : scanValue f a = some r) :
    ∃ b rest, a = b :: rest ∧ isSpaceByte b = false := by
  cases f with
  | zero => simp [scanValue] at h
  | succ f =>
    cases a with
    | nil => simp [scanValue] at h
    | cons b rest =>
      refine ⟨b, rest, rfl, ?_⟩
      by_contra hsp
      have hb : b = 32 ∨ b = 9 ∨ b = 10 ∨ b = 13 := by
        simp only [isSpaceByte, Bool.not_eq_false, Bool.or_eq_true, decide_eq_true_eq] at hsp
        tauto
      have d32 : isDigitByte 32 = false := by decide
      have d9 : isDigitByte 9 = false := by decide
      have d10 : isDigitByte 10 = false := by decide
      have d13 : isDigitByte 13 = false := by decide
      rcases hb with rfl | rfl | rfl | rfl <;>
        simp [scanValue, scanNumber, scanInt, d32, d9, d10, d13] at h

/-! ### Decoding what the encoder wrote -/

theorem quoteString_append (s : String) (rest : Bytes) :
    quoteString s ++ rest = 34 :: (s.data.flatMap escapeRune ++ 34 :: rest) := by
  simp [quoteString]

theorem skipWS_quoteString (s : String) (rest : Bytes) :
    skipWS (quoteString s ++ rest) = quoteString s ++ rest := by
  rw [quoteString_append]
  exact skipWS_cons 34 _ (by decide)

theorem decodeStringValue_quoteString (s : String) (rest : Bytes) :
    decodeStringValue (quoteString s ++ rest) = some (some (stringBytes s), rest) := by
  rw [quoteString_append]
  simp only [decodeStringValue, if_true]
  rw [unquoteFrom_runes]
  rfl

/-- The encoding of a member starts with a quote. -/
theorem encodeEntries_head (k v : String) (more : List (String × String)) (rest : Bytes) :
    ∃ body, encodeEntries ((k, v) :: more) ++ rest = 34 :: body := by
  cases more with
  | nil => exact ⟨_, by simp only [encodeEntries]; rw [List.append_assoc, quoteString_append]⟩
  | cons m more => exact ⟨_, by simp only [encodeEntries]; rw [List.append_assoc, quoteString_append]⟩

/-- The entries of a trace are read back, in the order they were written. -/
theorem decodeEntries_encodeEntries (tr : List (String × String)) :
    ∀ (f : Nat) (t : Bytes), tr ≠ [] → tr.length ≤ f →
      decodeEntries f (encodeEntries tr ++ 125 :: t) =
        some (tr.map (fun kv => (stringBytes kv.1, stringBytes kv.2)), t) := by
  induction tr with
  | nil => intro f t h; exact absurd rfl h
  | cons kv more ih =>
    intro f t _ hf
    obtain ⟨k, v⟩ := kv
    obtain ⟨g, rfl⟩ : ∃ g, f = g + 1 := ⟨f - 1, by simp only [List.length_cons] at hf; omega⟩
    cases more with
    | nil =>
      simp only [encodeEntries]
      rw [List.append_assoc, quoteString_append]
      simp only [decodeEntries, if_true]
      rw [unquoteFrom_runes]
      simp only [List.cons_append]
      rw [skipWS_cons 58 _ (by decide)]
      simp only [if_true]
      rw [skipWS_quoteString, decodeStringValue_quoteString]
      simp only
      rw [skipWS_cons 125 _ (by decide)]
      simp [stringBytes]
    | cons m more =>
      have hlen : (m :: more).length ≤ g := by
        simp only [List.length_cons] at hf ⊢
        omega
      have hrec := ih g t (by simp) hlen
      obtain ⟨body, hbody⟩ := encodeEntries_head m.1 m.2 more (125 :: t)
      simp only [encodeEntries]
      rw [List.append_assoc, quoteString_append]
      simp only [decodeEntries, if_true]
      rw [unquoteFrom_runes]
      simp only [List.cons_append]
      rw [skipWS_cons 58 _ (by decide)]
      simp only [if_true]
      rw [List.append_assoc, skipWS_quoteString, decodeStringValue_quoteString]
      simp only [List.cons_append]
      rw [skipWS_cons 44 _ (by decide)]
      simp only [if_true]
      have hskip : skipWS (encodeEntries (m :: more) ++ 125 :: t) =
          encodeEntries (m :: more) ++ 125 :: t := by
        rw [hbody]
        exact skipWS_cons 34 _ (by decide)
      rw [hskip, hrec]
      simp [stringBytes]

/-- One member the encoder wrote: the key is read, and the value goes to the field
the key names. -/
theorem decodeMembers_member (f : Nat) (k : String) (v : Bytes) (acc : WireEnvelope)
    (hv : skipWS v = v) :
    decodeMembers (f + 1) (quoteString k ++ 58 :: v) acc =
      match decodeField f (fieldOf (stringBytes k)) v acc with
      | none => none
      | some (acc1, rest3) =>
        match skipWS rest3 with
        | [] => none
        | d :: rest4 =>
          if d = 44 then decodeMembers f (skipWS rest4) acc1
          else if d = 125 then some (acc1, rest4)
          else none := by
  rw [quoteString_append]
  simp only [decodeMembers, if_true]
  rw [unquoteFrom_runes]
  simp only
  rw [skipWS_cons 58 _ (by decide)]
  simp only [if_true, hv]
  rfl

theorem decodeMembers_id (f : Nat) (s : String) (rest : Bytes) (acc : WireEnvelope)
    (hrest : skipWS rest = rest) :
    decodeMembers (f + 1) (quoteString "id" ++ 58 :: (quoteString s ++ 44 :: rest)) acc =
      decodeMembers f rest { acc with ID := stringBytes s } := by
  rw [decodeMembers_member f "id" _ acc (skipWS_quoteString s _)]
  have hk : fieldOf (stringBytes "id") = Field.id := by decide
  rw [hk]
  simp only [decodeField, decodeStringValue_quoteString]
  rw [skipWS_cons 44 _ (by decide)]
  simp [hrest]

theorem decodeMembers_messageType (f : Nat) (s : String) (rest : Bytes) (acc : WireEnvelope)
    (hrest : skipWS rest = rest) :
    decodeMembers (f + 1)
        (quoteString "message_type" ++ 58 :: (quoteString s ++ 44 :: rest)) acc =
      decodeMembers f rest { acc with MessageType := stringBytes s } := by
  rw [decodeMembers_member f "message_type" _ acc (skipWS_quoteString s _)]
  have hk : fieldOf (stringBytes "message_type") = Field.messageType := by decide
  rw [hk]
  simp only [decodeField, decodeStringValue_quoteString]
  rw [skipWS_cons 44 _ (by decide)]
  simp [hrest]

theorem decodeMembers_trace (f : Nat) (tr : List (String × String)) (rest : Bytes)
    (acc : WireEnvelope) (htr : tr ≠ []) (hf : tr.length ≤ f) (hrest : skipWS rest = rest) :
    decodeMembers (f + 1)
        (quoteString "trace" ++ 58 :: 123 :: (encodeEntries tr ++ 125 :: 44 :: rest)) acc =
      decodeMembers f rest
        { acc with Trace := acc.Trace ++ tr.map (fun kv => (stringBytes kv.1, stringBytes kv.2)) } := by
  rw [decodeMembers_member f "trace" _ acc (skipWS_cons 123 _ (by decide))]
  have hk : fieldOf (stringBytes "trace") = Field.trace := by decide
  rw [hk]
  obtain ⟨kv, more, rfl⟩ : ∃ kv more, tr = kv :: more := by
    cases tr with
    | nil => exact absurd rfl htr
    | cons kv more => exact ⟨kv, more, rfl⟩
  obtain ⟨body, hbody⟩ := encodeEntries_head kv.1 kv.2 more (125 :: 44 :: rest)
  have hdec := decodeEntries_encodeEntries (kv :: more) f (44 :: rest) htr hf
  have hskip : skipWS (encodeEntries (kv :: more) ++ 125 :: 44 :: rest) = 34 :: body := by
    rw [← hbody]
    show skipWS (encodeEntries (kv :: more) ++ 125 :: 44 :: rest) = _
    rw [hbody]
    exact skipWS_cons 34 _ (by decide)
  have hbody2 : encodeEntries (kv :: more) ++ 125 :: 44 :: rest = 34 :: body := hbody
  rw [hbody2] at hdec
  simp only [decodeField, if_true, hskip]
  have h34 : ¬ ((34 : UInt8) = 125) := by decide
  simp only [h34, if_false, hdec]
  rw [skipWS_cons 44 _ (by decide)]
  simp [hrest]

/-- The last member, the message: its bytes are taken as they are. -/
theorem decodeMembers_message (f : Nat) (msg : Bytes) (acc : WireEnvelope)
    (hmsg : IsJSONValue msg) (hf : 2 * msg.length + 2 ≤ f) :
    decodeMembers (f + 1) (quoteString "message" ++ 58 :: (msg ++ [125])) acc =
      some ({ acc with Message := msg }, []) := by
  obtain ⟨b, tail, hb, hsp⟩ := scanValue_head _ _ _ hmsg
  have hv : skipWS (msg ++ [125]) = msg ++ [125] := by
    rw [hb]
    exact skipWS_cons b _ hsp
  rw [decodeMembers_member f "message" _ acc hv]
  have hk : fieldOf (stringBytes "message") = Field.message := by decide
  rw [hk]
  have hscan : scanValue f (msg ++ [125]) = some [125] := by
    have := scanValue_append f msg [] [] (scanValue_mono _ f hf msg [] hmsg)
    simpa using this
  simp only [decodeField, hscan]
  rw [skipWS_cons 125 _ (by decide)]
  simp

theorem encodeEntries_length (tr : List (String × String)) :
    tr.length ≤ (encodeEntries tr).length := by
  induction tr with
  | nil => simp
  | cons kv more ih =>
    obtain ⟨k, v⟩ := kv
    cases more with
    | nil => simp [encodeEntries, quoteString]
    | cons m more =>
      simp only [encodeEntries, List.length_append, List.length_cons] at ih ⊢
      omega

/-- The members from `id` on, as the encoder wrote them, fill the three fields. -/
theorem decodeMembers_from_id (f : Nat) (e : Envelope) (acc : WireEnvelope)
    (hmsg : IsJSONValue e.Message) (hf : 2 * e.Message.length + 5 ≤ f)
    (hacc : acc.MessageType = []) :
    ∃ decoded,
      decodeMembers f
        (quoteString "id" ++ 58 :: (quoteString e.ID ++ 44 ::
          (if e.MessageType = "" then quoteString "message" ++ 58 :: (e.Message ++ [125])
           else quoteString "message_type" ++ 58 :: (quoteString e.MessageType ++ 44 ::
             (quoteString "message" ++ 58 :: (e.Message ++ [125])))))) acc =
        some (decoded, []) ∧
      decoded.ID = stringBytes e.ID ∧ decoded.MessageType = stringBytes e.MessageType ∧
      decoded.Message = e.Message := by
  obtain ⟨g, rfl⟩ : ∃ g, f = g + 3 := ⟨f - 3, by omega⟩
  by_cases hmt : e.MessageType = ""
  · rw [if_pos hmt]
    rw [decodeMembers_id (g + 2) e.ID _ acc (skipWS_quoteString "message" _)]
    rw [decodeMembers_message (g + 1) e.Message _ hmsg (by omega)]
    exact ⟨_, rfl, rfl, by rw [hmt]; exact hacc, rfl⟩
  · rw [if_neg hmt]
    rw [decodeMembers_id (g + 2) e.ID _ acc (skipWS_quoteString "message_type" _)]
    rw [decodeMembers_messageType (g + 1) e.MessageType _ _ (skipWS_quoteString "message" _)]
    rw [decodeMembers_message g e.Message _ hmsg (by omega)]
    exact ⟨_, rfl, rfl, rfl, rfl⟩

/-- The record the encoder writes, member by member. -/
theorem Marshal_members (e : Envelope) :
    e.Marshal = .ok (123 ::
      ((if e.Trace = [] then [] else
        quoteString "trace" ++ 58 :: 123 :: (encodeEntries e.Trace ++ [125, 44])) ++
      (quoteString "id" ++ 58 :: (quoteString e.ID ++ 44 ::
        (if e.MessageType = "" then quoteString "message" ++ 58 :: (e.Message ++ [125])
         else quoteString "message_type" ++ 58 :: (quoteString e.MessageType ++ 44 ::
           (quoteString "message" ++ 58 :: (e.Message ++ [125])))))))) := by
  have h1 : stringBytes "\"trace\":" = quoteString "trace" ++ [58] := by decide
  have h2 : stringBytes "\"id\":" = quoteString "id" ++ [58] := by decide
  have h3 : stringBytes ",\"message_type\":" = 44 :: (quoteString "message_type" ++ [58]) := by
    decide
  have h4 : stringBytes ",\"message\":" = 44 :: (quoteString "message" ++ [58]) := by decide
  unfold Envelope.Marshal
  rw [h1, h2, h3, h4]
  by_cases ht : e.Trace = [] <;> by_cases hm : e.MessageType = "" <;>
    simp [ht, hm, List.append_assoc]

/-! ### The round trip -/

/-- C19 (counterexample): the round trip fails for an envelope built without a
message, whose record `\x7b"id":"a","message_type":"ftp_delivery","message":\x7d` is
not JSON and is not decoded, and for a message with a space before its value,
which is decoded without the space. -/
theorem roundtrip_fails_without_json_message :
    (¬ ∃ data decoded, emptyMessageEnvelope.Marshal = .ok data ∧
        jsonUnmarshalEnvelope data = .ok decoded) ∧
    (∃ data decoded, spacedMessageEnvelope.Marshal = .ok data ∧
        jsonUnmarshalEnvelope data = .ok decoded ∧
        decoded.Message ≠ spacedMessageEnvelope.Message) := by
  refine ⟨?_, ?_⟩
  · rintro ⟨data, decoded, h1, h2⟩
    have hdata : emptyMessageEnvelope.Marshal =
        .ok (stringBytes "\x7b\"id\":\"a\",\"message_type\":\"ftp_delivery\",\"message\":\x7d") := by
      decide
    rw [hdata] at h1
    have hd : data =
        stringBytes "\x7b\"id\":\"a\",\"message_type\":\"ftp_delivery\",\"message\":\x7d" := by
      injection h1 with h1
      exact h1.symm
    have herr : jsonUnmarshalEnvelope
        (stringBytes "\x7b\"id\":\"a\",\"message_type\":\"ftp_delivery\",\"message\":\x7d") =
        .error "json: cannot unmarshal the document into an envelope" := by
      decide
    rw [hd, herr] at h2
    cases h2
  · exact ⟨stringBytes "\x7b\"id\":\"a\",\"message\": 1\x7d",
      { ID := stringBytes "a", Message := [49] }, by decide, by decide, by decide⟩

/-- The record of an envelope is decoded, given fuel for the message and the trace. -/
theorem decodeDocument_Marshal (f : Nat) (e : Envelope) (data : Bytes)
    (hdata : e.Marshal = .ok data) (hmsg : IsJSONValue e.Message)
    (hf1 : 2 * e.Message.length + 6 ≤ f) (hf2 : e.Trace.length + 1 ≤ f) :
    ∃ decoded, decodeDocument f data = some (decoded, []) ∧
      decoded.ID = stringBytes e.ID ∧ decoded.MessageType = stringBytes e.MessageType ∧
      decoded.Message = e.Message := by
  rw [Marshal_members e] at hdata
  injection hdata with hdata
  subst hdata
  have h34 : ¬ ((34 : UInt8) = 125) := by decide
  by_cases ht : e.Trace = []
  · obtain ⟨decoded, hdec, hrest⟩ := decodeMembers_from_id f e {} hmsg (by omega) rfl
    refine ⟨decoded, ?_, hrest⟩
    rw [if_pos ht]
    simp only [List.nil_append, decodeDocument, if_true]
    rw [skipWS_quoteString]
    rw [quoteString_append] at hdec ⊢
    simp only [h34, if_false, hdec]
  · obtain ⟨g, rfl⟩ : ∃ g, f = g + 1 := ⟨f - 1, by omega⟩
    obtain ⟨decoded, hdec, hrest⟩ := decodeMembers_from_id g e
      { Trace := ([] : List (Bytes × Bytes)) ++
          e.Trace.map (fun kv => (stringBytes kv.1, stringBytes kv.2)) }
      hmsg (by omega) rfl
    refine ⟨decoded, ?_, hrest⟩
    rw [if_neg ht]
    have hshape : ∀ tail : Bytes,
        (quoteString "trace" ++ 58 :: 123 :: (encodeEntries e.Trace ++ [125, 44])) ++ tail =
          quoteString "trace" ++ 58 :: 123 :: (encodeEntries e.Trace ++ 125 :: 44 :: tail) := by
      intro tail
      simp [List.append_assoc]
    have hstep := decodeMembers_trace g e.Trace _ {} ht (by omega)
      (skipWS_quoteString "id" (58 :: (quoteString e.ID ++ 44 ::
          (if e.MessageType = "" then quoteString "message" ++ 58 :: (e.Message ++ [125])
           else quoteString "message_type" ++ 58 :: (quoteString e.MessageType ++ 44 ::
             (quoteString "message" ++ 58 :: (e.Message ++ [125])))))))
    rw [hdec] at hstep
    simp only [decodeDocument, if_true]
    rw [hshape, skipWS_quoteString]
    rw [quoteString_append] at hstep ⊢
    simp only [h34, if_false, hstep]

theorem Marshal_length (e : Envelope) (data : Bytes) (h : e.Marshal = .ok data) :
    e.Message.length + 2 ≤ data.length ∧ e.Trace.length ≤ data.length := by
  unfold Envelope.Marshal at h
  injection h with h
  subst h
  have hlen := encodeEntries_length e.Trace
  by_cases ht : e.Trace = []
  · simp only [ht, if_true, List.length_cons, List.length_append, List.length_nil]
    omega
  · simp only [ht, if_false, List.length_cons, List.length_append, List.length_nil]
    omega

theorem Marshal_head (e : Envelope) (data : Bytes) (h : e.Marshal = .ok data) :
    skipWS data = data := by
  unfold Envelope.Marshal at h
  injection h with h
  subst h
  exact skipWS_cons 123 _ (by decide)

/-- C19 (amended): for every envelope whose message is one JSON value with no
white space around it, the record `Marshal` writes is decoded by `json.Unmarshal`
into an envelope with the bytes of the same id, the bytes of the same message type
and the same message bytes; and when the trace is empty the record is the members
`id`, `message_type` (unless empty) and `message` alone, with no `trace` member. -/
theorem Marshal_Unmarshal_roundtrip (e : Envelope) (hmsg : IsJSONValue e.Message) :
    ∃ data decoded, e.Marshal = .ok data ∧ jsonUnmarshalEnvelope data = .ok decoded ∧
      decoded.ID = stringBytes e.ID ∧
      decoded.MessageType = stringBytes e.MessageType ∧
      decoded.Message = e.Message ∧
      (e.Trace = [] →
        data = 123 :: (stringBytes "\"id\":" ++ quoteString e.ID ++
          (if e.MessageType = "" then []
           else stringBytes ",\"message_type\":" ++ quoteString e.MessageType) ++
          stringBytes ",\"message\":" ++ e.Message ++ [125])) := by
  obtain ⟨data, hdata⟩ : ∃ data, e.Marshal = .ok data := ⟨_, rfl⟩
  obtain ⟨hl1, hl2⟩ := Marshal_length e data hdata
  obtain ⟨decoded, hdec, hid, hmt, hm⟩ := decodeDocument_Marshal (2 * data.length + 2) e data
    hdata hmsg (by omega) (by omega)
  refine ⟨data, decoded, hdata, ?_, hid, hmt, hm, ?_⟩
  · unfold jsonUnmarshalEnvelope
    rw [Marshal_head e data hdata, hdec]
    rfl
  · intro ht
    unfold Envelope.Marshal at hdata
    rw [if_pos ht] at hdata
    simp only [List.nil_append] at hdata
    injection hdata with hdata
    exact hdata.symm

/-- C19 (amended), on an envelope with a trace, quotes and a newline in its id, and
an object as message. -/
theorem Marshal_Unmarshal_roundtrip_witness :
    IsJSONValue wireEnvelope.Message ∧
    ∃ data decoded, wireEnvelope.Marshal = .ok data ∧
      jsonUnmarshalEnvelope data = .ok decoded ∧
      decoded.ID = stringBytes wireEnvelope.ID ∧
      decoded.MessageType = stringBytes wireEnvelope.MessageType ∧
      decoded.Message = wireEnvelope.Message ∧
      (wireEnvelope.Trace = [] →
        data = 123 :: (stringBytes "\"id\":" ++ quoteString wireEnvelope.ID ++
          (if wireEnvelope.MessageType = "" then []
           else stringBytes ",\"message_type\":" ++ quoteString wireEnvelope.MessageType) ++
          stringBytes ",\"message\":" ++ wireEnvelope.Message ++ [125])) :=
  ⟨by decide, Marshal_Unmarshal_roundtrip wireEnvelope (by decide)⟩

end CodecClaims

/-! ## The claims on the node conversion -/

section NodeClaims

variable {F : Type}

theorem lookup_mapSet {κ ν : Type} [DecidableEq κ] (m : List (κ × ν)) (key : κ) (value : ν)
    (k : κ) :
    (mapSet m key value).lookup k = if k = key then some value else m.lookup k := by
  induction m with
  | nil =>
    by_cases h : k = key
    · simp [mapSet, List.lookup, h]
    · have hb : (k == key) = false := by simpa using h
      simp [mapSet, List.lookup, h, hb]
  | cons kv rest ih =>
    obtain ⟨k0, v0⟩ := kv
    by_cases h0 : k0 = key
    · subst h0
      by_cases h : k = k0
      · simp [mapSet, List.lookup, h]
      · have hb : (k == k0) = false := by simpa using h
        simp [mapSet, List.lookup, h, hb]
    · by_cases h1 : k = k0
      · subst h1
        have hne : ¬ k = key := h0
        simp [mapSet, List.lookup, h0, hne]
      · have hb : (k == k0) = false := by simpa using h1
        simp [mapSet, List.lookup, h0, hb, ih]

theorem primaryTickerMap_lookup (primary : List Int) (m : List (Int × Bool)) (k : Int) :
    ((primaryTickerMap primary m).lookup k).isSome =
      (decide (k ∈ primary) || (m.lookup k).isSome) := by
  induction primary generalizing m with
  | nil => simp [primaryTickerMap]
  | cons p rest ih =>
    rw [primaryTickerMap, ih, lookup_mapSet]
    by_cases h : k = p
    · simp [h]
    · simp [h]

theorem primaryTickerMap_isSome (primary : List Int) (k : Int) :
    ((primaryTickerMap primary []).lookup k).isSome = decide (k ∈ primary) := by
  rw [primaryTickerMap_lookup]
  simp

/-- The lists of the content after the loop over the taxonomy. -/
theorem taxonomy_foldl (pm : List (Int × Bool)) (taxonomy : List Category)
    (acc : Content × List (Int × String)) :
    let r := taxonomy.foldl (taxonomyStep pm) acc
    r.1.Tickers = acc.1.Tickers ++
        (taxonomy.filter (fun c => decide (c.Vocab = VocabTicker))).map
          (fun c => { c with Primary := (pm.lookup c.ID).isSome }) ∧
    r.1.Channels = acc.1.Channels ++
        taxonomy.filter (fun c => decide (c.Vocab = VocabChannel)) ∧
    r.1.Futures = acc.1.Futures ++
        taxonomy.filter (fun c => decide (c.Vocab = VocabFutures)) ∧
    r.1.Tags = acc.1.Tags ++
        taxonomy.filter (fun c => decide (c.Vocab ≠ VocabTicker ∧ c.Vocab ≠ VocabChannel ∧
          c.Vocab ≠ VocabFutures)) ∧
    r.1.Assets = acc.1.Assets ∧ r.1.Quotes = acc.1.Quotes := by
  induction taxonomy generalizing acc with
  | nil => simp
  | cons c rest ih =>
    have h := ih (taxonomyStep pm acc c)
    simp only [List.foldl_cons]
    simp only at h
    obtain ⟨h1, h2, h3, h4, h5, h6⟩ := h
    have hv12 : VocabTicker ≠ VocabChannel := by decide
    have hv13 : VocabTicker ≠ VocabFutures := by decide
    have hv23 : VocabChannel ≠ VocabFutures := by decide
    by_cases ht : c.Vocab = VocabTicker
    · rw [h1, h2, h3, h4, h5, h6]
      simp [taxonomyStep, ht, hv12, hv13, List.filter_cons]
    · by_cases hc : c.Vocab = VocabChannel
      · rw [h1, h2, h3, h4, h5, h6]
        simp [taxonomyStep, hc, hv12.symm, hv23, List.filter_cons]
      · by_cases hf : c.Vocab = VocabFutures
        · rw [h1, h2, h3, h4, h5, h6]
          simp [taxonomyStep, hf, hv13.symm, hv23.symm, List.filter_cons]
        · rw [h1, h2, h3, h4, h5, h6]
          simp [taxonomyStep, ht, hc, hf, List.filter_cons]

/-- The loop over the quotes leaves the category lists and the assets as they are. -/
theorem quotes_foldl (tm : List (Int × String)) (price : List NodeQuote) (content : Content) :
    let r := price.foldl (quoteStep tm) content
    r.Tickers = content.Tickers ∧ r.Channels = content.Channels ∧
      r.Futures = content.Futures ∧ r.Tags = content.Tags ∧ r.Assets = content.Assets := by
  induction price generalizing content with
  | nil => simp
  | cons q rest ih =>
    have h := ih (quoteStep tm content q)
    simp only [List.foldl_cons]
    simp only at h
    obtain ⟨h1, h2, h3, h4, h5⟩ := h
    rw [h1, h2, h3, h4, h5]
    unfold quoteStep
    dsimp only
    split <;> simp

/-- The lists of the content after the loops over the taxonomy and the quotes. -/
theorem loops_lists (pm : List (Int × Bool)) (taxonomy : List Category)
    (price : List NodeQuote) (c0 : Content) :
    (price.foldl (quoteStep (taxonomy.foldl (taxonomyStep pm) (c0, [])).2)
        (taxonomy.foldl (taxonomyStep pm) (c0, [])).1).Tickers =
      c0.Tickers ++ (taxonomy.filter (fun c => decide (c.Vocab = VocabTicker))).map
          (fun c => { c with Primary := (pm.lookup c.ID).isSome }) ∧
    (price.foldl (quoteStep (taxonomy.foldl (taxonomyStep pm) (c0, [])).2)
        (taxonomy.foldl (taxonomyStep pm) (c0, [])).1).Channels =
      c0.Channels ++ taxonomy.filter (fun c => decide (c.Vocab = VocabChannel)) ∧
    (price.foldl (quoteStep (taxonomy.foldl (taxonomyStep pm) (c0, [])).2)
        (taxonomy.foldl (taxonomyStep pm) (c0, [])).1).Futures =
      c0.Futures ++ taxonomy.filter (fun c => decide (c.Vocab = VocabFutures)) ∧
    (price.foldl (quoteStep (taxonomy.foldl (taxonomyStep pm) (c0, [])).2)
        (taxonomy.foldl (taxonomyStep pm) (c0, [])).1).Tags =
      c0.Tags ++ taxonomy.filter (fun c => decide (c.Vocab ≠ VocabTicker ∧
          c.Vocab ≠ VocabChannel ∧ c.Vocab ≠ VocabFutures)) ∧
    (price.foldl (quoteStep (taxonomy.foldl (taxonomyStep pm) (c0, [])).2)
        (taxonomy.foldl (taxonomyStep pm) (c0, [])).1).Assets = c0.Assets := by
  have hq := quotes_foldl (taxonomy.foldl (taxonomyStep pm) (c0, [])).2 price
    (taxonomy.foldl (taxonomyStep pm) (c0, [])).1
  have ht := taxonomy_foldl pm taxonomy (c0, [])
  simp only at hq ht
  obtain ⟨q1, q2, q3, q4, q5⟩ := hq
  obtain ⟨t1, t2, t3, t4, t5, _⟩ := ht
  rw [q1, q2, q3, q4, q5, t1, t2, t3, t4, t5]
  exact ⟨rfl, rfl, rfl, rfl, rfl⟩

/-- The category lists and the assets of `AsContent`, as functions of the node. -/
theorem AsContent_lists (timeFromFloat : F → Time) (n : Node F) :
    (n.AsContent timeFromFloat).Tickers =
        (n.Taxonomy.filter (fun c => decide (c.Vocab = VocabTicker))).map
          (fun c => { c with Primary := decide (c.ID ∈ n.PrimaryTickers) }) ∧
    (n.AsContent timeFromFloat).Channels =
        n.Taxonomy.filter (fun c => decide (c.Vocab = VocabChannel)) ∧
    (n.AsContent timeFromFloat).Futures =
        n.Taxonomy.filter (fun c => decide (c.Vocab = VocabFutures)) ∧
    (n.AsContent timeFromFloat).Tags =
        n.Taxonomy.filter (fun c => decide (c.Vocab ≠ VocabTicker ∧ c.Vocab ≠ VocabChannel ∧
          c.Vocab ≠ VocabFutures)) ∧
    (n.AsContent timeFromFloat).Assets =
        (match n.Image with
          | [] => []
          | image :: _ => [{ image.AsAsset with Primary := true }]) ++
        (if n.Assets.length > 1 then n.Assets else []) := by
  have hflag : (fun c : Category =>
        ({ c with Primary := ((primaryTickerMap n.PrimaryTickers []).lookup c.ID).isSome } :
          Category)) =
      (fun c => { c with Primary := decide (c.ID ∈ n.PrimaryTickers) }) := by
    funext c
    rw [primaryTickerMap_isSome]
  unfold Node.AsContent
  dsimp only
  rw [(loops_lists _ _ _ _).1, (loops_lists _ _ _ _).2.1, (loops_lists _ _ _ _).2.2.1,
    (loops_lists _ _ _ _).2.2.2.1, (loops_lists _ _ _ _).2.2.2.2, hflag]
  cases n.Image <;> by_cases hlen : n.Assets.length > 1 <;> simp [hlen]

/-- Four filters that split a list by vocabulary keep every entry once. -/
theorem vocab_partition_length (taxonomy : List Category) :
    (taxonomy.filter (fun c => decide (c.Vocab = VocabTicker))).length +
      (taxonomy.filter (fun c => decide (c.Vocab = VocabChannel))).length +
      (taxonomy.filter (fun c => decide (c.Vocab = VocabFutures))).length +
      (taxonomy.filter (fun c => decide (c.Vocab ≠ VocabTicker ∧ c.Vocab ≠ VocabChannel ∧
          c.Vocab ≠ VocabFutures))).length = taxonomy.length := by
  induction taxonomy with
  | nil => rfl
  | cons c rest ih =>
    have hv12 : VocabTicker ≠ VocabChannel := by decide
    have hv13 : VocabTicker ≠ VocabFutures := by decide
    have hv23 : VocabChannel ≠ VocabFutures := by decide
    by_cases ht : c.Vocab = VocabTicker
    · simp [List.filter_cons, ht, hv12, hv13] at ih ⊢
      omega
    · by_cases hc : c.Vocab = VocabChannel
      · simp [List.filter_cons, hc, hv12.symm, hv23] at ih ⊢
        omega
      · by_cases hf : c.Vocab = VocabFutures
        · simp [List.filter_cons, hf, hv13.symm, hv23.symm] at ih ⊢
          omega
        · simp [List.filter_cons, ht, hc, hf] at ih ⊢
          omega

/-- C25: `AsContent` splits the taxonomy of a node by vocabulary and keeps the
order within each part. The tickers are the entries with vocabulary ticker, each
with its primary flag set anew; the channels and the futures are the entries with
those vocabularies; the tags are all the other entries; the four lengths add up
to the length of the taxonomy; and a ticker is primary exactly when its
identifier is among the primary tickers of the node. -/
theorem AsContent_partitions_taxonomy (timeFromFloat : F → Time) (n : Node F) :
    (n.AsContent timeFromFloat).Tickers =
        (n.Taxonomy.filter (fun c => decide (c.Vocab = VocabTicker))).map
          (fun c => { c with Primary := decide (c.ID ∈ n.PrimaryTickers) }) ∧
    (n.AsContent timeFromFloat).Channels =
        n.Taxonomy.filter (fun c => decide (c.Vocab = VocabChannel)) ∧
    (n.AsContent timeFromFloat).Futures =
        n.Taxonomy.filter (fun c => decide (c.Vocab = VocabFutures)) ∧
    (n.AsContent timeFromFloat).Tags =
        n.Taxonomy.filter (fun c => decide (c.Vocab ≠ VocabTicker ∧ c.Vocab ≠ VocabChannel ∧
          c.Vocab ≠ VocabFutures)) ∧
    (n.AsContent timeFromFloat).Tickers.length + (n.AsContent timeFromFloat).Channels.length +
        (n.AsContent timeFromFloat).Futures.length + (n.AsContent timeFromFloat).Tags.length =
      n.Taxonomy.length ∧
    (∀ ticker ∈ (n.AsContent timeFromFloat).Tickers,
      ticker.Primary = true ↔ ticker.ID ∈ n.PrimaryTickers) := by
  obtain ⟨h1, h2, h3, h4, _⟩ := AsContent_lists timeFromFloat n
  refine ⟨h1, h2, h3, h4, ?_, ?_⟩
  · rw [h1, h2, h3, h4, List.length_map]
    exact vocab_partition_length n.Taxonomy
  · intro ticker hmem
    rw [h1] at hmem
    obtain ⟨c, _, rfl⟩ := List.mem_map.mp hmem
    simp

theorem primaryTickers_eq (tickers : List Category) :
    primaryTickers tickers = (tickers.filter (fun t => t.Primary)).map (fun t => t.ID) := by
  induction tickers with
  | nil => rfl
  | cons t rest ih =>
    by_cases h : t.Primary = true
    · simp [primaryTickers, h, ih]
    · simp [primaryTickers, h, ih]

/-- C26: the node of a content has as taxonomy the tags, the tickers, the channels
and the futures, in this order; as primary tickers the identifiers of the tickers
flagged primary, in ticker order; the four flags as 1 for true and 0 for false; and
the title, body, author, partner URL, meta and assets of the content. -/
theorem AsNode_fields (float : Time → F) (c : Content) :
    (c.AsNode float).Taxonomy = c.Tags ++ c.Tickers ++ c.Channels ++ c.Futures ∧
    (c.AsNode float).Taxonomy.length =
      c.Tags.length + c.Tickers.length + c.Channels.length + c.Futures.length ∧
    (c.AsNode float).PrimaryTickers =
      (c.Tickers.filter (fun t => t.Primary)).map (fun t => t.ID) ∧
    (c.AsNode float).IsBzPost = (if c.IsBzPost then 1 else 0) ∧
    (c.AsNode float).IsBzProPost = (if c.IsBzProPost then 1 else 0) ∧
    (c.AsNode float).DoNotDistribute = (if c.DoNotDistribute then 1 else 0) ∧
    (c.AsNode float).Status = (if c.Published then 1 else 0) ∧
    (c.AsNode float).Title = c.Title ∧ (c.AsNode float).Body = c.Body ∧
    (c.AsNode float).Author = c.Author ∧ (c.AsNode float).PartnerURL = c.PartnerURL ∧
    (c.AsNode float).Meta = c.Meta ∧ (c.AsNode float).Assets = c.Assets := by
  refine ⟨by simp [Content.AsNode], by simp [Content.AsNode, Nat.add_assoc],
    primaryTickers_eq c.Tickers,
    rfl, rfl, rfl, rfl, rfl, rfl, rfl, rfl, rfl, rfl⟩

theorem filter_eq_self_of_forall {α : Type} (p : α → Bool) (l : List α)
    (h : ∀ a ∈ l, p a = true) : l.filter p = l :=
  List.filter_eq_self.mpr h

theorem filter_eq_nil_of_forall {α : Type} (p : α → Bool) (l : List α)
    (h : ∀ a ∈ l, p a = false) : l.filter p = [] := by
  apply List.filter_eq_nil_iff.mpr
  intro a ha
  simp [h a ha]

/-- A ticker keeps its flag when the identifiers of the tickers are distinct. -/
theorem flag_restored (tickers : List Category)
    (hdistinct : (tickers.map (fun t => t.ID)).Nodup) :
    tickers.map (fun t => { t with Primary := decide (t.ID ∈ primaryTickers tickers) }) =
      tickers := by
  have hkey : ∀ t ∈ tickers, decide (t.ID ∈ primaryTickers tickers) = t.Primary := by
    intro t ht
    rw [primaryTickers_eq]
    by_cases hp : t.Primary = true
    · rw [hp, decide_eq_true_eq]
      exact List.mem_map.mpr ⟨t, List.mem_filter.mpr ⟨ht, hp⟩, rfl⟩
    · have hp2 : t.Primary = false := by simpa using hp
      rw [hp2, decide_eq_false_iff_not]
      intro hmem
      obtain ⟨u, hu, hid⟩ := List.mem_map.mp hmem
      obtain ⟨humem, huprim⟩ := List.mem_filter.mp hu
      have : u = t := List.inj_on_of_nodup_map hdistinct humem ht hid
      rw [this] at huprim
      exact hp huprim
  calc tickers.map (fun t => { t with Primary := decide (t.ID ∈ primaryTickers tickers) })
      = tickers.map (fun t => t) := by
        apply List.map_congr_left
        intro t ht
        show ({ t with Primary := decide (t.ID ∈ primaryTickers tickers) } : Category) = t
        rw [hkey t ht]
    _ = tickers := List.map_id _

/-- C29: `AsContent` undoes `AsNode` on the category lists. For a content whose
tickers, channels and futures have the vocabularies ticker, channel and futures,
whose tags have none of the three, and whose ticker identifiers are pairwise
distinct, the content of its node has the same tickers, primary flags included,
the same channels, the same futures and the same tags. -/
theorem AsContent_AsNode_lists (float : Time → F) (timeFromFloat : F → Time) (c : Content)
    (htickers : ∀ t ∈ c.Tickers, t.Vocab = VocabTicker)
    (hchannels : ∀ t ∈ c.Channels, t.Vocab = VocabChannel)
    (hfutures : ∀ t ∈ c.Futures, t.Vocab = VocabFutures)
    (htags : ∀ t ∈ c.Tags,
      t.Vocab ≠ VocabTicker ∧ t.Vocab ≠ VocabChannel ∧ t.Vocab ≠ VocabFutures)
    (hdistinct : (c.Tickers.map (fun t => t.ID)).Nodup) :
    ((c.AsNode float).AsContent timeFromFloat).Tickers = c.Tickers ∧
    ((c.AsNode float).AsContent timeFromFloat).Channels = c.Channels ∧
    ((c.AsNode float).AsContent timeFromFloat).Futures = c.Futures ∧
    ((c.AsNode float).AsContent timeFromFloat).Tags = c.Tags := by
  have hv12 : VocabTicker ≠ VocabChannel := by decide
  have hv13 : VocabTicker ≠ VocabFutures := by decide
  have hv23 : VocabChannel ≠ VocabFutures := by decide
  obtain ⟨h1, h2, h3, h4, _⟩ := AsContent_lists timeFromFloat (c.AsNode float)
  have htax : (c.AsNode float).Taxonomy = c.Tags ++ c.Tickers ++ c.Channels ++ c.Futures := by
    simp [Content.AsNode]
  have hprim : (c.AsNode float).PrimaryTickers = primaryTickers c.Tickers := rfl
  rw [htax] at h1 h2 h3 h4
  rw [hprim] at h1
  simp only [List.filter_append] at h1 h2 h3 h4
  refine ⟨?_, ?_, ?_, ?_⟩
  · rw [h1,
      filter_eq_nil_of_forall _ c.Tags (fun t ht => by simp [(htags t ht).1]),
      filter_eq_self_of_forall _ c.Tickers (fun t ht => by simp [htickers t ht]),
      filter_eq_nil_of_forall _ c.Channels (fun t ht => by simp [hchannels t ht, hv12.symm]),
      filter_eq_nil_of_forall _ c.Futures (fun t ht => by simp [hfutures t ht, hv13.symm])]
    simp only [List.nil_append, List.append_nil]
    exact flag_restored c.Tickers hdistinct
  · rw [h2,
      filter_eq_nil_of_forall _ c.Tags (fun t ht => by simp [(htags t ht).2.1]),
      filter_eq_nil_of_forall _ c.Tickers (fun t ht => by simp [htickers t ht, hv12]),
      filter_eq_self_of_forall _ c.Channels (fun t ht => by simp [hchannels t ht]),
      filter_eq_nil_of_forall _ c.Futures (fun t ht => by simp [hfutures t ht, hv23.symm])]
    simp
  · rw [h3,
      filter_eq_nil_of_forall _ c.Tags (fun t ht => by simp [(htags t ht).2.2]),
      filter_eq_nil_of_forall _ c.Tickers (fun t ht => by simp [htickers t ht, hv13]),
      filter_eq_nil_of_forall _ c.Channels (fun t ht => by simp [hchannels t ht, hv23]),
      filter_eq_self_of_forall _ c.Futures (fun t ht => by simp [hfutures t ht])]
    simp
  · rw [h4,
      filter_eq_self_of_forall _ c.Tags (fun t ht => by
        simp [(htags t ht).1, (htags t ht).2.1, (htags t ht).2.2]),
      filter_eq_nil_of_forall _ c.Tickers (fun t ht => by simp [htickers t ht]),
      filter_eq_nil_of_forall _ c.Channels (fun t ht => by simp [hchannels t ht]),
      filter_eq_nil_of_forall _ c.Futures (fun t ht => by simp [hfutures t ht])]
    simp

/-- C29, on a content with tags, two tickers of which one is primary, a channel
and a future. -/
theorem AsContent_AsNode_lists_witness :
    ((mixedContent.AsNode wholeSeconds).AsContent fromWholeSeconds).Tickers =
        mixedContent.Tickers ∧
    ((mixedContent.AsNode wholeSeconds).AsContent fromWholeSeconds).Channels =
        mixedContent.Channels ∧
    ((mixedContent.AsNode wholeSeconds).AsContent fromWholeSeconds).Futures =
        mixedContent.Futures ∧
    ((mixedContent.AsNode wholeSeconds).AsContent fromWholeSeconds).Tags = mixedContent.Tags :=
  AsContent_AsNode_lists wholeSeconds fromWholeSeconds mixedContent
    (by decide) (by decide) (by decide) (by decide) (by decide)

/-- C30: a content with a single asset loses it on the way through its node. The
content of `TestAsNode` has one asset, its node has that asset and no field image,
and the content of the node has no asset, because `AsContent` copies the assets of a
node only when there are at least two. -/
theorem AsContent_drops_single_asset :
    testContent.Assets = [{ Type_ := ImageAsset, Primary := true }] ∧
    (testContent.AsNode wholeSeconds).Assets = testContent.Assets ∧
    (testContent.AsNode wholeSeconds).Image = [] ∧
    ((testContent.AsNode wholeSeconds).AsContent fromWholeSeconds).Assets = [] := by
  decide

end NodeClaims

/-! ## The claims on the time codec -/

section TimeClaims

/-- C28: `Time.MarshalJSON` gives `null` for the zero time, given that
`time.Time.Format` copies the layout `null`; for a time that is not zero it fails
with the year error exactly when the year is below 0 or at least 10000, as for the
instant 253402300800, whose year is 10000; and `Time.UnmarshalJSON` gives the zero
time without error for `null` and for the empty string. -/
theorem Time_JSON_null_and_year (format : Time → String → String)
    (parse : String → Bytes → Time × Option String)
    (hnull : ∀ t, format t "null" = "null") :
    (∀ t : Time, t.IsZero = true → t.MarshalJSON format = .ok (stringBytes "null")) ∧
    zeroTime.MarshalJSON format = .ok (stringBytes "null") ∧
    (∀ t : Time, t.IsZero = false →
      (t.MarshalJSON format = .error "Time.MarshalJSON: year outside of range [0,9999]" ↔
        (t.Year < 0 ∨ t.Year ≥ 10000))) ∧
    year10000.Year = 10000 ∧
    year10000.MarshalJSON format =
      .error "Time.MarshalJSON: year outside of range [0,9999]" ∧
    Time.UnmarshalJSON parse (stringBytes "null") = (zeroTime, none) ∧
    Time.UnmarshalJSON parse (stringBytes "\"\"") = (zeroTime, none) := by
  have hzero : ∀ t : Time, t.IsZero = true → t.MarshalJSON format = .ok (stringBytes "null") := by
    intro t ht
    simp [Time.MarshalJSON, ht, hnull]
  have hyear : ∀ t : Time, t.IsZero = false →
      (t.MarshalJSON format = .error "Time.MarshalJSON: year outside of range [0,9999]" ↔
        (t.Year < 0 ∨ t.Year ≥ 10000)) := by
    intro t ht
    by_cases hy : t.Year < 0 ∨ t.Year ≥ 10000
    · simp [Time.MarshalJSON, ht, hy]
    · simp only [Time.MarshalJSON, ht, hy, if_false, iff_false]
      intro h
      cases h
  refine ⟨hzero, hzero zeroTime (by decide), hyear, by decide, ?_, ?_, ?_⟩
  · exact (hyear year10000 (by decide)).mpr (Or.inr (by decide))
  · simp [Time.UnmarshalJSON]
  · simp [Time.UnmarshalJSON]

/-- C28, with a format function that copies the layout `null`. -/
theorem Time_JSON_null_and_year_witness :
    (∀ t, plainFormat t "null" = "null") ∧
    (∀ t : Time, t.IsZero = true → t.MarshalJSON plainFormat = .ok (stringBytes "null")) ∧
    zeroTime.MarshalJSON plainFormat = .ok (stringBytes "null") ∧
    (∀ t : Time, t.IsZero = false →
      (t.MarshalJSON plainFormat =
          .error "Time.MarshalJSON: year outside of range [0,9999]" ↔
        (t.Year < 0 ∨ t.Year ≥ 10000))) ∧
    year10000.Year = 10000 ∧
    year10000.MarshalJSON plainFormat =
      .error "Time.MarshalJSON: year outside of range [0,9999]" ∧
    Time.UnmarshalJSON (fun _ _ => (zeroTime, some "parsing time")) (stringBytes "null") =
      (zeroTime, none) ∧
    Time.UnmarshalJSON (fun _ _ => (zeroTime, some "parsing time")) (stringBytes "\"\"") =
      (zeroTime, none) :=
  ⟨fun _ => rfl, Time_JSON_null_and_year plainFormat (fun _ _ => (zeroTime, some "parsing time"))
    (fun _ => rfl)⟩

end TimeClaims

/-! ## The claims on the meta record -/

section MetaClaims

theorem metaFields_eq :
    metaFields = [("SectorV2", 0), ("Partner", 1), ("PartnerTaxonomy", 2), ("SEC", 3)] := by
  decide

theorem lookup_metaFields (key : String) :
    (metaFields.lookup key).isSome =
      decide (key ∈ ["SectorV2", "Partner", "PartnerTaxonomy", "SEC"]) := by
  rw [metaFields_eq]
  by_cases h1 : key = "SectorV2"
  · subst h1
    decide
  by_cases h2 : key = "Partner"
  · subst h2
    decide
  by_cases h3 : key = "PartnerTaxonomy"
  · subst h3
    decide
  by_cases h4 : key = "SEC"
  · subst h4
    decide
  have b1 : (key == "SectorV2") = false := by simpa using h1
  have b2 : (key == "Partner") = false := by simpa using h2
  have b3 : (key == "PartnerTaxonomy") = false := by simpa using h3
  have b4 : (key == "SEC") = false := by simpa using h4
  simp [List.lookup, b1, b2, b3, b4, h1, h2, h3, h4]

/-- A key of `Ext` that names a known field makes the first loop panic. -/
theorem mergeExt_conflict (ext : List (String × Intf)) (all : List (String × MetaValue))
    (h : ∃ kv ∈ ext, kv.1 ∈ ["SectorV2", "Partner", "PartnerTaxonomy", "SEC"]) :
    mergeExt ext all = .panic "programming error; meta key conflict" := by
  induction ext generalizing all with
  | nil =>
    obtain ⟨kv, hmem, _⟩ := h
    cases hmem
  | cons e rest ih =>
    obtain ⟨key, value⟩ := e
    by_cases hk : key ∈ ["SectorV2", "Partner", "PartnerTaxonomy", "SEC"]
    · simp only [mergeExt, lookup_metaFields, decide_eq_true hk, if_true]
    · have hrest : ∃ kv ∈ rest, kv.1 ∈ ["SectorV2", "Partner", "PartnerTaxonomy", "SEC"] := by
        obtain ⟨kv, hmem, hkv⟩ := h
        rcases List.mem_cons.mp hmem with heq | hin
        · rw [heq] at hkv
          exact absurd hkv hk
        · exact ⟨kv, hin, hkv⟩
      simp only [mergeExt, lookup_metaFields, decide_eq_false hk, Bool.false_eq_true, if_false]
      exact ih _ hrest

theorem mapSet_new {κ ν : Type} [DecidableEq κ] (m : List (κ × ν)) (key : κ) (value : ν)
    (h : key ∉ m.map Prod.fst) : mapSet m key value = m ++ [(key, value)] := by
  induction m with
  | nil => rfl
  | cons kv rest ih =>
    obtain ⟨k, v⟩ := kv
    simp only [List.map_cons, List.mem_cons, not_or] at h
    have hk : ¬ k = key := fun e => h.1 e.symm
    simp only [mapSet, hk, if_false, List.cons_append, ih h.2]

/-- Without a conflicting key, and with every key once, the first loop adds the
entries of `Ext` in order. -/
theorem mergeExt_done (ext : List (String × Intf)) (all : List (String × MetaValue))
    (hfree : ∀ kv ∈ ext, kv.1 ∉ ["SectorV2", "Partner", "PartnerTaxonomy", "SEC"])
    (hnew : ∀ kv ∈ ext, kv.1 ∉ all.map Prod.fst)
    (hnodup : (ext.map Prod.fst).Nodup) :
    mergeExt ext all = .done (all ++ ext.map (fun kv => (kv.1, MetaValue.ext kv.2))) := by
  induction ext generalizing all with
  | nil => simp [mergeExt]
  | cons e rest ih =>
    obtain ⟨key, value⟩ := e
    have hk : key ∉ ["SectorV2", "Partner", "PartnerTaxonomy", "SEC"] :=
      hfree (key, value) (List.mem_cons_self _ _)
    have hkall : key ∉ all.map Prod.fst := hnew (key, value) (List.mem_cons_self _ _)
    simp only [List.map_cons, List.nodup_cons] at hnodup
    simp only [mergeExt, lookup_metaFields, decide_eq_false hk, Bool.false_eq_true, if_false]
    rw [mapSet_new all key _ hkall]
    rw [ih (all ++ [(key, MetaValue.ext value)])
      (fun kv hkv => hfree kv (List.mem_cons_of_mem _ hkv)) ?_ hnodup.2]
    · simp
    · intro kv hkv
      simp only [List.map_append, List.map_cons, List.map_nil, List.mem_append,
        List.mem_singleton, not_or]
      refine ⟨hnew kv (List.mem_cons_of_mem _ hkv), ?_⟩
      intro heq
      exact hnodup.1 (heq ▸ List.mem_map_of_mem Prod.fst hkv)

/-- The second loop adds the fields that are not nil, for field names that are
distinct and not yet keys of the map. -/
theorem mergeFields_append (m : Meta) (fields : List (String × Nat))
    (all : List (String × MetaValue))
    (hnew : ∀ kv ∈ fields, kv.1 ∉ all.map Prod.fst)
    (hnodup : (fields.map Prod.fst).Nodup) :
    mergeFields m fields all =
      all ++ fields.filterMap (fun kv => (m.Field kv.2).map (fun v => (kv.1, v))) := by
  induction fields generalizing all with
  | nil => simp [mergeFields]
  | cons e rest ih =>
    obtain ⟨key, index⟩ := e
    simp only [List.map_cons, List.nodup_cons] at hnodup
    have hkall : key ∉ all.map Prod.fst := hnew (key, index) (List.mem_cons_self _ _)
    cases hf : m.Field index with
    | none =>
      simp only [mergeFields, hf, List.filterMap_cons, Option.map_none']
      exact ih all (fun kv hkv => hnew kv (List.mem_cons_of_mem _ hkv)) hnodup.2
    | some field =>
      simp only [mergeFields, hf, List.filterMap_cons, Option.map_some']
      rw [mapSet_new all key _ hkall, ih (all ++ [(key, field)]) ?_ hnodup.2]
      · simp
      · intro kv hkv
        simp only [List.map_append, List.map_cons, List.map_nil, List.mem_append,
          List.mem_singleton, not_or]
        refine ⟨hnew kv (List.mem_cons_of_mem _ hkv), ?_⟩
        intro heq
        exact hnodup.1 (heq ▸ List.mem_map_of_mem Prod.fst hkv)

/-- The entries of the known fields that are not nil, each under its name. -/
theorem mergeFields_done (m : Meta) (all : List (String × MetaValue))
    (hnew : ∀ key ∈ ["SectorV2", "Partner", "PartnerTaxonomy", "SEC"],
      key ∉ all.map Prod.fst) :
    mergeFields m metaFields all =
      all ++ ((m.SectorV2.map (fun p => ("SectorV2", MetaValue.sectorV2 p))).toList ++
        (m.Partner.map (fun p => ("Partner", MetaValue.partner p))).toList ++
        (m.PartnerTaxonomy.map
          (fun p => ("PartnerTaxonomy", MetaValue.partnerTaxonomy p))).toList ++
        (m.SEC.map (fun p => ("SEC", MetaValue.sec p))).toList) := by
  rw [mergeFields_append m metaFields all ?_ (by decide)]
  · rw [metaFields_eq]
    cases hs : m.SectorV2 <;> cases hp : m.Partner <;> cases ht : m.PartnerTaxonomy <;>
      cases hc : m.SEC <;> simp [List.filterMap, Meta.Field, hs, hp, ht, hc]
  · intro kv hkv
    apply hnew
    rw [metaFields_eq] at hkv
    simp only [List.mem_cons, List.mem_singleton, List.not_mem_nil, or_false] at hkv ⊢
    rcases hkv with rfl | rfl | rfl | rfl <;> simp

/-- C27: the map `Ext` of a meta never serializes a key that names a known field.
When a key of `Ext` is `SectorV2`, `Partner`, `PartnerTaxonomy` or `SEC`, `mergeMeta`
panics, and so do `EncodeMsg`, `MarshalMsg`, `MarshalJSON` and `GetBSON`. When no key
is, and `Ext` holds every key once, as a map does, the merged record is the entries
of `Ext` and one entry for every known field that is not nil, under the name of
the field. -/
theorem mergeMeta_key_conflict {ω : Type} (m : Meta) :
    ((∃ kv ∈ m.Ext, kv.1 ∈ ["SectorV2", "Partner", "PartnerTaxonomy", "SEC"]) →
      m.mergeMeta = .panic "programming error; meta key conflict" ∧
      (∀ (p : Msgp ω) (w : ω),
        m.EncodeMsg p w = .panic "programming error; meta key conflict") ∧
      (∀ (p : Msgp ω) (b : Bytes),
        m.MarshalMsg p b = .panic "programming error; meta key conflict") ∧
      (∀ jsonMarshal, m.MarshalJSON jsonMarshal =
        .panic "programming error; meta key conflict") ∧
      m.GetBSON = .panic "programming error; meta key conflict") ∧
    ((∀ kv ∈ m.Ext, kv.1 ∉ ["SectorV2", "Partner", "PartnerTaxonomy", "SEC"]) →
      (m.Ext.map Prod.fst).Nodup →
      m.mergeMeta = .done
        (m.Ext.map (fun kv => (kv.1, MetaValue.ext kv.2)) ++
          ((m.SectorV2.map (fun p => ("SectorV2", MetaValue.sectorV2 p))).toList ++
           (m.Partner.map (fun p => ("Partner", MetaValue.partner p))).toList ++
           (m.PartnerTaxonomy.map
             (fun p => ("PartnerTaxonomy", MetaValue.partnerTaxonomy p))).toList ++
           (m.SEC.map (fun p => ("SEC", MetaValue.sec p))).toList))) := by
  refine ⟨?_, ?_⟩
  · intro h
    have hmerge : m.mergeMeta = .panic "programming error; meta key conflict" := by
      simp only [Meta.mergeMeta, mergeExt_conflict m.Ext [] h]
    refine ⟨hmerge, ?_, ?_, ?_, ?_⟩
    · intro p w
      simp only [Meta.EncodeMsg, hmerge]
    · intro p b
      simp only [Meta.MarshalMsg, Meta.Msgsize, hmerge]
    · intro jsonMarshal
      simp only [Meta.MarshalJSON, hmerge]
    · simp only [Meta.GetBSON, hmerge]
  · intro hfree hnodup
    have hext := mergeExt_done m.Ext [] hfree (fun _ _ => by simp) hnodup
    simp only [Meta.mergeMeta, hext, List.nil_append]
    rw [mergeFields_done]
    intro key hkey hmem
    obtain ⟨kv, hkv, heq⟩ := List.mem_map.mp hmem
    obtain ⟨kv0, hkv0, heq0⟩ := List.mem_map.mp hkv
    have : kv0.1 = key := by
      rw [← heq, ← heq0]
    exact hfree kv0 hkv0 (this ▸ hkey)

/-- C27, on the two metas of `TestContentMeta`: the one with the key `SectorV2` in
`Ext` panics, and the one with the key `Test1` merges into three entries. -/
theorem mergeMeta_key_conflict_witness :
    (conflictMeta.mergeMeta = .panic "programming error; meta key conflict" ∧
      (∀ (p : Msgp Unit) (w : Unit),
        conflictMeta.EncodeMsg p w = .panic "programming error; meta key conflict") ∧
      (∀ (p : Msgp Unit) (b : Bytes),
        conflictMeta.MarshalMsg p b = .panic "programming error; meta key conflict") ∧
      (∀ jsonMarshal, conflictMeta.MarshalJSON jsonMarshal =
        .panic "programming error; meta key conflict") ∧
      conflictMeta.GetBSON = .panic "programming error; meta key conflict") ∧
    roundTripMeta.mergeMeta = .done
      [("Test1", .ext (.composite "64")),
       ("SectorV2", .sectorV2 { SIC := [{ IndustryCode := 1 }], NAICS := [{ IndustryCode := 1 }],
                                Morningstar := [{ IndustryCode := 1 }] }),
       ("PartnerTaxonomy", .partnerTaxonomy { Taxonomies := [{ Symbol := "TEST" }] })] :=
  ⟨(mergeMeta_key_conflict conflictMeta).1 ⟨_, List.mem_cons_self _ _, by decide⟩,
   (@mergeMeta_key_conflict Unit roundTripMeta).2 (by decide) (by decide)⟩

end MetaClaims

/-! ## The claims on the sink session -/

section SinkClaims

variable {σ : Type}

/-- C21: after a reconnect a store is attempted from a session that is not ready.
On an endpoint whose first store fails with `broken pipe`, `NewFTPSender` leaves the
session ready, and `Send` stores once from `Ready` and, after the reconnect, which
does not change into the configured directory, once from `Authenticated`; that
store succeeds and `Send` returns success. -/
theorem store_after_reconnect_not_ready :
    (NewFTPSender scriptedFTP sinkConfig brokenPipeOnce).1 = .ok sinkSender ∧
    sessionAfter sinkConfig (NewFTPSender scriptedFTP sinkConfig brokenPipeOnce).2.1 = .Ready ∧
    (sinkSender.Send scriptedFTP sinkArtifact brokenPipeOnce).1 = .done none ∧
    storeStates sinkConfig .Disconnected
        ((NewFTPSender scriptedFTP sinkConfig brokenPipeOnce).2.1 ++
          (sinkSender.Send scriptedFTP sinkArtifact brokenPipeOnce).2.1) =
      [.Ready, .Authenticated] := by
  decide

/-- C22: a retry stores what the first attempt left in the reader. On an endpoint
whose first store takes the six bytes of the artifact and then fails, the second
store is given no byte, succeeds, and `Send` returns success. -/
theorem retry_stores_drained_buffer :
    sinkArtifact.Data.Bytes = stringBytes "<rss/>" ∧
    sinkArtifact.Size = 6 ∧
    (sinkSender.Send scriptedFTP sinkArtifact brokenPipeOnce).1 = .done none ∧
    offeredBytes (sinkSender.Send scriptedFTP sinkArtifact brokenPipeOnce).2.1 =
      [stringBytes "<rss/>", []] := by
  decide

/-- C23 (counterexample): when the context ends the wait after a failed store, `Send`
returns the error of the context, which is not the error of a store, though no
store succeeded. -/
theorem cancelled_wait_returns_context_error :
    sinkSender.retry = some [500000000, 1000000000] ∧
    storErrors (sinkSender.Send scriptedFTP sinkArtifact cancelledWait).2.1 =
      [some "i/o timeout"] ∧
    (sinkSender.Send scriptedFTP sinkArtifact cancelledWait).1 =
      .done (some "context canceled") := by
  decide

theorem storErrors_append (a b : List SinkEvent) :
    storErrors (a ++ b) = storErrors a ++ storErrors b := by
  induction a with
  | nil => rfl
  | cons e rest ih => cases e <;> simp [storErrors, ih]

theorem reconnects_append (a b : List SinkEvent) :
    reconnects (a ++ b) = reconnects a + reconnects b := by
  induction a with
  | nil => simp [reconnects]
  | cons e rest ih =>
    cases e <;> simp [reconnects, ih]
    omega

theorem cancelledWaits_append (a b : List SinkEvent) :
    cancelledWaits (a ++ b) = cancelledWaits a ++ cancelledWaits b := by
  induction a with
  | nil => rfl
  | cons e rest ih =>
    cases e with
    | sleep d err => cases err <;> simp [cancelledWaits, ih]
    | _ => simp [cancelledWaits, ih]

theorem attempt_shape (d : FTPDeps σ) (filename : String) (st : SendState σ) :
    AttemptShape (Sender.attempt d filename st).1 (Sender.attempt d filename st).2.1 := by
  unfold Sender.attempt
  dsimp only
  cases hs : (d.Stor st.sender.conn filename st.data.Bytes st.world).1.1 with
  | none => exact AttemptShape.stored _ _ _ _
  | some text =>
    dsimp only
    by_cases hb : Contains text "broken pipe" = true
    · rw [if_pos hb]
      unfold Sender.reconnect Sender.disconnect Sender.connect Sender.login
      dsimp only
      cases hd : (d.DialTimeout st.sender.cfg.FTP.Host
          (d.Quit st.sender.conn
            (d.Stor st.sender.conn filename st.data.Bytes st.world).2).2).1 with
      | error dialErr =>
        exact AttemptShape.dialFailed _ _ _ _ _ hb _ _ _
      | ok c1 =>
        dsimp only
        cases hl : (d.Login c1 st.sender.cfg.FTP.Username st.sender.cfg.FTP.Password
            (d.DialTimeout st.sender.cfg.FTP.Host
              (d.Quit st.sender.conn
                (d.Stor st.sender.conn filename st.data.Bytes st.world).2).2).2).1 with
        | none => exact AttemptShape.reconnected _ _ _ _ _ hb _ _ _ _ _
        | some loginErr => exact AttemptShape.loginFailed _ _ _ _ _ hb _ _ _ _ _ _
    · rw [if_neg hb]
      exact AttemptShape.failed _ _ _ _ _ (by simpa [brokenPipe] using hb)

theorem getLast?_cons_of_some {α : Type} (a x : α) (l : List α) (h : l.getLast? = some x) :
    (a :: l).getLast? = some x := by
  cases l with
  | nil => simp at h
  | cons b rest =>
    rw [List.getLast?_cons_cons]
    exact h

/-- What the retrier does with the store attempts of `Send`, for every backoff:
the number of attempts, how the result follows from the attempts and the waits,
and where the reconnects are. -/
theorem RunCtx_attempts (d : FTPDeps σ) (filename : String) (backoff : List Int) :
    ∀ st : SendState σ,
      (storErrors (RunCtx d (Sender.attempt d filename) backoff st).2.1).length ≤
        backoff.length + 1 ∧
      ((RunCtx d (Sender.attempt d filename) backoff st).1 = .done none →
        (storErrors (RunCtx d (Sender.attempt d filename) backoff st).2.1).getLast? =
          some none) ∧
      ((RunCtx d (Sender.attempt d filename) backoff st).1 ≠ .done none →
        none ∉ storErrors (RunCtx d (Sender.attempt d filename) backoff st).2.1) ∧
      (∀ err, (RunCtx d (Sender.attempt d filename) backoff st).1 = .done (some err) →
        (cancelledWaits (RunCtx d (Sender.attempt d filename) backoff st).2.1 = [] ∧
          (storErrors (RunCtx d (Sender.attempt d filename) backoff st).2.1).getLast? =
            some (some err)) ∨
        cancelledWaits (RunCtx d (Sender.attempt d filename) backoff st).2.1 = [err]) ∧
      reconnects (RunCtx d (Sender.attempt d filename) backoff st).2.1 =
        ((storErrors (RunCtx d (Sender.attempt d filename) backoff st).2.1).filter
          brokenPipe).length ∧
      reconnectPlaced (RunCtx d (Sender.attempt d filename) backoff st).2.1 = true := by
  have hnone : brokenPipe none = false := rfl
  induction backoff with
  | nil =>
    intro st
    rw [RunCtx]
    have hshape := attempt_shape d filename st
    generalize Sender.attempt d filename st = r0 at hshape ⊢
    obtain ⟨res, tr, st1⟩ := r0
    dsimp only at hshape ⊢
    cases hshape <;>
      simp [storErrors, reconnects, cancelledWaits, reconnectPlaced, hnone, *]
  | cons wait rest ih =>
    intro st
    rw [RunCtx]
    have hshape := attempt_shape d filename st
    generalize Sender.attempt d filename st = r0 at hshape ⊢
    obtain ⟨res, tr, st1⟩ := r0
    dsimp only at hshape ⊢
    cases hshape with
    | stored c name offered taken =>
      simp [storErrors, reconnects, cancelledWaits, reconnectPlaced, hnone]
    | dialFailed c name offered taken text broken quitErr host dialErr =>
      simp [storErrors, reconnects, cancelledWaits, reconnectPlaced, broken]
    | loginFailed c name offered taken text broken quitErr host c1 user password loginErr =>
      simp [storErrors, reconnects, cancelledWaits, reconnectPlaced, broken]
    | failed c name offered taken text plain =>
      dsimp only
      cases hsl : (d.Sleep wait st1.world).1 with
      | some err =>
        simp [storErrors, reconnects, cancelledWaits, reconnectPlaced, plain]
      | none =>
        dsimp only
        obtain ⟨i1, i2, i3, i4, i5, i6⟩ := ih { st1 with world := (d.Sleep wait st1.world).2 }
        generalize RunCtx d (Sender.attempt d filename) rest
          { st1 with world := (d.Sleep wait st1.world).2 } = more at i1 i2 i3 i4 i5 i6 ⊢
        obtain ⟨res2, tr2, st2⟩ := more
        dsimp only at i1 i2 i3 i4 i5 i6 ⊢
        simp only [List.cons_append, List.nil_append, List.append_eq, storErrors, reconnects,
          cancelledWaits, reconnectPlaced, plain, List.length_cons, List.filter_cons,
          Bool.false_eq_true, if_false, List.mem_cons]
        refine ⟨by omega, fun h => getLast?_cons_of_some _ _ _ (i2 h), ?_, ?_, i5, i6⟩
        · intro h hmem
          rcases hmem with hmem | hmem
          · cases hmem
          · exact i3 h hmem
        · intro err h
          rcases i4 err h with ⟨h1, h2⟩ | h1
          · exact Or.inl ⟨h1, getLast?_cons_of_some _ _ _ h2⟩
          · exact Or.inr h1
    | reconnected c name offered taken text broken quitErr host c1 user password =>
      dsimp only
      cases hsl : (d.Sleep wait st1.world).1 with
      | some err =>
        simp [storErrors, reconnects, cancelledWaits, reconnectPlaced, broken]
      | none =>
        dsimp only
        obtain ⟨i1, i2, i3, i4, i5, i6⟩ := ih { st1 with world := (d.Sleep wait st1.world).2 }
        generalize RunCtx d (Sender.attempt d filename) rest
          { st1 with world := (d.Sleep wait st1.world).2 } = more at i1 i2 i3 i4 i5 i6 ⊢
        obtain ⟨res2, tr2, st2⟩ := more
        dsimp only at i1 i2 i3 i4 i5 i6 ⊢
        simp only [List.cons_append, List.nil_append, List.append_eq, storErrors, reconnects,
          cancelledWaits, reconnectPlaced, broken, List.length_cons, List.filter_cons,
          if_true, List.mem_cons]
        refine ⟨by omega, fun h => getLast?_cons_of_some _ _ _ (i2 h), ?_, ?_, by omega, i6⟩
        · intro h hmem
          rcases hmem with hmem | hmem
          · cases hmem
          · exact i3 h hmem
        · intro err h
          rcases i4 err h with ⟨h1, h2⟩ | h1
          · exact Or.inl ⟨h1, getLast?_cons_of_some _ _ _ h2⟩
          · exact Or.inr h1

theorem reconnectPlaced_unlock (n : Nat) :
    ∀ tr : List SinkEvent, tr.length ≤ n → reconnectPlaced tr = true →
      reconnectPlaced (tr ++ [.unlock]) = true := by
  induction n with
  | zero =>
    intro tr hlen _
    have : tr = [] := List.length_eq_zero.mp (by omega)
    subst this
    rfl
  | succ n ih =>
    intro tr hlen h
    cases tr with
    | nil => rfl
    | cons e rest =>
      simp only [List.length_cons] at hlen
      cases e with
      | stor c name offered taken err =>
        by_cases hb : brokenPipe err = true
        · cases rest with
          | nil => simp [reconnectPlaced, hb] at h
          | cons e2 more =>
            simp only [List.length_cons] at hlen
            cases e2 <;> simp only [reconnectPlaced, hb, if_true, List.cons_append] at h ⊢ <;>
              first
              | exact ih _ (by omega) h
              | exact absurd h (by decide)
        · have hb2 : brokenPipe err = false := by simpa using hb
          rw [reconnectPlaced.eq_def] at h
          rw [List.cons_append, reconnectPlaced.eq_def]
          simp only [hb2, if_false, Bool.false_eq_true] at h ⊢
          exact ih _ (by omega) h
      | quit c err => simp [reconnectPlaced] at h
      | _ =>
        simp only [reconnectPlaced, List.cons_append] at h ⊢
        exact ih _ (by omega) h

/-- One store attempt of `Send` is an attempt as the specification words it, and
leaves the configuration of the sender as it is. -/
theorem attempt_on (d : FTPDeps σ) (filename : String) (st : SendState σ) :
    AttemptOn st.sender.cfg filename st.sender.conn (Sender.attempt d filename st).1
      (Sender.attempt d filename st).2.1 (Sender.attempt d filename st).2.2.sender.conn ∧
    (Sender.attempt d filename st).2.2.sender.cfg = st.sender.cfg := by
  unfold Sender.attempt
  dsimp only
  cases hs : (d.Stor st.sender.conn filename st.data.Bytes st.world).1.1 with
  | none => exact ⟨AttemptOn.stored _ _, rfl⟩
  | some text =>
    dsimp only
    by_cases hb : Contains text "broken pipe" = true
    · rw [if_pos hb]
      unfold Sender.reconnect Sender.disconnect Sender.connect Sender.login
      dsimp only
      cases hd : (d.DialTimeout st.sender.cfg.FTP.Host
          (d.Quit st.sender.conn
            (d.Stor st.sender.conn filename st.data.Bytes st.world).2).2).1 with
      | error dialErr =>
        exact ⟨AttemptOn.dialFailed _ _ _ hb _ _, rfl⟩
      | ok c1 =>
        dsimp only
        cases hl : (d.Login c1 st.sender.cfg.FTP.Username st.sender.cfg.FTP.Password
            (d.DialTimeout st.sender.cfg.FTP.Host
              (d.Quit st.sender.conn
                (d.Stor st.sender.conn filename st.data.Bytes st.world).2).2).2).1 with
        | none => exact ⟨AttemptOn.reconnected _ _ _ hb _ _, rfl⟩
        | some loginErr => exact ⟨AttemptOn.loginFailed _ _ _ hb _ _ _, rfl⟩
    · rw [if_neg hb]
      exact ⟨AttemptOn.failed _ _ _ (by simpa [brokenPipe] using hb), rfl⟩

/-- The attempts of the retrier are the attempts the specification words. -/
theorem RunCtx_shape (d : FTPDeps σ) (filename : String) (backoff : List Int) :
    ∀ st : SendState σ,
      Attempts st.sender.cfg filename st.sender.conn backoff
        (RunCtx d (Sender.attempt d filename) backoff st).1
        (RunCtx d (Sender.attempt d filename) backoff st).2.1 := by
  induction backoff with
  | nil =>
    intro st
    rw [RunCtx]
    obtain ⟨hshape, -⟩ := attempt_on d filename st
    generalize Sender.attempt d filename st = r0 at hshape ⊢
    obtain ⟨res, tr, st1⟩ := r0
    dsimp only at hshape ⊢
    cases res with
    | panic text => exact Attempts.ended _ _ _ _ _ hshape
    | done err =>
      cases err with
      | none => exact Attempts.stored _ _ _ _ hshape
      | some text => exact Attempts.exhausted _ _ _ _ hshape
  | cons wait rest ih =>
    intro st
    rw [RunCtx]
    obtain ⟨hshape, hcfg⟩ := attempt_on d filename st
    generalize Sender.attempt d filename st = r0 at hshape hcfg ⊢
    obtain ⟨res, tr, st1⟩ := r0
    dsimp only at hshape hcfg ⊢
    cases res with
    | panic text => exact Attempts.ended _ _ _ _ _ hshape
    | done err =>
      cases err with
      | none => exact Attempts.stored _ _ _ _ hshape
      | some text =>
        dsimp only
        cases hsl : (d.Sleep wait st1.world).1 with
        | some err => exact Attempts.cancelled _ _ _ _ _ _ _ hshape
        | none =>
          dsimp only
          have := ih { st1 with world := (d.Sleep wait st1.world).2 }
          dsimp only at this
          rw [hcfg] at this
          rw [List.append_assoc]
          exact Attempts.retried _ _ _ _ _ _ _ _ hshape this

theorem AttemptOn_panic (cfg : Config) (name : String) (c c1 : Conn)
    (res : Outcome (Option String)) (tr : List SinkEvent) (h : AttemptOn cfg name c res tr c1) :
    (∀ text, res = .panic text → text = "FTP reconnect error" ∧
      tr.getLast? = some (.fatal text) ∧ ∃ e ∈ tr, reconnectFailed e = true) ∧
    (∀ err, res = .done err →
      ∀ e ∈ tr, reconnectFailed e = false ∧ ∀ text, e ≠ .fatal text) ∧
    SinkEvent.unlock ∉ tr := by
  cases h <;> simp [reconnectFailed]

theorem getLast?_append_of_some {α : Type} (a l : List α) (x : α) (h : l.getLast? = some x) :
    (a ++ l).getLast? = some x := by
  rw [List.getLast?_append, h]
  rfl

/-- The attempts end the process exactly when a connect or a login of a
reconnect fails, and then with the exit as the last event. -/
theorem Attempts_panic (cfg : Config) (name : String) (c : Conn) (backoff : List Int)
    (res : Outcome (Option String)) (tr : List SinkEvent) (h : Attempts cfg name c backoff res tr) :
    (∀ text, res = .panic text → text = "FTP reconnect error" ∧
      tr.getLast? = some (.fatal text) ∧ ∃ e ∈ tr, reconnectFailed e = true) ∧
    (∀ err, res = .done err →
      ∀ e ∈ tr, reconnectFailed e = false ∧ ∀ text, e ≠ .fatal text) ∧
    SinkEvent.unlock ∉ tr := by
  induction h with
  | stored c backoff tr c1 once => exact AttemptOn_panic _ _ _ _ _ _ once
  | ended c backoff text tr c1 once => exact AttemptOn_panic _ _ _ _ _ _ once
  | exhausted c text tr c1 once => exact AttemptOn_panic _ _ _ _ _ _ once
  | cancelled c wait rest text tr c1 err once =>
    obtain ⟨-, h2, h3⟩ := AttemptOn_panic _ _ _ _ _ _ once
    refine ⟨(fun t ht => by cases ht), ?_, ?_⟩
    · intro err1 _ e he
      rcases List.mem_append.1 he with he | he
      · exact h2 _ rfl e he
      · simp at he
        subst he
        simp [reconnectFailed]
    · simpa using h3
  | retried c wait rest text tr c1 res more once next ih =>
    obtain ⟨-, h2, h3⟩ := AttemptOn_panic _ _ _ _ _ _ once
    obtain ⟨i1, i2, i3⟩ := ih
    refine ⟨?_, ?_, ?_⟩
    · intro t ht
      obtain ⟨j1, j2, e, he, hf⟩ := i1 t ht
      refine ⟨j1, ?_, e, by simp [he], hf⟩
      exact getLast?_append_of_some _ _ _ (getLast?_cons_of_some _ _ _ j2)
    · intro err1 hres e he
      rcases List.mem_append.1 he with he | he
      · exact h2 _ rfl e he
      · rcases List.mem_cons.1 he with he | he
        · subst he
          simp [reconnectFailed]
        · exact i2 err1 hres e he
    · simp [h3, i3]
/-- C23 (amended): with a retrier configured, `Send` makes at most one store attempt
more than there are waits in the backoff, and returns success exactly when a store
attempt succeeded. When it returns an error, this is the error of the last store
attempt, unless the context ended a wait, when it is the error of the context. A
reconnect is made right after every store attempt that failed with an error
containing `broken pipe` and nowhere else: the sink disconnects the connection of
the failed store, connects to the configured host and logs in on the new
connection with the configured credentials, and the next attempt stores on that
connection. When the connect or the login of a reconnect fails, `Send` does not
return: the process ends with `FTP reconnect error` as the last event, without
releasing the mutex; when `Send` returns, no connect and no login failed. In
particular, when the first attempt fails with `broken pipe` and the second
succeeds, there is one reconnect and `Send` returns success. -/
theorem Send_with_retrier (d : FTPDeps σ) (s : Sender) (backoff : List Int) (data : Output)
    (w : σ) (hretry : s.retry = some backoff) :
    (storErrors (s.Send d data w).2.1).length ≤ backoff.length + 1 ∧
    ((s.Send d data w).1 = .done none ↔ none ∈ storErrors (s.Send d data w).2.1) ∧
    (∀ err, (s.Send d data w).1 = .done (some err) →
      (cancelledWaits (s.Send d data w).2.1 = [] ∧
        (storErrors (s.Send d data w).2.1).getLast? = some (some err)) ∨
      cancelledWaits (s.Send d data w).2.1 = [err]) ∧
    reconnects (s.Send d data w).2.1 =
      ((storErrors (s.Send d data w).2.1).filter brokenPipe).length ∧
    reconnectPlaced (s.Send d data w).2.1 = true ∧
    (∀ text, storErrors (s.Send d data w).2.1 = [some text, none] →
      brokenPipe (some text) = true →
      (s.Send d data w).1 = .done none ∧ reconnects (s.Send d data w).2.1 = 1) ∧
    (∃ tr, Attempts s.cfg data.Filename s.conn backoff (s.Send d data w).1 tr ∧
      (s.Send d data w).2.1 = SinkEvent.lock :: (tr ++
        match (s.Send d data w).1 with
        | .panic _ => []
        | .done _ => [SinkEvent.unlock])) ∧
    (∀ text, (s.Send d data w).1 = .panic text →
      text = "FTP reconnect error" ∧
      (s.Send d data w).2.1.getLast? = some (.fatal text) ∧
      (∃ e ∈ (s.Send d data w).2.1, reconnectFailed e = true) ∧
      SinkEvent.unlock ∉ (s.Send d data w).2.1) ∧
    (∀ err, (s.Send d data w).1 = .done err →
      (s.Send d data w).2.1.getLast? = some .unlock ∧
      ∀ e ∈ (s.Send d data w).2.1, reconnectFailed e = false ∧ ∀ text, e ≠ .fatal text) := by
  have hshape := RunCtx_shape d data.Filename backoff
    { sender := s, data := data.Data, world := w }
  have hsh : ∃ tr, Attempts s.cfg data.Filename s.conn backoff (s.Send d data w).1 tr ∧
      (s.Send d data w).2.1 = SinkEvent.lock :: (tr ++
        match (s.Send d data w).1 with
        | .panic _ => []
        | .done _ => [SinkEvent.unlock]) := by
    unfold Sender.Send
    simp only [hretry]
    dsimp only at hshape
    generalize RunCtx d (Sender.attempt d data.Filename) backoff
      { sender := s, data := data.Data, world := w } = r at hshape ⊢
    obtain ⟨res, tr, st⟩ := r
    dsimp only at hshape ⊢
    cases res with
    | panic text => exact ⟨tr, hshape, by simp⟩
    | done err => exact ⟨tr, hshape, by simp⟩
  have hpanic : (∀ text, (s.Send d data w).1 = .panic text →
        text = "FTP reconnect error" ∧
        (s.Send d data w).2.1.getLast? = some (.fatal text) ∧
        (∃ e ∈ (s.Send d data w).2.1, reconnectFailed e = true) ∧
        SinkEvent.unlock ∉ (s.Send d data w).2.1) ∧
      (∀ err, (s.Send d data w).1 = .done err →
        (s.Send d data w).2.1.getLast? = some .unlock ∧
        ∀ e ∈ (s.Send d data w).2.1, reconnectFailed e = false ∧ ∀ text, e ≠ .fatal text) := by
    obtain ⟨tr, hat, htr⟩ := hsh
    obtain ⟨p1, p2, p3⟩ := Attempts_panic _ _ _ _ _ _ hat
    rw [htr]
    generalize (s.Send d data w).1 = res at p1 p2 ⊢
    constructor
    · intro text hres
      subst hres
      obtain ⟨q1, q2, e, he, hf⟩ := p1 text rfl
      refine ⟨q1, ?_, ⟨e, by simp [he], hf⟩, ?_⟩
      · simp only [List.append_nil]
        exact getLast?_cons_of_some _ _ _ q2
      · simp [p3]
    · intro err hres
      subst hres
      refine ⟨?_, ?_⟩
      · exact getLast?_cons_of_some _ _ _ (by simp)
      · intro e he
        simp only [List.mem_cons, List.mem_append, List.mem_singleton, List.not_mem_nil,
          or_false] at he
        rcases he with he | he | he
        · subst he
          simp [reconnectFailed]
        · exact p2 err rfl e he
        · subst he
          simp [reconnectFailed]
  refine (fun (hold : _ ∧ _ ∧ _ ∧ _ ∧ _ ∧ _) =>
    ⟨hold.1, hold.2.1, hold.2.2.1, hold.2.2.2.1, hold.2.2.2.2.1, hold.2.2.2.2.2,
      hsh, hpanic.1, hpanic.2⟩) ?_
  clear hsh hpanic hshape
  obtain ⟨i1, i2, i3, i4, i5, i6⟩ := RunCtx_attempts d data.Filename backoff
    { sender := s, data := data.Data, world := w }
  have hsend : (s.Send d data w).1 =
        (RunCtx d (Sender.attempt d data.Filename) backoff
          { sender := s, data := data.Data, world := w }).1 ∧
      storErrors (s.Send d data w).2.1 =
        storErrors (RunCtx d (Sender.attempt d data.Filename) backoff
          { sender := s, data := data.Data, world := w }).2.1 ∧
      cancelledWaits (s.Send d data w).2.1 =
        cancelledWaits (RunCtx d (Sender.attempt d data.Filename) backoff
          { sender := s, data := data.Data, world := w }).2.1 ∧
      reconnects (s.Send d data w).2.1 =
        reconnects (RunCtx d (Sender.attempt d data.Filename) backoff
          { sender := s, data := data.Data, world := w }).2.1 ∧
      reconnectPlaced (s.Send d data w).2.1 = true := by
    unfold Sender.Send
    simp only [hretry]
    generalize RunCtx d (Sender.attempt d data.Filename) backoff
      { sender := s, data := data.Data, world := w } = r at i6 ⊢
    obtain ⟨res, tr, st⟩ := r
    dsimp only at i6 ⊢
    cases res with
    | panic text =>
      simp [storErrors, cancelledWaits, reconnects, reconnectPlaced, i6]
    | done err =>
      simp [storErrors, storErrors_append, cancelledWaits, cancelledWaits_append, reconnects,
        reconnects_append, reconnectPlaced, reconnectPlaced_unlock tr.length tr (le_refl _) i6]
  obtain ⟨h1, h2, h3, h4, h5⟩ := hsend
  rw [h1, h2, h3, h4]
  have hiff : (RunCtx d (Sender.attempt d data.Filename) backoff
        { sender := s, data := data.Data, world := w }).1 = .done none ↔
      none ∈ storErrors (RunCtx d (Sender.attempt d data.Filename) backoff
        { sender := s, data := data.Data, world := w }).2.1 := by
    constructor
    · intro h
      exact List.mem_of_getLast?_eq_some (i2 h)
    · intro hmem
      by_contra hne
      exact i3 hne hmem
  refine ⟨i1, hiff, i4, i5, h5, ?_⟩
  intro text hlist hb
  refine ⟨hiff.mpr (by rw [hlist]; simp), ?_⟩
  rw [i5, hlist]
  have hnone : brokenPipe none = false := rfl
  simp [List.filter_cons, hb, hnone]

/-- C23 (amended), on an endpoint whose first store fails with `broken pipe` and
whose second one succeeds: two attempts, one reconnect with its disconnect,
connect and login, success. On the same endpoint when it refuses the new
connection: `Send` does not return, and the exit is the last event. -/
theorem Send_with_retrier_witness :
    sinkSender.retry = some [500000000, 1000000000] ∧
    storErrors (sinkSender.Send scriptedFTP sinkArtifact brokenPipeOnce).2.1 =
      [some "write tcp: broken pipe", none] ∧
    (sinkSender.Send scriptedFTP sinkArtifact brokenPipeOnce).2.1 =
      [.lock, .stor 1 "7_20060102T150405Z.xml" (stringBytes "<rss/>") 6
          (some "write tcp: broken pipe"),
        .quit 1 none, .dial "ftp.example.com:21" (.ok 1), .login 1 "bz" "secret" none,
        .sleep 500000000 none, .stor 1 "7_20060102T150405Z.xml" [] 0 none, .unlock] ∧
    (sinkSender.Send scriptedFTP sinkArtifact brokenPipeOnce).1 = .done none ∧
    reconnects (sinkSender.Send scriptedFTP sinkArtifact brokenPipeOnce).2.1 = 1 ∧
    (sinkSender.Send refusingFTP sinkArtifact brokenPipeOnce).1 = .panic "FTP reconnect error" ∧
    (sinkSender.Send refusingFTP sinkArtifact brokenPipeOnce).2.1 =
      [.lock, .stor 1 "7_20060102T150405Z.xml" (stringBytes "<rss/>") 6
          (some "write tcp: broken pipe"),
        .quit 1 none, .dial "ftp.example.com:21" (.error "dial tcp: connection refused"),
        .fatal "FTP reconnect error"] ∧
    (sinkSender.Send refusingFTP sinkArtifact brokenPipeOnce).2.1.getLast? =
      some (.fatal "FTP reconnect error") :=
  ⟨rfl, by decide, by decide,
    ((Send_with_retrier scriptedFTP sinkSender [500000000, 1000000000] sinkArtifact
      brokenPipeOnce rfl).2.2.2.2.2.1 "write tcp: broken pipe" (by decide) (by decide)).1,
    ((Send_with_retrier scriptedFTP sinkSender [500000000, 1000000000] sinkArtifact
      brokenPipeOnce rfl).2.2.2.2.2.1 "write tcp: broken pipe" (by decide) (by decide)).2,
    by decide, by decide,
    ((Send_with_retrier refusingFTP sinkSender [500000000, 1000000000] sinkArtifact
      brokenPipeOnce rfl).2.2.2.2.2.2.2.1 "FTP reconnect error" (by decide)).2.1⟩

end SinkClaims

end FtpEngine
